import Mathlib

/-!
# Reliable ordered messages (`006_reliable_ordered_messages.cpp`)

A shallow embedding of the `Connection` class: the five sequence buffers, the
three message-id cursors, the sticky error, and the reference-counted messages
the queues point to. The client and server of
`008_securing_dedicated_servers.cpp` follow in the namespace `Secure`.

Conventions of the embedding

* `uint16_t` values are natural numbers below `65536`; every increment and
  subtraction of the source is written with an explicit `% 65536`.
* A `Message *` is a natural number (an address); the objects live in a heap
  `Nat → Message` that is passed along with the connection (`World`).
* `assert` is compiled out (release build).  Dereferencing a null pointer that
  the source does not guard is a fault: the operation returns `none`.
* Times (`double`, in seconds) are integers counting milliseconds (`Time`):
  `-1.0` is `-1000` and the resend rate `0.1f` is `100`.
* `SequenceBuffer`, `sequence_less_than`, `sequence_greater_than`,
  `GenerateAckBits` and the `serialize_*` stream operations belong to
  `protocol2.h`, which is not part of the sources at hand; they are modelled
  from the specification. `bits_required`, of the same header, is a parameter.
* `World.packetAcked` is a ghost trace of the `PacketAcked` calls; it takes no
  part in what the code computes.
-/

namespace Protocol2

/-! ## Constants -/

def MaxMessagesPerPacket : Nat := 64
def SlidingWindowSize : Nat := 256
def MessageSendQueueSize : Nat := 1024
def MessageSentPacketsSize : Nat := 256
def MessageReceiveQueueSize : Nat := 1024
def MessagePacketBudget : Nat := 1024
/-- A point in time or a duration, in milliseconds. -/
abbrev Time := Int

/-- The source writes `0.1f` (seconds). -/
def MessageResendRate : Time := 100

/-! ## Modular sequence comparison -/

/-- Modelled from the spec: `sequence_less_than` of `protocol2.h`
("`a < b` iff `(b - a) mod 2^16 ∈ (0, 2^15)`"). -/
def sequence_less_than (a b : Nat) : Bool :=
  decide (0 < (b + 65536 - a % 65536) % 65536 ∧ (b + 65536 - a % 65536) % 65536 < 32768)

/-- Modelled from the spec: `sequence_greater_than` of `protocol2.h`, the
converse of `sequence_less_than`. -/
def sequence_greater_than (a b : Nat) : Bool :=
  sequence_less_than b a

/-! ## SequenceBuffer -/

/-- Modelled from the spec: `SequenceBuffer<T>` of `protocol2.h` (section 3 and
4.1): a current sequence, an array of entries and an array holding the
sequence stored in each slot, `none` being the sentinel "empty". The capacity
is the parameter `size`; only the slots below `size` are ever touched. -/
structure SequenceBuffer (T : Type) (size : Nat) where
  sequence : Nat
  sequence_of_slot : Nat → Option Nat
  entries : Nat → T

namespace SequenceBuffer

variable {T : Type} {size : Nat}

/-- Modelled from the spec: `reset()` puts the current sequence back to 0 and
every slot back to the sentinel; the entry memory is left as it is. -/
def Reset (b : SequenceBuffer T size) : SequenceBuffer T size :=
  { b with sequence := 0, sequence_of_slot := fun _ => none }

def GetSize (_b : SequenceBuffer T size) : Nat := size

/-- Modelled from the spec: `current_sequence()`. -/
def GetSequence (b : SequenceBuffer T size) : Nat := b.sequence

/-- Modelled from the spec: `index_of(seq)`, "slot = seq mod C". -/
def GetIndex (_b : SequenceBuffer T size) (seq : Nat) : Nat := seq % size

/-- Modelled from the spec: "Find(seq): return entry iff
`sequence_of_slot[seq mod C] == seq`". -/
def Find (b : SequenceBuffer T size) (seq : Nat) : Option T :=
  if b.sequence_of_slot (seq % size) = some seq then some (b.entries (seq % size)) else none

/-- Modelled from the spec: "Remove clears the slot sequence to the sentinel". -/
def Remove (b : SequenceBuffer T size) (seq : Nat) : SequenceBuffer T size :=
  { b with sequence_of_slot := Function.update b.sequence_of_slot (seq % size) none }

/-- Modelled from the spec: `IsAvailable(seq)`, the test behind "the send-id
slot is not insertable": the slot of `seq` holds the sentinel. -/
def IsAvailable (b : SequenceBuffer T size) (seq : Nat) : Bool :=
  (b.sequence_of_slot (seq % size)).isNone

/-- Modelled from the spec: `GetAtIndex(i)`: the entry of slot `i` unless the
slot holds the sentinel. -/
def GetAtIndex (b : SequenceBuffer T size) (i : Nat) : Option T :=
  if (b.sequence_of_slot i).isSome then some (b.entries i) else none

/-- Whether a stored sequence `q` lies in the window `[S - C, S - 1]` of a
buffer whose current sequence is `S` (modular). -/
def inWindow (size S q : Nat) : Bool :=
  decide ((S + 65536 - 1 - q % 65536) % 65536 < size)

/-- Modelled from the spec: `Insert(seq)` (section 3 and 4.1). "If `seq` is
older than `S - C`, reject. Otherwise advance `S` to `seq+1` if `seq ≥ S`
(clearing all slots whose stored sequence falls out of the new window)";
"`seq == S` is treated as newer; equal-to-stored is an in-place overwrite".
The result is the buffer with the slot of `seq` claimed, and the index of the
entry the source's pointer designates. -/
def Insert (b : SequenceBuffer T size) (seq : Nat) : Option (SequenceBuffer T size × Nat) :=
  if sequence_less_than seq ((b.sequence + 65536 - size) % 65536) then
    none
  else
    let b1 : SequenceBuffer T size :=
      if seq = b.sequence ∨ sequence_greater_than seq b.sequence = true then
        { b with
          sequence := (seq + 1) % 65536
          sequence_of_slot := fun i =>
            match b.sequence_of_slot i with
            | none => none
            | some q => if inWindow size ((seq + 1) % 65536) q then some q else none }
      else b
    some ({ b1 with sequence_of_slot := Function.update b1.sequence_of_slot (seq % size) (some seq) },
          seq % size)

/-- Write through the pointer returned by `Insert` / `Find`. -/
def setEntry (b : SequenceBuffer T size) (index : Nat) (v : T) : SequenceBuffer T size :=
  { b with entries := Function.update b.entries index v }

end SequenceBuffer

/-! ## Messages and the heap -/

/-- A `Message` object. `measure` stands for the virtual
`Serialize( MeasureStream & )` of the concrete message class run on a measure
stream of `MessagePacketBudget / 2` bytes: `none` when the stream reports an
error, `some b` when it processed `b` bits. `deleted` records `delete this`. -/
structure Message where
  refCount : Int
  id : Nat
  type : Nat
  measure : Option Nat
  deleted : Bool
deriving DecidableEq

namespace Message

/-- `Message( int type )`. -/
def new (type : Nat) (measure : Option Nat) : Message :=
  { refCount := 1, id := 0, type := type % 65536, measure := measure, deleted := false }

/-- `m_id` is a 16-bit field. -/
def AssignId (m : Message) (id : Nat) : Message := { m with id := id % 65536 }

def GetId (m : Message) : Nat := m.id % 65536

def GetType (m : Message) : Nat := m.type % 65536

def AddRef (m : Message) : Message := { m with refCount := m.refCount + 1 }

def Release (m : Message) : Message :=
  if m.refCount - 1 = 0 then { m with refCount := m.refCount - 1, deleted := true }
  else { m with refCount := m.refCount - 1 }

def GetRefCount (m : Message) : Int := m.refCount

end Message

/-- The heap of message objects, by address. -/
abbrev Heap := Nat → Message

def Heap.AssignId (h : Heap) (p id : Nat) : Heap := Function.update h p ((h p).AssignId id)
def Heap.AddRef (h : Heap) (p : Nat) : Heap := Function.update h p ((h p).AddRef)
def Heap.Release (h : Heap) (p : Nat) : Heap := Function.update h p ((h p).Release)

/-! ## Packets -/

/-- `ConnectionPacket`: `messages` is the array `messages[0 .. numMessages-1]`
of message addresses. -/
structure ConnectionPacket where
  sequence : Nat
  ack : Nat
  ack_bits : Nat
  messages : List Nat
deriving DecidableEq

def ConnectionPacket.numMessages (p : ConnectionPacket) : Nat := p.messages.length

/-! ## Connection -/

inductive ConnectionError where
  | CONNECTION_ERROR_NONE
  | CONNECTION_ERROR_MESSAGE_SEND_QUEUE_FULL
  | CONNECTION_ERROR_MESSAGE_SERIALIZE_MEASURE_FAILED
deriving DecidableEq, Repr

open ConnectionError

structure SentPacketData where
  acked : Nat
deriving DecidableEq

structure ReceivedPacketData where
deriving DecidableEq

structure MessageSendQueueEntry where
  message : Nat
  timeLastSent : Time
  measuredBits : Int
deriving DecidableEq

/-- `messageIds` is the offset into `m_sentPacketMessageIds` at which the
slice of this packet starts. -/
structure MessageSentPacketEntry where
  timeSent : Time
  messageIds : Nat
  numMessageIds : Nat
  blockId : Nat
  fragmentId : Nat
  acked : Nat
  blockMessage : Nat
deriving DecidableEq

structure MessageReceiveQueueEntry where
  message : Nat
deriving DecidableEq

structure Connection where
  time : Time
  error : ConnectionError
  sentPackets : SequenceBuffer SentPacketData SlidingWindowSize
  receivedPackets : SequenceBuffer ReceivedPacketData SlidingWindowSize
  messageOverheadBits : Int
  sendMessageId : Nat
  receiveMessageId : Nat
  oldestUnackedMessageId : Nat
  messageSendQueue : SequenceBuffer MessageSendQueueEntry MessageSendQueueSize
  messageSentPackets : SequenceBuffer MessageSentPacketEntry MessageSentPacketsSize
  messageReceiveQueue : SequenceBuffer MessageReceiveQueueEntry MessageReceiveQueueSize
  sentPacketMessageIds : Nat → Nat

/-- A connection together with the message objects it points to.
`packetAcked` is a ghost trace: the sequences `PacketAcked` has been invoked
with, most recent first. -/
structure World where
  conn : Connection
  heap : Heap
  packetAcked : List Nat

/-! ## Construction and reset -/

/-- The null pointer. -/
def NULL : Nat := 0

/-- `new SequenceBuffer<T>( size )`: current sequence 0, every slot empty. The
entry memory is zero-filled here; nothing reads an entry of an empty slot. -/
def SequenceBuffer.new {T : Type} (size : Nat) (zero : T) : SequenceBuffer T size :=
  { sequence := 0, sequence_of_slot := fun _ => none, entries := fun _ => zero }

/-- The two release loops of `Connection::Reset`: one `Release` for every
occupied slot whose entry holds a message. -/
def releaseAll (messageAt : Nat → Option Nat) : List Nat → Heap → Heap
  | [], h => h
  | i :: rest, h =>
    match messageAt i with
    | some message => releaseAll messageAt rest (if message ≠ NULL then h.Release message else h)
    | none => releaseAll messageAt rest h

/-- `Connection::Reset`. -/
def Reset (w : World) : World :=
  let c := w.conn
  let h1 := releaseAll (fun i => (c.messageSendQueue.GetAtIndex i).map (fun e => e.message))
              (List.range c.messageSendQueue.GetSize) w.heap
  let h2 := releaseAll (fun i => (c.messageReceiveQueue.GetAtIndex i).map (fun e => e.message))
              (List.range c.messageReceiveQueue.GetSize) h1
  { w with
    conn :=
      { c with
        error := CONNECTION_ERROR_NONE
        time := 0
        sentPackets := c.sentPackets.Reset
        receivedPackets := c.receivedPackets.Reset
        sendMessageId := 0
        receiveMessageId := 0
        oldestUnackedMessageId := 0
        messageSendQueue := c.messageSendQueue.Reset
        messageSentPackets := c.messageSentPackets.Reset
        messageReceiveQueue := c.messageReceiveQueue.Reset }
    heap := h2 }

/-- `Connection::Connection`. `bits_required` is `protocol2::bits_required`
(not part of the sources at hand) and `numTypes` is what the message factory's
`GetNumTypes()` returns. All buffers start empty, so the `Reset()` that ends
the constructor releases nothing. -/
def Connection.new (bits_required : Int → Int → Int) (numTypes : Int) : Connection :=
  { time := 0
    error := CONNECTION_ERROR_NONE
    sentPackets := SequenceBuffer.new SlidingWindowSize ⟨0⟩
    receivedPackets := SequenceBuffer.new SlidingWindowSize ⟨⟩
    messageOverheadBits := 16 + bits_required 0 (numTypes - 1)
    sendMessageId := 0
    receiveMessageId := 0
    oldestUnackedMessageId := 0
    messageSendQueue := SequenceBuffer.new MessageSendQueueSize ⟨NULL, 0, 0⟩
    messageSentPackets := SequenceBuffer.new MessageSentPacketsSize ⟨0, 0, 0, 0, 0, 0, 0⟩
    messageReceiveQueue := SequenceBuffer.new MessageReceiveQueueSize ⟨NULL⟩
    sentPacketMessageIds := fun _ => 0 }

/-! ## Sending and receiving messages -/

/-- `Connection::CanSendMessage`. -/
def CanSendMessage (c : Connection) : Bool :=
  c.messageSendQueue.IsAvailable c.sendMessageId

/-- `Connection::GetError`. -/
def GetError (c : Connection) : ConnectionError := c.error

/-- `Connection::SendMessage`. `none`: `Insert` returned a null entry, which
the source dereferences. -/
def SendMessage (w : World) (message : Nat) : Option World :=
  let c := w.conn
  if !CanSendMessage c then
    some { w with
           conn := { c with error := CONNECTION_ERROR_MESSAGE_SEND_QUEUE_FULL }
           heap := w.heap.Release message }
  else
    let h1 := w.heap.AssignId message c.sendMessageId
    match c.messageSendQueue.Insert c.sendMessageId with
    | none => none
    | some (q, index) =>
      let q1 := q.setEntry index { message := message, measuredBits := 0, timeLastSent := -1000 }
      match (h1 message).measure with
      | none =>
        some { w with
               conn := { c with messageSendQueue := q1
                                error := CONNECTION_ERROR_MESSAGE_SERIALIZE_MEASURE_FAILED }
               heap := h1.Release message }
      | some bitsProcessed =>
        some { w with
               conn := { c with
                         messageSendQueue :=
                           q1.setEntry index
                             { message := message
                               measuredBits := (bitsProcessed : Int) + c.messageOverheadBits
                               timeLastSent := -1000 }
                         sendMessageId := (c.sendMessageId + 1) % 65536 }
               heap := h1 }

/-- `Connection::ReceiveMessage`: the new state and the returned pointer
(`none` for `NULL`). -/
def ReceiveMessage (w : World) : World × Option Nat :=
  let c := w.conn
  if GetError c ≠ CONNECTION_ERROR_NONE then (w, none)
  else
    match c.messageReceiveQueue.Find c.receiveMessageId with
    | none => (w, none)
    | some entry =>
      ({ w with
         conn := { c with
                   messageReceiveQueue := c.messageReceiveQueue.Remove c.receiveMessageId
                   receiveMessageId := (c.receiveMessageId + 1) % 65536 } },
       some entry.message)

/-- `Connection::AdvanceTime`. -/
def AdvanceTime (w : World) (time : Time) : World :=
  { w with conn := { w.conn with time := time } }

/-! ## Acks -/

/-- `Connection::UpdateOldestUnackedMessageId`, the `while ( true )` loop, with
the number of iterations left as fuel. -/
def updateOldestLoop (q : SequenceBuffer MessageSendQueueEntry MessageSendQueueSize)
    (stopMessageId : Nat) : Nat → Nat → Nat
  | 0, oldest => oldest
  | fuel + 1, oldest =>
    if oldest = stopMessageId then oldest
    else if (q.Find oldest).isSome then oldest
    else updateOldestLoop q stopMessageId fuel ((oldest + 1) % 65536)

/-- `Connection::UpdateOldestUnackedMessageId`. A 16-bit counter meets the
stop id within 65536 iterations. -/
def UpdateOldestUnackedMessageId (c : Connection) : Connection :=
  { c with
    oldestUnackedMessageId :=
      updateOldestLoop c.messageSendQueue c.messageSendQueue.GetSequence 65536
        c.oldestUnackedMessageId }

/-- The `for` loop of `Connection::ProcessMessageAck` over the message ids
recorded for the acked packet, `ids` being the indices still to visit. -/
def processMessageAckLoop (offset : Nat) : List Nat → World → World
  | [], w => w
  | i :: rest, w =>
    let messageId := w.conn.sentPacketMessageIds (offset + i)
    match w.conn.messageSendQueue.Find messageId with
    | some sendQueueEntry =>
      processMessageAckLoop offset rest
        { w with
          conn := { w.conn with messageSendQueue := w.conn.messageSendQueue.Remove messageId }
          heap := w.heap.Release sendQueueEntry.message }
    | none => processMessageAckLoop offset rest w

/-- `Connection::ProcessMessageAck`. -/
def ProcessMessageAck (w : World) (ack : Nat) : World :=
  match w.conn.messageSentPackets.Find ack with
  | none => w
  | some sentPacketEntry =>
    if sentPacketEntry.acked ≠ 0 then w
    else
      let w1 := processMessageAckLoop sentPacketEntry.messageIds
                  (List.range sentPacketEntry.numMessageIds) w
      { w1 with conn := UpdateOldestUnackedMessageId w1.conn }

/-- `Connection::PacketAcked`; the call is recorded in the ghost trace. -/
def PacketAcked (w : World) (sequence : Nat) : World :=
  let w1 := ProcessMessageAck w sequence
  { w1 with packetAcked := sequence :: w1.packetAcked }

/-- The body of the `for` loop of `Connection::ProcessAcks` for one `i`. -/
def processAcksStep (ack i ack_bits : Nat) (w : World) : World :=
  if ack_bits % 2 = 1 then
    let sequence := (ack + 65536 - i) % 65536
    match w.conn.sentPackets.Find sequence with
    | some packetData =>
      if packetData.acked = 0 then
        let w1 := PacketAcked w sequence
        { w1 with
          conn := { w1.conn with
                    sentPackets := w1.conn.sentPackets.setEntry (sequence % SlidingWindowSize)
                                     { acked := 1 } } }
      else w
    | none => w
  else w

/-- The `for` loop of `Connection::ProcessAcks`: `n` iterations left, the
next one being `i`. -/
def processAcksLoop (ack : Nat) : Nat → Nat → Nat → World → World
  | 0, _, _, w => w
  | n + 1, i, ack_bits, w =>
    processAcksLoop ack n (i + 1) (ack_bits / 2) (processAcksStep ack i ack_bits w)

/-- `Connection::ProcessAcks`. -/
def ProcessAcks (w : World) (ack ack_bits : Nat) : World :=
  processAcksLoop ack 32 0 ack_bits w

/-- Modelled from the spec: `GenerateAckBits` of `protocol2.h` (section 4.2):
"`ack` = most recent received sequence and `ack_bits[i] = 1` iff sequence
`ack - i` (for i in 0..32) was received". -/
def GenerateAckBits {size : Nat} (received : SequenceBuffer ReceivedPacketData size) : Nat × Nat :=
  let ack := (received.GetSequence + 65536 - 1) % 65536
  (ack, (List.range 32).foldl
          (fun bits i => if (received.Find ((ack + 65536 - i) % 65536)).isSome then bits + 2 ^ i else bits)
          0)

/-- `Connection::InsertAckPacketEntry`. -/
def InsertAckPacketEntry (c : Connection) (sequence : Nat) : Connection :=
  match c.sentPackets.Insert sequence with
  | some (b, index) => { c with sentPackets := b.setEntry index { acked := 0 } }
  | none => c

/-! ## Reading packets -/

/-- The `for` loop of `Connection::ProcessPacketMessages` over the messages of
the packet; the flag is `earlyMessage`. `none`: the receive queue's `Insert`
returned a null entry, which the source dereferences. -/
def processPacketMessagesLoop (minMessageId maxMessageId : Nat) :
    List Nat → World → Bool → Option (World × Bool)
  | [], w, earlyMessage => some (w, earlyMessage)
  | message :: rest, w, earlyMessage =>
    let messageId := (w.heap message).GetId
    if sequence_less_than messageId minMessageId then
      processPacketMessagesLoop minMessageId maxMessageId rest w earlyMessage
    else if sequence_greater_than messageId maxMessageId then
      processPacketMessagesLoop minMessageId maxMessageId rest w true
    else if (w.conn.messageReceiveQueue.Find messageId).isSome then
      processPacketMessagesLoop minMessageId maxMessageId rest w earlyMessage
    else
      match w.conn.messageReceiveQueue.Insert messageId with
      | none => none
      | some (q, index) =>
        processPacketMessagesLoop minMessageId maxMessageId rest
          { w with
            conn := { w.conn with messageReceiveQueue := q.setEntry index { message := message } }
            heap := w.heap.AddRef message }
          earlyMessage

/-- `Connection::ProcessPacketMessages`: the new state and the returned
boolean. -/
def ProcessPacketMessages (w : World) (packet : ConnectionPacket) : Option (World × Bool) :=
  let minMessageId := w.conn.receiveMessageId
  let maxMessageId := (w.conn.receiveMessageId + MessageReceiveQueueSize - 1) % 65536
  match processPacketMessagesLoop minMessageId maxMessageId packet.messages w false with
  | none => none
  | some (w1, earlyMessage) => some (w1, !earlyMessage)

/-- `Connection::ReadPacket`: the new state and the returned boolean. -/
def ReadPacket (w : World) (packet : ConnectionPacket) : Option (World × Bool) :=
  if w.conn.error ≠ CONNECTION_ERROR_NONE then some (w, false)
  else
    match ProcessPacketMessages w packet with
    | none => none
    | some (w1, false) => some (w1, false)
    | some (w1, true) =>
      match w1.conn.receivedPackets.Insert packet.sequence with
      | none => some (w1, false)
      | some (b, _) =>
        some (ProcessAcks { w1 with conn := { w1.conn with receivedPackets := b } }
                packet.ack packet.ack_bits, true)

/-! ## Writing packets -/

/-- The `for` loop of `Connection::GetMessagesToSend`: `n` iterations left, the
next one being `i`; `messageIds` are the ids chosen so far. -/
def getMessagesToSendLoop (time : Time) (oldest : Nat) :
    Nat → Nat → Int → SequenceBuffer MessageSendQueueEntry MessageSendQueueSize → List Nat →
      SequenceBuffer MessageSendQueueEntry MessageSendQueueSize × List Nat
  | 0, _, _, q, messageIds => (q, messageIds)
  | n + 1, i, availableBits, q, messageIds =>
    if availableBits ≤ 8 * 8 then (q, messageIds)
    else
      let messageId := (oldest + i) % 65536
      match q.Find messageId with
      | none => (q, messageIds)
      | some entry =>
        if entry.timeLastSent + MessageResendRate ≤ time ∧ availableBits - entry.measuredBits ≥ 0 then
          let q1 := q.setEntry (messageId % MessageSendQueueSize) { entry with timeLastSent := time }
          let messageIds1 := messageIds ++ [messageId]
          if messageIds1.length = MaxMessagesPerPacket then (q1, messageIds1)
          else getMessagesToSendLoop time oldest n (i + 1) (availableBits - entry.measuredBits) q1
                 messageIds1
        else if messageIds.length = MaxMessagesPerPacket then (q, messageIds)
        else getMessagesToSendLoop time oldest n (i + 1) availableBits q messageIds

/-- `Connection::GetMessagesToSend`: the connection with the send times
stamped, and the chosen message ids. -/
def GetMessagesToSend (c : Connection) : Connection × List Nat :=
  match c.messageSendQueue.Find c.oldestUnackedMessageId with
  | none => (c, [])
  | some _ =>
    let r := getMessagesToSendLoop c.time c.oldestUnackedMessageId MessageSendQueueSize 0
               ((MessagePacketBudget : Int) * 8) c.messageSendQueue []
    ({ c with messageSendQueue := r.1 }, r.2)

/-- The copy loop of `Connection::AddMessagePacketEntry` into the slice of
`m_sentPacketMessageIds` starting at `offset`. -/
def writeMessageIds (offset : Nat) : Nat → List Nat → (Nat → Nat) → (Nat → Nat)
  | _, [], a => a
  | i, messageId :: rest, a => writeMessageIds offset (i + 1) rest (Function.update a (offset + i) messageId)

/-- `Connection::AddMessagePacketEntry`. `none`: `Insert` returned a null
entry, which the source dereferences. -/
def AddMessagePacketEntry (c : Connection) (messageIds : List Nat) (sequence : Nat) :
    Option Connection :=
  match c.messageSentPackets.Insert sequence with
  | none => none
  | some (b, index) =>
    let sentPacketIndex := c.sentPackets.GetIndex sequence
    let offset := sentPacketIndex * MaxMessagesPerPacket
    some { c with
           messageSentPackets :=
             b.setEntry index
               { b.entries index with
                 acked := 0
                 blockMessage := 0
                 timeSent := c.time
                 messageIds := offset
                 numMessageIds := messageIds.length % 65536 }
           sentPacketMessageIds := writeMessageIds offset 0 messageIds c.sentPacketMessageIds }

/-- The loop of `Connection::WritePacket` that fills `packet->messages` and adds
a reference to each message. `none`: a chosen id is not in the send queue and
the null entry is dereferenced. -/
def collectMessages (q : SequenceBuffer MessageSendQueueEntry MessageSendQueueSize) :
    List Nat → Heap → Option (Heap × List Nat)
  | [], h => some (h, [])
  | messageId :: rest, h =>
    match q.Find messageId with
    | none => none
    | some entry =>
      match collectMessages q rest (h.AddRef entry.message) with
      | none => none
      | some (h1, messages) => some (h1, entry.message :: messages)

/-- `Connection::WritePacket`. `packetCreated` tells whether the packet
factory's `CreatePacket` returned a packet. The result is the new state and
the packet (`none` for `NULL`). -/
def WritePacket (w : World) (packetCreated : Bool) : Option (World × Option ConnectionPacket) :=
  if w.conn.error ≠ CONNECTION_ERROR_NONE then some (w, none)
  else if !packetCreated then some (w, none)
  else
    let sequence := w.conn.sentPackets.GetSequence
    let acks := GenerateAckBits w.conn.receivedPackets
    let c1 := InsertAckPacketEntry w.conn sequence
    let r := GetMessagesToSend c1
    match AddMessagePacketEntry r.1 r.2 sequence with
    | none => none
    | some c3 =>
      match collectMessages c3.messageSendQueue r.2 w.heap with
      | none => none
      | some (h1, messages) =>
        some ({ w with conn := c3, heap := h1 },
              some { sequence := sequence, ack := acks.1, ack_bits := acks.2, messages := messages })

/-! ## Runs -/

/-- A freshly constructed or reset connection: no error, the three cursors at
0, the five buffers empty with current sequence 0. -/
def Fresh (c : Connection) : Prop :=
  c.error = CONNECTION_ERROR_NONE ∧ c.sendMessageId = 0 ∧ c.receiveMessageId = 0 ∧
  c.oldestUnackedMessageId = 0 ∧
  (c.sentPackets.sequence = 0 ∧ ∀ i, c.sentPackets.sequence_of_slot i = none) ∧
  (c.receivedPackets.sequence = 0 ∧ ∀ i, c.receivedPackets.sequence_of_slot i = none) ∧
  (c.messageSendQueue.sequence = 0 ∧ ∀ i, c.messageSendQueue.sequence_of_slot i = none) ∧
  (c.messageSentPackets.sequence = 0 ∧ ∀ i, c.messageSentPackets.sequence_of_slot i = none) ∧
  (c.messageReceiveQueue.sequence = 0 ∧ ∀ i, c.messageReceiveQueue.sequence_of_slot i = none)

/-- The calls of the receiving side. -/
inductive ReceiveOp where
  | readPacket (packet : ConnectionPacket)
  | receiveMessage

/-- Run a sequence of `ReadPacket` / `ReceiveMessage` calls; the result lists
the ids of the messages `ReceiveMessage` returned, in the order of the calls. -/
def receiveRun : World → List ReceiveOp → Option (World × List Nat)
  | w, [] => some (w, [])
  | w, ReceiveOp.readPacket packet :: rest =>
    match ReadPacket w packet with
    | none => none
    | some (w1, _) => receiveRun w1 rest
  | w, ReceiveOp.receiveMessage :: rest =>
    match ReceiveMessage w with
    | (w1, none) => receiveRun w1 rest
    | (w1, some message) =>
      match receiveRun w1 rest with
      | none => none
      | some (w2, ids) => some (w2, (w1.heap message).GetId :: ids)

/-- Hand a list of packets to `ReadPacket`, one after the other. -/
def readAll : World → List ConnectionPacket → Option World
  | w, [] => some w
  | w, packet :: rest =>
    match ReadPacket w packet with
    | none => none
    | some (w1, _) => readAll w1 rest

/-- Call `ReceiveMessage` until it returns `NULL`, at most `fuel` times; the
result lists the ids of the messages returned. `none`: the fuel ran out before
a call returned `NULL`. -/
def drain : Nat → World → Option (World × List Nat)
  | 0, _ => none
  | fuel + 1, w =>
    match ReceiveMessage w with
    | (w1, none) => some (w1, [])
    | (w1, some message) =>
      match drain fuel w1 with
      | none => none
      | some (w2, ids) => some (w2, (w1.heap message).GetId :: ids)

/-- The public calls of `Connection`. -/
inductive Op where
  | sendMessage (message : Nat)
  | writePacket (packetCreated : Bool)
  | readPacket (packet : ConnectionPacket)
  | receiveMessage
  | advanceTime (time : Time)
  | reset

/-- What a call returns. -/
inductive Output where
  | done
  | message (m : Option Nat)
  | packet (p : Option ConnectionPacket)
  | accepted (b : Bool)

/-- One public call. `none`: the call dereferences a null pointer. -/
def step (w : World) : Op → Option (World × Output)
  | Op.sendMessage message => (SendMessage w message).map (fun w1 => (w1, Output.done))
  | Op.writePacket packetCreated =>
    (WritePacket w packetCreated).map (fun r => (r.1, Output.packet r.2))
  | Op.readPacket packet => (ReadPacket w packet).map (fun r => (r.1, Output.accepted r.2))
  | Op.receiveMessage => some ((ReceiveMessage w).1, Output.message (ReceiveMessage w).2)
  | Op.advanceTime time => some (AdvanceTime w time, Output.done)
  | Op.reset => some (Reset w, Output.done)

/-- A sequence of public calls, with what each returned. -/
def run : World → List Op → Option (World × List Output)
  | w, [] => some (w, [])
  | w, op :: rest =>
    match step w op with
    | none => none
    | some (w1, out) =>
      match run w1 rest with
      | none => none
      | some (w2, outs) => some (w2, out :: outs)

/-- The states a connection constructed with `bits_required` and `numTypes`
message types goes through, whatever the public calls and their arguments. -/
inductive Reachable (bits_required : Int → Int → Int) (numTypes : Int) : World → Prop where
  | init (heap : Heap) :
      Reachable bits_required numTypes
        { conn := Connection.new bits_required numTypes, heap := heap, packetAcked := [] }
  | step {w w1 : World} {out : Output} (op : Op) :
      Reachable bits_required numTypes w → step w op = some (w1, out) →
      Reachable bits_required numTypes w1

/-- Receive window: the receive queue's current sequence is at most
`MessageReceiveQueueSize` ahead of `receive_message_id`, and every stored id
sits in its own slot, between the cursor and the current sequence. -/
def ReceiveQueueInv (c : Connection) : Prop :=
  c.receiveMessageId < 65536 ∧ c.messageReceiveQueue.sequence < 65536 ∧
  (c.messageReceiveQueue.sequence + 65536 - c.receiveMessageId) % 65536 ≤ MessageReceiveQueueSize ∧
  ∀ i q, c.messageReceiveQueue.sequence_of_slot i = some q →
    q < 65536 ∧ i = q % MessageReceiveQueueSize ∧
    (q + 65536 - c.receiveMessageId) % 65536 <
      (c.messageReceiveQueue.sequence + 65536 - c.receiveMessageId) % 65536

/-- Every occupied slot of the receive queue holds a message whose id is the
sequence stored in the slot. -/
def ReceiveQueueIdsOk (w : World) : Prop :=
  ∀ i q, w.conn.messageReceiveQueue.sequence_of_slot i = some q →
    (w.heap (w.conn.messageReceiveQueue.entries i).message).GetId = q

/-- Send window: the send queue's current sequence is `send_message_id` while
no error is set, the oldest unacked id is at most `MessageSendQueueSize` behind
it and, unless equal to it, names a present entry; once an error is set the
slot of `send_message_id` is occupied. -/
def SendQueueInv (c : Connection) : Prop :=
  c.sendMessageId < 65536 ∧ c.oldestUnackedMessageId < 65536 ∧
  (c.sendMessageId + 65536 - c.oldestUnackedMessageId) % 65536 ≤ MessageSendQueueSize ∧
  (c.error = CONNECTION_ERROR_NONE →
    c.messageSendQueue.sequence = c.sendMessageId ∧
    (c.oldestUnackedMessageId ≠ c.sendMessageId →
      c.messageSendQueue.sequence_of_slot (c.oldestUnackedMessageId % MessageSendQueueSize)
        = some c.oldestUnackedMessageId)) ∧
  (c.error ≠ CONNECTION_ERROR_NONE →
    c.messageSendQueue.sequence_of_slot (c.sendMessageId % MessageSendQueueSize) ≠ none)

/-- The two sent-packet buffers advance together. -/
def SentPacketsInv (c : Connection) : Prop :=
  c.sentPackets.sequence = c.messageSentPackets.sequence

/-- What ack processing may change: the acked flags of the sent-packet entries,
the presence of send-queue entries (only removals), the oldest unacked id, the
reference counts and the ghost trace. Everything else is as before. -/
def AckFrame (w w1 : World) : Prop :=
  w1.conn.time = w.conn.time ∧ w1.conn.error = w.conn.error ∧
  w1.conn.receivedPackets = w.conn.receivedPackets ∧
  w1.conn.messageOverheadBits = w.conn.messageOverheadBits ∧
  w1.conn.sendMessageId = w.conn.sendMessageId ∧
  w1.conn.receiveMessageId = w.conn.receiveMessageId ∧
  w1.conn.messageSentPackets = w.conn.messageSentPackets ∧
  w1.conn.messageReceiveQueue = w.conn.messageReceiveQueue ∧
  w1.conn.sentPacketMessageIds = w.conn.sentPacketMessageIds ∧
  w1.conn.sentPackets.sequence = w.conn.sentPackets.sequence ∧
  w1.conn.sentPackets.sequence_of_slot = w.conn.sentPackets.sequence_of_slot ∧
  w1.conn.messageSendQueue.sequence = w.conn.messageSendQueue.sequence ∧
  w1.conn.messageSendQueue.entries = w.conn.messageSendQueue.entries ∧
  (∀ i, w1.conn.messageSendQueue.sequence_of_slot i = w.conn.messageSendQueue.sequence_of_slot i ∨
        w1.conn.messageSendQueue.sequence_of_slot i = none) ∧
  (∀ p, (w1.heap p).id = (w.heap p).id)

/-- The invariant of the connection: receive window, send window, and the two
sent-packet buffers in step. -/
def Inv (w : World) : Prop :=
  ReceiveQueueInv w.conn ∧ SendQueueInv w.conn ∧ SentPacketsInv w.conn

/-- 1 when the sent-packets buffer holds an entry for `s` that is not yet
acked, 0 otherwise. -/
def pendingCount (w : World) (s : Nat) : Nat :=
  match w.conn.sentPackets.Find s with
  | some packetData => if packetData.acked = 0 then 1 else 0
  | none => 0

/-- The sequence numbers of the packets a run of calls wrote. -/
def stamped : List Output → List Nat
  | [] => []
  | Output.packet (some p) :: rest => p.sequence :: stamped rest
  | _ :: rest => stamped rest

/-- The state after a sequence of public calls (the initial state if one of
them faults). -/
def afterOps (w : World) (ops : List Op) : World :=
  match run w ops with
  | some r => r.1
  | none => w

/-! ## The ConnectionPacket codec -/

/-- The number of binary digits of `n` (0 for 0), `fuel ≥ n` being enough. -/
def bitLength : Nat → Nat → Nat
  | 0, _ => 0
  | fuel + 1, n => if n = 0 then 0 else bitLength fuel (n / 2) + 1

/-- The least number of bits that hold the values `min .. max`: what
`bits_required` of `protocol2.h` is instantiated with in the examples. The
codec below takes `bits_required` as a parameter. -/
def leastBits (min max : Nat) : Nat :=
  bitLength (max - min) (max - min)

/-- Modelled from the spec: a write stream is the list of bits written so far;
`serialize_bits` in write mode appends the `bits` low bits of `value`, most
significant first (section 4.6). The capacity of the buffer is not modelled. -/
def writeBits (bits value : Nat) : List Bool :=
  (List.range bits).reverse.map (fun i => decide (value / 2 ^ i % 2 = 1))

/-- Modelled from the spec: `serialize_int` in write mode: `value - min` on
`bits_required(min, max)` bits. -/
def writeInt (bits_required : Nat → Nat → Nat) (value min max : Nat) : List Bool :=
  writeBits (bits_required min max) (value - min)

/-- The value of a list of bits, most significant first. -/
def bitsValue : List Bool → Nat → Nat
  | [], acc => acc
  | b :: rest, acc => bitsValue rest (2 * acc + (if b then 1 else 0))

/-- Modelled from the spec: a read stream is the list of bits still to read;
`serialize_bits` in read mode takes `bits` bits and fails ("exceeds remaining
bits") when fewer are left. -/
def readBits (bits : Nat) (stream : List Bool) : Option (Nat × List Bool) :=
  if stream.length < bits then none
  else some (bitsValue (stream.take bits) 0, stream.drop bits)

/-- Modelled from the spec: `serialize_int` in read mode: fails when the bits
run out or the value read is out of range. -/
def readInt (bits_required : Nat → Nat → Nat) (min max : Nat) (stream : List Bool) :
    Option (Nat × List Bool) :=
  match readBits (bits_required min max) stream with
  | none => none
  | some (v, rest) => if v + min > max then none else some (v + min, rest)

/-- The second loop of `ConnectionPacket::Serialize` in write mode: per message
its type, then its own payload. `writePayload` stands for the virtual
`SerializeInternal( WriteStream & )` of the message class (`none` when it
returns false). -/
def writeMessages (bits_required : Nat → Nat → Nat)
    (writePayload : Message → Option (List Bool)) (maxMessageType : Nat)
    (heap : Heap) : List Nat → Option (List Bool)
  | [] => some []
  | message :: rest =>
    match writePayload (heap message) with
    | none => none
    | some payload =>
      match writeMessages bits_required writePayload maxMessageType heap rest with
      | none => none
      | some bits =>
        some (writeInt bits_required (heap message).GetType 0 maxMessageType ++ payload ++ bits)

/-- `ConnectionPacket::Serialize` instantiated with a write stream: the bits
written, or `none` when it returns false. `bits_required` is
`protocol2::bits_required` and `numTypes` is what the message factory's
`GetNumTypes()` returns. -/
def ConnectionPacket.SerializeWrite (bits_required : Nat → Nat → Nat)
    (writePayload : Message → Option (List Bool))
    (numTypes : Nat) (heap : Heap) (p : ConnectionPacket) : Option (List Bool) :=
  let header := writeBits 16 p.sequence ++ writeBits 16 p.ack ++ writeBits 32 p.ack_bits
  let hasMessages := decide (p.numMessages ≠ 0)
  if hasMessages then
    let maxMessageType := numTypes - 1
    match writeMessages bits_required writePayload maxMessageType heap p.messages with
    | none => none
    | some bits =>
      some (header ++ [true] ++ writeInt bits_required p.numMessages 1 MaxMessagesPerPacket
        ++ (p.messages.map (fun m => writeBits 16 (heap m).GetId)).flatten ++ bits)
  else some (header ++ [false])

/-- What `ConnectionPacket::Serialize` does on a read stream: it returns true
with the packet filled in (the messages being the objects the factory
created), it returns false, or it dereferences a null pointer. -/
inductive ReadOutcome where
  | ok (sequence ack ack_bits : Nat) (messages : List Message)
  | failed
  | nullDereference
deriving DecidableEq

/-- The first message loop of `ConnectionPacket::Serialize` in read mode: the
16-bit ids. -/
def readMessageIds : Nat → List Bool → Option (List Nat × List Bool)
  | 0, stream => some ([], stream)
  | n + 1, stream =>
    match readBits 16 stream with
    | none => none
    | some (id, rest) =>
      match readMessageIds n rest with
      | none => none
      | some (ids, rest1) => some (id :: ids, rest1)

/-- The second message loop of `ConnectionPacket::Serialize` in read mode.
`Create` is the message factory (`none` for `NULL`). The source reads
`messages[i] = Create( type ); if ( messages[i] ) return false;
messages[i]->AssignId( ... )`: a created message makes it return false, and a
null one is dereferenced, so nothing after these lines is ever reached. -/
def readMessages (bits_required : Nat → Nat → Nat) (Create : Nat → Option Message)
    (maxMessageType : Nat) : List Nat → List Bool → ReadOutcome
  | [], _ => ReadOutcome.ok 0 0 0 []
  | _ :: _, stream =>
    match readInt bits_required 0 maxMessageType stream with
    | none => ReadOutcome.failed
    | some (type, _) =>
      match Create type with
      | some _ => ReadOutcome.failed
      | none => ReadOutcome.nullDereference

/-- `ConnectionPacket::Serialize` instantiated with a read stream. -/
def ConnectionPacket.SerializeRead (bits_required : Nat → Nat → Nat)
    (Create : Nat → Option Message) (numTypes : Nat) (stream : List Bool) : ReadOutcome :=
  match readBits 16 stream with
  | none => ReadOutcome.failed
  | some (sequence, s1) =>
    match readBits 16 s1 with
    | none => ReadOutcome.failed
    | some (ack, s2) =>
      match readBits 32 s2 with
      | none => ReadOutcome.failed
      | some (ack_bits, s3) =>
        match readBits 1 s3 with
        | none => ReadOutcome.failed
        | some (hasMessages, s4) =>
          if hasMessages = 1 then
            let maxMessageType := numTypes - 1
            match readInt bits_required 1 MaxMessagesPerPacket s4 with
            | none => ReadOutcome.failed
            | some (numMessages, s5) =>
              match readMessageIds numMessages s5 with
              | none => ReadOutcome.failed
              | some (messageIds, s6) =>
                match readMessages bits_required Create maxMessageType messageIds s6 with
                | ReadOutcome.ok _ _ _ messages => ReadOutcome.ok sequence ack ack_bits messages
                | ReadOutcome.failed => ReadOutcome.failed
                | ReadOutcome.nullDereference => ReadOutcome.nullDereference
          else ReadOutcome.ok sequence ack ack_bits []

/-! ## Concrete connections -/

/-- A heap in which the object at address `p` is a live message of type 0
with id `p - 1` whose measure pass counts 8 bits. -/
def demoHeap : Heap :=
  fun p => { refCount := 1, id := p - 1, type := 0, measure := some 8, deleted := false }

/-- A freshly constructed connection for two message types, one bit per
message type. -/
def demoWorld : World :=
  { conn := Connection.new (fun _ _ => 1) 2, heap := demoHeap, packetAcked := [] }

/-- Ten packets, packet `k` carrying the one message of id `k` (the object at
address `k + 1` of `demoHeap`), delivered in reverse order and then each
replayed once. -/
def demoPackets : List ConnectionPacket :=
  (List.range 10).reverse.map (fun k => { sequence := k, ack := 0, ack_bits := 0, messages := [k + 1] })
    ++ (List.range 10).reverse.map (fun k => { sequence := k, ack := 0, ack_bits := 0, messages := [k + 1] })

/-- Two messages are sent and written into packet 0; at time 1 s a packet
arrives that acks packet 0 and carries a message of id 2 (the object at
address 3 of `demoHeap`), which is then received. -/
def demoOps : List Op :=
  [Op.sendMessage 1, Op.sendMessage 2, Op.writePacket true, Op.advanceTime 1000,
   Op.readPacket { sequence := 0, ack := 0, ack_bits := 1, messages := [3] },
   Op.receiveMessage]

/-- A heap in which every object is a live message whose measure pass fails. -/
def failHeap : Heap :=
  fun _ => { refCount := 1, id := 0, type := 0, measure := none, deleted := false }

/-- A freshly constructed connection whose messages fail to measure. -/
def failWorld : World :=
  { conn := Connection.new (fun _ _ => 1) 2, heap := failHeap, packetAcked := [] }

/-- The message at address `p` has been stored by the step from `w` to `w1`:
a slot of the receive queue that was empty in `w` holds, in `w1`, the id of
`p` and an entry pointing to `p`. -/
def NewlyStored (w w1 : World) (p : Nat) : Prop :=
  ∃ i, w.conn.messageReceiveQueue.sequence_of_slot i = none ∧
    w1.conn.messageReceiveQueue.sequence_of_slot i = some (w.heap p).GetId ∧
    (w1.conn.messageReceiveQueue.entries i).message = p

/-- A fresh connection is handed a packet that carries the message of id 0
(address 1) and a message of id 1999 (address 2000), which lies beyond the
receive window. -/
def earlyPacket : ConnectionPacket :=
  { sequence := 0, ack := 0, ack_bits := 0, messages := [1, 2000] }

/-- The fresh connection after two messages (addresses 1 and 2) were sent:
the send queue holds the ids 0 and 1, not yet written into any packet. -/
def sentTwo : World :=
  afterOps demoWorld [Op.sendMessage 1, Op.sendMessage 2]

/-- The fresh connection after two messages (addresses 1 and 2) were sent and
written into the packet of sequence 0. -/
def writtenTwo : World :=
  afterOps demoWorld [Op.sendMessage 1, Op.sendMessage 2, Op.writePacket true]

/-! ## The client and server of `008_securing_dedicated_servers.cpp`

Conventions, on top of those above

* `network2::Address` and the `NetworkInterface` implementation are not part
  of the sources at hand. An address is modelled from the specification; a call
  of `SendPacket( address, packet )` is recorded as the pair `(address, packet)`
  in the list of packets the method returns, and the queue `ReceivePacket`
  reads from is the list of pairs `(from, packet)` handed to the method.
* `CreatePacket` of the `ClientServerPacketFactory` returns a new packet for
  each of the six packet types; it is not modelled as failing.
* `printf` output is left out.
-/

namespace Secure

def MaxClients : Nat := 32

/-- The source writes `0.1f` (seconds). -/
def ConnectionRequestSendRate : Time := 100
/-- The source writes `0.1f` (seconds). -/
def ConnectionResponseSendRate : Time := 100
/-- The source writes `1.0f` (seconds). -/
def ConnectionKeepAliveSendRate : Time := 1000
/-- The source writes `5.0f` (seconds). -/
def ConnectionRequestTimeOut : Time := 5000
/-- The source writes `5.0f` (seconds). -/
def ChallengeResponseTimeOut : Time := 5000
/-- The source writes `10.0f` (seconds). -/
def KeepAliveTimeOut : Time := 10000
def ChallengeHashSize : Nat := 1024

/-- Modelled from the spec: `network2::Address` ("Wire addresses ... equality
defined componentwise"): whether the address is valid (a default-constructed
one is not), a host and a port. -/
structure Address where
  valid : Bool
  host : Nat
  port : Nat
deriving DecidableEq

/-- Modelled from the spec: the default-constructed `Address()`. -/
def Address.default : Address := { valid := false, host := 0, port := 0 }

/-- Modelled from the spec: `Address::IsValid`. -/
def Address.IsValid (a : Address) : Bool := a.valid

inductive ConnectionDeniedReason where
  | CONNECTION_DENIED_SERVER_FULL
  | CONNECTION_DENIED_ALREADY_CONNECTED
  | CONNECTION_DENIED_NUM_VALUES
deriving DecidableEq

/-- The six packet types with their fields, as `CreatePacket` initialises
them. `token_data` and `token_nonce` of a connection request are byte arrays
that the constructor fills with zeros and that neither the client nor the
server below writes or reads; they are not represented. -/
inductive Packet where
  | ConnectionRequest
  | ConnectionDenied (reason : ConnectionDeniedReason)
  | ConnectionChallenge (challenge_salt : Nat)
  | ConnectionResponse (challenge_salt : Nat)
  | ConnectionKeepAlive
  | ConnectionDisconnect
deriving DecidableEq

inductive ClientState where
  | CLIENT_STATE_DISCONNECTED
  | CLIENT_STATE_SENDING_CONNECTION_REQUEST
  | CLIENT_STATE_SENDING_CHALLENGE_RESPONSE
  | CLIENT_STATE_CONNECTED
  | CLIENT_STATE_CONNECTION_REQUEST_TIMED_OUT
  | CLIENT_STATE_CHALLENGE_RESPONSE_TIMED_OUT
  | CLIENT_STATE_KEEP_ALIVE_TIMED_OUT
  | CLIENT_STATE_CONNECTION_DENIED_FULL
  | CLIENT_STATE_CONNECTION_DENIED_ALREADY_CONNECTED
deriving DecidableEq

open ClientState ConnectionDeniedReason

/-- The value of the enumerator, which the source compares with `<` and `>`. -/
def ClientState.value : ClientState → Nat
  | CLIENT_STATE_DISCONNECTED => 0
  | CLIENT_STATE_SENDING_CONNECTION_REQUEST => 1
  | CLIENT_STATE_SENDING_CHALLENGE_RESPONSE => 2
  | CLIENT_STATE_CONNECTED => 3
  | CLIENT_STATE_CONNECTION_REQUEST_TIMED_OUT => 4
  | CLIENT_STATE_CHALLENGE_RESPONSE_TIMED_OUT => 5
  | CLIENT_STATE_KEEP_ALIVE_TIMED_OUT => 6
  | CLIENT_STATE_CONNECTION_DENIED_FULL => 7
  | CLIENT_STATE_CONNECTION_DENIED_ALREADY_CONNECTED => 8

/-- The fields of `Client` other than the network interface. -/
structure Client where
  m_clientState : ClientState
  m_serverAddress : Address
  m_clientSalt : Nat
  m_challengeSalt : Nat
  m_lastPacketSendTime : Time
  m_lastPacketReceiveTime : Time
deriving DecidableEq

/-- The packets a method handed to `SendPacket`, in order, each with the
address it is sent to. -/
abbrev Sent := List (Address × Packet)

namespace Client

/-- `Client::ResetConnectionData`; `-1000.0` seconds. -/
def ResetConnectionData (_c : Client) : Client :=
  { m_serverAddress := Address.default
    m_clientState := CLIENT_STATE_DISCONNECTED
    m_clientSalt := 0
    m_challengeSalt := 0
    m_lastPacketSendTime := -1000000
    m_lastPacketReceiveTime := -1000000 }

/-- `Client::Client`. -/
def new : Client :=
  { m_serverAddress := Address.default
    m_clientState := CLIENT_STATE_DISCONNECTED
    m_clientSalt := 0
    m_challengeSalt := 0
    m_lastPacketSendTime := -1000000
    m_lastPacketReceiveTime := -1000000 }

/-- `Client::SendPacketToServer`. -/
def SendPacketToServer (c : Client) (packet : Packet) (time : Time) : Client × Sent :=
  ({ c with m_lastPacketSendTime := time }, [(c.m_serverAddress, packet)])

/-- `Client::Disconnect`. -/
def Disconnect (c : Client) (time : Time) : Client × Sent :=
  if c.m_clientState = CLIENT_STATE_CONNECTED then
    let r := c.SendPacketToServer Packet.ConnectionDisconnect time
    (r.1.ResetConnectionData, r.2)
  else (c.ResetConnectionData, [])

/-- `Client::Connect`; the two assignments of the salts are commented out in
the source. -/
def Connect (c : Client) (address : Address) (time : Time) : Client × Sent :=
  let r := c.Disconnect time
  ({ r.1 with
     m_serverAddress := address
     m_clientState := CLIENT_STATE_SENDING_CONNECTION_REQUEST
     m_lastPacketSendTime := time - 1000
     m_lastPacketReceiveTime := time }, r.2)

/-- `Client::IsConnecting`. -/
def IsConnecting (c : Client) : Bool :=
  c.m_clientState = CLIENT_STATE_SENDING_CONNECTION_REQUEST ∨
  c.m_clientState = CLIENT_STATE_SENDING_CHALLENGE_RESPONSE

/-- `Client::IsConnected`. -/
def IsConnected (c : Client) : Bool :=
  c.m_clientState = CLIENT_STATE_CONNECTED

/-- `Client::ConnectionFailed`. -/
def ConnectionFailed (c : Client) : Bool :=
  decide (c.m_clientState.value > CLIENT_STATE_CONNECTED.value)

/-- `Client::SendPackets`. -/
def SendPackets (c : Client) (time : Time) : Client × Sent :=
  match c.m_clientState with
  | CLIENT_STATE_SENDING_CONNECTION_REQUEST =>
    if c.m_lastPacketSendTime + ConnectionRequestSendRate > time then (c, [])
    else c.SendPacketToServer Packet.ConnectionRequest time
  | CLIENT_STATE_SENDING_CHALLENGE_RESPONSE =>
    if c.m_lastPacketSendTime + ConnectionResponseSendRate > time then (c, [])
    else c.SendPacketToServer (Packet.ConnectionResponse c.m_challengeSalt) time
  | CLIENT_STATE_CONNECTED =>
    if c.m_lastPacketSendTime + ConnectionKeepAliveSendRate > time then (c, [])
    else c.SendPacketToServer Packet.ConnectionKeepAlive time
  | _ => (c, [])

/-- `Client::ProcessConnectionDenied`. -/
def ProcessConnectionDenied (c : Client) (reason : ConnectionDeniedReason) (address : Address)
    (_time : Time) : Client :=
  if c.m_clientState ≠ CLIENT_STATE_SENDING_CONNECTION_REQUEST then c
  else if address ≠ c.m_serverAddress then c
  else if reason = CONNECTION_DENIED_SERVER_FULL then
    { c with m_clientState := CLIENT_STATE_CONNECTION_DENIED_FULL }
  else if reason = CONNECTION_DENIED_ALREADY_CONNECTED then
    { c with m_clientState := CLIENT_STATE_CONNECTION_DENIED_ALREADY_CONNECTED }
  else c

/-- `Client::ProcessConnectionChallenge`. The packet parameter is unnamed in
the source and the line `m_challengeSalt = packet.challenge_salt;` is commented
out ("todo: WUT"), so the salt of the packet is not used. -/
def ProcessConnectionChallenge (c : Client) (_challenge_salt : Nat) (address : Address)
    (time : Time) : Client :=
  if c.m_clientState ≠ CLIENT_STATE_SENDING_CONNECTION_REQUEST then c
  else if address ≠ c.m_serverAddress then c
  else { c with
         m_clientState := CLIENT_STATE_SENDING_CHALLENGE_RESPONSE
         m_lastPacketReceiveTime := time }

/-- `Client::ProcessConnectionKeepAlive`. -/
def ProcessConnectionKeepAlive (c : Client) (address : Address) (time : Time) : Client :=
  if c.m_clientState.value < CLIENT_STATE_SENDING_CHALLENGE_RESPONSE.value then c
  else if address ≠ c.m_serverAddress then c
  else
    let c1 : Client :=
      if c.m_clientState = CLIENT_STATE_SENDING_CHALLENGE_RESPONSE then
        { c with m_clientState := CLIENT_STATE_CONNECTED }
      else c
    { c1 with m_lastPacketReceiveTime := time }

/-- `Client::ProcessConnectionDisconnect`. -/
def ProcessConnectionDisconnect (c : Client) (address : Address) (time : Time) : Client × Sent :=
  if c.m_clientState ≠ CLIENT_STATE_CONNECTED then (c, [])
  else if address ≠ c.m_serverAddress then (c, [])
  else c.Disconnect time

/-- The body of the loop of `Client::ReceivePackets` for one received packet:
the `switch` on the packet type. -/
def receivePacket (c : Client) (time : Time) (address : Address) : Packet → Client × Sent
  | Packet.ConnectionDenied reason => (c.ProcessConnectionDenied reason address time, [])
  | Packet.ConnectionChallenge challenge_salt =>
    (c.ProcessConnectionChallenge challenge_salt address time, [])
  | Packet.ConnectionKeepAlive => (c.ProcessConnectionKeepAlive address time, [])
  | Packet.ConnectionDisconnect => c.ProcessConnectionDisconnect address time
  | _ => (c, [])

/-- `Client::ReceivePackets`: the loop over the packets `ReceivePacket` hands
out, each with the address it came from, until the queue is empty. -/
def ReceivePackets (time : Time) : Client → List (Address × Packet) → Client × Sent
  | c, [] => (c, [])
  | c, (address, packet) :: rest =>
    let r := c.receivePacket time address packet
    let r1 := ReceivePackets time r.1 rest
    (r1.1, r.2 ++ r1.2)

/-- `Client::CheckForTimeOut`. -/
def CheckForTimeOut (c : Client) (time : Time) : Client × Sent :=
  match c.m_clientState with
  | CLIENT_STATE_SENDING_CONNECTION_REQUEST =>
    if c.m_lastPacketReceiveTime + ConnectionRequestTimeOut < time then
      ({ c with m_clientState := CLIENT_STATE_CONNECTION_REQUEST_TIMED_OUT }, [])
    else (c, [])
  | CLIENT_STATE_SENDING_CHALLENGE_RESPONSE =>
    if c.m_lastPacketReceiveTime + ChallengeResponseTimeOut < time then
      ({ c with m_clientState := CLIENT_STATE_CHALLENGE_RESPONSE_TIMED_OUT }, [])
    else (c, [])
  | CLIENT_STATE_CONNECTED =>
    if c.m_lastPacketReceiveTime + KeepAliveTimeOut < time then
      Disconnect { c with m_clientState := CLIENT_STATE_KEEP_ALIVE_TIMED_OUT } time
    else (c, [])
  | _ => (c, [])

end Client

structure ServerChallengeEntry where
  client_id : Nat
  challenge_salt : Nat
  create_time : Time
  last_packet_send_time : Time
  address : Address
deriving DecidableEq

structure ServerChallengeHash where
  num_entries : Int
  exists_ : Nat → Nat
  entries : Nat → ServerChallengeEntry

/-- `ServerClientData`, as its constructor leaves it. -/
structure ServerClientData where
  address : Address
  clientId : Nat
  connectTime : Time
  lastPacketSendTime : Time
  lastPacketReceiveTime : Time
deriving DecidableEq

def ServerClientData.new : ServerClientData :=
  { address := Address.default, clientId := 0, connectTime := 0, lastPacketSendTime := 0,
    lastPacketReceiveTime := 0 }

/-- The fields of `Server` other than the network interface; an array is a
function of the index. -/
structure Server where
  m_serverSalt : Nat
  m_numConnectedClients : Int
  m_clientConnected : Nat → Bool
  m_clientId : Nat → Nat
  m_clientAddress : Nat → Address
  m_clientData : Nat → ServerClientData
  m_challengeHash : ServerChallengeHash

namespace Server

/-- `Server::ResetClientState`. -/
def ResetClientState (s : Server) (clientIndex : Nat) : Server :=
  { s with
    m_clientConnected := Function.update s.m_clientConnected clientIndex false
    m_clientId := Function.update s.m_clientId clientIndex 0
    m_clientAddress := Function.update s.m_clientAddress clientIndex Address.default
    m_clientData := Function.update s.m_clientData clientIndex ServerClientData.new }

/-- `Server::Server`; `serverSalt` is what `GenerateSalt()` returned. The
challenge hash is zero-filled (`memset`). -/
def new (serverSalt : Nat) : Server :=
  { m_serverSalt := serverSalt
    m_numConnectedClients := 0
    m_clientConnected := fun _ => false
    m_clientId := fun _ => 0
    m_clientAddress := fun _ => Address.default
    m_clientData := fun _ => ServerClientData.new
    m_challengeHash :=
      { num_entries := 0
        exists_ := fun _ => 0
        entries := fun _ =>
          { client_id := 0, challenge_salt := 0, create_time := 0, last_packet_send_time := 0,
            address := { valid := false, host := 0, port := 0 } } } }

/-- `Server::FindFreeClientIndex`; `none` for `-1`. -/
def FindFreeClientIndex (s : Server) : Option Nat :=
  (List.range MaxClients).find? (fun i => !s.m_clientConnected i)

/-- `Server::FindExistingClientIndex`; `none` for `-1`. -/
def FindExistingClientIndex (s : Server) (address : Address) : Option Nat :=
  (List.range MaxClients).find? (fun i => s.m_clientConnected i && decide (s.m_clientAddress i = address))

/-- `Server::SendPacketToConnectedClient`. -/
def SendPacketToConnectedClient (s : Server) (clientIndex : Nat) (packet : Packet) (time : Time) :
    Server × Sent :=
  ({ s with
     m_clientData := Function.update s.m_clientData clientIndex
       { s.m_clientData clientIndex with lastPacketSendTime := time } },
   [(s.m_clientAddress clientIndex, packet)])

/-- `Server::ConnectClient`. -/
def ConnectClient (s : Server) (clientIndex : Nat) (address : Address) (clientId : Nat)
    (time : Time) : Server × Sent :=
  let s1 : Server :=
    { s with
      m_numConnectedClients := s.m_numConnectedClients + 1
      m_clientConnected := Function.update s.m_clientConnected clientIndex true
      m_clientId := Function.update s.m_clientId clientIndex clientId
      m_clientAddress := Function.update s.m_clientAddress clientIndex address
      m_clientData := Function.update s.m_clientData clientIndex
        { address := address, clientId := clientId, connectTime := time,
          lastPacketSendTime := time, lastPacketReceiveTime := time } }
  s1.SendPacketToConnectedClient clientIndex Packet.ConnectionKeepAlive time

/-- `Server::DisconnectClient`. -/
def DisconnectClient (s : Server) (clientIndex : Nat) (time : Time) : Server × Sent :=
  let r := s.SendPacketToConnectedClient clientIndex Packet.ConnectionDisconnect time
  let s1 := r.1.ResetClientState clientIndex
  ({ s1 with m_numConnectedClients := s1.m_numConnectedClients - 1 }, r.2)

/-- The loop of `Server::SendPackets` over the client indices still to visit.
A connected client that is not yet due makes the source `return`, which ends
the whole loop. -/
def sendPacketsLoop (time : Time) : List Nat → Server → Sent → Server × Sent
  | [], s, sent => (s, sent)
  | i :: rest, s, sent =>
    if !s.m_clientConnected i then sendPacketsLoop time rest s sent
    else if (s.m_clientData i).lastPacketSendTime + ConnectionKeepAliveSendRate > time then (s, sent)
    else
      let r := s.SendPacketToConnectedClient i Packet.ConnectionKeepAlive time
      sendPacketsLoop time rest r.1 (sent ++ r.2)

/-- `Server::SendPackets`. -/
def SendPackets (s : Server) (time : Time) : Server × Sent :=
  sendPacketsLoop time (List.range MaxClients) s []

/-- `Server::ProcessConnectionRequest`. Everything after the server-full test
is commented out in the source ("todo"): no challenge entry is looked up or
inserted and no challenge is sent. -/
def ProcessConnectionRequest (s : Server) (address : Address) (_time : Time) : Server × Sent :=
  if s.m_numConnectedClients = (MaxClients : Int) then
    (s, [(address, Packet.ConnectionDenied CONNECTION_DENIED_SERVER_FULL)])
  else (s, [])

/-- `Server::ProcessConnectionResponse`. The whole body is commented out in
the source ("todo: no longer need client salt w. crypto"). -/
def ProcessConnectionResponse (s : Server) (_challenge_salt : Nat) (_address : Address)
    (_time : Time) : Server × Sent :=
  (s, [])

/-- `Server::ProcessConnectionKeepAlive`. -/
def ProcessConnectionKeepAlive (s : Server) (address : Address) (time : Time) : Server :=
  match s.FindExistingClientIndex address with
  | none => s
  | some clientIndex =>
    { s with
      m_clientData := Function.update s.m_clientData clientIndex
        { s.m_clientData clientIndex with lastPacketReceiveTime := time } }

/-- `Server::ProcessConnectionDisconnect`. -/
def ProcessConnectionDisconnect (s : Server) (address : Address) (time : Time) : Server × Sent :=
  match s.FindExistingClientIndex address with
  | none => (s, [])
  | some clientIndex => s.DisconnectClient clientIndex time

/-- The body of the loop of `Server::ReceivePackets` for one received packet:
the `switch` on the packet type. -/
def receivePacket (s : Server) (time : Time) (address : Address) : Packet → Server × Sent
  | Packet.ConnectionRequest => s.ProcessConnectionRequest address time
  | Packet.ConnectionResponse challenge_salt =>
    s.ProcessConnectionResponse challenge_salt address time
  | Packet.ConnectionKeepAlive => (s.ProcessConnectionKeepAlive address time, [])
  | Packet.ConnectionDisconnect => s.ProcessConnectionDisconnect address time
  | _ => (s, [])

/-- `Server::ReceivePackets`: the loop over the packets `ReceivePacket` hands
out, each with the address it came from, until the queue is empty. -/
def ReceivePackets (time : Time) : Server → List (Address × Packet) → Server × Sent
  | s, [] => (s, [])
  | s, (address, packet) :: rest =>
    let r := s.receivePacket time address packet
    let r1 := ReceivePackets time r.1 rest
    (r1.1, r.2 ++ r1.2)

/-- The loop of `Server::CheckForTimeOut` over the client indices still to
visit. -/
def checkForTimeOutLoop (time : Time) : List Nat → Server → Sent → Server × Sent
  | [], s, sent => (s, sent)
  | i :: rest, s, sent =>
    if !s.m_clientConnected i then checkForTimeOutLoop time rest s sent
    else if (s.m_clientData i).lastPacketReceiveTime + KeepAliveTimeOut < time then
      let r := s.DisconnectClient i time
      checkForTimeOutLoop time rest r.1 (sent ++ r.2)
    else checkForTimeOutLoop time rest s sent

/-- `Server::CheckForTimeOut`. -/
def CheckForTimeOut (s : Server) (time : Time) : Server × Sent :=
  checkForTimeOutLoop time (List.range MaxClients) s []

end Server

/-- A client and a server, each behind its own network interface, joined by a
network that loses nothing. `clientSendQueue` and `serverSendQueue` hold the
packets handed to `SendPacket` and not yet written to the network. -/
structure System where
  client : Client
  server : Server
  clientAddress : Address
  serverAddress : Address
  clientSendQueue : Sent
  serverSendQueue : Sent

/-- Modelled from the spec: a network interface "under zero loss". What
`WritePackets` of the sender followed by `ReadPackets` of the receiver at
address `dest` moves into the receiver's queue: every packet of the send queue
addressed to `dest`, in order, with the sender's address as its origin. -/
def deliver (dest sender : Address) (queue : Sent) : List (Address × Packet) :=
  (queue.filter (fun p => decide (p.1 = dest))).map (fun p => (sender, p.2))

/-- One iteration of the loop of the (commented-out) `main` of the source, as
far as the client and server calls go: both sides send, the interfaces write
and read, both sides receive, both sides check for time-out. A packet handed
to `SendPacket` while receiving or on time-out waits in the send queue for the
`WritePackets` of the next iteration. -/
def tick (sys : System) (time : Time) : System :=
  let c1 := sys.client.SendPackets time
  let s1 := sys.server.SendPackets time
  let toServer := deliver sys.serverAddress sys.clientAddress (sys.clientSendQueue ++ c1.2)
  let toClient := deliver sys.clientAddress sys.serverAddress (sys.serverSendQueue ++ s1.2)
  let c2 := Client.ReceivePackets time c1.1 toClient
  let s2 := Server.ReceivePackets time s1.1 toServer
  let c3 := c2.1.CheckForTimeOut time
  let s3 := s2.1.CheckForTimeOut time
  { sys with
    client := c3.1
    server := s3.1
    clientSendQueue := c2.2 ++ c3.2
    serverSendQueue := s2.2 ++ s3.2 }

/-- The ticks at the given times, one after the other. -/
def ticks (sys : System) : List Time → System
  | [] => sys
  | time :: rest => ticks (tick sys time) rest

/-- The address of the demo client. -/
def demoClientAddress : Address := { valid := true, host := 1, port := 40000 }

/-- The address of the demo server. -/
def demoServerAddress : Address := { valid := true, host := 1, port := 50000 }

/-- A new client and a new server (salt 7); the client has called
`Connect( serverAddress, 0 )`. -/
def demoSystem : System :=
  { client := (Client.new.Connect demoServerAddress 0).1
    server := Server.new 7
    clientAddress := demoClientAddress
    serverAddress := demoServerAddress
    clientSendQueue := (Client.new.Connect demoServerAddress 0).2
    serverSendQueue := [] }

end Secure

/-- Modelled from the spec: the transitions a packet from the server address
may cause, as the specification lists them: Challenge in
SENDING_CONNECTION_REQUEST, Denied(SERVER_FULL) and Denied(ALREADY_CONNECTED)
in SENDING_CONNECTION_REQUEST, KeepAlive in SENDING_CHALLENGE_RESPONSE,
Disconnect in CONNECTED; every other pair keeps the state. -/
def specClientTransition : Secure.ClientState → Secure.Packet → Secure.ClientState
  | Secure.ClientState.CLIENT_STATE_SENDING_CONNECTION_REQUEST, Secure.Packet.ConnectionChallenge _ =>
    Secure.ClientState.CLIENT_STATE_SENDING_CHALLENGE_RESPONSE
  | Secure.ClientState.CLIENT_STATE_SENDING_CONNECTION_REQUEST,
    Secure.Packet.ConnectionDenied Secure.ConnectionDeniedReason.CONNECTION_DENIED_SERVER_FULL =>
    Secure.ClientState.CLIENT_STATE_CONNECTION_DENIED_FULL
  | Secure.ClientState.CLIENT_STATE_SENDING_CONNECTION_REQUEST,
    Secure.Packet.ConnectionDenied Secure.ConnectionDeniedReason.CONNECTION_DENIED_ALREADY_CONNECTED =>
    Secure.ClientState.CLIENT_STATE_CONNECTION_DENIED_ALREADY_CONNECTED
  | Secure.ClientState.CLIENT_STATE_SENDING_CHALLENGE_RESPONSE, Secure.Packet.ConnectionKeepAlive =>
    Secure.ClientState.CLIENT_STATE_CONNECTED
  | Secure.ClientState.CLIENT_STATE_CONNECTED, Secure.Packet.ConnectionDisconnect =>
    Secure.ClientState.CLIENT_STATE_DISCONNECTED
  | state, _ => state

/-- The demo client after `Connect( serverAddress, 0 )`. -/
def connectingClient : Secure.Client :=
  (Secure.Client.new.Connect Secure.demoServerAddress 0).1

/-- The demo client after `Connect( serverAddress, 0 )` and the arrival, at
time 0, of `ConnectionChallenge( 12345 )` from the server address. -/
def challengedClient : Secure.Client :=
  (connectingClient.receivePacket 0 Secure.demoServerAddress (Secure.Packet.ConnectionChallenge 12345)).1

/-- A client whose connection request was denied because the server is full. -/
def deniedClient : Secure.Client :=
  (connectingClient.receivePacket 0 Secure.demoServerAddress
    (Secure.Packet.ConnectionDenied Secure.ConnectionDeniedReason.CONNECTION_DENIED_SERVER_FULL)).1

/-- The demo client once connected: after `Connect( serverAddress, 0 )`, the
challenge and a keep-alive from the server address at time 0. -/
def connectedClient : Secure.Client :=
  (challengedClient.receivePacket 0 Secure.demoServerAddress Secure.Packet.ConnectionKeepAlive).1

/-- A new server (salt 7) on which `ConnectClient` was called, at time 0, for
each of the 32 slots: slot `i` holds the client of id `i` at port `i`. -/
def fullServer : Secure.Server :=
  (List.range Secure.MaxClients).foldl
    (fun s i => (s.ConnectClient i { valid := true, host := 2, port := i } i 0).1)
    (Secure.Server.new 7)

/-- A new server (salt 7) with one connected client: `ConnectClient` was
called for slot 0 with the demo client's address and client id 99 at time 0. -/
def oneClientServer : Secure.Server :=
  ((Secure.Server.new 7).ConnectClient 0 Secure.demoClientAddress 99 0).1

/-! ## The challenge table of the secure server -/

namespace Secure

/-- The source writes `0.1f` (seconds). -/
def ChallengeSendRate : Time := 100
/-- The source writes `10.0f` (seconds). -/
def ChallengeTimeOut : Time := 10000

/-- `Server::FindOrInsertChallenge` of the secure variant: the new server
state and the index of the entry returned (`none` for `NULL`).
`CalculateChallengeHashKey` stands for the function of that name, which rests
on `murmur_hash_64` of `protocol2.h` and on the printed form of the address,
both not part of the sources at hand; `generatedSalt` is what `GenerateSalt()`
returns when it is called. -/
def Server.FindOrInsertChallenge (CalculateChallengeHashKey : Address → Nat → Nat → Nat)
    (generatedSalt : Nat) (s : Server) (address : Address) (clientId : Nat) (time : Time) :
    Server × Option Nat :=
  let key := CalculateChallengeHashKey address clientId s.m_serverSalt
  let index := key % ChallengeHashSize
  if s.m_challengeHash.exists_ index = 0 ∨
      (s.m_challengeHash.exists_ index ≠ 0 ∧
        (s.m_challengeHash.entries index).create_time + ChallengeTimeOut < time) then
    ({ s with
       m_challengeHash :=
         { s.m_challengeHash with
           entries := Function.update s.m_challengeHash.entries index
             { client_id := clientId
               challenge_salt := generatedSalt
               last_packet_send_time := time - ChallengeSendRate * 2
               create_time := time
               address := address }
           exists_ := Function.update s.m_challengeHash.exists_ index 1 } },
     some index)
  else if s.m_challengeHash.exists_ index ≠ 0 ∧
      (s.m_challengeHash.entries index).client_id = clientId ∧
      (s.m_challengeHash.entries index).address = address then
    (s, some index)
  else (s, none)

end Secure

/-! ## The server of `006_client_server.cpp`

The non-secure variant. Addresses are those of the secure variant
(`network2::Address`); times are integers counting milliseconds. -/

namespace ClientServer

open Secure (Address)

def MaxClients : Nat := 32
/-- "keep this prime". -/
def ChallengeHashSize : Nat := 1031
/-- The source writes `0.1f` (seconds). -/
def ChallengeSendRate : Time := 100
/-- The source writes `10.0f` (seconds). -/
def ChallengeTimeOut : Time := 10000

structure ServerChallengeEntry where
  client_salt : Nat
  server_salt : Nat
  create_time : Time
  last_packet_send_time : Time
  address : Address
deriving DecidableEq

structure ServerChallengeHash where
  num_entries : Int
  exists_ : Nat → Nat
  entries : Nat → ServerChallengeEntry

/-- The fields of `Server`; an array is a function of the index. -/
structure Server where
  m_numConnectedClients : Int
  m_clientConnected : Nat → Bool
  m_clientSalt : Nat → Nat
  m_serverSalt : Nat → Nat
  m_clientAddress : Nat → Address
  m_clientLastPacketReceiveTime : Nat → Time
  m_challengeHash : ServerChallengeHash

namespace Server

/-- `Server::ResetClientState`; `-1000.0` seconds. -/
def ResetClientState (s : Server) (clientIndex : Nat) : Server :=
  { s with
    m_clientConnected := Function.update s.m_clientConnected clientIndex false
    m_clientSalt := Function.update s.m_clientSalt clientIndex 0
    m_serverSalt := Function.update s.m_serverSalt clientIndex 0
    m_clientAddress := Function.update s.m_clientAddress clientIndex Address.default
    m_clientLastPacketReceiveTime :=
      Function.update s.m_clientLastPacketReceiveTime clientIndex (-1000000) }

/-- `Server::AddClient`; the address parameter is not stored. -/
def AddClient (s : Server) (clientIndex : Nat) (_address : Address) (clientSalt serverSalt : Nat) :
    Server :=
  { s with
    m_numConnectedClients := s.m_numConnectedClients + 1
    m_clientConnected := Function.update s.m_clientConnected clientIndex true
    m_clientSalt := Function.update s.m_clientSalt clientIndex clientSalt
    m_serverSalt := Function.update s.m_serverSalt clientIndex serverSalt }

/-- `Server::IsConnected`. -/
def IsConnected (s : Server) (address : Address) : Bool :=
  (List.range MaxClients).any (fun i => s.m_clientConnected i && decide (s.m_clientAddress i = address))

/-- `Server::FindOrInsertChallenge`: the new server state and the index of the
entry returned (`none` for `NULL`). `CalculateChallengeHashKey` stands for the
function of that name, which rests on `murmur_hash_64` of `protocol2.h` and on
the printed form of the address, both not part of the sources at hand;
`generatedSalt` is what `GenerateSalt()` returns when it is called. -/
def FindOrInsertChallenge (CalculateChallengeHashKey : Address → Nat → Nat)
    (generatedSalt : Nat) (s : Server) (address : Address) (clientSalt : Nat) (time : Time) :
    Server × Option Nat :=
  if s.m_challengeHash.num_entries ≥ ((ChallengeHashSize / 4 : Nat) : Int) then (s, none)
  else
    let key := CalculateChallengeHashKey address clientSalt
    let index := key % ChallengeHashSize
    if s.m_challengeHash.exists_ index = 0 ∨
        (s.m_challengeHash.exists_ index ≠ 0 ∧
          (s.m_challengeHash.entries index).create_time + ChallengeTimeOut < time) then
      ({ s with
         m_challengeHash :=
           { s.m_challengeHash with
             entries := Function.update s.m_challengeHash.entries index
               { client_salt := clientSalt
                 server_salt := generatedSalt
                 last_packet_send_time := time - ChallengeSendRate * 2
                 create_time := time
                 address := address }
             exists_ := Function.update s.m_challengeHash.exists_ index 1 } },
       some index)
    else if s.m_challengeHash.exists_ index ≠ 0 ∧
        (s.m_challengeHash.entries index).client_salt = clientSalt ∧
        (s.m_challengeHash.entries index).address = address then
      (s, some index)
    else (s, none)

/-- `Server::Server`. The challenge hash is zero-filled (`memset`). -/
def new : Server :=
  { m_numConnectedClients := 0
    m_clientConnected := fun _ => false
    m_clientSalt := fun _ => 0
    m_serverSalt := fun _ => 0
    m_clientAddress := fun _ => Address.default
    m_clientLastPacketReceiveTime := fun _ => -1000000
    m_challengeHash :=
      { num_entries := 0
        exists_ := fun _ => 0
        entries := fun _ =>
          { client_salt := 0, server_salt := 0, create_time := 0, last_packet_send_time := 0,
            address := { valid := false, host := 0, port := 0 } } } }

/-- `Server::ProcessConnectionRequest`; `client_salt` is the field of the
packet. The three replies are "todo" comments in the source: nothing is sent. -/
def ProcessConnectionRequest (CalculateChallengeHashKey : Address → Nat → Nat)
    (generatedSalt : Nat) (s : Server) (client_salt : Nat) (address : Address) (time : Time) :
    Server :=
  if s.m_numConnectedClients = (MaxClients : Int) then s
  else if s.IsConnected address then s
  else
    match FindOrInsertChallenge CalculateChallengeHashKey generatedSalt s address client_salt time with
    | (s1, none) => s1
    | (s1, some index) =>
      if (s1.m_challengeHash.entries index).last_packet_send_time + ChallengeSendRate < time then
        { s1 with
          m_challengeHash :=
            { s1.m_challengeHash with
              entries := Function.update s1.m_challengeHash.entries index
                { s1.m_challengeHash.entries index with last_packet_send_time := time } } }
      else s1

end Server

/-- A connection request as it reaches the server: the client salt of the
packet, the address it came from, the time, and the salt `GenerateSalt()` would
return if called. -/
structure Request where
  client_salt : Nat
  address : Address
  time : Time
  generatedSalt : Nat

/-- The server after a sequence of connection requests. -/
def requests (CalculateChallengeHashKey : Address → Nat → Nat) : Server → List Request → Server
  | s, [] => s
  | s, r :: rest =>
    requests CalculateChallengeHashKey
      (s.ProcessConnectionRequest CalculateChallengeHashKey r.generatedSalt r.client_salt r.address
        r.time) rest

/-- The number of occupied slots of the challenge table. -/
def occupied (h : ServerChallengeHash) : Nat :=
  ((List.range ChallengeHashSize).filter (fun i => decide (h.exists_ i ≠ 0))).length

/-- A hash key for the examples: the port of the address plus the salt. -/
def portKey (address : Address) (clientSalt : Nat) : Nat := address.port + clientSalt

/-- 300 connection requests at time 0, request `k` from the address of port
`k` (distinct spoofed addresses), all with client salt 0. -/
def spoofedRequests : List Request :=
  (List.range 300).map
    (fun k => { client_salt := 0, address := { valid := true, host := 3, port := k }, time := 0,
                generatedSalt := 1000 + k })

end ClientServer

/-- A new non-secure server after one connection request at time 0 from the
demo client's address with client salt 5, for which `GenerateSalt()` returned
111. -/
def challengingServer : ClientServer.Server :=
  ClientServer.Server.new.ProcessConnectionRequest ClientServer.portKey 111 5
    Secure.demoClientAddress 0

/-! ## Connect tokens (`008_securing_dedicated_servers.cpp`) -/

/-- Modelled from the spec: the fixed-byte-array serializer (`serialize_bytes`
of `protocol2.h`) in write mode: eight bits per byte. Alignment padding is not
modelled. -/
def writeBytes (data : List Nat) : List Bool :=
  (data.map (writeBits 8)).flatten

/-- Modelled from the spec: the fixed-byte-array serializer in read mode:
`n` bytes, failing when the bits run out. -/
def readBytes : Nat → List Bool → Option (List Nat × List Bool)
  | 0, stream => some ([], stream)
  | n + 1, stream =>
    match readBits 8 stream with
    | none => none
    | some (b, rest) =>
      match readBytes n rest with
      | none => none
      | some (data, rest1) => some (b :: data, rest1)

/-- Modelled from the spec: the variable-length string serializer
(`serialize_string` of `protocol2.h`) in write mode, for a buffer of `size`
characters: the length, an integer between 0 and `size - 1`, then the
characters. -/
def writeString (bits_required : Nat → Nat → Nat) (size : Nat) (s : List Nat) : List Bool :=
  writeInt bits_required s.length 0 (size - 1) ++ writeBytes s

/-- Modelled from the spec: the variable-length string serializer in read
mode. -/
def readString (bits_required : Nat → Nat → Nat) (size : Nat) (stream : List Bool) :
    Option (List Nat × List Bool) :=
  match readInt bits_required 0 (size - 1) stream with
  | none => none
  | some (length, rest) => readBytes length rest

namespace Secure

def TokenBytes : Nat := 1024
def MaxServersPerToken : Nat := 8

/-- Modelled from the spec: `KeyBytes` of `yojimbo_crypto.h` ("Key size 32
bytes"). -/
def KeyBytes : Nat := 32

/-- `Token`; an array is a function of the index. -/
structure Token where
  protocol_id : Nat
  client_id : Nat
  expiry_timestamp : Nat
  num_server_addresses : Int
  server_address : Nat → Address
  client_to_server_key : Nat → Nat
  server_to_client_key : Nat → Nat

/-- `Token::Token`. -/
def Token.new : Token :=
  { protocol_id := 0, client_id := 0, expiry_timestamp := 0, num_server_addresses := 0,
    server_address := fun _ => Address.default,
    client_to_server_key := fun _ => 0, server_to_client_key := fun _ => 0 }

/-- `Token::Serialize` instantiated with a write stream: the bits written.
`ToString` is `Address::ToString` (the characters of the printed address); the
count is written with `serialize_int( .., 0, MaxServersPerToken - 1 )`. -/
def Token.SerializeWrite (bits_required : Nat → Nat → Nat) (ToString : Address → List Nat)
    (t : Token) : List Bool :=
  writeBits 32 t.protocol_id ++ writeBits 64 t.client_id ++ writeBits 64 t.expiry_timestamp ++
  writeInt bits_required t.num_server_addresses.toNat 0 (MaxServersPerToken - 1) ++
  ((List.range t.num_server_addresses.toNat).map
    (fun i => writeString bits_required 64 (ToString (t.server_address i)))).flatten ++
  writeBytes ((List.range KeyBytes).map t.client_to_server_key) ++
  writeBytes ((List.range KeyBytes).map t.server_to_client_key)

/-- The loop of `Token::Serialize` over the server addresses in read mode:
`n` addresses left, the next one being `i`. `parseAddress` is the constructor
`Address( buffer )`. `none`: the function returns false. -/
def Token.readAddresses (bits_required : Nat → Nat → Nat) (parseAddress : List Nat → Address) :
    Nat → Nat → (Nat → Address) → List Bool → Option ((Nat → Address) × List Bool)
  | 0, _, server_address, stream => some (server_address, stream)
  | n + 1, i, server_address, stream =>
    match readString bits_required 64 stream with
    | none => none
    | some (buffer, rest) =>
      if !(parseAddress buffer).IsValid then none
      else Token.readAddresses bits_required parseAddress n (i + 1)
             (Function.update server_address i (parseAddress buffer)) rest

/-- `Token::Serialize` instantiated with a read stream, on the token `t`:
the token as read, or `none` when the function returns false. -/
def Token.SerializeRead (bits_required : Nat → Nat → Nat) (parseAddress : List Nat → Address)
    (t : Token) (stream : List Bool) : Option Token :=
  match readBits 32 stream with
  | none => none
  | some (protocol_id, s1) =>
    match readBits 64 s1 with
    | none => none
    | some (client_id, s2) =>
      match readBits 64 s2 with
      | none => none
      | some (expiry_timestamp, s3) =>
        match readInt bits_required 0 (MaxServersPerToken - 1) s3 with
        | none => none
        | some (num_server_addresses, s4) =>
          match Token.readAddresses bits_required parseAddress num_server_addresses 0
              t.server_address s4 with
          | none => none
          | some (server_address, s5) =>
            match readBytes KeyBytes s5 with
            | none => none
            | some (client_to_server_key, s6) =>
              match readBytes KeyBytes s6 with
              | none => none
              | some (server_to_client_key, _) =>
                some { protocol_id := protocol_id
                       client_id := client_id
                       expiry_timestamp := expiry_timestamp
                       num_server_addresses := (num_server_addresses : Int)
                       server_address := server_address
                       client_to_server_key := fun i => client_to_server_key.getD i 0
                       server_to_client_key := fun i => server_to_client_key.getD i 0 }

/-- `EncryptToken`: the encrypted message, or `none` when the function returns
false. The message buffer holds `TokenBytes` zero bytes into which the token
is written; writing beyond it is a stream error. `Encrypt_AEAD` is the
primitive of `yojimbo_crypto.h`, applied to the message, the additional data,
the nonce and the key (`none` when it fails). -/
def EncryptToken (bits_required : Nat → Nat → Nat) (ToString : Address → List Nat)
    (Encrypt_AEAD : List Bool → List Nat → Nat → List Nat → Option (List Bool))
    (token : Token) (additional : List Nat) (nonce : Nat) (key : List Nat) : Option (List Bool) :=
  let bits := token.SerializeWrite bits_required ToString
  if bits.length > TokenBytes * 8 then none
  else Encrypt_AEAD (bits ++ List.replicate (TokenBytes * 8 - bits.length) false) additional nonce key

/-- `DecryptToken`: the token read into `decryptedToken`, or `none` when the
function returns false. `Decrypt_AEAD` is the primitive of `yojimbo_crypto.h`
(`none` when it fails). -/
def DecryptToken (bits_required : Nat → Nat → Nat) (parseAddress : List Nat → Address)
    (Decrypt_AEAD : List Bool → List Nat → Nat → List Nat → Option (List Bool))
    (encryptedMessage : List Bool) (decryptedToken : Token) (additional : List Nat) (nonce : Nat)
    (key : List Nat) : Option Token :=
  match Decrypt_AEAD encryptedMessage additional nonce key with
  | none => none
  | some message => Token.SerializeRead bits_required parseAddress decryptedToken message

/-- A printed form for the examples: two characters, host + 1 and port + 1. -/
def demoToString (a : Address) : List Nat := [a.host + 1, a.port + 1]

/-- The address constructor for the examples: reads back `demoToString`;
anything else gives an invalid address. -/
def demoParseAddress : List Nat → Address
  | [h, p] => if 0 < h ∧ 0 < p then { valid := true, host := h - 1, port := p - 1 } else Address.default
  | _ => Address.default

/-- A stand-in for the AEAD in the examples: sealing and opening leave the
message as it is. -/
def demoSeal (message : List Bool) (_additional : List Nat) (_nonce : Nat) (_key : List Nat) :
    Option (List Bool) := some message

/-- A token for `n` server addresses (host 1, ports 0 .. n - 1), client id 77,
with keys of bytes 1 and 2. -/
def demoToken (n : Nat) : Token :=
  { protocol_id := 305403473
    client_id := 77
    expiry_timestamp := 1000
    num_server_addresses := n
    server_address := fun i => { valid := true, host := 1, port := i }
    client_to_server_key := fun _ => 1
    server_to_client_key := fun _ => 2 }

end Secure

/-! ## Token equality, assertions and reachable states of the servers -/

namespace Secure

/-- `Token::operator ==`: the four scalar fields, then the first
`num_server_addresses` server addresses; the function then returns true. -/
def Token.eq (t other : Token) : Bool :=
  if t.protocol_id ≠ other.protocol_id then false
  else if t.client_id ≠ other.client_id then false
  else if t.expiry_timestamp ≠ other.expiry_timestamp then false
  else if t.num_server_addresses ≠ other.num_server_addresses then false
  else (List.range t.num_server_addresses.toNat).all
         (fun i => decide (t.server_address i = other.server_address i))

/-- `Token::operator !=`. -/
def Token.ne (t other : Token) : Bool := !(t.eq other)

/-- The token `demoToken 1` with other keys (bytes 9 and 8). -/
def rekeyedToken : Token :=
  { demoToken 1 with client_to_server_key := fun _ => 9, server_to_client_key := fun _ => 8 }

/-- The three assertions at the head of `Server::ConnectClient`. -/
def Server.ConnectClientAsserts (s : Server) (clientIndex : Nat) : Bool :=
  decide (s.m_numConnectedClients ≥ 0) &&
  decide (s.m_numConnectedClients < (MaxClients : Int) - 1) &&
  !s.m_clientConnected clientIndex

/-- The number of slots whose `m_clientConnected` is true. -/
def Server.connectedCount (s : Server) : Nat :=
  (List.range MaxClients).countP s.m_clientConnected

/-- The states of the secure server: a new server, then `ConnectClient` on a
free slot, `DisconnectClient` on a connected slot, `ReceivePackets` on any
queue of packets, `CheckForTimeOut` and `SendPackets`, at any times. -/
inductive Server.Reachable : Server → Prop where
  | init (serverSalt : Nat) : Server.Reachable (Server.new serverSalt)
  | connect {s : Server} (clientIndex : Nat) (address : Address) (clientId : Nat) (time : Time) :
      Server.Reachable s → clientIndex < MaxClients → s.m_clientConnected clientIndex = false →
      Server.Reachable (s.ConnectClient clientIndex address clientId time).1
  | disconnect {s : Server} (clientIndex : Nat) (time : Time) :
      Server.Reachable s → clientIndex < MaxClients → s.m_clientConnected clientIndex = true →
      Server.Reachable (s.DisconnectClient clientIndex time).1
  | receive {s : Server} (time : Time) (queue : List (Address × Packet)) :
      Server.Reachable s → Server.Reachable (Server.ReceivePackets time s queue).1
  | timeOut {s : Server} (time : Time) :
      Server.Reachable s → Server.Reachable (s.CheckForTimeOut time).1
  | send {s : Server} (time : Time) :
      Server.Reachable s → Server.Reachable (s.SendPackets time).1

end Secure

/-- The three assertions at the head of `Server::AddClient` of the non-secure
server. -/
def ClientServer.Server.AddClientAsserts (s : ClientServer.Server) (clientIndex : Nat) : Bool :=
  decide (s.m_numConnectedClients ≥ 0) &&
  decide (s.m_numConnectedClients < (ClientServer.MaxClients : Int) - 1) &&
  !s.m_clientConnected clientIndex

/-- A new secure server (salt 7) on which `ConnectClient` was called, at time
0, for the slots 0 to 30: 31 connected clients, slot 31 free. -/
def almostFullServer : Secure.Server :=
  (List.range 31).foldl
    (fun s i => (s.ConnectClient i { valid := true, host := 2, port := i } i 0).1)
    (Secure.Server.new 7)

/-- A new non-secure server on which `AddClient` was called for the slots 0 to
30: 31 connected clients, slot 31 free. -/
def almostFullPlainServer : ClientServer.Server :=
  (List.range 31).foldl
    (fun s i => s.AddClient i { valid := true, host := 2, port := i } i (100 + i))
    ClientServer.Server.new

/-- A new non-secure server on which `AddClient` was called once, for slot 0,
with the demo client's address, client salt 5 and server salt 111. -/
def plainServerWithClient : ClientServer.Server :=
  ClientServer.Server.new.AddClient 0 Secure.demoClientAddress 5 111

/-- A secure server with two clients: slot 1 connected at time 0 (address of
port 1), slot 0 connected at 0.5 s (address of port 0). At 1 s the client of
slot 1 is due for a keep-alive, the client of slot 0 is not. -/
def staggeredServer : Secure.Server :=
  (((Secure.Server.new 7).ConnectClient 1 { valid := true, host := 2, port := 1 } 11 0).1.ConnectClient
    0 { valid := true, host := 2, port := 0 } 10 500).1

/-- The same two clients in the other slots: the client connected at time 0 in
slot 0, the client connected at 0.5 s in slot 1. -/
def staggeredServerSwapped : Secure.Server :=
  (((Secure.Server.new 7).ConnectClient 0 { valid := true, host := 2, port := 1 } 11 0).1.ConnectClient
    1 { valid := true, host := 2, port := 0 } 10 500).1

/-- The connected count equals the number of connected slots. -/
def Secure.CountOk (s : Secure.Server) : Prop :=
  s.m_numConnectedClients = (s.connectedCount : Int)

/-! ## Sent packets and the messages they carried -/

/-- How many packets have been written after the packet of sequence `s`, when
the next packet will carry `S` (modulo 2^16). -/
def SentAge (S s : Nat) : Nat := (S + 65536 - 1 - s) % 65536

/-- How many messages have been sent since the send cursor stood at `sid`,
when it stands at `M` (modulo 2^16). -/
def SentSince (M sid : Nat) : Nat := (M + 65536 - sid) % 65536

/-- Among the `n` ids from `sid` on, the number of those the send queue does
not hold. -/
def absentCount (q : SequenceBuffer MessageSendQueueEntry MessageSendQueueSize) (sid n : Nat) :
    Nat :=
  (List.range n).countP (fun j => (q.Find ((sid + j) % 65536)).isNone)

/-- Among the `a` packets written last before the one that will carry `S`, the
number of those whose sent-packets entry has the `acked` flag set. -/
def ackedCount (b : SequenceBuffer SentPacketData SlidingWindowSize) (S a : Nat) : Nat :=
  (List.range a).countP
    (fun k => decide ((b.entries ((S + 65536 - 1 - k) % 65536 % SlidingWindowSize)).acked ≠ 0))

/-- The invariant that ties the sent packets to the send queue. `sid k` is the
value `m_sendMessageId` had when the packet of slot `k` was written and `car k`
are the messages that were placed in that packet (`packet->messages`); both are
history, not state. The two sent-packet buffers hold the same sequences, the
last ones written without a gap; every id in the send queue is at most
`MessageSendQueueSize` behind the send cursor; a live packet lists at most
`MaxMessagesPerPacket` ids, each at most `MessageSendQueueSize` behind the
cursor of its time; of the ids sent since a live packet was written, at most 64
per acked later packet have left the send queue; and the send-queue entry
found under an id a live packet lists holds the message placed in the packet. -/
structure AckInv (c : Connection) (sid : Nat → Nat) (car : Nat → List Nat) : Prop where
  seq : c.sentPackets.sequence < 65536
  lock : c.messageSentPackets.sequence = c.sentPackets.sequence ∧
    ∀ k, c.messageSentPackets.sequence_of_slot k = c.sentPackets.sequence_of_slot k
  live : ∀ k s, c.sentPackets.sequence_of_slot k = some s →
    s < 65536 ∧ k = s % SlidingWindowSize ∧ SentAge c.sentPackets.sequence s < SlidingWindowSize ∧
    ∀ a, a < SentAge c.sentPackets.sequence s →
      c.sentPackets.sequence_of_slot
          ((c.sentPackets.sequence + 65536 - 1 - a) % 65536 % SlidingWindowSize)
        = some ((c.sentPackets.sequence + 65536 - 1 - a) % 65536)
  sendq : c.sendMessageId < 65536 ∧
    ∀ j x, c.messageSendQueue.sequence_of_slot j = some x →
      x < 65536 ∧ j = x % MessageSendQueueSize ∧
      (c.sendMessageId + 65536 - x) % 65536 ≤ MessageSendQueueSize ∧
      (c.error = ConnectionError.CONNECTION_ERROR_NONE → x ≠ c.sendMessageId)
  entry : ∀ k s, c.sentPackets.sequence_of_slot k = some s →
    (c.messageSentPackets.entries k).messageIds = k * MaxMessagesPerPacket ∧
    (c.messageSentPackets.entries k).numMessageIds ≤ MaxMessagesPerPacket ∧
    (c.messageSentPackets.entries k).numMessageIds = (car k).length ∧
    sid k < 65536 ∧
    ∀ i, i < (c.messageSentPackets.entries k).numMessageIds →
      c.sentPacketMessageIds (k * MaxMessagesPerPacket + i) < 65536 ∧
      1 ≤ (sid k + 65536 - c.sentPacketMessageIds (k * MaxMessagesPerPacket + i)) % 65536 ∧
      (sid k + 65536 - c.sentPacketMessageIds (k * MaxMessagesPerPacket + i)) % 65536
        ≤ MessageSendQueueSize
  order : ∀ k s k1 s1, c.sentPackets.sequence_of_slot k = some s →
    c.sentPackets.sequence_of_slot k1 = some s1 →
    SentAge c.sentPackets.sequence s ≤ SentAge c.sentPackets.sequence s1 →
    SentSince c.sendMessageId (sid k) ≤ SentSince c.sendMessageId (sid k1)
  count : ∀ k s, c.sentPackets.sequence_of_slot k = some s →
    absentCount c.messageSendQueue (sid k) (SentSince c.sendMessageId (sid k))
      ≤ 64 * ackedCount c.sentPackets c.sentPackets.sequence (SentAge c.sentPackets.sequence s)
  carried : ∀ k s, c.sentPackets.sequence_of_slot k = some s →
    ∀ i q, i < (car k).length →
      c.messageSendQueue.Find (c.sentPacketMessageIds (k * MaxMessagesPerPacket + i)) = some q →
      (car k)[i]? = some q.message

/-- The packet of sequence 0 has been written with the messages at addresses 1
and 2; a third message (address 3) was sent afterwards and written into the
packet of sequence 1. -/
def writtenAgain : World :=
  afterOps writtenTwo [Op.sendMessage 3, Op.writePacket true]

/-! # Theorems -/

/-! ## Sequence buffers -/

theorem SequenceBuffer.Find_eq_some {T : Type} {size : Nat} (b : SequenceBuffer T size)
    (s : Nat) (e : T) :
    b.Find s = some e ↔ b.sequence_of_slot (s % size) = some s ∧ b.entries (s % size) = e := by
  unfold SequenceBuffer.Find
  split <;> simp_all

theorem SequenceBuffer.Find_eq_none {T : Type} {size : Nat} (b : SequenceBuffer T size)
    (s : Nat) :
    b.Find s = none ↔ b.sequence_of_slot (s % size) ≠ some s := by
  unfold SequenceBuffer.Find
  split <;> simp_all

theorem SequenceBuffer.Find_isSome {T : Type} {size : Nat} (b : SequenceBuffer T size)
    (s : Nat) :
    (b.Find s).isSome = true ↔ b.sequence_of_slot (s % size) = some s := by
  unfold SequenceBuffer.Find
  split <;> simp_all

/-! ## The heap keeps message ids -/

theorem Heap.AddRef_id (h : Heap) (p q : Nat) : (h.AddRef p q).id = (h q).id := by
  unfold Heap.AddRef
  by_cases hq : q = p
  · subst hq; simp [Message.AddRef]
  · simp [Function.update_noteq hq]

theorem Heap.Release_id (h : Heap) (p q : Nat) : (h.Release p q).id = (h q).id := by
  unfold Heap.Release
  by_cases hq : q = p
  · subst hq
    simp only [Function.update_same, Message.Release]
    split <;> rfl
  · simp [Function.update_noteq hq]

/-! ## The receive window -/

theorem recv_insert (c : Connection) (hinv : ReceiveQueueInv c) (id : Nat) (hid : id < 65536)
    (hx : (id + 65536 - c.receiveMessageId) % 65536 < 1024) :
    ∃ q, c.messageReceiveQueue.Insert id = some (q, id % MessageReceiveQueueSize) ∧
      q.entries = c.messageReceiveQueue.entries ∧
      q.sequence_of_slot =
        Function.update c.messageReceiveQueue.sequence_of_slot (id % MessageReceiveQueueSize) (some id) ∧
      q.sequence < 65536 ∧
      (q.sequence + 65536 - c.receiveMessageId) % 65536 ≤ MessageReceiveQueueSize ∧
      (c.messageReceiveQueue.sequence + 65536 - c.receiveMessageId) % 65536 ≤
        (q.sequence + 65536 - c.receiveMessageId) % 65536 ∧
      (id + 65536 - c.receiveMessageId) % 65536 < (q.sequence + 65536 - c.receiveMessageId) % 65536 := by
  obtain ⟨hR, hQ, hD, hslots⟩ := hinv
  simp only [MessageReceiveQueueSize] at hD hslots ⊢
  unfold SequenceBuffer.Insert
  have hrej : sequence_less_than id ((c.messageReceiveQueue.sequence + 65536 - 1024) % 65536) = false := by
    simp only [sequence_less_than, decide_eq_false_iff_not]
    omega
  simp only [MessageReceiveQueueSize, hrej, Bool.false_eq_true, if_false]
  by_cases hadv : id = c.messageReceiveQueue.sequence ∨
      sequence_greater_than id c.messageReceiveQueue.sequence = true
  · simp only [hadv, if_true]
    have hadv2 : (c.messageReceiveQueue.sequence + 65536 - c.receiveMessageId) % 65536 ≤
        (id + 65536 - c.receiveMessageId) % 65536 := by
      rcases hadv with h | h
      · subst h; exact le_refl _
      · simp only [sequence_greater_than, sequence_less_than, decide_eq_true_eq] at h
        omega
    have hkeep : (fun i => match c.messageReceiveQueue.sequence_of_slot i with
          | none => none
          | some q => if SequenceBuffer.inWindow 1024 ((id + 1) % 65536) q = true then some q else none)
        = c.messageReceiveQueue.sequence_of_slot := by
      funext i
      cases hs : c.messageReceiveQueue.sequence_of_slot i with
      | none => rfl
      | some q =>
        obtain ⟨hq, _, hy⟩ := hslots i q hs
        have : SequenceBuffer.inWindow 1024 ((id + 1) % 65536) q = true := by
          simp only [SequenceBuffer.inWindow, decide_eq_true_eq]
          omega
        simp [this]
    refine ⟨_, rfl, rfl, ?_, ?_, ?_, ?_, ?_⟩
    · simp only [hkeep]
    · show (id + 1) % 65536 < 65536
      omega
    · show ((id + 1) % 65536 + 65536 - c.receiveMessageId) % 65536 ≤ 1024
      omega
    · show _ ≤ ((id + 1) % 65536 + 65536 - c.receiveMessageId) % 65536
      omega
    · show _ < ((id + 1) % 65536 + 65536 - c.receiveMessageId) % 65536
      omega
  · simp only [hadv, if_false]
    have hlt : (id + 65536 - c.receiveMessageId) % 65536 <
        (c.messageReceiveQueue.sequence + 65536 - c.receiveMessageId) % 65536 := by
      simp only [not_or, sequence_greater_than, sequence_less_than, decide_eq_true_eq] at hadv
      omega
    exact ⟨_, rfl, rfl, rfl, hQ, hD, le_refl _, hlt⟩

theorem recv_window_iff (R id : Nat) (hR : R < 65536) (hid : id < 65536) :
    (sequence_less_than id R = false ∧
      sequence_greater_than id ((R + MessageReceiveQueueSize - 1) % 65536) = false) ↔
    (id + 65536 - R) % 65536 < 1024 := by
  simp only [sequence_greater_than, sequence_less_than, MessageReceiveQueueSize,
    decide_eq_false_iff_not]
  omega

theorem Message.GetId_lt (m : Message) : m.GetId < 65536 := by
  unfold Message.GetId
  omega

theorem Message.GetId_congr {m1 m2 : Message} (h : m1.id = m2.id) : m1.GetId = m2.GetId := by
  unfold Message.GetId
  rw [h]

/-- What the loop of `ProcessPacketMessages` does to a state that satisfies the
receive-window invariant: it does not fault, touches only the receive queue and
reference counts, keeps what was stored, stores every message of the packet
that falls in the window, and raises the flag exactly for the messages that
are not older than the cursor and beyond the window. -/
theorem processPacketMessagesLoop_spec (R : Nat) :
    ∀ (msgs : List Nat) (w : World) (early : Bool),
      w.conn.receiveMessageId = R → ReceiveQueueInv w.conn →
      ∃ w1 early1,
        processPacketMessagesLoop R ((R + MessageReceiveQueueSize - 1) % 65536) msgs w early
          = some (w1, early1) ∧
        ReceiveQueueInv w1.conn ∧ (ReceiveQueueIdsOk w → ReceiveQueueIdsOk w1) ∧
        w1.conn = { w.conn with messageReceiveQueue := w1.conn.messageReceiveQueue } ∧
        w1.packetAcked = w.packetAcked ∧
        (∀ p, (w1.heap p).id = (w.heap p).id) ∧
        (∀ i q, w.conn.messageReceiveQueue.sequence_of_slot i = some q →
          w1.conn.messageReceiveQueue.sequence_of_slot i = some q) ∧
        (∀ m ∈ msgs, ((w.heap m).GetId + 65536 - R) % 65536 < 1024 →
          w1.conn.messageReceiveQueue.sequence_of_slot ((w.heap m).GetId % MessageReceiveQueueSize)
            = some (w.heap m).GetId) ∧
        (∀ i q, w1.conn.messageReceiveQueue.sequence_of_slot i = some q →
          w.conn.messageReceiveQueue.sequence_of_slot i = some q ∨
          ∃ m ∈ msgs, (w.heap m).GetId = q) ∧
        (early1 = true ↔ early = true ∨
          ∃ m ∈ msgs, sequence_less_than (w.heap m).GetId R = false ∧
            sequence_greater_than (w.heap m).GetId ((R + MessageReceiveQueueSize - 1) % 65536) = true) := by
  intro msgs
  induction msgs with
  | nil =>
    intro w early _ hinv
    exact ⟨w, early, rfl, hinv, fun h => h, rfl, rfl, fun _ => rfl, fun _ _ h => h,
      fun m hm => absurd hm (List.not_mem_nil m), fun _ _ h => Or.inl h, by simp⟩
  | cons m rest ih =>
    intro w early hR hinv
    have hRlt : R < 65536 := hR ▸ hinv.1
    have hidlt := (w.heap m).GetId_lt
    unfold processPacketMessagesLoop
    by_cases h1 : sequence_less_than (w.heap m).GetId R = true
    · -- already delivered
      simp only [h1, if_true]
      obtain ⟨w1, e1, hrun, hi1, hi2, hfr, hlog, hid, hkeep, hins, hfrom, hearly⟩ := ih w early hR hinv
      refine ⟨w1, e1, hrun, hi1, hi2, hfr, hlog, hid, hkeep, ?_, ?_, ?_⟩
      · intro m' hm' hx
        rcases List.mem_cons.mp hm' with hm' | hm'
        · subst hm'
          have := (recv_window_iff R _ hRlt hidlt).mpr hx
          rw [h1] at this
          exact absurd this.1 (by simp)
        · exact hins m' hm' hx
      · intro i q hq
        rcases hfrom i q hq with h | ⟨m', hm', h⟩
        · exact Or.inl h
        · exact Or.inr ⟨m', List.mem_cons_of_mem _ hm', h⟩
      · rw [hearly]
        constructor
        · rintro (h | ⟨m', hm', h⟩)
          · exact Or.inl h
          · exact Or.inr ⟨m', List.mem_cons_of_mem _ hm', h⟩
        · rintro (h | ⟨m', hm', h⟩)
          · exact Or.inl h
          · rcases List.mem_cons.mp hm' with hm' | hm'
            · subst hm'; rw [h1] at h; exact absurd h.1 (by simp)
            · exact Or.inr ⟨m', hm', h⟩
    · simp only [h1, Bool.false_eq_true, if_false]
      have h1f : sequence_less_than (w.heap m).GetId R = false := by simpa using h1
      by_cases h2 : sequence_greater_than (w.heap m).GetId
          ((R + MessageReceiveQueueSize - 1) % 65536) = true
      · -- early message
        simp only [h2, if_true]
        obtain ⟨w1, e1, hrun, hi1, hi2, hfr, hlog, hid, hkeep, hins, hfrom, hearly⟩ := ih w true hR hinv
        refine ⟨w1, e1, hrun, hi1, hi2, hfr, hlog, hid, hkeep, ?_, ?_, ?_⟩
        · intro m' hm' hx
          rcases List.mem_cons.mp hm' with hm' | hm'
          · subst hm'
            have := (recv_window_iff R _ hRlt hidlt).mpr hx
            rw [h2] at this
            exact absurd this.2 (by simp)
          · exact hins m' hm' hx
        · intro i q hq
          rcases hfrom i q hq with h | ⟨m', hm', h⟩
          · exact Or.inl h
          · exact Or.inr ⟨m', List.mem_cons_of_mem _ hm', h⟩
        · rw [hearly]
          constructor
          · intro _
            exact Or.inr ⟨m, List.mem_cons_self _ _, h1f, h2⟩
          · intro _
            exact Or.inl rfl
      · simp only [h2, Bool.false_eq_true, if_false]
        have h2f : sequence_greater_than (w.heap m).GetId
            ((R + MessageReceiveQueueSize - 1) % 65536) = false := by simpa using h2
        have hx := (recv_window_iff R _ hRlt hidlt).mp ⟨h1f, h2f⟩
        have hearly_head : ∀ (P : Prop), (P ∨ ∃ m' ∈ m :: rest,
              sequence_less_than (w.heap m').GetId R = false ∧
              sequence_greater_than (w.heap m').GetId ((R + MessageReceiveQueueSize - 1) % 65536) = true) ↔
            (P ∨ ∃ m' ∈ rest,
              sequence_less_than (w.heap m').GetId R = false ∧
              sequence_greater_than (w.heap m').GetId ((R + MessageReceiveQueueSize - 1) % 65536) = true) := by
          intro P
          constructor
          · rintro (h | ⟨m', hm', h⟩)
            · exact Or.inl h
            · rcases List.mem_cons.mp hm' with hm' | hm'
              · subst hm'; rw [h2f] at h; exact absurd h.2 (by simp)
              · exact Or.inr ⟨m', hm', h⟩
          · rintro (h | ⟨m', hm', h⟩)
            · exact Or.inl h
            · exact Or.inr ⟨m', List.mem_cons_of_mem _ hm', h⟩
        by_cases h3 : (w.conn.messageReceiveQueue.Find (w.heap m).GetId).isSome = true
        · -- duplicate
          simp only [h3, if_true]
          obtain ⟨w1, e1, hrun, hi1, hi2, hfr, hlog, hid, hkeep, hins, hfrom, hearly⟩ := ih w early hR hinv
          refine ⟨w1, e1, hrun, hi1, hi2, hfr, hlog, hid, hkeep, ?_, ?_, ?_⟩
          · intro m' hm' hx'
            rcases List.mem_cons.mp hm' with hm' | hm'
            · subst hm'
              exact hkeep _ _ ((SequenceBuffer.Find_isSome _ _).mp h3)
            · exact hins m' hm' hx'
          · intro i q hq
            rcases hfrom i q hq with h | ⟨m', hm', h⟩
            · exact Or.inl h
            · exact Or.inr ⟨m', List.mem_cons_of_mem _ hm', h⟩
          · rw [hearly]; exact (hearly_head _).symm
        · simp only [h3, Bool.false_eq_true, if_false]
          obtain ⟨q, hq, hent, hslot, hqlt, hD, hDmono, hxD⟩ :=
            recv_insert w.conn hinv (w.heap m).GetId hidlt (hR ▸ hx)
          rw [hq]
          simp only []
          -- the state after the insertion
          have hinv' : ReceiveQueueInv
              ({ w.conn with
                 messageReceiveQueue :=
                   (q.setEntry ((w.heap m).GetId % MessageReceiveQueueSize) { message := m }) }) := by
            refine ⟨hinv.1, hqlt, hD, ?_⟩
            intro i s hs
            simp only [SequenceBuffer.setEntry, hslot] at hs
            by_cases hi : i = (w.heap m).GetId % MessageReceiveQueueSize
            · subst hi
              simp only [Function.update_same, Option.some.injEq] at hs
              subst hs
              exact ⟨hidlt, rfl, hxD⟩
            · rw [Function.update_noteq hi] at hs
              obtain ⟨a, b, c⟩ := hinv.2.2.2 i s hs
              exact ⟨a, b, lt_of_lt_of_le c hDmono⟩
          have hids' : ReceiveQueueIdsOk w → ReceiveQueueIdsOk
              { w with
                conn := { w.conn with
                          messageReceiveQueue :=
                            (q.setEntry ((w.heap m).GetId % MessageReceiveQueueSize) { message := m }) }
                heap := w.heap.AddRef m } := by
            intro hids i s hs
            simp only [SequenceBuffer.setEntry, hslot, hent] at hs ⊢
            by_cases hi : i = (w.heap m).GetId % MessageReceiveQueueSize
            · subst hi
              simp only [Function.update_same, Option.some.injEq] at hs ⊢
              rw [← hs]
              exact Message.GetId_congr (Heap.AddRef_id _ _ _)
            · rw [Function.update_noteq hi] at hs ⊢
              rw [← hids i s hs]
              exact Message.GetId_congr (Heap.AddRef_id _ _ _)
          obtain ⟨w1, e1, hrun, hi1, hi2, hfr, hlog, hid, hkeep, hins, hfrom, hearly⟩ :=
            ih { w with
                 conn := { w.conn with
                           messageReceiveQueue :=
                             (q.setEntry ((w.heap m).GetId % MessageReceiveQueueSize) { message := m }) }
                 heap := w.heap.AddRef m } early hR hinv'
          have hidw : ∀ p, ((w.heap.AddRef m) p).GetId = (w.heap p).GetId :=
            fun p => Message.GetId_congr (Heap.AddRef_id _ _ _)
          refine ⟨w1, e1, hrun, hi1, fun h => hi2 (hids' h), ?_, hlog, ?_, ?_, ?_, ?_, ?_⟩
          · rw [hfr]
          · intro p; rw [hid p]; exact Heap.AddRef_id _ _ _
          · intro i s hs
            apply hkeep
            simp only [SequenceBuffer.setEntry, hslot]
            by_cases hi : i = (w.heap m).GetId % MessageReceiveQueueSize
            · subst hi
              obtain ⟨a, b, c⟩ := hinv.2.2.2 _ s hs
              simp only [Function.update_same, Option.some.injEq]
              have hRR := hinv.1
              simp only [MessageReceiveQueueSize] at b hD hDmono hxD c
              have := hinv.2.2.1
              simp only [MessageReceiveQueueSize] at this
              rw [hR] at c this
              omega
            · rw [Function.update_noteq hi]; exact hs
          · intro m' hm' hx'
            rcases List.mem_cons.mp hm' with hm' | hm'
            · subst hm'
              apply hkeep
              simp only [SequenceBuffer.setEntry, hslot, Function.update_same]
            · have := hins m' hm' (by rw [hidw]; exact hx')
              rw [hidw] at this
              exact this
          · intro i s hs
            rcases hfrom i s hs with h | ⟨m', hm', h⟩
            · simp only [SequenceBuffer.setEntry, hslot] at h
              by_cases hi : i = (w.heap m).GetId % MessageReceiveQueueSize
              · subst hi
                simp only [Function.update_same, Option.some.injEq] at h
                exact Or.inr ⟨m, List.mem_cons_self _ _, h⟩
              · rw [Function.update_noteq hi] at h; exact Or.inl h
            · rw [hidw] at h
              exact Or.inr ⟨m', List.mem_cons_of_mem _ hm', h⟩
          · rw [hearly]
            simp only [hidw]
            exact (hearly_head _).symm

/-! ## What ack processing leaves alone -/

theorem AckFrame.refl (w : World) : AckFrame w w :=
  ⟨rfl, rfl, rfl, rfl, rfl, rfl, rfl, rfl, rfl, rfl, rfl, rfl, rfl, fun _ => Or.inl rfl, fun _ => rfl⟩

theorem AckFrame.trans {w w1 w2 : World} (h1 : AckFrame w w1) (h2 : AckFrame w1 w2) :
    AckFrame w w2 := by
  obtain ⟨a1, a2, a3, a4, a5, a6, a7, a8, a9, a10, a11, a12, a13, a14, a15⟩ := h1
  obtain ⟨b1, b2, b3, b4, b5, b6, b7, b8, b9, b10, b11, b12, b13, b14, b15⟩ := h2
  refine ⟨b1.trans a1, b2.trans a2, b3.trans a3, b4.trans a4, b5.trans a5, b6.trans a6,
    b7.trans a7, b8.trans a8, b9.trans a9, b10.trans a10, b11.trans a11, b12.trans a12,
    b13.trans a13, ?_, fun p => (b15 p).trans (a15 p)⟩
  intro i
  rcases b14 i with h | h
  · rw [h]; exact a14 i
  · exact Or.inr h

theorem processMessageAckLoop_frame (offset : Nat) :
    ∀ (ids : List Nat) (w : World), AckFrame w (processMessageAckLoop offset ids w) := by
  intro ids
  induction ids with
  | nil => intro w; exact AckFrame.refl w
  | cons i rest ih =>
    intro w
    unfold processMessageAckLoop
    cases hf : w.conn.messageSendQueue.Find (w.conn.sentPacketMessageIds (offset + i)) with
    | none => simpa [hf] using ih w
    | some e =>
      simp only [hf]
      refine AckFrame.trans ?_ (ih _)
      refine ⟨rfl, rfl, rfl, rfl, rfl, rfl, rfl, rfl, rfl, rfl, rfl, rfl, rfl, ?_, ?_⟩
      · intro j
        simp only [SequenceBuffer.Remove]
        by_cases hj : j = w.conn.sentPacketMessageIds (offset + i) % MessageSendQueueSize
        · subst hj; right; simp
        · left; simp [Function.update_noteq hj]
      · intro p; exact Heap.Release_id _ _ _

theorem ProcessMessageAck_frame (w : World) (ack : Nat) : AckFrame w (ProcessMessageAck w ack) := by
  unfold ProcessMessageAck
  split
  · exact AckFrame.refl w
  · split
    · exact AckFrame.refl w
    · rename_i e _ _
      exact AckFrame.trans (processMessageAckLoop_frame e.messageIds (List.range e.numMessageIds) w)
        ⟨rfl, rfl, rfl, rfl, rfl, rfl, rfl, rfl, rfl, rfl, rfl, rfl, rfl,
          fun _ => Or.inl rfl, fun _ => rfl⟩

theorem PacketAcked_frame (w : World) (s : Nat) : AckFrame w (PacketAcked w s) := by
  unfold PacketAcked
  refine AckFrame.trans (ProcessMessageAck_frame w s) ?_
  exact ⟨rfl, rfl, rfl, rfl, rfl, rfl, rfl, rfl, rfl, rfl, rfl, rfl, rfl,
    fun _ => Or.inl rfl, fun _ => rfl⟩

theorem processAcksStep_frame (ack i bits : Nat) (w : World) :
    AckFrame w (processAcksStep ack i bits w) := by
  unfold processAcksStep
  by_cases hb : bits % 2 = 1
  · simp only [hb, if_true]
    cases hf : w.conn.sentPackets.Find ((ack + 65536 - i) % 65536) with
    | none => exact AckFrame.refl w
    | some d =>
      by_cases ha : d.acked = 0
      · simp only [ha, if_true]
        exact AckFrame.trans (PacketAcked_frame w ((ack + 65536 - i) % 65536))
          ⟨rfl, rfl, rfl, rfl, rfl, rfl, rfl, rfl, rfl, rfl, rfl, rfl, rfl,
            fun _ => Or.inl rfl, fun _ => rfl⟩
      · simp only [ha, if_false]
        exact AckFrame.refl w
  · simp only [hb, if_false]
    exact AckFrame.refl w

theorem processAcksLoop_frame (ack : Nat) :
    ∀ (n i bits : Nat) (w : World), AckFrame w (processAcksLoop ack n i bits w) := by
  intro n
  induction n with
  | zero => intro i bits w; exact AckFrame.refl w
  | succ n ih =>
    intro i bits w
    unfold processAcksLoop
    exact AckFrame.trans (processAcksStep_frame ack i bits w) (ih _ _ _)

theorem ProcessAcks_frame (w : World) (ack bits : Nat) : AckFrame w (ProcessAcks w ack bits) :=
  processAcksLoop_frame ack 32 0 bits w

/-! ## ReadPacket and ReceiveMessage on the receive window -/

theorem ReadPacket_recv (w : World) (packet : ConnectionPacket)
    (hinv : ReceiveQueueInv w.conn) :
    ∃ w1 b, ReadPacket w packet = some (w1, b) ∧
      ReceiveQueueInv w1.conn ∧ (ReceiveQueueIdsOk w → ReceiveQueueIdsOk w1) ∧
      w1.conn.receiveMessageId = w.conn.receiveMessageId ∧
      w1.conn.error = w.conn.error ∧
      (∀ p, (w1.heap p).id = (w.heap p).id) ∧
      (∀ i q, w.conn.messageReceiveQueue.sequence_of_slot i = some q →
        w1.conn.messageReceiveQueue.sequence_of_slot i = some q) ∧
      (w.conn.error = CONNECTION_ERROR_NONE → ∀ m ∈ packet.messages,
        ((w.heap m).GetId + 65536 - w.conn.receiveMessageId) % 65536 < 1024 →
        w1.conn.messageReceiveQueue.sequence_of_slot ((w.heap m).GetId % MessageReceiveQueueSize)
          = some (w.heap m).GetId) ∧
      (∀ i q, w1.conn.messageReceiveQueue.sequence_of_slot i = some q →
        w.conn.messageReceiveQueue.sequence_of_slot i = some q ∨
        ∃ m ∈ packet.messages, (w.heap m).GetId = q) := by
  unfold ReadPacket
  by_cases herr : w.conn.error = CONNECTION_ERROR_NONE
  · simp only [herr, ne_eq, not_true_eq_false, if_false]
    unfold ProcessPacketMessages
    obtain ⟨w1, e1, hrun, hi1, hi2, hfr, hlog, hid, hkeep, hins, hfrom, hearly⟩ :=
      processPacketMessagesLoop_spec w.conn.receiveMessageId packet.messages w false rfl hinv
    simp only [hrun]
    have hR1 : w1.conn.receiveMessageId = w.conn.receiveMessageId := by rw [hfr]
    have he1 : w1.conn.error = w.conn.error := by rw [hfr]
    cases e1 with
    | true =>
      exact ⟨w1, false, rfl, hi1, hi2, hR1, he1.trans herr, hid, hkeep, fun _ => hins, hfrom⟩
    | false =>
      simp only [Bool.not_false]
      cases hin : w1.conn.receivedPackets.Insert packet.sequence with
      | none =>
        exact ⟨w1, false, rfl, hi1, hi2, hR1, he1.trans herr, hid, hkeep, fun _ => hins, hfrom⟩
      | some r =>
        obtain ⟨b, idx⟩ := r
        simp only []
        have hf := ProcessAcks_frame { w1 with conn := { w1.conn with receivedPackets := b } }
          packet.ack packet.ack_bits
        obtain ⟨a1, a2, a3, a4, a5, a6, a7, a8, a9, a10, a11, a12, a13, a14, a15⟩ := hf
        refine ⟨_, true, rfl, ?_, ?_, a6.trans hR1, (a2.trans he1).trans herr, ?_, ?_, ?_, ?_⟩
        · unfold ReceiveQueueInv
          rw [a6, a8]
          exact hi1
        · intro h i q hq
          rw [a8] at hq ⊢
          rw [Message.GetId_congr (a15 _)]
          exact hi2 h i q hq
        · intro p; rw [a15 p]; exact hid p
        · intro i q hq; rw [a8]; exact hkeep i q hq
        · intro _ m hm hx; rw [a8]; exact hins m hm hx
        · intro i q hq; rw [a8] at hq; exact hfrom i q hq
  · simp only [herr, ne_eq, not_false_eq_true, if_true]
    exact ⟨w, false, rfl, hinv, fun h => h, rfl, rfl, fun _ => rfl, fun _ _ h => h,
      fun h => False.elim h, fun _ _ h => Or.inl h⟩

theorem ReceiveMessage_some (w : World) (e : MessageReceiveQueueEntry)
    (herr : w.conn.error = CONNECTION_ERROR_NONE)
    (hf : w.conn.messageReceiveQueue.Find w.conn.receiveMessageId = some e) :
    ReceiveMessage w =
      ({ w with
         conn := { w.conn with
                   messageReceiveQueue := w.conn.messageReceiveQueue.Remove w.conn.receiveMessageId
                   receiveMessageId := (w.conn.receiveMessageId + 1) % 65536 } },
       some e.message) := by
  unfold ReceiveMessage
  simp [GetError, herr, hf]

theorem ReceiveMessage_none (w : World)
    (hf : w.conn.messageReceiveQueue.Find w.conn.receiveMessageId = none) :
    ReceiveMessage w = (w, none) := by
  unfold ReceiveMessage
  simp [hf]

theorem ReceiveMessage_error (w : World) (herr : w.conn.error ≠ CONNECTION_ERROR_NONE) :
    ReceiveMessage w = (w, none) := by
  unfold ReceiveMessage
  simp [GetError, herr]

/-- `ReceiveMessage` on a state that satisfies the receive-window invariant. -/
theorem ReceiveMessage_recv (w : World) (hinv : ReceiveQueueInv w.conn) :
    ReceiveQueueInv (ReceiveMessage w).1.conn ∧
    (ReceiveQueueIdsOk w → ReceiveQueueIdsOk (ReceiveMessage w).1) ∧
    (ReceiveMessage w).1.heap = w.heap ∧
    (ReceiveMessage w).1.conn.error = w.conn.error ∧
    (∀ m, (ReceiveMessage w).2 = some m →
      (ReceiveQueueIdsOk w → (w.heap m).GetId = w.conn.receiveMessageId) ∧
      (ReceiveMessage w).1.conn.receiveMessageId = (w.conn.receiveMessageId + 1) % 65536 ∧
      w.conn.messageReceiveQueue.sequence_of_slot (w.conn.receiveMessageId % MessageReceiveQueueSize)
        = some w.conn.receiveMessageId ∧
      (ReceiveMessage w).1.conn.messageReceiveQueue.sequence_of_slot =
        Function.update w.conn.messageReceiveQueue.sequence_of_slot
          (w.conn.receiveMessageId % MessageReceiveQueueSize) none) ∧
    ((ReceiveMessage w).2 = none → (ReceiveMessage w).1 = w) := by
  by_cases herr : w.conn.error = CONNECTION_ERROR_NONE
  · cases hf : w.conn.messageReceiveQueue.Find w.conn.receiveMessageId with
    | none =>
      rw [ReceiveMessage_none w hf]
      exact ⟨hinv, fun h => h, rfl, rfl, fun m h => by simp at h, fun _ => rfl⟩
    | some e =>
      rw [ReceiveMessage_some w e herr hf]
      obtain ⟨hslot, hent⟩ := (SequenceBuffer.Find_eq_some _ _ _).mp hf
      obtain ⟨hR, hQ, hD, hslots⟩ := hinv
      have hRy := hslots _ _ hslot
      have hslot0 := hslot
      simp only [MessageReceiveQueueSize] at hD hslots hRy hslot
      refine ⟨⟨?_, hQ, ?_, ?_⟩, ?_, rfl, rfl, ?_, ?_⟩
      · show (w.conn.receiveMessageId + 1) % 65536 < 65536
        omega
      · show (w.conn.messageReceiveQueue.sequence + 65536 - (w.conn.receiveMessageId + 1) % 65536)
          % 65536 ≤ MessageReceiveQueueSize
        simp only [MessageReceiveQueueSize]
        omega
      · intro i q hq
        simp only [SequenceBuffer.Remove, MessageReceiveQueueSize] at hq
        by_cases hi : i = w.conn.receiveMessageId % 1024
        · subst hi; simp at hq
        · rw [Function.update_noteq hi] at hq
          obtain ⟨a, b, c⟩ := hslots i q hq
          refine ⟨a, b, ?_⟩
          show (q + 65536 - (w.conn.receiveMessageId + 1) % 65536) % 65536 <
            (w.conn.messageReceiveQueue.sequence + 65536 - (w.conn.receiveMessageId + 1) % 65536) % 65536
          have hne : q ≠ w.conn.receiveMessageId := by
            intro h; subst h; exact hi b
          omega
      · intro hids i q hq
        simp only [SequenceBuffer.Remove, MessageReceiveQueueSize] at hq
        by_cases hi : i = w.conn.receiveMessageId % 1024
        · subst hi; simp at hq
        · rw [Function.update_noteq hi] at hq
          exact hids i q hq
      · intro m hm
        simp only [Option.some.injEq] at hm
        subst hm
        refine ⟨?_, rfl, hslot0, rfl⟩
        intro hids
        have := hids _ _ hslot0
        rw [hent] at this
        exact this
      · intro h; simp at h
  · rw [ReceiveMessage_error w herr]
    exact ⟨hinv, fun h => h, rfl, rfl, fun m h => by simp at h, fun _ => rfl⟩

theorem Fresh.receiveQueueInv {c : Connection} (h : Fresh c) : ReceiveQueueInv c := by
  obtain ⟨_, _, hR, _, _, _, _, _, hQ, hs⟩ := h
  refine ⟨by omega, by omega, by rw [hQ, hR]; simp [MessageReceiveQueueSize], ?_⟩
  intro i q hq
  rw [hs i] at hq
  simp at hq

theorem Fresh.receiveQueueIdsOk {w : World} (h : Fresh w.conn) : ReceiveQueueIdsOk w := by
  obtain ⟨_, _, _, _, _, _, _, _, _, hs⟩ := h
  intro i q hq
  rw [hs i] at hq
  simp at hq

theorem receiveRun_spec :
    ∀ (ops : List ReceiveOp) (w : World), ReceiveQueueInv w.conn → ReceiveQueueIdsOk w →
      ∃ w1 ids, receiveRun w ops = some (w1, ids) ∧
        ids = (List.range ids.length).map (fun k => (w.conn.receiveMessageId + k) % 65536) ∧
        w1.conn.receiveMessageId = (w.conn.receiveMessageId + ids.length) % 65536 ∧
        ReceiveQueueInv w1.conn ∧ ReceiveQueueIdsOk w1 := by
  intro ops
  induction ops with
  | nil =>
    intro w hinv hids
    refine ⟨w, [], rfl, rfl, ?_, hinv, hids⟩
    have := hinv.1
    simp only [List.length_nil, Nat.add_zero]
    omega
  | cons op rest ih =>
    intro w hinv hids
    cases op with
    | readPacket packet =>
      obtain ⟨w1, b, hrd, hi1, hi2, hR, _⟩ := ReadPacket_recv w packet hinv
      obtain ⟨w2, ids, hrun, hl, hR2, hi3, hi4⟩ := ih w1 hi1 (hi2 hids)
      refine ⟨w2, ids, ?_, ?_, ?_, hi3, hi4⟩
      · simp only [receiveRun, hrd, hrun]
      · rw [← hR]; exact hl
      · rw [← hR]; exact hR2
    | receiveMessage =>
      obtain ⟨hi1, hi2, hheap, _, hsome, hnone⟩ := ReceiveMessage_recv w hinv
      obtain ⟨w2, ids, hrun, hl, hR2, hi3, hi4⟩ := ih (ReceiveMessage w).1 hi1 (hi2 hids)
      cases hm : (ReceiveMessage w).2 with
      | none =>
        have hw := hnone hm
        refine ⟨w2, ids, ?_, ?_, ?_, hi3, hi4⟩
        · have hpair : ReceiveMessage w = ((ReceiveMessage w).1, none) := by rw [← hm]
          simp only [receiveRun]
          rw [hpair]
          exact hrun
        · rw [hw] at hl; exact hl
        · rw [hw] at hR2; exact hR2
      | some m =>
        obtain ⟨hid, hR1, _, _⟩ := hsome m hm
        have hid := hid hids
        have hRlt := hinv.1
        refine ⟨w2, (w.heap m).GetId :: ids, ?_, ?_, ?_, hi3, hi4⟩
        · have hpair : ReceiveMessage w = ((ReceiveMessage w).1, some m) := by rw [← hm]
          simp only [receiveRun]
          rw [hpair]
          simp only [hrun, hheap]
        · rw [List.length_cons, List.range_succ_eq_map, List.map_cons, List.map_map, hid]
          congr 1
          · simp only [Nat.add_zero]; omega
          · rw [hR1] at hl
            rw [hl]
            simp only [List.length_map, List.length_range]
            apply List.map_congr_left
            intro k _
            simp only [Function.comp, Nat.succ_eq_add_one]
            omega
        · rw [hR2, hR1, List.length_cons]
          omega

theorem Connection.new_fresh (bits_required : Int → Int → Int) (numTypes : Int) :
    Fresh (Connection.new bits_required numTypes) :=
  ⟨rfl, rfl, rfl, rfl, ⟨rfl, fun _ => rfl⟩, ⟨rfl, fun _ => rfl⟩, ⟨rfl, fun _ => rfl⟩,
    ⟨rfl, fun _ => rfl⟩, ⟨rfl, fun _ => rfl⟩⟩

/-! ## Reordered and replayed packets -/

theorem readAll_spec (n : Nat) :
    ∀ (packets : List ConnectionPacket) (w : World),
      ReceiveQueueInv w.conn → ReceiveQueueIdsOk w →
      w.conn.error = CONNECTION_ERROR_NONE → w.conn.receiveMessageId = 0 →
      n ≤ 1024 →
      (∀ packet ∈ packets, ∀ m ∈ packet.messages, (w.heap m).GetId < n) →
      ∃ w1, readAll w packets = some w1 ∧
        ReceiveQueueInv w1.conn ∧ ReceiveQueueIdsOk w1 ∧
        w1.conn.error = CONNECTION_ERROR_NONE ∧ w1.conn.receiveMessageId = 0 ∧
        (∀ i q, w.conn.messageReceiveQueue.sequence_of_slot i = some q →
          w1.conn.messageReceiveQueue.sequence_of_slot i = some q) ∧
        (∀ packet ∈ packets, ∀ m ∈ packet.messages,
          w1.conn.messageReceiveQueue.sequence_of_slot ((w.heap m).GetId % MessageReceiveQueueSize)
            = some (w.heap m).GetId) ∧
        (∀ i q, w1.conn.messageReceiveQueue.sequence_of_slot i = some q →
          w.conn.messageReceiveQueue.sequence_of_slot i = some q ∨
          ∃ packet ∈ packets, ∃ m ∈ packet.messages, (w.heap m).GetId = q) := by
  intro packets
  induction packets with
  | nil =>
    intro w hinv hids herr hR _ _
    exact ⟨w, rfl, hinv, hids, herr, hR, fun _ _ h => h,
      fun p hp => absurd hp (List.not_mem_nil p), fun _ _ h => Or.inl h⟩
  | cons packet rest ih =>
    intro w hinv hids herr hR hn hlt
    obtain ⟨w1, b, hrd, hi1, hi2, hR1, he1, hid1, hkeep1, hins1, hfrom1⟩ :=
      ReadPacket_recv w packet hinv
    have hgid : ∀ p, (w1.heap p).GetId = (w.heap p).GetId := fun p => Message.GetId_congr (hid1 p)
    obtain ⟨w2, hrun, hi3, hi4, he2, hR2, hkeep2, hins2, hfrom2⟩ :=
      ih w1 hi1 (hi2 hids) (he1.trans herr) (hR1.trans hR) hn
        (fun p hp m hm => by rw [hgid]; exact hlt p (List.mem_cons_of_mem _ hp) m hm)
    refine ⟨w2, ?_, hi3, hi4, he2, hR2, fun i q h => hkeep2 i q (hkeep1 i q h), ?_, ?_⟩
    · simp only [readAll, hrd, hrun]
    · intro p hp m hm
      rcases List.mem_cons.mp hp with hp | hp
      · subst hp
        apply hkeep2
        apply hins1 herr m hm
        have := hlt p (List.mem_cons_self _ _) m hm
        rw [hR]
        omega
      · have := hins2 p hp m hm
        rw [hgid] at this
        exact this
    · intro i q hq
      rcases hfrom2 i q hq with h | ⟨p, hp, m, hm, h⟩
      · rcases hfrom1 i q h with h | ⟨m, hm, h⟩
        · exact Or.inl h
        · exact Or.inr ⟨packet, List.mem_cons_self _ _, m, hm, h⟩
      · rw [hgid] at h
        exact Or.inr ⟨p, List.mem_cons_of_mem _ hp, m, hm, h⟩

theorem drain_spec :
    ∀ (k : Nat) (w : World),
      ReceiveQueueInv w.conn → ReceiveQueueIdsOk w →
      w.conn.error = CONNECTION_ERROR_NONE → w.conn.receiveMessageId + k ≤ 1024 →
      (∀ j, w.conn.receiveMessageId ≤ j → j < w.conn.receiveMessageId + k →
        w.conn.messageReceiveQueue.sequence_of_slot (j % MessageReceiveQueueSize) = some j) →
      (∀ i q, w.conn.messageReceiveQueue.sequence_of_slot i = some q →
        w.conn.receiveMessageId ≤ q ∧ q < w.conn.receiveMessageId + k) →
      ∃ w2, drain (k + 1) w = some (w2, List.range' w.conn.receiveMessageId k) ∧
        (ReceiveMessage w2).2 = none := by
  intro k
  induction k with
  | zero =>
    intro w _ _ _ _ _ hfrom
    have hnone : w.conn.messageReceiveQueue.Find w.conn.receiveMessageId = none := by
      rw [SequenceBuffer.Find_eq_none]
      intro h
      have := hfrom _ _ h
      omega
    refine ⟨w, ?_, ?_⟩
    · simp only [drain, ReceiveMessage_none w hnone, List.range'_zero]
    · rw [ReceiveMessage_none w hnone]
  | succ k ih =>
    intro w hinv hids herr hle hall hfrom
    have hslot := hall w.conn.receiveMessageId (le_refl _) (by omega)
    have hfind : w.conn.messageReceiveQueue.Find w.conn.receiveMessageId =
        some (w.conn.messageReceiveQueue.entries (w.conn.receiveMessageId % MessageReceiveQueueSize)) :=
      (SequenceBuffer.Find_eq_some _ _ _).mpr ⟨hslot, rfl⟩
    obtain ⟨hi1, hi2, hheap, he1, hsome, _⟩ := ReceiveMessage_recv w hinv
    have heq := ReceiveMessage_some w _ herr hfind
    have hm : (ReceiveMessage w).2 = some
        (w.conn.messageReceiveQueue.entries (w.conn.receiveMessageId % MessageReceiveQueueSize)).message := by
      rw [heq]
    obtain ⟨hid, hR1, _, hslots⟩ := hsome _ hm
    have hid := hid hids
    have hR1' : (ReceiveMessage w).1.conn.receiveMessageId = w.conn.receiveMessageId + 1 := by
      rw [hR1]; omega
    obtain ⟨w2, hrun, hlast⟩ := ih (ReceiveMessage w).1 hi1 (hi2 hids) (he1.trans herr)
      (by rw [hR1']; omega)
      (by
        intro j hj1 hj2
        rw [hR1'] at hj1 hj2
        rw [hslots]
        have hne : j % MessageReceiveQueueSize ≠ w.conn.receiveMessageId % MessageReceiveQueueSize := by
          simp only [MessageReceiveQueueSize]; omega
        rw [Function.update_noteq hne]
        exact hall j (by omega) (by omega))
      (by
        intro i q hq
        rw [hslots] at hq
        rw [hR1']
        by_cases hi : i = w.conn.receiveMessageId % MessageReceiveQueueSize
        · subst hi; simp at hq
        · rw [Function.update_noteq hi] at hq
          have h1 := hfrom i q hq
          have h2 := (hinv.2.2.2 i q hq).2.1
          have hne : q ≠ w.conn.receiveMessageId := by
            intro h; subst h; exact hi h2
          omega)
    refine ⟨w2, ?_, hlast⟩
    have hpair : ReceiveMessage w = ((ReceiveMessage w).1,
        some (w.conn.messageReceiveQueue.entries
          (w.conn.receiveMessageId % MessageReceiveQueueSize)).message) := by
      rw [← hm]
    rw [drain, hpair]
    simp only [hrun, hheap, hid, hR1', List.range'_succ]

/-- C2. On a fresh connection, hand `ReadPacket` any list of packets whose
messages all have ids below `n ≤ MessageReceiveQueueSize` and among which every
id below `n` occurs, in any order and with any repetitions: no call faults, and
draining `ReceiveMessage` afterwards returns the ids 0, 1, ..., n-1 in that
order, each once, and then no message. -/
theorem C2_reorder_duplicate (w0 : World) (hfresh : Fresh w0.conn) (n : Nat)
    (hn : n ≤ MessageReceiveQueueSize) (packets : List ConnectionPacket)
    (hids : ∀ packet ∈ packets, ∀ m ∈ packet.messages, (w0.heap m).GetId < n)
    (hall : ∀ k < n, ∃ packet ∈ packets, ∃ m ∈ packet.messages, (w0.heap m).GetId = k) :
    ∃ w1 w2, readAll w0 packets = some w1 ∧
      drain (n + 1) w1 = some (w2, List.range n) ∧
      (ReceiveMessage w2).2 = none := by
  have hn' : n ≤ 1024 := hn
  obtain ⟨w1, hrun, hi1, hi2, he, hR, _, hins, hfrom⟩ :=
    readAll_spec n packets w0 hfresh.receiveQueueInv hfresh.receiveQueueIdsOk hfresh.1
      hfresh.2.2.1 hn' hids
  obtain ⟨w2, hdrain, hlast⟩ := drain_spec n w1 hi1 hi2 he (by rw [hR]; omega)
    (by
      intro j _ hj
      rw [hR] at hj
      obtain ⟨p, hp, m, hm, hk⟩ := hall j (by omega)
      have := hins p hp m hm
      rw [hk] at this
      exact this)
    (by
      intro i q hq
      rw [hR]
      rcases hfrom i q hq with h | ⟨p, hp, m, hm, h⟩
      · rw [hfresh.2.2.2.2.2.2.2.2.2 i] at h
        simp at h
      · have := hids p hp m hm
        omega)
  refine ⟨w1, w2, hrun, ?_, hlast⟩
  rw [hR] at hdrain
  rw [List.range_eq_range']
  exact hdrain

theorem C2_reorder_duplicate_witness :
    Fresh demoWorld.conn ∧ 10 ≤ MessageReceiveQueueSize ∧
    (∀ packet ∈ demoPackets, ∀ m ∈ packet.messages, (demoWorld.heap m).GetId < 10) ∧
    (∀ k < 10, ∃ packet ∈ demoPackets, ∃ m ∈ packet.messages, (demoWorld.heap m).GetId = k) ∧
    ∃ w1 w2, readAll demoWorld demoPackets = some w1 ∧
      drain (10 + 1) w1 = some (w2, List.range 10) ∧
      (ReceiveMessage w2).2 = none :=
  ⟨Connection.new_fresh _ _, by decide, by decide, by decide,
    C2_reorder_duplicate demoWorld (Connection.new_fresh _ _) 10 (by decide) demoPackets
      (by decide) (by decide)⟩

/-! ## The send window -/

theorem SequenceBuffer.Insert_at_sequence {T : Type} {size : Nat} (b : SequenceBuffer T size)
    (hsize : size ≤ 32768) :
    b.Insert b.sequence =
      some ({ sequence := (b.sequence + 1) % 65536
              sequence_of_slot :=
                Function.update
                  (fun i => match b.sequence_of_slot i with
                    | none => none
                    | some q =>
                      if SequenceBuffer.inWindow size ((b.sequence + 1) % 65536) q then some q
                      else none)
                  (b.sequence % size) (some b.sequence)
              entries := b.entries },
            b.sequence % size) := by
  unfold SequenceBuffer.Insert
  have hrej : sequence_less_than b.sequence ((b.sequence + 65536 - size) % 65536) = false := by
    simp only [sequence_less_than, decide_eq_false_iff_not]
    omega
  simp only [hrej, Bool.false_eq_true, if_false, true_or, if_true]

theorem updateOldestLoop_spec (q : SequenceBuffer MessageSendQueueEntry MessageSendQueueSize)
    (S : Nat) (hS : S < 65536) :
    ∀ (fuel O : Nat), O < 65536 → (S + 65536 - O) % 65536 < fuel →
      updateOldestLoop q S fuel O < 65536 ∧
      (S + 65536 - updateOldestLoop q S fuel O) % 65536 ≤ (S + 65536 - O) % 65536 ∧
      (updateOldestLoop q S fuel O ≠ S →
        q.sequence_of_slot (updateOldestLoop q S fuel O % MessageSendQueueSize)
          = some (updateOldestLoop q S fuel O)) := by
  intro fuel
  induction fuel with
  | zero => intro O _ h; omega
  | succ fuel ih =>
    intro O hO hd
    unfold updateOldestLoop
    by_cases h1 : O = S
    · simp only [h1, if_true]
      exact ⟨hS, le_refl _, fun h => absurd rfl h⟩
    · simp only [h1, if_false]
      by_cases h2 : (q.Find O).isSome = true
      · simp only [h2, if_true]
        exact ⟨hO, le_refl _, fun _ => (SequenceBuffer.Find_isSome _ _).mp h2⟩
      · simp only [h2, Bool.false_eq_true, if_false]
        obtain ⟨a, b, c⟩ := ih ((O + 1) % 65536) (by omega) (by omega)
        exact ⟨a, by omega, c⟩

theorem processMessageAckLoop_oldest (offset : Nat) :
    ∀ (ids : List Nat) (w : World),
      (processMessageAckLoop offset ids w).conn.oldestUnackedMessageId
        = w.conn.oldestUnackedMessageId := by
  intro ids
  induction ids with
  | nil => intro w; rfl
  | cons i rest ih =>
    intro w
    unfold processMessageAckLoop
    cases hf : w.conn.messageSendQueue.Find (w.conn.sentPacketMessageIds (offset + i)) with
    | none => simpa [hf] using ih w
    | some e => simp only [hf]; rw [ih]

theorem ProcessMessageAck_send (w : World) (ack : Nat) (hinv : SendQueueInv w.conn)
    (herr : w.conn.error = CONNECTION_ERROR_NONE) :
    SendQueueInv (ProcessMessageAck w ack).conn := by
  unfold ProcessMessageAck
  cases hf : w.conn.messageSentPackets.Find ack with
  | none => exact hinv
  | some e =>
    dsimp only
    by_cases ha : e.acked ≠ 0
    · rw [if_pos ha]; exact hinv
    · rw [if_neg ha]
      have hfr := processMessageAckLoop_frame e.messageIds (List.range e.numMessageIds) w
      have hO := processMessageAckLoop_oldest e.messageIds (List.range e.numMessageIds) w
      obtain ⟨a1, a2, a3, a4, a5, a6, a7, a8, a9, a10, a11, a12, a13, a14, a15⟩ := hfr
      obtain ⟨hS, hOlt, hd, hnone, _⟩ := hinv
      obtain ⟨hseq, _⟩ := hnone herr
      have hspec := updateOldestLoop_spec
        (processMessageAckLoop e.messageIds (List.range e.numMessageIds) w).conn.messageSendQueue
        w.conn.sendMessageId hS 65536 w.conn.oldestUnackedMessageId hOlt
        (by simp only [MessageSendQueueSize] at hd; omega)
      unfold UpdateOldestUnackedMessageId SequenceBuffer.GetSequence
      rw [a12, hseq, hO]
      refine ⟨?_, hspec.1, ?_, ?_, ?_⟩
      · show (processMessageAckLoop _ _ w).conn.sendMessageId < 65536
        rw [a5]; exact hS
      · show ((processMessageAckLoop _ _ w).conn.sendMessageId + 65536 - _) % 65536 ≤ _
        rw [a5]; exact le_trans hspec.2.1 hd
      · intro _
        refine ⟨?_, ?_⟩
        · show (processMessageAckLoop _ _ w).conn.messageSendQueue.sequence
            = (processMessageAckLoop _ _ w).conn.sendMessageId
          rw [a12, a5]; exact hseq
        · show _ ≠ (processMessageAckLoop _ _ w).conn.sendMessageId → _
          rw [a5]; exact hspec.2.2
      · intro h
        exact absurd (a2.trans herr) h

theorem processAcksStep_send (ack i bits : Nat) (w : World) (hinv : SendQueueInv w.conn)
    (herr : w.conn.error = CONNECTION_ERROR_NONE) :
    SendQueueInv (processAcksStep ack i bits w).conn := by
  unfold processAcksStep
  by_cases hb : bits % 2 = 1
  · simp only [hb, if_true]
    cases hf : w.conn.sentPackets.Find ((ack + 65536 - i) % 65536) with
    | none => exact hinv
    | some d =>
      by_cases ha : d.acked = 0
      · simp only [ha, if_true]
        exact ProcessMessageAck_send w _ hinv herr
      · simp only [ha, if_false]
        exact hinv
  · simp only [hb, if_false]
    exact hinv

theorem processAcksLoop_send (ack : Nat) :
    ∀ (n i bits : Nat) (w : World), SendQueueInv w.conn →
      w.conn.error = CONNECTION_ERROR_NONE →
      SendQueueInv (processAcksLoop ack n i bits w).conn := by
  intro n
  induction n with
  | zero => intro i bits w h _; exact h
  | succ n ih =>
    intro i bits w h herr
    unfold processAcksLoop
    exact ih _ _ _ (processAcksStep_send ack i bits w h herr)
      ((processAcksStep_frame ack i bits w).2.1.trans herr)

theorem ProcessAcks_send (w : World) (ack bits : Nat) (hinv : SendQueueInv w.conn)
    (herr : w.conn.error = CONNECTION_ERROR_NONE) :
    SendQueueInv (ProcessAcks w ack bits).conn :=
  processAcksLoop_send ack 32 0 bits w hinv herr

/-! ## Writing a packet -/

theorem getMessagesToSendLoop_spec (time : Time) (oldest : Nat) :
    ∀ (n i : Nat) (bits : Int) (q : SequenceBuffer MessageSendQueueEntry MessageSendQueueSize)
      (ids : List Nat),
      (getMessagesToSendLoop time oldest n i bits q ids).1.sequence = q.sequence ∧
      (getMessagesToSendLoop time oldest n i bits q ids).1.sequence_of_slot = q.sequence_of_slot ∧
      ∀ id ∈ (getMessagesToSendLoop time oldest n i bits q ids).2,
        id ∈ ids ∨ q.sequence_of_slot (id % MessageSendQueueSize) = some id := by
  intro n
  induction n with
  | zero => intro i bits q ids; exact ⟨rfl, rfl, fun id h => Or.inl h⟩
  | succ n ih =>
    intro i bits q ids
    unfold getMessagesToSendLoop
    by_cases h1 : bits ≤ 8 * 8
    · rw [if_pos h1]; exact ⟨rfl, rfl, fun id h => Or.inl h⟩
    · rw [if_neg h1]
      dsimp only
      cases hf : q.Find ((oldest + i) % 65536) with
      | none => exact ⟨rfl, rfl, fun id h => Or.inl h⟩
      | some entry =>
        dsimp only
        have hpres := ((SequenceBuffer.Find_eq_some _ _ _).mp hf).1
        by_cases h2 : entry.timeLastSent + MessageResendRate ≤ time ∧ bits - entry.measuredBits ≥ 0
        · rw [if_pos h2]
          by_cases h3 : (ids ++ [(oldest + i) % 65536]).length = MaxMessagesPerPacket
          · rw [if_pos h3]
            refine ⟨rfl, rfl, ?_⟩
            intro id hid
            rcases List.mem_append.mp hid with h | h
            · exact Or.inl h
            · rw [List.mem_singleton] at h; subst h; exact Or.inr hpres
          · rw [if_neg h3]
            obtain ⟨a, b, c⟩ := ih (i + 1) (bits - entry.measuredBits)
              (q.setEntry ((oldest + i) % 65536 % MessageSendQueueSize) { entry with timeLastSent := time })
              (ids ++ [(oldest + i) % 65536])
            refine ⟨a, b, ?_⟩
            intro id hid
            rcases c id hid with h | h
            · rcases List.mem_append.mp h with h | h
              · exact Or.inl h
              · rw [List.mem_singleton] at h; subst h; exact Or.inr hpres
            · exact Or.inr h
        · rw [if_neg h2]
          by_cases h3 : ids.length = MaxMessagesPerPacket
          · rw [if_pos h3]; exact ⟨rfl, rfl, fun id h => Or.inl h⟩
          · rw [if_neg h3]; exact ih _ _ _ _

theorem GetMessagesToSend_spec (c : Connection) :
    (GetMessagesToSend c).1 =
      { c with messageSendQueue := (GetMessagesToSend c).1.messageSendQueue } ∧
    (GetMessagesToSend c).1.messageSendQueue.sequence = c.messageSendQueue.sequence ∧
    (GetMessagesToSend c).1.messageSendQueue.sequence_of_slot = c.messageSendQueue.sequence_of_slot ∧
    ∀ id ∈ (GetMessagesToSend c).2,
      c.messageSendQueue.sequence_of_slot (id % MessageSendQueueSize) = some id := by
  unfold GetMessagesToSend
  cases hf : c.messageSendQueue.Find c.oldestUnackedMessageId with
  | none => exact ⟨rfl, rfl, rfl, fun id h => absurd h (List.not_mem_nil id)⟩
  | some e =>
    dsimp only
    obtain ⟨a, b, h⟩ := getMessagesToSendLoop_spec c.time c.oldestUnackedMessageId
      MessageSendQueueSize 0 ((MessagePacketBudget : Int) * 8) c.messageSendQueue []
    refine ⟨rfl, a, b, ?_⟩
    intro id hid
    rcases h id hid with h | h
    · exact absurd h (List.not_mem_nil id)
    · exact h

theorem collectMessages_isSome (q : SequenceBuffer MessageSendQueueEntry MessageSendQueueSize) :
    ∀ (ids : List Nat) (h : Heap),
      (∀ id ∈ ids, q.sequence_of_slot (id % MessageSendQueueSize) = some id) →
      ∃ r, collectMessages q ids h = some r := by
  intro ids
  induction ids with
  | nil => intro h _; exact ⟨_, rfl⟩
  | cons id rest ih =>
    intro h hall
    have hf := (SequenceBuffer.Find_eq_some q id _).mpr ⟨hall id (List.mem_cons_self _ _), rfl⟩
    obtain ⟨r, hr⟩ := ih (h.AddRef (q.entries (id % MessageSendQueueSize)).message)
      (fun j hj => hall j (List.mem_cons_of_mem _ hj))
    unfold collectMessages
    rw [hf]
    dsimp only
    rw [hr]
    exact ⟨_, rfl⟩

/-- `WritePacket` in a state whose two sent-packet buffers are in step: it
does not fault, and what it changes are the sent-packet buffers, the send
times stored in the send queue and reference counts. -/
theorem WritePacket_spec (w : World) (packetCreated : Bool) (hsent : SentPacketsInv w.conn) :
    ∃ w1 out, WritePacket w packetCreated = some (w1, out) ∧
      SentPacketsInv w1.conn ∧
      w1.conn.error = w.conn.error ∧
      w1.conn.messageOverheadBits = w.conn.messageOverheadBits ∧
      w1.conn.sendMessageId = w.conn.sendMessageId ∧
      w1.conn.receiveMessageId = w.conn.receiveMessageId ∧
      w1.conn.oldestUnackedMessageId = w.conn.oldestUnackedMessageId ∧
      w1.conn.messageReceiveQueue = w.conn.messageReceiveQueue ∧
      w1.conn.receivedPackets = w.conn.receivedPackets ∧
      w1.conn.messageSendQueue.sequence = w.conn.messageSendQueue.sequence ∧
      w1.conn.messageSendQueue.sequence_of_slot = w.conn.messageSendQueue.sequence_of_slot ∧
      w1.packetAcked = w.packetAcked := by
  unfold WritePacket
  by_cases herr : w.conn.error ≠ CONNECTION_ERROR_NONE
  · rw [if_pos herr]
    exact ⟨w, none, rfl, hsent, rfl, rfl, rfl, rfl, rfl, rfl, rfl, rfl, rfl, rfl⟩
  · rw [if_neg herr]
    cases packetCreated with
    | false => exact ⟨w, none, rfl, hsent, rfl, rfl, rfl, rfl, rfl, rfl, rfl, rfl, rfl, rfl⟩
    | true =>
      simp only [Bool.not_true, Bool.false_eq_true, if_false]
      have hins1 := SequenceBuffer.Insert_at_sequence w.conn.sentPackets
        (by simp [SlidingWindowSize])
      have hc1 : InsertAckPacketEntry w.conn w.conn.sentPackets.GetSequence =
          { w.conn with
            sentPackets :=
              ({ sequence := (w.conn.sentPackets.sequence + 1) % 65536
                 sequence_of_slot :=
                   Function.update
                     (fun i => match w.conn.sentPackets.sequence_of_slot i with
                       | none => none
                       | some q =>
                         if SequenceBuffer.inWindow SlidingWindowSize
                             ((w.conn.sentPackets.sequence + 1) % 65536) q then some q
                         else none)
                     (w.conn.sentPackets.sequence % SlidingWindowSize)
                     (some w.conn.sentPackets.sequence)
                 entries := w.conn.sentPackets.entries } :
                SequenceBuffer SentPacketData SlidingWindowSize).setEntry
                (w.conn.sentPackets.sequence % SlidingWindowSize) { acked := 0 } } := by
        unfold InsertAckPacketEntry SequenceBuffer.GetSequence
        rw [hins1]
      rw [hc1]
      generalize hc1def : ({ w.conn with
            sentPackets :=
              ({ sequence := (w.conn.sentPackets.sequence + 1) % 65536
                 sequence_of_slot :=
                   Function.update
                     (fun i => match w.conn.sentPackets.sequence_of_slot i with
                       | none => none
                       | some q =>
                         if SequenceBuffer.inWindow SlidingWindowSize
                             ((w.conn.sentPackets.sequence + 1) % 65536) q then some q
                         else none)
                     (w.conn.sentPackets.sequence % SlidingWindowSize)
                     (some w.conn.sentPackets.sequence)
                 entries := w.conn.sentPackets.entries } :
                SequenceBuffer SentPacketData SlidingWindowSize).setEntry
                (w.conn.sentPackets.sequence % SlidingWindowSize) { acked := 0 } } : Connection) = c1
      have e1 : c1.sentPackets.sequence = (w.conn.sentPackets.sequence + 1) % 65536 := by
        rw [← hc1def]; rfl
      have e2 : c1.messageSentPackets = w.conn.messageSentPackets := by rw [← hc1def]
      have e3 : c1.messageSendQueue = w.conn.messageSendQueue := by rw [← hc1def]
      have e4 : c1.error = w.conn.error ∧ c1.messageOverheadBits = w.conn.messageOverheadBits ∧
          c1.sendMessageId = w.conn.sendMessageId ∧ c1.receiveMessageId = w.conn.receiveMessageId ∧
          c1.oldestUnackedMessageId = w.conn.oldestUnackedMessageId ∧
          c1.messageReceiveQueue = w.conn.messageReceiveQueue ∧
          c1.receivedPackets = w.conn.receivedPackets := by
        rw [← hc1def]; exact ⟨rfl, rfl, rfl, rfl, rfl, rfl, rfl⟩
      obtain ⟨g1, g2, g3, g4⟩ := GetMessagesToSend_spec c1
      generalize hr : GetMessagesToSend c1 = r at g1 g2 g3 g4
      have hins2 := SequenceBuffer.Insert_at_sequence r.1.messageSentPackets
        (by simp [MessageSentPacketsSize])
      have hseq : w.conn.sentPackets.GetSequence = r.1.messageSentPackets.sequence := by
        unfold SequenceBuffer.GetSequence
        rw [g1]
        show _ = c1.messageSentPackets.sequence
        rw [e2]; exact hsent
      unfold AddMessagePacketEntry
      rw [hseq, hins2]
      dsimp only
      obtain ⟨cm, hcm⟩ := collectMessages_isSome r.1.messageSendQueue r.2 w.heap
        (by intro id hid; rw [g3]; exact g4 id hid)
      rw [hcm]
      refine ⟨_, _, rfl, ?_, ?_, ?_, ?_, ?_, ?_, ?_, ?_, ?_, ?_, rfl⟩
      · show r.1.sentPackets.sequence = (r.1.messageSentPackets.sequence + 1) % 65536
        rw [← hseq]
        rw [g1]
        show c1.sentPackets.sequence = _
        rw [e1]; rfl
      · show r.1.error = _
        rw [g1]; exact e4.1
      · show r.1.messageOverheadBits = _
        rw [g1]; exact e4.2.1
      · show r.1.sendMessageId = _
        rw [g1]; exact e4.2.2.1
      · show r.1.receiveMessageId = _
        rw [g1]; exact e4.2.2.2.1
      · show r.1.oldestUnackedMessageId = _
        rw [g1]; exact e4.2.2.2.2.1
      · show r.1.messageReceiveQueue = _
        rw [g1]; exact e4.2.2.2.2.2.1
      · show r.1.receivedPackets = _
        rw [g1]; exact e4.2.2.2.2.2.2
      · show r.1.messageSendQueue.sequence = _
        rw [g2, e3]
      · show r.1.messageSendQueue.sequence_of_slot = _
        rw [g3, e3]

/-! ## Sending a message -/

/-- `SendMessage` in a state that satisfies the send-window invariant: it does
not fault, keeps the invariant and touches nothing but the send queue, the
send cursor, the error and the message. -/
theorem SendMessage_spec (w : World) (message : Nat) (hinv : SendQueueInv w.conn) :
    ∃ w1, SendMessage w message = some w1 ∧ SendQueueInv w1.conn ∧
      w1.conn.messageOverheadBits = w.conn.messageOverheadBits ∧
      w1.conn.receiveMessageId = w.conn.receiveMessageId ∧
      w1.conn.messageReceiveQueue = w.conn.messageReceiveQueue ∧
      w1.conn.receivedPackets = w.conn.receivedPackets ∧
      w1.conn.sentPackets = w.conn.sentPackets ∧
      w1.conn.messageSentPackets = w.conn.messageSentPackets ∧
      w1.conn.oldestUnackedMessageId = w.conn.oldestUnackedMessageId ∧
      w1.packetAcked = w.packetAcked ∧
      (w.conn.error ≠ CONNECTION_ERROR_NONE → w1.conn.error ≠ CONNECTION_ERROR_NONE) := by
  obtain ⟨hS, hO, hd, hnone, hsome⟩ := hinv
  unfold SendMessage
  by_cases hcan : CanSendMessage w.conn = true
  · have hslot : w.conn.messageSendQueue.sequence_of_slot
        (w.conn.sendMessageId % MessageSendQueueSize) = none := by
      simpa [CanSendMessage, SequenceBuffer.IsAvailable] using hcan
    have herr : w.conn.error = CONNECTION_ERROR_NONE := by
      by_contra h
      exact hsome h hslot
    obtain ⟨hseq, hpres⟩ := hnone herr
    have hins := SequenceBuffer.Insert_at_sequence w.conn.messageSendQueue
      (by simp [MessageSendQueueSize])
    rw [hseq] at hins
    simp only [hcan, Bool.not_true, Bool.false_eq_true, if_false]
    rw [hins]
    dsimp only
    have hdlt : (w.conn.sendMessageId + 65536 - w.conn.oldestUnackedMessageId) % 65536 < 1024 := by
      by_contra hge
      have hne : w.conn.oldestUnackedMessageId ≠ w.conn.sendMessageId := by
        intro h; rw [h] at hge; omega
      have h1 := hpres hne
      simp only [MessageSendQueueSize] at hd h1 hslot
      have : w.conn.oldestUnackedMessageId % 1024 = w.conn.sendMessageId % 1024 := by omega
      rw [this, hslot] at h1
      simp at h1
    have hOpres : w.conn.oldestUnackedMessageId ≠ w.conn.sendMessageId →
        Function.update
          (fun i => match w.conn.messageSendQueue.sequence_of_slot i with
            | none => none
            | some q =>
              if SequenceBuffer.inWindow MessageSendQueueSize ((w.conn.sendMessageId + 1) % 65536) q
              then some q else none)
          (w.conn.sendMessageId % MessageSendQueueSize) (some w.conn.sendMessageId)
          (w.conn.oldestUnackedMessageId % MessageSendQueueSize)
        = some w.conn.oldestUnackedMessageId := by
      intro hne
      have h1 := hpres hne
      have hidx : w.conn.oldestUnackedMessageId % MessageSendQueueSize ≠
          w.conn.sendMessageId % MessageSendQueueSize := by
        simp only [MessageSendQueueSize]; omega
      rw [Function.update_noteq hidx]
      simp only [h1]
      have : SequenceBuffer.inWindow MessageSendQueueSize ((w.conn.sendMessageId + 1) % 65536)
          w.conn.oldestUnackedMessageId = true := by
        simp only [SequenceBuffer.inWindow, MessageSendQueueSize, decide_eq_true_eq]
        omega
      simp [this]
    cases hm : (w.heap.AssignId message w.conn.sendMessageId message).measure with
    | none =>
      refine ⟨_, rfl, ⟨hS, hO, hd, ?_, ?_⟩, rfl, rfl, rfl, rfl, rfl, rfl, rfl, rfl, ?_⟩
      · intro h; exact absurd h (by simp)
      · intro _
        simp [SequenceBuffer.setEntry]
      · intro h; exact absurd herr h
    | some bitsProcessed =>
      refine ⟨_, rfl, ⟨?_, hO, ?_, ?_, ?_⟩, rfl, rfl, rfl, rfl, rfl, rfl, rfl, rfl, ?_⟩
      · show (w.conn.sendMessageId + 1) % 65536 < 65536
        omega
      · show ((w.conn.sendMessageId + 1) % 65536 + 65536 - w.conn.oldestUnackedMessageId) % 65536
          ≤ MessageSendQueueSize
        simp only [MessageSendQueueSize]
        omega
      · intro _
        refine ⟨rfl, ?_⟩
        intro hne
        simp only [SequenceBuffer.setEntry]
        by_cases hOS : w.conn.oldestUnackedMessageId = w.conn.sendMessageId
        · rw [hOS, Function.update_same]
        · exact hOpres hOS
      · intro h; exact absurd herr h
      · intro h; exact absurd herr h
  · simp only [hcan, Bool.not_false, if_true]
    have hslot : w.conn.messageSendQueue.sequence_of_slot
        (w.conn.sendMessageId % MessageSendQueueSize) ≠ none := by
      simpa [CanSendMessage, SequenceBuffer.IsAvailable] using hcan
    refine ⟨_, rfl, ⟨hS, hO, hd, ?_, ?_⟩, rfl, rfl, rfl, rfl, rfl, rfl, rfl, rfl, ?_⟩
    · intro h; exact absurd h (by simp)
    · intro _; exact hslot
    · intro _; simp

/-! ## The invariant holds in every reachable state -/

theorem fresh_inv {w : World} (h : Fresh w.conn) : Inv w := by
  refine ⟨h.receiveQueueInv, ?_, ?_⟩
  · obtain ⟨he, hS, _, hO, _, _, ⟨hq, _⟩, _, _⟩ := h
    refine ⟨by omega, by omega, by rw [hS, hO]; simp [MessageSendQueueSize], ?_, ?_⟩
    · intro _
      exact ⟨hq.trans hS.symm, fun hne => absurd (hO.trans hS.symm) hne⟩
    · intro hne; exact absurd he hne
  · obtain ⟨_, _, _, _, ⟨h1, _⟩, _, _, ⟨h2, _⟩, _⟩ := h
    exact h1.trans h2.symm

theorem Reset_fresh (w : World) : Fresh (Reset w).conn :=
  ⟨rfl, rfl, rfl, rfl, ⟨rfl, fun _ => rfl⟩, ⟨rfl, fun _ => rfl⟩, ⟨rfl, fun _ => rfl⟩,
    ⟨rfl, fun _ => rfl⟩, ⟨rfl, fun _ => rfl⟩⟩

theorem ReadPacket_inv (w : World) (packet : ConnectionPacket) (hinv : Inv w) :
    ∃ w1 b, ReadPacket w packet = some (w1, b) ∧ Inv w1 ∧
      w1.conn.messageOverheadBits = w.conn.messageOverheadBits ∧
      w1.conn.error = w.conn.error := by
  obtain ⟨hrecv, hsend, hsent⟩ := hinv
  obtain ⟨w1, b, hrd, hi1, _, _, he, _⟩ := ReadPacket_recv w packet hrecv
  refine ⟨w1, b, hrd, ⟨hi1, ?_, ?_⟩, ?_, he⟩
  all_goals
    unfold ReadPacket at hrd
    by_cases herr : w.conn.error = CONNECTION_ERROR_NONE
    · simp only [herr, ne_eq, not_true_eq_false, if_false] at hrd
      unfold ProcessPacketMessages at hrd
      obtain ⟨w2, e2, hrun, _, _, hfr, _⟩ :=
        processPacketMessagesLoop_spec w.conn.receiveMessageId packet.messages w false rfl hrecv
      simp only [hrun] at hrd
      have hsend2 : SendQueueInv w2.conn := by
        unfold SendQueueInv; rw [hfr]; exact hsend
      have hsent2 : SentPacketsInv w2.conn := by
        unfold SentPacketsInv; rw [hfr]; exact hsent
      have hov2 : w2.conn.messageOverheadBits = w.conn.messageOverheadBits := by rw [hfr]
      have herr2 : w2.conn.error = CONNECTION_ERROR_NONE := by rw [hfr]; exact herr
      cases e2 with
      | true =>
        simp only [Bool.not_true, Option.some.injEq, Prod.mk.injEq] at hrd
        obtain ⟨hw, _⟩ := hrd
        subst hw
        first | exact hsend2 | exact hsent2 | exact hov2
      | false =>
        simp only [Bool.not_false] at hrd
        cases hin : w2.conn.receivedPackets.Insert packet.sequence with
        | none =>
          simp only [hin, Option.some.injEq, Prod.mk.injEq] at hrd
          obtain ⟨hw, _⟩ := hrd
          subst hw
          first | exact hsend2 | exact hsent2 | exact hov2
        | some r =>
          obtain ⟨rb, idx⟩ := r
          simp only [hin, Option.some.injEq, Prod.mk.injEq] at hrd
          obtain ⟨hw, _⟩ := hrd
          subst hw
          have hf := ProcessAcks_frame { w2 with conn := { w2.conn with receivedPackets := rb } }
            packet.ack packet.ack_bits
          first
            | exact ProcessAcks_send _ _ _ hsend2 herr2
            | (unfold SentPacketsInv
               rw [hf.2.2.2.2.2.2.2.2.2.1, hf.2.2.2.2.2.2.1]
               exact hsent2)
            | exact hf.2.2.2.1.trans hov2
    · simp only [herr, ne_eq, not_false_eq_true, if_true, Option.some.injEq, Prod.mk.injEq] at hrd
      obtain ⟨hw, _⟩ := hrd
      subst hw
      first | exact hsend | exact hsent | rfl

/-- Every public call, made in a state that satisfies the invariant, returns
without fault and leaves a state that satisfies it. -/
theorem step_inv (w : World) (hinv : Inv w) (op : Op) :
    ∃ w1 out, step w op = some (w1, out) ∧ Inv w1 ∧
      (op ≠ Op.reset → w1.conn.messageOverheadBits = w.conn.messageOverheadBits) := by
  obtain ⟨hrecv, hsend, hsent⟩ := hinv
  cases op with
  | sendMessage message =>
    obtain ⟨w1, hs, hi, a1, a2, a3, a4, a5, a6, a7, _⟩ := SendMessage_spec w message hsend
    refine ⟨w1, Output.done, by simp [step, hs], ⟨?_, hi, ?_⟩, fun _ => a1⟩
    · unfold ReceiveQueueInv; rw [a2, a3]; exact hrecv
    · unfold SentPacketsInv; rw [a5, a6]; exact hsent
  | writePacket packetCreated =>
    obtain ⟨w1, out, hs, hi, b1, b2, b3, b4, b5, b6, b7, b8, b9, _⟩ :=
      WritePacket_spec w packetCreated hsent
    refine ⟨w1, Output.packet out, by simp [step, hs], ⟨?_, ?_, hi⟩, fun _ => b2⟩
    · unfold ReceiveQueueInv; rw [b4, b6]; exact hrecv
    · unfold SendQueueInv; rw [b1, b3, b5, b8, b9]; exact hsend
  | readPacket packet =>
    obtain ⟨w1, b, hs, hi, hov, _⟩ := ReadPacket_inv w packet ⟨hrecv, hsend, hsent⟩
    exact ⟨w1, Output.accepted b, by simp [step, hs], hi, fun _ => hov⟩
  | receiveMessage =>
    refine ⟨(ReceiveMessage w).1, Output.message (ReceiveMessage w).2, rfl, ?_, ?_⟩
    · by_cases herr : w.conn.error = CONNECTION_ERROR_NONE
      · cases hf : w.conn.messageReceiveQueue.Find w.conn.receiveMessageId with
        | none => rw [ReceiveMessage_none w hf]; exact ⟨hrecv, hsend, hsent⟩
        | some e =>
          have h1 := (ReceiveMessage_recv w hrecv).1
          rw [ReceiveMessage_some w e herr hf] at h1 ⊢
          exact ⟨h1, hsend, hsent⟩
      · rw [ReceiveMessage_error w herr]; exact ⟨hrecv, hsend, hsent⟩
    · intro _
      by_cases herr : w.conn.error = CONNECTION_ERROR_NONE
      · cases hf : w.conn.messageReceiveQueue.Find w.conn.receiveMessageId with
        | none => rw [ReceiveMessage_none w hf]
        | some e => rw [ReceiveMessage_some w e herr hf]
      · rw [ReceiveMessage_error w herr]
  | advanceTime time =>
    exact ⟨AdvanceTime w time, Output.done, rfl, ⟨hrecv, hsend, hsent⟩, fun _ => rfl⟩
  | reset =>
    exact ⟨Reset w, Output.done, rfl, fresh_inv (Reset_fresh w), fun h => absurd rfl h⟩

theorem reachable_inv {bits_required : Int → Int → Int} {numTypes : Int} {w : World}
    (h : Reachable bits_required numTypes w) :
    Inv w ∧ w.conn.messageOverheadBits = 16 + bits_required 0 (numTypes - 1) := by
  induction h with
  | init heap =>
    refine ⟨fresh_inv ?_, rfl⟩
    exact Connection.new_fresh _ _
  | @step w w1 out op _ hstep ih =>
    obtain ⟨w2, out2, hs, hi, hov⟩ := step_inv w ih.1 op
    rw [hstep] at hs
    simp only [Option.some.injEq, Prod.mk.injEq] at hs
    obtain ⟨hw, _⟩ := hs
    subst hw
    refine ⟨hi, ?_⟩
    by_cases hop : op = Op.reset
    · subst hop
      simp only [Protocol2.step, Option.some.injEq, Prod.mk.injEq] at hstep
      rw [← hstep.1]
      exact ih.2
    · rw [hov hop]; exact ih.2

theorem reachable_run {bits_required : Int → Int → Int} {numTypes : Int} :
    ∀ (ops : List Op) (w w1 : World) (outs : List Output),
      Reachable bits_required numTypes w → Protocol2.run w ops = some (w1, outs) →
      Reachable bits_required numTypes w1 := by
  intro ops
  induction ops with
  | nil =>
    intro w w1 outs h hr
    simp only [Protocol2.run, Option.some.injEq, Prod.mk.injEq] at hr
    rw [← hr.1]; exact h
  | cons op rest ih =>
    intro w w1 outs h hr
    simp only [Protocol2.run] at hr
    cases hs : Protocol2.step w op with
    | none => simp [hs] at hr
    | some r =>
      obtain ⟨w2, out⟩ := r
      simp only [hs] at hr
      cases hr2 : Protocol2.run w2 rest with
      | none => simp [hr2] at hr
      | some r2 =>
        obtain ⟨w3, outs2⟩ := r2
        simp only [hr2, Option.some.injEq, Prod.mk.injEq] at hr
        rw [← hr.1]
        exact ih w2 w3 outs2 (Reachable.step op h hs) hr2

theorem reachable_afterOps {bits_required : Int → Int → Int} {numTypes : Int} {w : World}
    (h : Reachable bits_required numTypes w) (ops : List Op) :
    Reachable bits_required numTypes (Protocol2.afterOps w ops) := by
  unfold Protocol2.afterOps
  cases hr : Protocol2.run w ops with
  | none => exact h
  | some r => exact reachable_run ops w r.1 r.2 h hr

/-- C3. In every state a connection reaches from its construction through
`SendMessage`, `WritePacket`, `ReadPacket`, `ReceiveMessage`, `AdvanceTime` and
`Reset` calls, with any arguments, `send_message_id - oldest_unacked_message_id`
(mod 2^16) is at most `MessageSendQueueSize`, the oldest unacked id is not
modular-greater than the send id, and no public call faults. -/
theorem C3_window_safety (bits_required : Int → Int → Int) (numTypes : Int) (w : World)
    (h : Reachable bits_required numTypes w) :
    (w.conn.sendMessageId + 65536 - w.conn.oldestUnackedMessageId) % 65536 ≤ MessageSendQueueSize ∧
    sequence_greater_than w.conn.oldestUnackedMessageId w.conn.sendMessageId = false ∧
    ∀ op, ∃ w1 out, step w op = some (w1, out) := by
  obtain ⟨⟨hrecv, hsend, hsent⟩, _⟩ := reachable_inv h
  obtain ⟨hS, hO, hd, _, _⟩ := hsend
  refine ⟨hd, ?_, ?_⟩
  · simp only [sequence_greater_than, sequence_less_than, decide_eq_false_iff_not]
    simp only [MessageSendQueueSize] at hd
    omega
  · intro op
    obtain ⟨w1, out, hs, _⟩ := step_inv w ⟨hrecv, ⟨hS, hO, hd, by assumption, by assumption⟩, hsent⟩ op
    exact ⟨w1, out, hs⟩

theorem C3_window_safety_witness :
    ((afterOps demoWorld demoOps).conn.sendMessageId = 2 ∧
     (afterOps demoWorld demoOps).conn.oldestUnackedMessageId = 2 ∧
     (afterOps demoWorld demoOps).conn.receiveMessageId = 0) ∧
    ((afterOps demoWorld demoOps).conn.sendMessageId + 65536
        - (afterOps demoWorld demoOps).conn.oldestUnackedMessageId) % 65536 ≤ MessageSendQueueSize ∧
    sequence_greater_than (afterOps demoWorld demoOps).conn.oldestUnackedMessageId
      (afterOps demoWorld demoOps).conn.sendMessageId = false ∧
    ∀ op, ∃ w1 out, step (afterOps demoWorld demoOps) op = some (w1, out) :=
  ⟨by decide!,
    C3_window_safety (fun _ _ => 1) 2 (afterOps demoWorld demoOps)
      (reachable_afterOps (Reachable.init demoHeap) demoOps)⟩

/-! ## Acks are processed once -/

theorem processMessageAckLoop_sent (offset : Nat) :
    ∀ (ids : List Nat) (w : World),
      (processMessageAckLoop offset ids w).conn.sentPackets = w.conn.sentPackets ∧
      (processMessageAckLoop offset ids w).packetAcked = w.packetAcked := by
  intro ids
  induction ids with
  | nil => intro w; exact ⟨rfl, rfl⟩
  | cons i rest ih =>
    intro w
    unfold processMessageAckLoop
    cases hf : w.conn.messageSendQueue.Find (w.conn.sentPacketMessageIds (offset + i)) with
    | none => simpa [hf] using ih w
    | some e =>
      simp only [hf]
      exact ih _

theorem ProcessMessageAck_sent (w : World) (ack : Nat) :
    (ProcessMessageAck w ack).conn.sentPackets = w.conn.sentPackets ∧
    (ProcessMessageAck w ack).packetAcked = w.packetAcked := by
  unfold ProcessMessageAck
  cases hf : w.conn.messageSentPackets.Find ack with
  | none => exact ⟨rfl, rfl⟩
  | some e =>
    dsimp only
    by_cases ha : e.acked ≠ 0
    · rw [if_pos ha]; exact ⟨rfl, rfl⟩
    · rw [if_neg ha]
      exact processMessageAckLoop_sent e.messageIds (List.range e.numMessageIds) w

/-- The loop body of `ProcessAcks` does nothing when the entry of its sequence
is not pending. -/
theorem processAcksStep_settled (ack i bits : Nat) (w : World)
    (h : bits % 2 = 1 → pendingCount w ((ack + 65536 - i) % 65536) = 0) :
    processAcksStep ack i bits w = w := by
  unfold processAcksStep
  by_cases hb : bits % 2 = 1
  · rw [if_pos hb]
    have h0 := h hb
    unfold pendingCount at h0
    dsimp only
    cases hf : w.conn.sentPackets.Find ((ack + 65536 - i) % 65536) with
    | none => rfl
    | some d =>
      rw [hf] at h0
      dsimp only at h0 ⊢
      by_cases ha : d.acked = 0
      · rw [if_pos ha] at h0; omega
      · rw [if_neg ha]
  · rw [if_neg hb]

/-- The loop body of `ProcessAcks` invokes `PacketAcked` for a sequence only
if its entry is pending, and leaves it not pending. -/
theorem processAcksStep_count (ack i bits : Nat) (w : World) (s : Nat) :
    ∃ new, (processAcksStep ack i bits w).packetAcked = new ++ w.packetAcked ∧
      new.count s + pendingCount (processAcksStep ack i bits w) s ≤ pendingCount w s ∧
      (bits % 2 = 1 → pendingCount (processAcksStep ack i bits w) ((ack + 65536 - i) % 65536) = 0) := by
  by_cases hset : bits % 2 = 1 → pendingCount w ((ack + 65536 - i) % 65536) = 0
  · rw [processAcksStep_settled ack i bits w hset]
    exact ⟨[], rfl, by simp, hset⟩
  · have hb : bits % 2 = 1 := by
      by_contra h; exact hset (fun h' => absurd h' h)
    have hp : pendingCount w ((ack + 65536 - i) % 65536) ≠ 0 := fun h => hset (fun _ => h)
    unfold processAcksStep
    rw [if_pos hb]
    dsimp only
    unfold pendingCount at hp
    cases hf : w.conn.sentPackets.Find ((ack + 65536 - i) % 65536) with
    | none => rw [hf] at hp; exact absurd rfl hp
    | some d =>
      rw [hf] at hp
      dsimp only at hp ⊢
      by_cases ha : d.acked = 0
      · rw [if_pos ha]
        obtain ⟨hsent, hlog⟩ := ProcessMessageAck_sent w ((ack + 65536 - i) % 65536)
        have hslot := ((SequenceBuffer.Find_eq_some _ _ _).mp hf).1
        refine ⟨[(ack + 65536 - i) % 65536], ?_, ?_, ?_⟩
        · show (PacketAcked w _).packetAcked = _
          unfold PacketAcked
          dsimp only
          rw [hlog]; rfl
        · unfold pendingCount
          simp only [PacketAcked, hsent]
          by_cases hs : s = (ack + 65536 - i) % 65536
          · subst hs
            rw [hf]
            have : (w.conn.sentPackets.setEntry ((ack + 65536 - i) % 65536 % SlidingWindowSize)
                ({ acked := 1 } : SentPacketData)).Find ((ack + 65536 - i) % 65536) = some { acked := 1 } := by
              rw [SequenceBuffer.Find_eq_some]
              exact ⟨hslot, by simp [SequenceBuffer.setEntry]⟩
            rw [this]
            simp [ha]
          · have hc : List.count s [(ack + 65536 - i) % 65536] = 0 := by
              simp [List.count_singleton, Ne.symm hs]
            rw [hc]
            by_cases hidx : s % SlidingWindowSize = (ack + 65536 - i) % 65536 % SlidingWindowSize
            · have h1 : (w.conn.sentPackets.setEntry ((ack + 65536 - i) % 65536 % SlidingWindowSize)
                  ({ acked := 1 } : SentPacketData)).Find s = none := by
                rw [SequenceBuffer.Find_eq_none]
                show w.conn.sentPackets.sequence_of_slot (s % SlidingWindowSize) ≠ some s
                rw [hidx, hslot]
                intro h; exact hs (Option.some.inj h).symm
              rw [h1]
              simp
            · have h1 : (w.conn.sentPackets.setEntry ((ack + 65536 - i) % 65536 % SlidingWindowSize)
                  ({ acked := 1 } : SentPacketData)).Find s = w.conn.sentPackets.Find s := by
                unfold SequenceBuffer.Find SequenceBuffer.setEntry
                simp only [Function.update_noteq hidx]
              rw [h1]
              simp
        · intro _
          unfold pendingCount
          simp only [PacketAcked, hsent]
          have : (w.conn.sentPackets.setEntry ((ack + 65536 - i) % 65536 % SlidingWindowSize)
              ({ acked := 1 } : SentPacketData)).Find ((ack + 65536 - i) % 65536) = some { acked := 1 } := by
            rw [SequenceBuffer.Find_eq_some]
            exact ⟨hslot, by simp [SequenceBuffer.setEntry]⟩
          rw [this]
          rfl
      · rw [if_neg ha] at hp; exact absurd rfl hp

theorem processAcksLoop_count (ack : Nat) (s : Nat) :
    ∀ (n i bits : Nat) (w : World),
      ∃ new, (processAcksLoop ack n i bits w).packetAcked = new ++ w.packetAcked ∧
        new.count s + pendingCount (processAcksLoop ack n i bits w) s ≤ pendingCount w s := by
  intro n
  induction n with
  | zero => intro i bits w; exact ⟨[], rfl, by simp [processAcksLoop]⟩
  | succ n ih =>
    intro i bits w
    unfold processAcksLoop
    obtain ⟨new1, h1, h2, _⟩ := processAcksStep_count ack i bits w s
    obtain ⟨new2, h3, h4⟩ := ih (i + 1) (bits / 2) (processAcksStep ack i bits w)
    refine ⟨new2 ++ new1, ?_, ?_⟩
    · rw [h3, h1, List.append_assoc]
    · rw [List.count_append]; omega

theorem processAcksLoop_settles (ack : Nat) :
    ∀ (n i bits : Nat) (w : World) (j : Nat), j < n → (bits / 2 ^ j) % 2 = 1 →
      pendingCount (processAcksLoop ack n i bits w) ((ack + 65536 - (i + j)) % 65536) = 0 := by
  intro n
  induction n with
  | zero => intro i bits w j hj; omega
  | succ n ih =>
    intro i bits w j hj hbit
    unfold processAcksLoop
    cases j with
    | zero =>
      simp only [pow_zero, Nat.div_one] at hbit
      obtain ⟨_, _, _, hown⟩ := processAcksStep_count ack i bits w ((ack + 65536 - (i + 0)) % 65536)
      have h0 := hown hbit
      obtain ⟨new, _, h4⟩ := processAcksLoop_count ack ((ack + 65536 - (i + 0)) % 65536) n (i + 1)
        (bits / 2) (processAcksStep ack i bits w)
      simp only [Nat.add_zero] at h0 h4 ⊢
      omega
    | succ j =>
      have := ih (i + 1) (bits / 2) (processAcksStep ack i bits w) j (by omega)
        (by rw [Nat.div_div_eq_div_mul, ← pow_succ']; exact hbit)
      have e : i + 1 + j = i + (j + 1) := by omega
      rw [e] at this
      exact this

theorem processAcksLoop_settled (ack : Nat) :
    ∀ (n i bits : Nat) (w : World),
      (∀ j, j < n → (bits / 2 ^ j) % 2 = 1 →
        pendingCount w ((ack + 65536 - (i + j)) % 65536) = 0) →
      processAcksLoop ack n i bits w = w := by
  intro n
  induction n with
  | zero => intro i bits w _; rfl
  | succ n ih =>
    intro i bits w h
    unfold processAcksLoop
    have h0 : processAcksStep ack i bits w = w := by
      apply processAcksStep_settled
      intro hb
      have := h 0 (by omega) (by simpa using hb)
      simpa using this
    rw [h0]
    apply ih
    intro j hj hbit
    have := h (j + 1) (by omega) (by rw [pow_succ', ← Nat.div_div_eq_div_mul]; exact hbit)
    have e : i + 1 + j = i + (j + 1) := by omega
    rw [e]
    exact this

theorem ProcessAcks_idempotent (w : World) (ack ack_bits : Nat) :
    ProcessAcks (ProcessAcks w ack ack_bits) ack ack_bits = ProcessAcks w ack ack_bits := by
  unfold ProcessAcks
  apply processAcksLoop_settled
  intro j hj hbit
  exact processAcksLoop_settles ack 32 0 ack_bits w j hj hbit

theorem pendingCount_congr {w w1 : World} (h : w1.conn.sentPackets = w.conn.sentPackets) (s : Nat) :
    pendingCount w1 s = pendingCount w s := by
  unfold pendingCount
  rw [h]

theorem pendingCount_le_one (w : World) (s : Nat) : pendingCount w s ≤ 1 := by
  unfold pendingCount
  split
  · split <;> omega
  · omega

theorem processPacketMessagesLoop_frame (minId maxId : Nat) :
    ∀ (msgs : List Nat) (w : World) (early : Bool) (w1 : World) (early1 : Bool),
      processPacketMessagesLoop minId maxId msgs w early = some (w1, early1) →
      w1.conn = { w.conn with messageReceiveQueue := w1.conn.messageReceiveQueue } ∧
      w1.packetAcked = w.packetAcked := by
  intro msgs
  induction msgs with
  | nil =>
    intro w early w1 early1 h
    simp only [processPacketMessagesLoop, Option.some.injEq, Prod.mk.injEq] at h
    rw [← h.1]
    exact ⟨rfl, rfl⟩
  | cons m rest ih =>
    intro w early w1 early1 h
    unfold processPacketMessagesLoop at h
    dsimp only at h
    split at h
    · exact ih _ _ _ _ h
    · split at h
      · exact ih _ _ _ _ h
      · split at h
        · exact ih _ _ _ _ h
        · split at h
          · exact absurd h (by simp)
          · obtain ⟨a, b⟩ := ih _ _ _ _ h
            exact ⟨by rw [a], b⟩

theorem ReadPacket_count (w : World) (packet : ConnectionPacket) (w1 : World) (b : Bool)
    (h : ReadPacket w packet = some (w1, b)) (s : Nat) :
    ∃ new, w1.packetAcked = new ++ w.packetAcked ∧
      new.count s + pendingCount w1 s ≤ pendingCount w s := by
  unfold ReadPacket at h
  split at h
  · simp only [Option.some.injEq, Prod.mk.injEq] at h
    rw [← h.1]
    exact ⟨[], rfl, by simp⟩
  · unfold ProcessPacketMessages at h
    cases hl : processPacketMessagesLoop w.conn.receiveMessageId
        ((w.conn.receiveMessageId + MessageReceiveQueueSize - 1) % 65536) packet.messages w false with
    | none => simp [hl] at h
    | some r =>
      obtain ⟨w2, e2⟩ := r
      obtain ⟨hfr, hlog⟩ := processPacketMessagesLoop_frame _ _ _ _ _ _ _ hl
      have hsent : w2.conn.sentPackets = w.conn.sentPackets := by rw [hfr]
      simp only [hl] at h
      cases e2 with
      | true =>
        simp only [Bool.not_true, Option.some.injEq, Prod.mk.injEq] at h
        rw [← h.1]
        exact ⟨[], by simpa using hlog, by simp [pendingCount_congr hsent]⟩
      | false =>
        simp only [Bool.not_false] at h
        cases hin : w2.conn.receivedPackets.Insert packet.sequence with
        | none =>
          simp only [hin, Option.some.injEq, Prod.mk.injEq] at h
          rw [← h.1]
          exact ⟨[], by simpa using hlog, by simp [pendingCount_congr hsent]⟩
        | some r2 =>
          obtain ⟨rb, idx⟩ := r2
          simp only [hin, Option.some.injEq, Prod.mk.injEq] at h
          rw [← h.1]
          obtain ⟨new, h1, h2⟩ := processAcksLoop_count packet.ack s 32 0 packet.ack_bits
            { w2 with conn := { w2.conn with receivedPackets := rb } }
          refine ⟨new, ?_, ?_⟩
          · unfold ProcessAcks
            rw [h1]
            show new ++ w2.packetAcked = _
            rw [hlog]
          · have e : pendingCount { w2 with conn := { w2.conn with receivedPackets := rb } } s
                = pendingCount w s := pendingCount_congr hsent s
            exact le_trans h2 (le_of_eq e)

theorem SendMessage_sent (w : World) (message : Nat) (w1 : World)
    (h : SendMessage w message = some w1) :
    w1.conn.sentPackets = w.conn.sentPackets ∧ w1.packetAcked = w.packetAcked := by
  unfold SendMessage at h
  dsimp only at h
  split at h
  · simp only [Option.some.injEq] at h
    rw [← h]
    exact ⟨rfl, rfl⟩
  · split at h
    · exact absurd h (by simp)
    · split at h
      · simp only [Option.some.injEq] at h
        rw [← h]
        exact ⟨rfl, rfl⟩
      · simp only [Option.some.injEq] at h
        rw [← h]
        exact ⟨rfl, rfl⟩

theorem InsertAckPacketEntry_find (c : Connection) (S0 s : Nat) (hs : s ≠ S0) :
    (InsertAckPacketEntry c S0).sentPackets.Find s = none ∨
    (InsertAckPacketEntry c S0).sentPackets.Find s = c.sentPackets.Find s := by
  unfold InsertAckPacketEntry
  cases hin : c.sentPackets.Insert S0 with
  | none => right; rfl
  | some r =>
    obtain ⟨b, idx⟩ := r
    dsimp only
    unfold SequenceBuffer.Insert at hin
    split at hin
    · exact absurd hin (by simp)
    · simp only [Option.some.injEq, Prod.mk.injEq] at hin
      obtain ⟨hb, hidx⟩ := hin
      by_cases hi : s % SlidingWindowSize = S0 % SlidingWindowSize
      · left
        rw [SequenceBuffer.Find_eq_none]
        rw [← hb]
        simp only [SequenceBuffer.setEntry, hi, Function.update_same]
        intro h
        exact hs (Option.some.inj h).symm
      · by_cases hadv : S0 = c.sentPackets.sequence ∨
            sequence_greater_than S0 c.sentPackets.sequence = true
        · rw [if_pos hadv] at hb
          cases hold : c.sentPackets.sequence_of_slot (s % SlidingWindowSize) with
          | none =>
            left
            rw [SequenceBuffer.Find_eq_none, ← hb]
            simp only [SequenceBuffer.setEntry, Function.update_noteq hi, hold]
            simp
          | some q =>
            by_cases hw : SequenceBuffer.inWindow SlidingWindowSize ((S0 + 1) % 65536) q = true
            · right
              rw [← hb, ← hidx]
              unfold SequenceBuffer.Find SequenceBuffer.setEntry
              simp only [Function.update_noteq hi, hold, hw, if_true]
            · left
              rw [SequenceBuffer.Find_eq_none, ← hb]
              simp only [SequenceBuffer.setEntry, Function.update_noteq hi, hold, hw]
              simp
        · rw [if_neg hadv] at hb
          right
          rw [← hb, ← hidx]
          unfold SequenceBuffer.Find SequenceBuffer.setEntry
          simp only [Function.update_noteq hi]

theorem AddMessagePacketEntry_sent (c : Connection) (ids : List Nat) (sequence : Nat)
    (c1 : Connection) (h : AddMessagePacketEntry c ids sequence = some c1) :
    c1.sentPackets = c.sentPackets := by
  unfold AddMessagePacketEntry at h
  split at h
  · exact absurd h (by simp)
  · simp only [Option.some.injEq] at h
    rw [← h]

theorem WritePacket_count (w : World) (packetCreated : Bool) (w1 : World)
    (out : Option ConnectionPacket) (h : WritePacket w packetCreated = some (w1, out)) (s : Nat) :
    w1.packetAcked = w.packetAcked ∧
    pendingCount w1 s ≤ (stamped [Output.packet out]).count s + pendingCount w s := by
  unfold WritePacket at h
  split at h
  · simp only [Option.some.injEq, Prod.mk.injEq] at h
    rw [← h.1]
    exact ⟨rfl, by omega⟩
  · split at h
    · simp only [Option.some.injEq, Prod.mk.injEq] at h
      rw [← h.1]
      exact ⟨rfl, by omega⟩
    · dsimp only at h
      cases ha : AddMessagePacketEntry
          (GetMessagesToSend (InsertAckPacketEntry w.conn w.conn.sentPackets.GetSequence)).1
          (GetMessagesToSend (InsertAckPacketEntry w.conn w.conn.sentPackets.GetSequence)).2
          w.conn.sentPackets.GetSequence with
      | none => simp [ha] at h
      | some c3 =>
        simp only [ha] at h
        cases hc : collectMessages c3.messageSendQueue
            (GetMessagesToSend (InsertAckPacketEntry w.conn w.conn.sentPackets.GetSequence)).2
            w.heap with
        | none => simp [hc] at h
        | some r =>
          obtain ⟨h1, msgs⟩ := r
          simp only [hc, Option.some.injEq, Prod.mk.injEq] at h
          obtain ⟨hw, hout⟩ := h
          rw [← hw, ← hout]
          refine ⟨rfl, ?_⟩
          have e1 := AddMessagePacketEntry_sent _ _ _ _ ha
          have e2 : (GetMessagesToSend (InsertAckPacketEntry w.conn
              w.conn.sentPackets.GetSequence)).1.sentPackets
              = (InsertAckPacketEntry w.conn w.conn.sentPackets.GetSequence).sentPackets := by
            rw [(GetMessagesToSend_spec _).1]
          by_cases hs : s = w.conn.sentPackets.GetSequence
          · have := pendingCount_le_one { w with conn := c3, heap := h1 } s
            simp only [stamped, hs, List.count_cons_self]
            rw [hs] at this
            omega
          · have hf := InsertAckPacketEntry_find w.conn w.conn.sentPackets.GetSequence s hs
            unfold pendingCount
            show (match c3.sentPackets.Find s with
              | some packetData => if packetData.acked = 0 then 1 else 0
              | none => 0) ≤ _
            rw [e1, e2]
            rcases hf with hf | hf
            · rw [hf]; exact Nat.zero_le _
            · rw [hf]; exact Nat.le_add_left _ _

theorem step_count (w : World) (op : Op) (w1 : World) (out : Output)
    (h : step w op = some (w1, out)) (s : Nat) :
    ∃ new, w1.packetAcked = new ++ w.packetAcked ∧
      new.count s + pendingCount w1 s ≤ (stamped [out]).count s + pendingCount w s := by
  cases op with
  | sendMessage message =>
    cases hs : SendMessage w message with
    | none => simp [step, hs] at h
    | some w2 =>
      simp only [step, hs, Option.map_some', Option.some.injEq, Prod.mk.injEq] at h
      obtain ⟨a, b⟩ := SendMessage_sent w message w2 hs
      rw [← h.1]
      exact ⟨[], by simpa using b, by simp [pendingCount_congr a]⟩
  | writePacket packetCreated =>
    cases hs : WritePacket w packetCreated with
    | none => simp [step, hs] at h
    | some r =>
      obtain ⟨w2, o2⟩ := r
      simp only [step, hs, Option.map_some', Option.some.injEq, Prod.mk.injEq] at h
      obtain ⟨a, b⟩ := WritePacket_count w packetCreated w2 o2 hs s
      rw [← h.1, ← h.2]
      exact ⟨[], by simpa using a, by simpa using b⟩
  | readPacket packet =>
    cases hs : ReadPacket w packet with
    | none => simp [step, hs] at h
    | some r =>
      obtain ⟨w2, b2⟩ := r
      simp only [step, hs, Option.map_some', Option.some.injEq, Prod.mk.injEq] at h
      obtain ⟨new, a, b⟩ := ReadPacket_count w packet w2 b2 hs s
      rw [← h.1]
      exact ⟨new, a, by omega⟩
  | receiveMessage =>
    simp only [step, Option.some.injEq, Prod.mk.injEq] at h
    rw [← h.1]
    have hsent : (ReceiveMessage w).1.conn.sentPackets = w.conn.sentPackets ∧
        (ReceiveMessage w).1.packetAcked = w.packetAcked := by
      unfold ReceiveMessage
      dsimp only
      split
      · exact ⟨rfl, rfl⟩
      · split <;> exact ⟨rfl, rfl⟩
    exact ⟨[], by simpa using hsent.2, by simp [pendingCount_congr hsent.1]⟩
  | advanceTime time =>
    simp only [step, Option.some.injEq, Prod.mk.injEq] at h
    rw [← h.1]
    exact ⟨[], rfl, by simp [pendingCount, AdvanceTime]⟩
  | reset =>
    simp only [step, Option.some.injEq, Prod.mk.injEq] at h
    rw [← h.1]
    refine ⟨[], rfl, ?_⟩
    have : pendingCount (Reset w) s = 0 := by
      unfold pendingCount
      have : (Reset w).conn.sentPackets.Find s = none := by
        rw [SequenceBuffer.Find_eq_none]
        simp [Reset, SequenceBuffer.Reset]
      rw [this]
    simp [this]

theorem stamped_cons (out : Output) (outs : List Output) :
    stamped (out :: outs) = stamped [out] ++ stamped outs := by
  cases out with
  | packet p => cases p <;> rfl
  | done => rfl
  | message m => rfl
  | accepted b => rfl

theorem run_count (s : Nat) :
    ∀ (ops : List Op) (w w1 : World) (outs : List Output), run w ops = some (w1, outs) →
      ∃ new, w1.packetAcked = new ++ w.packetAcked ∧
        new.count s + pendingCount w1 s ≤ (stamped outs).count s + pendingCount w s := by
  intro ops
  induction ops with
  | nil =>
    intro w w1 outs h
    simp only [run, Option.some.injEq, Prod.mk.injEq] at h
    rw [← h.1, ← h.2]
    exact ⟨[], rfl, by simp [stamped]⟩
  | cons op rest ih =>
    intro w w1 outs h
    simp only [run] at h
    cases hs : step w op with
    | none => simp [hs] at h
    | some r =>
      obtain ⟨w2, out⟩ := r
      simp only [hs] at h
      cases hr : run w2 rest with
      | none => simp [hr] at h
      | some r2 =>
        obtain ⟨w3, outs2⟩ := r2
        simp only [hr, Option.some.injEq, Prod.mk.injEq] at h
        rw [← h.1, ← h.2]
        obtain ⟨new1, a1, b1⟩ := step_count w op w2 out hs s
        obtain ⟨new2, a2, b2⟩ := ih w2 w3 outs2 hr
        refine ⟨new2 ++ new1, by rw [a2, a1, List.append_assoc], ?_⟩
        rw [stamped_cons, List.count_append, List.count_append]
        omega

theorem run_total :
    ∀ (ops : List Op) (w : World), Inv w → ∃ w1 outs, run w ops = some (w1, outs) ∧ Inv w1 := by
  intro ops
  induction ops with
  | nil => intro w h; exact ⟨w, [], rfl, h⟩
  | cons op rest ih =>
    intro w h
    obtain ⟨w2, out, hs, hi, _⟩ := step_inv w h op
    obtain ⟨w3, outs, hr, hi3⟩ := ih w2 hi
    exact ⟨w3, out :: outs, by simp [run, hs, hr], hi3⟩

/-- C4. Applying `ProcessAcks(ack, ack_bits)` a second time changes nothing:
the state after two applications is the state after one, the trace of
`PacketAcked` calls included, so the second application invokes `PacketAcked`
for no sequence. Along any run of public calls, the number of `PacketAcked(s)`
invocations, plus one if the entry of `s` is still pending (present and not
acked) at the end, is at most the number of packets written with sequence `s`
(each inserts the entry afresh), plus one if an entry of `s` was pending at the
start. From a state that satisfies the invariant every run returns. -/
theorem C4_ack_idempotent (w : World) (ack ack_bits : Nat) (ops : List Op) (s : Nat) :
    ProcessAcks (ProcessAcks w ack ack_bits) ack ack_bits = ProcessAcks w ack ack_bits ∧
    (∀ w1 outs, run w ops = some (w1, outs) →
      ∃ new, w1.packetAcked = new ++ w.packetAcked ∧
        new.count s + pendingCount w1 s ≤ (stamped outs).count s + pendingCount w s) ∧
    (Inv w → ∃ w1 outs, run w ops = some (w1, outs)) := by
  refine ⟨ProcessAcks_idempotent w ack ack_bits, fun w1 outs h => run_count s ops w w1 outs h, ?_⟩
  intro h
  obtain ⟨w1, outs, hr, _⟩ := run_total ops w h
  exact ⟨w1, outs, hr⟩

theorem C4_ack_idempotent_witness :
    (afterOps demoWorld
      (demoOps ++ [Op.readPacket { sequence := 1, ack := 0, ack_bits := 1, messages := [] }])).packetAcked
      = [0] ∧
    Inv demoWorld ∧
    ∃ w1 outs new,
      run demoWorld
        (demoOps ++ [Op.readPacket { sequence := 1, ack := 0, ack_bits := 1, messages := [] }])
        = some (w1, outs) ∧
      w1.packetAcked = new ++ demoWorld.packetAcked ∧
      new.count 0 + pendingCount w1 0 ≤ (stamped outs).count 0 + pendingCount demoWorld 0 := by
  refine ⟨by decide!, fresh_inv (Connection.new_fresh _ _), ?_⟩
  obtain ⟨w1, outs, hr⟩ :=
    (C4_ack_idempotent demoWorld 0 1
      (demoOps ++ [Op.readPacket { sequence := 1, ack := 0, ack_bits := 1, messages := [] }]) 0).2.2
      (fresh_inv (Connection.new_fresh _ _))
  obtain ⟨new, h1, h2⟩ :=
    (C4_ack_idempotent demoWorld 0 1
      (demoOps ++ [Op.readPacket { sequence := 1, ack := 0, ack_bits := 1, messages := [] }]) 0).2.1
      w1 outs hr
  exact ⟨w1, outs, new, hr, h1, h2⟩

/-! ## Early messages -/

/-- C5 (as amended). In every reachable state without error, a packet holding
a message whose id is not modular-less-than `receive_message_id` and is
modular-greater-than `receive_message_id + MessageReceiveQueueSize - 1` makes
`ReadPacket` return false: the packet's sequence is not inserted into the
received-packets buffer and none of its acks is processed (the sent-packet
buffers, the send queue, the oldest unacked id and the trace of `PacketAcked`
calls are as before). -/
theorem C5_early_message_discards (bits_required : Int → Int → Int) (numTypes : Int)
    (w : World) (hreach : Reachable bits_required numTypes w)
    (herr : w.conn.error = CONNECTION_ERROR_NONE)
    (packet : ConnectionPacket) (m : Nat) (hm : m ∈ packet.messages)
    (hnotold : sequence_less_than (w.heap m).GetId w.conn.receiveMessageId = false)
    (hearly : sequence_greater_than (w.heap m).GetId
      ((w.conn.receiveMessageId + MessageReceiveQueueSize - 1) % 65536) = true) :
    ∃ w1, ReadPacket w packet = some (w1, false) ∧
      w1.conn.receivedPackets = w.conn.receivedPackets ∧
      w1.conn.sentPackets = w.conn.sentPackets ∧
      w1.conn.messageSentPackets = w.conn.messageSentPackets ∧
      w1.conn.messageSendQueue = w.conn.messageSendQueue ∧
      w1.conn.oldestUnackedMessageId = w.conn.oldestUnackedMessageId ∧
      w1.packetAcked = w.packetAcked := by
  obtain ⟨⟨hrecv, _, _⟩, _⟩ := reachable_inv hreach
  obtain ⟨w1, e1, hrun, _, _, hfr, hlog, _, _, _, _, hearly1⟩ :=
    processPacketMessagesLoop_spec w.conn.receiveMessageId packet.messages w false rfl hrecv
  have he : e1 = true := hearly1.mpr (Or.inr ⟨m, hm, hnotold, hearly⟩)
  subst he
  refine ⟨w1, ?_, ?_, ?_, ?_, ?_, ?_, hlog⟩
  · unfold ReadPacket ProcessPacketMessages
    simp only [herr, ne_eq, not_true_eq_false, if_false, hrun, Bool.not_true]
  all_goals rw [hfr]

theorem C5_early_message_discards_witness :
    demoWorld.conn.error = CONNECTION_ERROR_NONE ∧
    2000 ∈ ({ sequence := 0, ack := 0, ack_bits := 1, messages := [2000] } : ConnectionPacket).messages ∧
    sequence_less_than (demoWorld.heap 2000).GetId demoWorld.conn.receiveMessageId = false ∧
    sequence_greater_than (demoWorld.heap 2000).GetId
      ((demoWorld.conn.receiveMessageId + MessageReceiveQueueSize - 1) % 65536) = true ∧
    ∃ w1, ReadPacket demoWorld { sequence := 0, ack := 0, ack_bits := 1, messages := [2000] }
        = some (w1, false) ∧
      w1.conn.receivedPackets = demoWorld.conn.receivedPackets ∧
      w1.conn.sentPackets = demoWorld.conn.sentPackets ∧
      w1.conn.messageSentPackets = demoWorld.conn.messageSentPackets ∧
      w1.conn.messageSendQueue = demoWorld.conn.messageSendQueue ∧
      w1.conn.oldestUnackedMessageId = demoWorld.conn.oldestUnackedMessageId ∧
      w1.packetAcked = demoWorld.packetAcked :=
  ⟨by decide, by decide, by decide, by decide,
    C5_early_message_discards (fun _ _ => 1) 2 demoWorld (Reachable.init demoHeap) (by decide)
      { sequence := 0, ack := 0, ack_bits := 1, messages := [2000] } 2000 (by decide)
      (by decide) (by decide)⟩

/-- C5, the claim as stated fails: on a fresh connection (cursor 0) a packet
whose only message has id 33000, which is modular-greater-than
`0 + MessageReceiveQueueSize - 1 = 1023` and also modular-less-than 0, is
accepted: `ReadPacket` returns true and the packet's sequence is in the
received-packets buffer afterwards. -/
theorem C5_counterexample :
    demoWorld.conn.error = CONNECTION_ERROR_NONE ∧
    (∃ m ∈ ({ sequence := 7, ack := 0, ack_bits := 0, messages := [33001] } : ConnectionPacket).messages,
      sequence_greater_than (demoWorld.heap m).GetId
        ((demoWorld.conn.receiveMessageId + MessageReceiveQueueSize - 1) % 65536) = true) ∧
    (ReadPacket demoWorld { sequence := 7, ack := 0, ack_bits := 0, messages := [33001] }).map
      (fun r => r.2) = some true ∧
    (ReadPacket demoWorld { sequence := 7, ack := 0, ack_bits := 0, messages := [33001] }).map
      (fun r => (r.1.conn.receivedPackets.Find 7).isSome) = some true ∧
    (demoWorld.conn.receivedPackets.Find 7).isSome = false := by
  refine ⟨by decide, by decide, by decide, by decide, by decide⟩

/-! ## SendMessage -/

theorem Heap.AssignId_same (h : Heap) (p id : Nat) :
    (h.AssignId p id p).GetId = id % 65536 ∧ (h.AssignId p id p).refCount = (h p).refCount ∧
    (h.AssignId p id p).deleted = (h p).deleted ∧ (h.AssignId p id p).measure = (h p).measure ∧
    (h.AssignId p id p).type = (h p).type := by
  unfold Heap.AssignId
  simp [Function.update_same, Message.AssignId, Message.GetId]

/-- C7. In a reachable state without error in which the slot of
`send_message_id` is available, sending a message whose measure pass counts
`b` bits returns without fault, gives the message the id `send_message_id`,
stores under that id a send-queue entry holding the message with
`measuredBits = b + 16 + bits_required(0, numTypes - 1)` and
`timeLastSent = -1 s`, advances `send_message_id` by one (mod 2^16), leaves the
message's reference count as it was (no release) and leaves the error NONE. -/
theorem C7_send_message_success (bits_required : Int → Int → Int) (numTypes : Int)
    (w : World) (hreach : Reachable bits_required numTypes w)
    (herr : w.conn.error = CONNECTION_ERROR_NONE)
    (message : Nat) (havail : CanSendMessage w.conn = true)
    (b : Nat) (hmeasure : (w.heap message).measure = some b) :
    ∃ w1, SendMessage w message = some w1 ∧
      (w1.heap message).GetId = w.conn.sendMessageId ∧
      w1.conn.messageSendQueue.Find w.conn.sendMessageId =
        some { message := message
               timeLastSent := -1000
               measuredBits := (b : Int) + 16 + bits_required 0 (numTypes - 1) } ∧
      w1.conn.sendMessageId = (w.conn.sendMessageId + 1) % 65536 ∧
      (w1.heap message).GetRefCount = (w.heap message).GetRefCount ∧
      (w1.heap message).deleted = (w.heap message).deleted ∧
      w1.conn.error = CONNECTION_ERROR_NONE := by
  obtain ⟨⟨_, hsend, _⟩, hov⟩ := reachable_inv hreach
  obtain ⟨hS, _, _, hnone, _⟩ := hsend
  obtain ⟨hseq, _⟩ := hnone herr
  have hins := SequenceBuffer.Insert_at_sequence w.conn.messageSendQueue
    (by simp [MessageSendQueueSize])
  rw [hseq] at hins
  obtain ⟨a1, a2, a3, a4, _⟩ := Heap.AssignId_same w.heap message w.conn.sendMessageId
  unfold SendMessage
  simp only [havail, Bool.not_true, Bool.false_eq_true, if_false]
  rw [hins]
  dsimp only
  rw [a4, hmeasure]
  dsimp only
  refine ⟨_, rfl, ?_, ?_, rfl, ?_, ?_, herr⟩
  · show (w.heap.AssignId message w.conn.sendMessageId message).GetId = _
    rw [a1]; omega
  · rw [SequenceBuffer.Find_eq_some]
    refine ⟨?_, ?_⟩
    · simp [SequenceBuffer.setEntry]
    · simp only [SequenceBuffer.setEntry, Function.update_same]
      rw [hov]
      congr 1
      omega
  · exact a2
  · exact a3

theorem C7_send_message_success_witness :
    demoWorld.conn.error = CONNECTION_ERROR_NONE ∧ CanSendMessage demoWorld.conn = true ∧
    (demoWorld.heap 1).measure = some 8 ∧
    ∃ w1, SendMessage demoWorld 1 = some w1 ∧
      (w1.heap 1).GetId = demoWorld.conn.sendMessageId ∧
      w1.conn.messageSendQueue.Find demoWorld.conn.sendMessageId =
        some { message := 1
               timeLastSent := -1000
               measuredBits := ((8 : Nat) : Int) + 16 + (fun _ _ => 1) 0 ((2 : Int) - 1) } ∧
      w1.conn.sendMessageId = (demoWorld.conn.sendMessageId + 1) % 65536 ∧
      (w1.heap 1).GetRefCount = (demoWorld.heap 1).GetRefCount ∧
      (w1.heap 1).deleted = (demoWorld.heap 1).deleted ∧
      w1.conn.error = CONNECTION_ERROR_NONE :=
  ⟨by decide, by decide, by decide,
    C7_send_message_success (fun _ _ => 1) 2 demoWorld (Reachable.init demoHeap) (by decide) 1
      (by decide) 8 (by decide)⟩

/-- C8, the code at the failing input. A message whose measure pass fails is
sent on a fresh connection: the error becomes SERIALIZE_MEASURE_FAILED and the
message is released (its count drops from 1 to 0 and it is deleted), but the
send queue, empty before, now holds an entry under id 0 that points to the
deleted message, and the queue's current sequence has moved to 1 while
`send_message_id` is still 0. A later `Reset` releases that message once
more, taking its count to -1. The other failure, a full send queue, leaves the
queue and `send_message_id` alone and releases the message once. -/
theorem C8_measure_failure_leaves_entry :
    (failWorld.conn.messageSendQueue.Find 0).isSome = false ∧
    (failWorld.heap 1).GetRefCount = 1 ∧
    (SendMessage failWorld 1).map
        (fun w => (w.conn.error, (w.conn.messageSendQueue.Find 0).map (fun e => e.message),
          w.conn.messageSendQueue.GetSequence, w.conn.sendMessageId,
          (w.heap 1).GetRefCount, (w.heap 1).deleted))
      = some (CONNECTION_ERROR_MESSAGE_SERIALIZE_MEASURE_FAILED, some 1, 1, 0, 0, true) ∧
    (SendMessage failWorld 1).map (fun w => ((Reset w).heap 1).GetRefCount) = some (-1) ∧
    (∀ (w : World) (message : Nat), CanSendMessage w.conn = false →
      SendMessage w message =
        some { w with
               conn := { w.conn with error := CONNECTION_ERROR_MESSAGE_SEND_QUEUE_FULL }
               heap := w.heap.Release message }) := by
  refine ⟨by decide, by decide, by decide, by decide!, ?_⟩
  intro w message h
  unfold SendMessage
  simp [h]

/-! ## The sticky error -/

theorem SendMessage_error (w : World) (message : Nat) (w1 : World)
    (h : SendMessage w message = some w1) (herr : w.conn.error ≠ CONNECTION_ERROR_NONE) :
    w1.conn.error ≠ CONNECTION_ERROR_NONE := by
  unfold SendMessage at h
  dsimp only at h
  split at h
  · simp only [Option.some.injEq] at h
    rw [← h]
    simp
  · split at h
    · exact absurd h (by simp)
    · split at h
      · simp only [Option.some.injEq] at h
        rw [← h]
        simp
      · simp only [Option.some.injEq] at h
        rw [← h]
        exact herr

theorem WritePacket_error (w : World) (packetCreated : Bool)
    (herr : w.conn.error ≠ CONNECTION_ERROR_NONE) :
    WritePacket w packetCreated = some (w, none) := by
  unfold WritePacket
  rw [if_pos herr]

theorem ReadPacket_error (w : World) (packet : ConnectionPacket)
    (herr : w.conn.error ≠ CONNECTION_ERROR_NONE) :
    ReadPacket w packet = some (w, false) := by
  unfold ReadPacket
  rw [if_pos herr]

/-- C9. While the error is set, `WritePacket` returns no packet, `ReadPacket`
returns false and `ReceiveMessage` returns no message, each leaving the state
exactly as it was; whatever public call other than `Reset` is made, the error
is still set afterwards, and in a state that satisfies the invariant the call
does return; `Reset` leaves a fresh connection: error NONE, the three cursors
at 0 and all five buffers empty. -/
theorem C9_sticky_error (w : World) (herr : w.conn.error ≠ CONNECTION_ERROR_NONE)
    (packetCreated : Bool) (packet : ConnectionPacket) (op : Op) (hop : op ≠ Op.reset) :
    WritePacket w packetCreated = some (w, none) ∧
    ReadPacket w packet = some (w, false) ∧
    ReceiveMessage w = (w, none) ∧
    (∀ w1 out, step w op = some (w1, out) → w1.conn.error ≠ CONNECTION_ERROR_NONE) ∧
    (Inv w → ∃ w1 out, step w op = some (w1, out)) ∧
    Fresh (Reset w).conn ∧
    (∀ s, (Reset w).conn.messageSendQueue.Find s = none ∧
          (Reset w).conn.messageReceiveQueue.Find s = none ∧
          (Reset w).conn.messageSentPackets.Find s = none ∧
          (Reset w).conn.sentPackets.Find s = none ∧
          (Reset w).conn.receivedPackets.Find s = none) := by
  refine ⟨WritePacket_error w _ herr, ReadPacket_error w _ herr, ReceiveMessage_error w herr,
    ?_, ?_, Reset_fresh w, ?_⟩
  · intro w1 out h
    cases op with
    | sendMessage message =>
      cases hs : SendMessage w message with
      | none => simp [step, hs] at h
      | some w2 =>
        simp only [step, hs, Option.map_some', Option.some.injEq, Prod.mk.injEq] at h
        rw [← h.1]
        exact SendMessage_error w message w2 hs herr
    | writePacket pc =>
      simp only [step, WritePacket_error w pc herr, Option.map_some', Option.some.injEq,
        Prod.mk.injEq] at h
      rw [← h.1]; exact herr
    | readPacket p =>
      simp only [step, ReadPacket_error w p herr, Option.map_some', Option.some.injEq,
        Prod.mk.injEq] at h
      rw [← h.1]; exact herr
    | receiveMessage =>
      simp only [step, ReceiveMessage_error w herr, Option.some.injEq, Prod.mk.injEq] at h
      rw [← h.1]; exact herr
    | advanceTime t =>
      simp only [step, Option.some.injEq, Prod.mk.injEq] at h
      rw [← h.1]; exact herr
    | reset => exact absurd rfl hop
  · intro hinv
    obtain ⟨w1, out, hs, _⟩ := step_inv w hinv op
    exact ⟨w1, out, hs⟩
  · intro s
    refine ⟨?_, ?_, ?_, ?_, ?_⟩ <;>
    · rw [SequenceBuffer.Find_eq_none]
      simp [Reset, SequenceBuffer.Reset]

theorem C9_sticky_error_witness :
    (afterOps failWorld [Op.sendMessage 1]).conn.error ≠ CONNECTION_ERROR_NONE ∧
    Op.advanceTime 5 ≠ Op.reset ∧
    WritePacket (afterOps failWorld [Op.sendMessage 1]) true
      = some (afterOps failWorld [Op.sendMessage 1], none) ∧
    ReadPacket (afterOps failWorld [Op.sendMessage 1])
        { sequence := 0, ack := 0, ack_bits := 1, messages := [3] }
      = some (afterOps failWorld [Op.sendMessage 1], false) ∧
    ReceiveMessage (afterOps failWorld [Op.sendMessage 1])
      = (afterOps failWorld [Op.sendMessage 1], none) ∧
    (∀ w1 out, step (afterOps failWorld [Op.sendMessage 1]) (Op.advanceTime 5) = some (w1, out) →
      w1.conn.error ≠ CONNECTION_ERROR_NONE) ∧
    (Inv (afterOps failWorld [Op.sendMessage 1]) →
      ∃ w1 out, step (afterOps failWorld [Op.sendMessage 1]) (Op.advanceTime 5) = some (w1, out)) ∧
    Fresh (Reset (afterOps failWorld [Op.sendMessage 1])).conn ∧
    (∀ s, (Reset (afterOps failWorld [Op.sendMessage 1])).conn.messageSendQueue.Find s = none ∧
          (Reset (afterOps failWorld [Op.sendMessage 1])).conn.messageReceiveQueue.Find s = none ∧
          (Reset (afterOps failWorld [Op.sendMessage 1])).conn.messageSentPackets.Find s = none ∧
          (Reset (afterOps failWorld [Op.sendMessage 1])).conn.sentPackets.Find s = none ∧
          (Reset (afterOps failWorld [Op.sendMessage 1])).conn.receivedPackets.Find s = none) :=
  ⟨by decide, by simp,
    C9_sticky_error (afterOps failWorld [Op.sendMessage 1]) (by decide) true
      { sequence := 0, ack := 0, ack_bits := 1, messages := [3] } (Op.advanceTime 5) (by simp)⟩

/-- C10, the code at the failing input. After a `SendMessage` whose measure
pass failed (error SERIALIZE_MEASURE_FAILED), a second `SendMessage` does not
look at the error: it finds the slot of `send_message_id` occupied, overwrites
the error with SEND_QUEUE_FULL and releases the message; `send_message_id`,
the oldest unacked id and the send queue stay as they were. -/
theorem C10_send_after_error_changes_error :
    (afterOps failWorld [Op.sendMessage 1]).conn.error
      = CONNECTION_ERROR_MESSAGE_SERIALIZE_MEASURE_FAILED ∧
    (SendMessage (afterOps failWorld [Op.sendMessage 1]) 2).map (fun w => w.conn.error)
      = some CONNECTION_ERROR_MESSAGE_SEND_QUEUE_FULL ∧
    (SendMessage (afterOps failWorld [Op.sendMessage 1]) 2).map
        (fun w => (w.conn.sendMessageId, w.conn.oldestUnackedMessageId,
          (w.conn.messageSendQueue.Find 0).map (fun e => e.message),
          (w.heap 2).GetRefCount))
      = some (0, 0, some 1, 0) ∧
    (∀ (w : World) (message : Nat), CanSendMessage w.conn = false →
      (SendMessage w message).map (fun w1 => w1.conn.error)
        = some CONNECTION_ERROR_MESSAGE_SEND_QUEUE_FULL) := by
  refine ⟨by decide, by decide, by decide, ?_⟩
  intro w message h
  unfold SendMessage
  simp [h]

/-! ## The codec rejects every message the factory creates -/

theorem readMessages_ne_ok (bits_required : Nat → Nat → Nat) (Create : Nat → Option Message)
    (maxMessageType : Nat)
    (id : Nat) (ids : List Nat) (stream : List Bool) (a b c : Nat) (ms : List Message) :
    readMessages bits_required Create maxMessageType (id :: ids) stream ≠ ReadOutcome.ok a b c ms := by
  simp only [readMessages]
  cases readInt bits_required 0 maxMessageType stream with
  | none => simp
  | some r =>
    obtain ⟨type, rest⟩ := r
    dsimp only
    cases Create type <;> simp

/-- C6, the code at the failing input. A packet with sequence 5, ack 3,
ack bits 1 and one message (type 0, id 0, empty payload) is written; reading
the written bits back with a factory that creates a message for every type
returns false, because the read path returns false exactly when `Create`
returned a message. With a factory that returns `NULL` the same read
dereferences the null pointer instead of rejecting. Only a packet without
messages survives the round trip, and no read ever returns a packet that has
a message. -/
theorem C6_read_rejects_created_message :
    (ConnectionPacket.SerializeWrite leastBits (fun _ => some []) 2 demoHeap
        { sequence := 5, ack := 3, ack_bits := 1, messages := [1] }).map
      (ConnectionPacket.SerializeRead leastBits (fun type => some (Message.new type (some 8))) 2)
      = some ReadOutcome.failed ∧
    (ConnectionPacket.SerializeWrite leastBits (fun _ => some []) 2 demoHeap
        { sequence := 5, ack := 3, ack_bits := 1, messages := [1] }).map
      (ConnectionPacket.SerializeRead leastBits (fun _ => none) 2)
      = some ReadOutcome.nullDereference ∧
    (ConnectionPacket.SerializeWrite leastBits (fun _ => some []) 2 demoHeap
        { sequence := 5, ack := 3, ack_bits := 1, messages := [] }).map
      (ConnectionPacket.SerializeRead leastBits (fun type => some (Message.new type (some 8))) 2)
      = some (ReadOutcome.ok 5 3 1 []) ∧
    (∀ (bits_required : Nat → Nat → Nat) (Create : Nat → Option Message) (numTypes : Nat)
        (stream : List Bool) (sequence ack ack_bits : Nat) (messages : List Message),
      ConnectionPacket.SerializeRead bits_required Create numTypes stream
        = ReadOutcome.ok sequence ack ack_bits messages → messages = []) := by
  refine ⟨by decide, by decide, by decide, ?_⟩
  intro bits_required Create numTypes stream sequence ack ack_bits messages h
  unfold ConnectionPacket.SerializeRead at h
  split at h
  · simp at h
  · split at h
    · simp at h
    · split at h
      · simp at h
      · split at h
        · simp at h
        · split at h
          · dsimp only at h
            split at h
            · simp at h
            · rename_i numMessages s5 _
              split at h
              · simp at h
              · rename_i messageIds s6 hids
                cases messageIds with
                | nil =>
                  simp only [readMessages, ReadOutcome.ok.injEq] at h
                  exact h.2.2.2.symm
                | cons id ids =>
                  split at h
                  · rename_i heq
                    exact absurd heq (readMessages_ne_ok _ _ _ _ _ _ _ _ _ _)
                  · simp at h
                  · simp at h
          · simp only [ReadOutcome.ok.injEq] at h
            exact h.2.2.2.symm

/-! ## Message ids under calls that respect ownership -/

/-- The loop of `ProcessPacketMessages` leaves the state alone when every
message of the packet is older than the cursor, beyond the window, or already
in the receive queue. -/
theorem processPacketMessagesLoop_skip (minId maxId : Nat) :
    ∀ (msgs : List Nat) (w : World) (early : Bool),
      (∀ m ∈ msgs, sequence_less_than (w.heap m).GetId minId = true ∨
        sequence_greater_than (w.heap m).GetId maxId = true ∨
        (w.conn.messageReceiveQueue.Find (w.heap m).GetId).isSome = true) →
      ∃ early1, processPacketMessagesLoop minId maxId msgs w early = some (w, early1) := by
  intro msgs
  induction msgs with
  | nil => intro w early _; exact ⟨early, rfl⟩
  | cons m rest ih =>
    intro w early hall
    have hrest : ∀ m' ∈ rest, sequence_less_than (w.heap m').GetId minId = true ∨
        sequence_greater_than (w.heap m').GetId maxId = true ∨
        (w.conn.messageReceiveQueue.Find (w.heap m').GetId).isSome = true :=
      fun m' hm' => hall m' (List.mem_cons_of_mem _ hm')
    unfold processPacketMessagesLoop
    dsimp only
    by_cases h1 : sequence_less_than (w.heap m).GetId minId = true
    · rw [if_pos h1]; exact ih w early hrest
    · rw [if_neg h1]
      by_cases h2 : sequence_greater_than (w.heap m).GetId maxId = true
      · rw [if_pos h2]; exact ih w true hrest
      · rw [if_neg h2]
        rcases hall m (List.mem_cons_self _ _) with h | h | h
        · exact absurd h h1
        · exact absurd h h2
        · rw [if_pos h]; exact ih w early hrest

/-- The references the loop of `ProcessPacketMessages` takes: the entries that
were stored keep their content, every newly occupied slot holds a message of
the packet that lies in the window, and a message gets one `AddRef` exactly
when it is newly stored. -/
theorem processPacketMessagesLoop_refs (R : Nat) :
    ∀ (msgs : List Nat) (w : World) (early : Bool) (w1 : World) (early1 : Bool),
      w.conn.receiveMessageId = R → ReceiveQueueInv w.conn →
      processPacketMessagesLoop R ((R + MessageReceiveQueueSize - 1) % 65536) msgs w early
        = some (w1, early1) →
      (∀ i q, w.conn.messageReceiveQueue.sequence_of_slot i = some q →
        w1.conn.messageReceiveQueue.entries i = w.conn.messageReceiveQueue.entries i) ∧
      (∀ i q, w.conn.messageReceiveQueue.sequence_of_slot i = none →
        w1.conn.messageReceiveQueue.sequence_of_slot i = some q →
        ∃ m ∈ msgs, (w.heap m).GetId = q ∧ (w1.conn.messageReceiveQueue.entries i).message = m ∧
          (q + 65536 - R) % 65536 < 1024) ∧
      (∀ p, (w1.heap p = w.heap p ∧ ¬ NewlyStored w w1 p) ∨
            (w1.heap p = (w.heap p).AddRef ∧ NewlyStored w w1 p)) := by
  intro msgs
  induction msgs with
  | nil =>
    intro w early w1 early1 _ _ h
    simp only [processPacketMessagesLoop, Option.some.injEq, Prod.mk.injEq] at h
    obtain ⟨h, _⟩ := h
    subst h
    refine ⟨fun _ _ _ => rfl, ?_, ?_⟩
    · intro i q h0 h1; rw [h0] at h1; exact absurd h1 (by simp)
    · intro p
      left
      refine ⟨rfl, ?_⟩
      rintro ⟨i, h0, h1, _⟩
      rw [h0] at h1; exact absurd h1 (by simp)
  | cons m rest ih =>
    intro w early w1 early1 hR hinv hrun
    have hRlt : R < 65536 := hR ▸ hinv.1
    have hidlt := (w.heap m).GetId_lt
    have lift : ∀ (e : Bool),
        processPacketMessagesLoop R ((R + MessageReceiveQueueSize - 1) % 65536) rest w e
          = some (w1, early1) →
        (∀ i q, w.conn.messageReceiveQueue.sequence_of_slot i = some q →
          w1.conn.messageReceiveQueue.entries i = w.conn.messageReceiveQueue.entries i) ∧
        (∀ i q, w.conn.messageReceiveQueue.sequence_of_slot i = none →
          w1.conn.messageReceiveQueue.sequence_of_slot i = some q →
          ∃ m' ∈ m :: rest, (w.heap m').GetId = q ∧
            (w1.conn.messageReceiveQueue.entries i).message = m' ∧
            (q + 65536 - R) % 65536 < 1024) ∧
        (∀ p, (w1.heap p = w.heap p ∧ ¬ NewlyStored w w1 p) ∨
              (w1.heap p = (w.heap p).AddRef ∧ NewlyStored w w1 p)) := by
      intro e he
      obtain ⟨a, b, c⟩ := ih w e w1 early1 hR hinv he
      refine ⟨a, ?_, c⟩
      intro i q h0 h1
      obtain ⟨m', hm', h⟩ := b i q h0 h1
      exact ⟨m', List.mem_cons_of_mem _ hm', h⟩
    unfold processPacketMessagesLoop at hrun
    dsimp only at hrun
    by_cases h1 : sequence_less_than (w.heap m).GetId R = true
    · rw [if_pos h1] at hrun; exact lift _ hrun
    · rw [if_neg h1] at hrun
      have h1f : sequence_less_than (w.heap m).GetId R = false := by simpa using h1
      by_cases h2 : sequence_greater_than (w.heap m).GetId
          ((R + MessageReceiveQueueSize - 1) % 65536) = true
      · rw [if_pos h2] at hrun; exact lift _ hrun
      · rw [if_neg h2] at hrun
        have h2f : sequence_greater_than (w.heap m).GetId
            ((R + MessageReceiveQueueSize - 1) % 65536) = false := by simpa using h2
        have hx := (recv_window_iff R _ hRlt hidlt).mp ⟨h1f, h2f⟩
        by_cases h3 : (w.conn.messageReceiveQueue.Find (w.heap m).GetId).isSome = true
        · rw [if_pos h3] at hrun; exact lift _ hrun
        · rw [if_neg h3] at hrun
          obtain ⟨q, hq, hent, hslot, hqlt, hD, hDmono, hxD⟩ :=
            recv_insert w.conn hinv (w.heap m).GetId hidlt (hR ▸ hx)
          rw [hq] at hrun
          simp only [] at hrun
          -- the slot of the message was empty
          have hempty : w.conn.messageReceiveQueue.sequence_of_slot
              ((w.heap m).GetId % MessageReceiveQueueSize) = none := by
            cases hs : w.conn.messageReceiveQueue.sequence_of_slot
                ((w.heap m).GetId % MessageReceiveQueueSize) with
            | none => rfl
            | some s =>
              exfalso
              obtain ⟨a, b, c⟩ := hinv.2.2.2 _ s hs
              have hd := hinv.2.2.1
              simp only [MessageReceiveQueueSize] at b hd c hs
              rw [hR] at c hd
              have hsid : s = (w.heap m).GetId := by omega
              apply h3
              rw [SequenceBuffer.Find_isSome]
              simp only [MessageReceiveQueueSize]
              rw [hs, hsid]
          have hinv' : ReceiveQueueInv
              ({ w.conn with
                 messageReceiveQueue :=
                   (q.setEntry ((w.heap m).GetId % MessageReceiveQueueSize) { message := m }) }) := by
            refine ⟨hinv.1, hqlt, hD, ?_⟩
            intro i s hs
            simp only [SequenceBuffer.setEntry, hslot] at hs
            by_cases hi : i = (w.heap m).GetId % MessageReceiveQueueSize
            · subst hi
              simp only [Function.update_same, Option.some.injEq] at hs
              subst hs
              exact ⟨hidlt, rfl, hxD⟩
            · rw [Function.update_noteq hi] at hs
              obtain ⟨a, b, c⟩ := hinv.2.2.2 i s hs
              exact ⟨a, b, lt_of_lt_of_le c hDmono⟩
          have hidw : ∀ p, ((w.heap.AddRef m) p).GetId = (w.heap p).GetId :=
            fun p => Message.GetId_congr (Heap.AddRef_id _ _ _)
          obtain ⟨w1', e1', hrun', hi1, _, _, _, _, hkeep, _, _, _⟩ :=
            processPacketMessagesLoop_spec R rest
              { w with
                conn := { w.conn with
                          messageReceiveQueue :=
                            (q.setEntry ((w.heap m).GetId % MessageReceiveQueueSize) { message := m }) }
                heap := w.heap.AddRef m } early hR hinv'
          rw [hrun] at hrun'
          simp only [Option.some.injEq, Prod.mk.injEq] at hrun'
          obtain ⟨hw, _⟩ := hrun'
          subst hw
          obtain ⟨keepE, newE, hheap⟩ :=
            ih { w with
                 conn := { w.conn with
                           messageReceiveQueue :=
                             (q.setEntry ((w.heap m).GetId % MessageReceiveQueueSize) { message := m }) }
                 heap := w.heap.AddRef m } early w1 early1 hR hinv' hrun
          simp only [SequenceBuffer.setEntry, hslot, hent] at keepE newE hkeep
          have hstored : w1.conn.messageReceiveQueue.sequence_of_slot
              ((w.heap m).GetId % MessageReceiveQueueSize) = some (w.heap m).GetId :=
            hkeep _ _ (by rw [Function.update_same])
          have hentry : w1.conn.messageReceiveQueue.entries
              ((w.heap m).GetId % MessageReceiveQueueSize) = { message := m } := by
            rw [keepE _ (w.heap m).GetId (by rw [Function.update_same]), Function.update_same]
          refine ⟨?_, ?_, ?_⟩
          · intro i s hs
            have hi : i ≠ (w.heap m).GetId % MessageReceiveQueueSize := by
              rintro rfl; rw [hempty] at hs; exact absurd hs (by simp)
            rw [keepE i s (by rw [Function.update_noteq hi]; exact hs), Function.update_noteq hi]
          · intro i s h0 hs
            by_cases hi : i = (w.heap m).GetId % MessageReceiveQueueSize
            · subst hi
              rw [hstored] at hs
              simp only [Option.some.injEq] at hs
              subst hs
              exact ⟨m, List.mem_cons_self _ _, rfl, by rw [hentry], hx⟩
            · obtain ⟨m', hm', ha, hb, hc⟩ :=
                newE i s (by rw [Function.update_noteq hi]; exact h0) hs
              rw [hidw] at ha
              exact ⟨m', List.mem_cons_of_mem _ hm', ha, hb, hc⟩
          · intro p
            by_cases hp : p = m
            · subst hp
              right
              refine ⟨?_, ⟨_, hempty, hstored, by rw [hentry]⟩⟩
              rcases hheap p with ⟨ha, _⟩ | ⟨_, i, hb0, hb1, _⟩
              · rw [ha]
                show (w.heap.AddRef p) p = _
                simp [Heap.AddRef]
              · exfalso
                simp only [SequenceBuffer.setEntry, hslot] at hb0 hb1
                rw [hidw] at hb1
                obtain ⟨_, b, _⟩ := hi1.2.2.2 i _ hb1
                rw [b, Function.update_same] at hb0
                exact absurd hb0 (by simp)
            · have hhp : (w.heap.AddRef m) p = w.heap p := by
                simp [Heap.AddRef, Function.update_noteq hp]
              rcases hheap p with ⟨ha, hb⟩ | ⟨ha, i, hb0, hb1, hb2⟩
              · left
                refine ⟨by rw [ha]; exact hhp, ?_⟩
                rintro ⟨i, c0, c1, c2⟩
                apply hb
                have hi : i ≠ (w.heap m).GetId % MessageReceiveQueueSize := by
                  rintro rfl
                  rw [hentry] at c2
                  exact hp c2.symm
                refine ⟨i, ?_, ?_, c2⟩
                · simp only [SequenceBuffer.setEntry, hslot]
                  rw [Function.update_noteq hi]; exact c0
                · rw [c1]
                  show _ = some ((w.heap.AddRef m) p).GetId
                  rw [hidw]
              · right
                refine ⟨by rw [ha]; show ((w.heap.AddRef m) p).AddRef = _; rw [hhp], i, ?_, ?_, hb2⟩
                · simp only [SequenceBuffer.setEntry, hslot] at hb0
                  by_cases hi : i = (w.heap m).GetId % MessageReceiveQueueSize
                  · subst hi; rw [Function.update_same] at hb0; exact absurd hb0 (by simp)
                  · rw [Function.update_noteq hi] at hb0; exact hb0
                · rw [hb1]
                  show some ((w.heap.AddRef m) p).GetId = _
                  rw [hidw]
theorem ReadPacket_false (w : World) (packet : ConnectionPacket) (w1 : World)
    (herr : w.conn.error = CONNECTION_ERROR_NONE)
    (h : ReadPacket w packet = some (w1, false)) :
    ∃ early1, processPacketMessagesLoop w.conn.receiveMessageId
        ((w.conn.receiveMessageId + MessageReceiveQueueSize - 1) % 65536) packet.messages w false
          = some (w1, early1) := by
  unfold ReadPacket at h
  rw [if_neg (fun hne => hne herr)] at h
  unfold ProcessPacketMessages at h
  cases hl : processPacketMessagesLoop w.conn.receiveMessageId
      ((w.conn.receiveMessageId + MessageReceiveQueueSize - 1) % 65536) packet.messages w false with
  | none => simp [hl] at h
  | some r =>
    obtain ⟨w2, e2⟩ := r
    simp only [hl] at h
    cases e2 with
    | true =>
      simp only [Bool.not_true, Option.some.injEq, Prod.mk.injEq, and_true] at h
      exact ⟨true, by rw [h]⟩
    | false =>
      simp only [Bool.not_false] at h
      cases hin : w2.conn.receivedPackets.Insert packet.sequence with
      | none =>
        simp only [hin, Option.some.injEq, Prod.mk.injEq, and_true] at h
        exact ⟨false, by rw [h]⟩
      | some r2 =>
        obtain ⟨rb, idx⟩ := r2
        simp [hin] at h

/-- Two ids of the receive window that share a slot are equal. -/
theorem recv_same_slot (R seq q id : Nat) (hR : R < 65536) (hq : q < 65536) (hid : id < 65536)
    (hseq : (seq + 65536 - R) % 65536 ≤ MessageReceiveQueueSize)
    (hqw : (q + 65536 - R) % 65536 < (seq + 65536 - R) % 65536)
    (hidw : (id + 65536 - R) % 65536 < 1024)
    (hslot : id % MessageReceiveQueueSize = q % MessageReceiveQueueSize) : q = id := by
  simp only [MessageReceiveQueueSize] at hseq hslot
  omega

/-- C11, the claim as stated fails. A fresh connection (no error) is handed a
packet that carries the message of id 0 and a message of id 1999, beyond the
receive window: `ReadPacket` returns false, yet the receive queue, empty
before, now holds the message of id 0, whose reference count went from 1 to 2.
The same happens with a packet whose sequence is too old for the
received-packets window: after a packet of sequence 1000, the packet of
sequence 0 carrying the message of id 0 is refused (false), and the message is
in the receive queue with a count of 2. -/
theorem C11_counterexample :
    demoWorld.conn.error = CONNECTION_ERROR_NONE ∧
    (demoWorld.conn.messageReceiveQueue.Find 0).isSome = false ∧
    (demoWorld.heap 1).GetRefCount = 1 ∧
    (ReadPacket demoWorld earlyPacket).map
        (fun r => (r.2, (r.1.conn.messageReceiveQueue.Find 0).map (fun e => e.message),
          (r.1.heap 1).GetRefCount))
      = some (false, some 1, 2) ∧
    ((readAll demoWorld [{ sequence := 1000, ack := 0, ack_bits := 0, messages := [] }]).bind
        (fun w => ReadPacket w { sequence := 0, ack := 0, ack_bits := 0, messages := [1] })).map
        (fun r => (r.2, (r.1.conn.messageReceiveQueue.Find 0).map (fun e => e.message),
          (r.1.heap 1).GetRefCount))
      = some (false, some 1, 2) := by
  refine ⟨by decide, by decide, by decide, by decide, by decide⟩

/-- C11 (as amended). In a reachable state without error, a `ReadPacket` that
returns false leaves everything but the receive queue and reference counts as
it was (in particular the packet is not registered in the received-packets
buffer and none of its acks is processed). The receive queue keeps every entry
it had; each slot it gained holds a message of the packet whose id lies in the
receive window; a message has one reference more exactly when it was stored in
that way, and every other message object is untouched. For every message of
the packet whose id lies in the receive window (not older than the cursor, not
beyond the window), the receive queue holds an entry under that id afterwards;
if it held none before, the entry points to a message object of the packet
that bears this id (the message itself when no other object of the packet
bears the same id), that object is newly stored and has exactly one `AddRef`
more. When every message of the packet is older than the cursor, beyond the
window or already in the receive queue, the state after the call equals the
state before it. -/
theorem C11_discarded_packet (bits_required : Int → Int → Int) (numTypes : Int)
    (w : World) (hreach : Reachable bits_required numTypes w)
    (herr : w.conn.error = CONNECTION_ERROR_NONE)
    (packet : ConnectionPacket) (w1 : World)
    (h : ReadPacket w packet = some (w1, false)) :
    w1.conn = { w.conn with messageReceiveQueue := w1.conn.messageReceiveQueue } ∧
    w1.packetAcked = w.packetAcked ∧
    (∀ i q, w.conn.messageReceiveQueue.sequence_of_slot i = some q →
      w1.conn.messageReceiveQueue.sequence_of_slot i = some q ∧
      w1.conn.messageReceiveQueue.entries i = w.conn.messageReceiveQueue.entries i) ∧
    (∀ i q, w.conn.messageReceiveQueue.sequence_of_slot i = none →
      w1.conn.messageReceiveQueue.sequence_of_slot i = some q →
      ∃ m ∈ packet.messages, (w.heap m).GetId = q ∧
        (w1.conn.messageReceiveQueue.entries i).message = m ∧
        (q + 65536 - w.conn.receiveMessageId) % 65536 < MessageReceiveQueueSize) ∧
    (∀ p, (w1.heap p = w.heap p ∧ ¬ NewlyStored w w1 p) ∨
          (w1.heap p = (w.heap p).AddRef ∧ NewlyStored w w1 p)) ∧
    (∀ m ∈ packet.messages,
      sequence_less_than (w.heap m).GetId w.conn.receiveMessageId = false →
      sequence_greater_than (w.heap m).GetId
        ((w.conn.receiveMessageId + MessageReceiveQueueSize - 1) % 65536) = false →
      (w1.conn.messageReceiveQueue.Find (w.heap m).GetId).isSome = true ∧
      (w.conn.messageReceiveQueue.Find (w.heap m).GetId = none →
        ∃ m1 ∈ packet.messages, (w.heap m1).GetId = (w.heap m).GetId ∧
          (w1.conn.messageReceiveQueue.Find (w.heap m).GetId).map (fun e => e.message)
            = some m1 ∧
          NewlyStored w w1 m1 ∧
          w1.heap m1 = (w.heap m1).AddRef ∧
          ((∀ m2 ∈ packet.messages, (w.heap m2).GetId = (w.heap m).GetId → m2 = m) →
            m1 = m))) ∧
    ((∀ m ∈ packet.messages,
        sequence_less_than (w.heap m).GetId w.conn.receiveMessageId = true ∨
        sequence_greater_than (w.heap m).GetId
          ((w.conn.receiveMessageId + MessageReceiveQueueSize - 1) % 65536) = true ∨
        (w.conn.messageReceiveQueue.Find (w.heap m).GetId).isSome = true) →
      w1 = w) := by
  obtain ⟨⟨hrecv, _, _⟩, _⟩ := reachable_inv hreach
  obtain ⟨e1, hrun⟩ := ReadPacket_false w packet w1 herr h
  obtain ⟨hfr, hlog⟩ := processPacketMessagesLoop_frame _ _ _ _ _ _ _ hrun
  obtain ⟨w1', e1', hrun', _, _, _, _, _, hkeep, hins, _, _⟩ :=
    processPacketMessagesLoop_spec w.conn.receiveMessageId packet.messages w false rfl hrecv
  rw [hrun] at hrun'
  simp only [Option.some.injEq, Prod.mk.injEq] at hrun'
  obtain ⟨hw, _⟩ := hrun'
  subst hw
  obtain ⟨keepE, newE, hheap⟩ :=
    processPacketMessagesLoop_refs w.conn.receiveMessageId packet.messages w false w1 e1 rfl hrecv hrun
  refine ⟨hfr, hlog, fun i q hq => ⟨hkeep i q hq, keepE i q hq⟩, newE, hheap, ?_, ?_⟩
  · intro m hm hlt hgt
    have hwin := (recv_window_iff w.conn.receiveMessageId (w.heap m).GetId hrecv.1
      (w.heap m).GetId_lt).mp ⟨hlt, hgt⟩
    have hstored := hins m hm hwin
    refine ⟨(SequenceBuffer.Find_isSome _ _).mpr hstored, ?_⟩
    intro habs
    rw [SequenceBuffer.Find_eq_none] at habs
    have hnone : w.conn.messageReceiveQueue.sequence_of_slot
        ((w.heap m).GetId % MessageReceiveQueueSize) = none := by
      cases hsl : w.conn.messageReceiveQueue.sequence_of_slot
          ((w.heap m).GetId % MessageReceiveQueueSize) with
      | none => rfl
      | some q =>
        exfalso
        obtain ⟨g1, g2, g3⟩ := hrecv.2.2.2 _ q hsl
        have hq := recv_same_slot w.conn.receiveMessageId w.conn.messageReceiveQueue.sequence q
          (w.heap m).GetId hrecv.1 g1 (w.heap m).GetId_lt hrecv.2.2.1 g3 hwin g2
        rw [hq] at hsl
        exact habs hsl
    obtain ⟨m1, hm1, hid1, hmsg1, _⟩ := newE _ _ hnone hstored
    have hnew : NewlyStored w w1 m1 :=
      ⟨(w.heap m).GetId % MessageReceiveQueueSize, hnone, by rw [hid1]; exact hstored, hmsg1⟩
    refine ⟨m1, hm1, hid1, ?_, hnew, ?_, fun huniq => huniq m1 hm1 hid1⟩
    · have hf : w1.conn.messageReceiveQueue.Find (w.heap m).GetId
          = some (w1.conn.messageReceiveQueue.entries
              ((w.heap m).GetId % MessageReceiveQueueSize)) :=
        (SequenceBuffer.Find_eq_some _ _ _).mpr ⟨hstored, rfl⟩
      rw [hf, Option.map_some', hmsg1]
    · rcases hheap m1 with ⟨_, hno⟩ | ⟨hadd, _⟩
      · exact absurd hnew hno
      · exact hadd
  · intro hall
    obtain ⟨e2, hskip⟩ := processPacketMessagesLoop_skip w.conn.receiveMessageId
      ((w.conn.receiveMessageId + MessageReceiveQueueSize - 1) % 65536) packet.messages w false hall
    rw [hrun] at hskip
    simp only [Option.some.injEq, Prod.mk.injEq] at hskip
    exact hskip.1

theorem C11_discarded_packet_witness :
    demoWorld.conn.error = CONNECTION_ERROR_NONE ∧
    ∃ w1, ReadPacket demoWorld earlyPacket = some (w1, false) ∧
      w1.conn = { demoWorld.conn with messageReceiveQueue := w1.conn.messageReceiveQueue } ∧
      w1.packetAcked = demoWorld.packetAcked ∧
      (∀ p, (w1.heap p = demoWorld.heap p ∧ ¬ NewlyStored demoWorld w1 p) ∨
            (w1.heap p = (demoWorld.heap p).AddRef ∧ NewlyStored demoWorld w1 p)) ∧
      (w1.conn.messageReceiveQueue.Find 0).map (fun e => e.message) = some 1 ∧
      NewlyStored demoWorld w1 1 ∧
      w1.heap 1 = (demoWorld.heap 1).AddRef := by
  obtain ⟨w1, b, hrun, _⟩ := ReadPacket_recv demoWorld earlyPacket
    (fresh_inv (Connection.new_fresh _ _)).1
  have hb : (ReadPacket demoWorld earlyPacket).map (fun r => r.2) = some false := by decide
  rw [hrun] at hb
  simp only [Option.map_some', Option.some.injEq] at hb
  subst hb
  have hc := C11_discarded_packet (fun _ _ => 1) 2 demoWorld (Reachable.init demoHeap) (by decide)
    earlyPacket w1 hrun
  obtain ⟨m1, _, _, hfind, hnew, hadd, huniq⟩ :=
    (hc.2.2.2.2.2.1 1 (by decide) (by decide) (by decide)).2 (by decide)
  have h1 : m1 = 1 := huniq (by decide)
  subst h1
  exact ⟨by decide, w1, hrun, hc.1, hc.2.1, hc.2.2.2.2.1, hfind, hnew, hadd⟩

/-! ## Which messages a packet takes -/

/-- The walk of `GetMessagesToSend` from position `i` on: the ids it adds are
those of an increasing list `ks` of positions; everything between `i` and a
chosen position is present in the send queue; a chosen entry was due and fit
the bits left when it was reached; the chosen entries, and only they, get the
send time stamped; and no more than `MaxMessagesPerPacket` ids come out. -/
theorem getMessagesToSendLoop_walk (time : Time) (oldest : Nat) :
    ∀ (n i : Nat) (bits : Int) (q : SequenceBuffer MessageSendQueueEntry MessageSendQueueSize)
      (ids : List Nat),
      n ≤ MessageSendQueueSize → 0 ≤ bits → ids.length < MaxMessagesPerPacket →
      ∃ ks : List Nat,
        (getMessagesToSendLoop time oldest n i bits q ids).2
          = ids ++ ks.map (fun k => (oldest + k) % 65536) ∧
        ks.Pairwise (fun a b => a < b) ∧
        (∀ k ∈ ks, i ≤ k ∧ k < i + n) ∧
        (∀ k ∈ ks, ∀ j, i ≤ j → j ≤ k →
          q.sequence_of_slot ((oldest + j) % 65536 % MessageSendQueueSize)
            = some ((oldest + j) % 65536)) ∧
        (∀ k ∈ ks, (q.entries ((oldest + k) % 65536 % MessageSendQueueSize)).timeLastSent
            + MessageResendRate ≤ time) ∧
        (∀ j, ((ks.take j).map
            (fun k => (q.entries ((oldest + k) % 65536 % MessageSendQueueSize)).measuredBits)).sum
            ≤ bits) ∧
        (∀ idx, (getMessagesToSendLoop time oldest n i bits q ids).1.entries idx =
          if idx ∈ ks.map (fun k => (oldest + k) % 65536 % MessageSendQueueSize) then
            { q.entries idx with timeLastSent := time }
          else q.entries idx) ∧
        (getMessagesToSendLoop time oldest n i bits q ids).2.length ≤ MaxMessagesPerPacket := by
  intro n
  induction n with
  | zero =>
    intro i bits q ids _ hb hl
    refine ⟨[], by simp [getMessagesToSendLoop], List.Pairwise.nil, by simp, by simp, by simp,
      by simpa using hb, by simp [getMessagesToSendLoop], ?_⟩
    simp only [getMessagesToSendLoop]
    exact le_of_lt hl
  | succ n ih =>
    intro i bits q ids hn hb hl
    have stop : ∀ (r : SequenceBuffer MessageSendQueueEntry MessageSendQueueSize × List Nat),
        r = (q, ids) →
        ∃ ks : List Nat,
          r.2 = ids ++ ks.map (fun k => (oldest + k) % 65536) ∧
          ks.Pairwise (fun a b => a < b) ∧
          (∀ k ∈ ks, i ≤ k ∧ k < i + (n + 1)) ∧
          (∀ k ∈ ks, ∀ j, i ≤ j → j ≤ k →
            q.sequence_of_slot ((oldest + j) % 65536 % MessageSendQueueSize)
              = some ((oldest + j) % 65536)) ∧
          (∀ k ∈ ks, (q.entries ((oldest + k) % 65536 % MessageSendQueueSize)).timeLastSent
              + MessageResendRate ≤ time) ∧
          (∀ j, ((ks.take j).map
              (fun k => (q.entries ((oldest + k) % 65536 % MessageSendQueueSize)).measuredBits)).sum
              ≤ bits) ∧
          (∀ idx, r.1.entries idx =
            if idx ∈ ks.map (fun k => (oldest + k) % 65536 % MessageSendQueueSize) then
              { q.entries idx with timeLastSent := time }
            else q.entries idx) ∧
          r.2.length ≤ MaxMessagesPerPacket := by
      intro r hr
      subst hr
      exact ⟨[], by simp, List.Pairwise.nil, by simp, by simp, by simp, by simpa using hb, by simp,
        le_of_lt hl⟩
    unfold getMessagesToSendLoop
    by_cases h1 : bits ≤ 8 * 8
    · rw [if_pos h1]; exact stop _ rfl
    · rw [if_neg h1]
      dsimp only
      cases hf : q.Find ((oldest + i) % 65536) with
      | none => exact stop _ rfl
      | some entry =>
        dsimp only
        obtain ⟨hpres, hentry⟩ := (SequenceBuffer.Find_eq_some _ _ _).mp hf
        -- positions after `i` use other slots than position `i`
        have hslot : ∀ k, i + 1 ≤ k → k < i + 1 + n →
            (oldest + k) % 65536 % MessageSendQueueSize ≠
              (oldest + i) % 65536 % MessageSendQueueSize := by
          intro k h1 h2
          simp only [MessageSendQueueSize] at hn ⊢
          omega
        by_cases h2 : entry.timeLastSent + MessageResendRate ≤ time ∧ bits - entry.measuredBits ≥ 0
        · rw [if_pos h2]
          by_cases h3 : (ids ++ [(oldest + i) % 65536]).length = MaxMessagesPerPacket
          · rw [if_pos h3]
            refine ⟨[i], by simp, List.pairwise_singleton _ _, ?_, ?_, ?_, ?_, ?_, le_of_eq h3⟩
            · intro k hk; rw [List.mem_singleton] at hk; subst hk; omega
            · intro k hk j hj1 hj2
              rw [List.mem_singleton] at hk; subst hk
              have : j = k := by omega
              subst this; exact hpres
            · intro k hk
              rw [List.mem_singleton] at hk; subst hk
              rw [hentry]; exact h2.1
            · intro j
              cases j with
              | zero => simpa using hb
              | succ j =>
                simp only [List.take_succ_cons, List.take_nil, List.map_cons, List.map_nil,
                  List.sum_cons, List.sum_nil, add_zero]
                rw [hentry]
                have := h2.2
                omega
            · intro idx
              simp only [SequenceBuffer.setEntry, List.map_cons, List.map_nil, List.mem_singleton]
              by_cases hidx : idx = (oldest + i) % 65536 % MessageSendQueueSize
              · subst hidx
                rw [if_pos rfl, Function.update_same, hentry]
              · rw [if_neg hidx, Function.update_noteq hidx]
          · rw [if_neg h3]
            have hl' : (ids ++ [(oldest + i) % 65536]).length < MaxMessagesPerPacket := by
              simp only [List.length_append, List.length_singleton] at h3 ⊢
              omega
            obtain ⟨ks, e1, e2, e3, e4, e5, e6, e7, e8⟩ := ih (i + 1) (bits - entry.measuredBits)
              (q.setEntry ((oldest + i) % 65536 % MessageSendQueueSize) { entry with timeLastSent := time })
              (ids ++ [(oldest + i) % 65536]) (Nat.le_of_succ_le hn) h2.2 hl'
            have hq1 : ∀ k ∈ ks,
                (q.setEntry ((oldest + i) % 65536 % MessageSendQueueSize)
                  { entry with timeLastSent := time }).entries
                    ((oldest + k) % 65536 % MessageSendQueueSize)
                = q.entries ((oldest + k) % 65536 % MessageSendQueueSize) := by
              intro k hk
              simp only [SequenceBuffer.setEntry]
              exact Function.update_noteq (hslot k (e3 k hk).1 (e3 k hk).2) _ _
            refine ⟨i :: ks, ?_, ?_, ?_, ?_, ?_, ?_, ?_, e8⟩
            · rw [e1]; simp
            · rw [List.pairwise_cons]
              exact ⟨fun k hk => (e3 k hk).1, e2⟩
            · intro k hk
              rcases List.mem_cons.mp hk with hk | hk
              · subst hk; omega
              · have := e3 k hk; omega
            · intro k hk j hj1 hj2
              by_cases hji : j = i
              · subst hji; exact hpres
              · rcases List.mem_cons.mp hk with hk | hk
                · subst hk; omega
                · exact e4 k hk j (by omega) hj2
            · intro k hk
              rcases List.mem_cons.mp hk with hk | hk
              · subst hk; rw [hentry]; exact h2.1
              · rw [← hq1 k hk]; exact e5 k hk
            · intro j
              cases j with
              | zero => simpa using hb
              | succ j =>
                simp only [List.take_succ_cons, List.map_cons, List.sum_cons]
                rw [hentry]
                have h6 := e6 j
                have hmap : (ks.take j).map (fun k =>
                    ((q.setEntry ((oldest + i) % 65536 % MessageSendQueueSize)
                      { entry with timeLastSent := time }).entries
                        ((oldest + k) % 65536 % MessageSendQueueSize)).measuredBits)
                    = (ks.take j).map (fun k =>
                      (q.entries ((oldest + k) % 65536 % MessageSendQueueSize)).measuredBits) := by
                  apply List.map_congr_left
                  intro k hk
                  rw [hq1 k (List.mem_of_mem_take hk)]
                rw [hmap] at h6
                omega
            · intro idx
              rw [e7 idx]
              simp only [SequenceBuffer.setEntry, List.map_cons, List.mem_cons]
              by_cases hidx : idx = (oldest + i) % 65536 % MessageSendQueueSize
              · subst hidx
                have hnot : ¬ (oldest + i) % 65536 % MessageSendQueueSize ∈
                    ks.map (fun k => (oldest + k) % 65536 % MessageSendQueueSize) := by
                  intro hmem
                  obtain ⟨k, hk, hkeq⟩ := List.mem_map.mp hmem
                  exact hslot k (e3 k hk).1 (e3 k hk).2 hkeq
                rw [if_neg hnot, if_pos (Or.inl rfl), Function.update_same, hentry]
              · rw [Function.update_noteq hidx]
                by_cases hmem : idx ∈ ks.map (fun k => (oldest + k) % 65536 % MessageSendQueueSize)
                · rw [if_pos hmem, if_pos (Or.inr hmem)]
                · rw [if_neg hmem, if_neg (by rintro (h | h); exact hidx h; exact hmem h)]
        · rw [if_neg h2]
          rw [if_neg (Nat.ne_of_lt hl)]
          obtain ⟨ks, e1, e2, e3, e4, e5, e6, e7, e8⟩ := ih (i + 1) bits q ids
            (Nat.le_of_succ_le hn) hb hl
          refine ⟨ks, e1, e2, ?_, ?_, e5, e6, e7, e8⟩
          · intro k hk; have := e3 k hk; omega
          · intro k hk j hj1 hj2
            by_cases hji : j = i
            · subst hji; exact hpres
            · exact e4 k hk j (by omega) hj2
theorem GetMessagesToSend_walk (c : Connection) :
    ∃ ks : List Nat,
      (GetMessagesToSend c).2 = ks.map (fun k => (c.oldestUnackedMessageId + k) % 65536) ∧
      ks.Pairwise (fun a b => a < b) ∧
      (∀ k ∈ ks, k < MessageSendQueueSize) ∧
      (∀ k ∈ ks, ∀ j, j ≤ k →
        c.messageSendQueue.sequence_of_slot
            ((c.oldestUnackedMessageId + j) % 65536 % MessageSendQueueSize)
          = some ((c.oldestUnackedMessageId + j) % 65536)) ∧
      (∀ k ∈ ks, (c.messageSendQueue.entries
          ((c.oldestUnackedMessageId + k) % 65536 % MessageSendQueueSize)).timeLastSent
            + MessageResendRate ≤ c.time) ∧
      (∀ j, ((ks.take j).map (fun k => (c.messageSendQueue.entries
          ((c.oldestUnackedMessageId + k) % 65536 % MessageSendQueueSize)).measuredBits)).sum
          ≤ (MessagePacketBudget : Int) * 8) ∧
      (∀ idx, (GetMessagesToSend c).1.messageSendQueue.entries idx =
        if idx ∈ ks.map (fun k => (c.oldestUnackedMessageId + k) % 65536 % MessageSendQueueSize) then
          { c.messageSendQueue.entries idx with timeLastSent := c.time }
        else c.messageSendQueue.entries idx) ∧
      (GetMessagesToSend c).2.length ≤ MaxMessagesPerPacket := by
  unfold GetMessagesToSend
  cases hf : c.messageSendQueue.Find c.oldestUnackedMessageId with
  | none =>
    exact ⟨[], by simp, List.Pairwise.nil, by simp, by simp, by simp,
      by simp [MessagePacketBudget], by simp, by simp⟩
  | some e =>
    dsimp only
    obtain ⟨ks, e1, e2, e3, e4, e5, e6, e7, e8⟩ :=
      getMessagesToSendLoop_walk c.time c.oldestUnackedMessageId MessageSendQueueSize 0
        ((MessagePacketBudget : Int) * 8) c.messageSendQueue [] (le_refl _)
        (by simp [MessagePacketBudget]) (by simp [MaxMessagesPerPacket])
    refine ⟨ks, by simpa using e1, e2, ?_, ?_, e5, e6, e7, e8⟩
    · intro k hk; have := (e3 k hk).2; omega
    · intro k hk j hj; exact e4 k hk j (Nat.zero_le _) hj

theorem take_length_succ_append {α : Type} (l1 : List α) (a : α) (l2 : List α) :
    (l1 ++ a :: l2).take (l1.length + 1) = l1 ++ [a] := by
  induction l1 with
  | nil => simp
  | cons b l ih => simpa using ih

/-- C13. For every connection state, `GetMessagesToSend` returns at most
`MaxMessagesPerPacket` (64) ids; they are listed in strictly ascending modular
order, hence pairwise distinct; none is older than the oldest unacked id; every
id from the oldest unacked id up to a returned id is present in the send queue
(the walk passes no gap); and the measured bits of the returned messages sum
to at most `MessagePacketBudget * 8 = 8192`. -/
theorem C13_messages_to_send (c : Connection) :
    (GetMessagesToSend c).2.length ≤ MaxMessagesPerPacket ∧
    (GetMessagesToSend c).2.Pairwise (fun a b => sequence_less_than a b = true) ∧
    (GetMessagesToSend c).2.Nodup ∧
    (∀ id ∈ (GetMessagesToSend c).2, sequence_less_than id c.oldestUnackedMessageId = false) ∧
    (∀ id ∈ (GetMessagesToSend c).2, ∀ j,
      j ≤ (id + 65536 - c.oldestUnackedMessageId % 65536) % 65536 →
      (c.messageSendQueue.Find ((c.oldestUnackedMessageId + j) % 65536)).isSome = true) ∧
    ((GetMessagesToSend c).2.map
        (fun id => ((c.messageSendQueue.Find id).map (fun e => e.measuredBits)).getD 0)).sum
      ≤ (MessagePacketBudget : Int) * 8 ∧
    (MessagePacketBudget : Int) * 8 = 8192 := by
  obtain ⟨ks, e1, e2, e3, e4, e5, e6, e7, e8⟩ := GetMessagesToSend_walk c
  have hasc : (GetMessagesToSend c).2.Pairwise (fun a b => sequence_less_than a b = true) := by
    rw [e1, List.pairwise_map]
    have hmem : ks.Pairwise (fun a b => a < b ∧ b < MessageSendQueueSize) := by
      rw [List.pairwise_iff_forall_sublist] at e2 ⊢
      intro a b hab
      exact ⟨e2 hab, e3 b (hab.subset (by simp))⟩
    refine hmem.imp ?_
    intro a b hab
    obtain ⟨h1, h2⟩ := hab
    simp only [MessageSendQueueSize] at h2
    simp only [sequence_less_than, decide_eq_true_eq]
    omega
  refine ⟨e8, hasc, ?_, ?_, ?_, ?_, by simp [MessagePacketBudget]⟩
  · refine hasc.imp ?_
    intro a b hab heq
    subst heq
    simp only [sequence_less_than, decide_eq_true_eq] at hab
    omega
  · intro id hid
    rw [e1] at hid
    obtain ⟨k, hk, rfl⟩ := List.mem_map.mp hid
    have := e3 k hk
    simp only [MessageSendQueueSize] at this
    simp only [sequence_less_than, decide_eq_false_iff_not]
    omega
  · intro id hid j hj
    rw [e1] at hid
    obtain ⟨k, hk, rfl⟩ := List.mem_map.mp hid
    have hk3 := e3 k hk
    simp only [MessageSendQueueSize] at hk3
    rw [SequenceBuffer.Find_isSome]
    exact e4 k hk j (by omega)
  · have h6 := e6 ks.length
    rw [List.take_length] at h6
    rw [e1, List.map_map]
    have hmap : ks.map ((fun id => ((c.messageSendQueue.Find id).map
          (fun e => e.measuredBits)).getD 0) ∘ (fun k => (c.oldestUnackedMessageId + k) % 65536))
        = ks.map (fun k => (c.messageSendQueue.entries
          ((c.oldestUnackedMessageId + k) % 65536 % MessageSendQueueSize)).measuredBits) := by
      apply List.map_congr_left
      intro k hk
      have hf := (SequenceBuffer.Find_eq_some c.messageSendQueue
        ((c.oldestUnackedMessageId + k) % 65536) _).mpr ⟨e4 k hk k (le_refl _), rfl⟩
      simp only [Function.comp, hf, Option.map_some', Option.getD_some]
    rw [hmap]
    exact h6

theorem C13_messages_to_send_witness :
    (GetMessagesToSend sentTwo.conn).2 = [0, 1] ∧
    (GetMessagesToSend sentTwo.conn).2.length ≤ MaxMessagesPerPacket ∧
    (GetMessagesToSend sentTwo.conn).2.Pairwise (fun a b => sequence_less_than a b = true) ∧
    ((GetMessagesToSend sentTwo.conn).2.map
        (fun id => ((sentTwo.conn.messageSendQueue.Find id).map (fun e => e.measuredBits)).getD 0)).sum
      ≤ (MessagePacketBudget : Int) * 8 :=
  ⟨by decide, (C13_messages_to_send sentTwo.conn).1, (C13_messages_to_send sentTwo.conn).2.1,
    (C13_messages_to_send sentTwo.conn).2.2.2.2.2.1⟩

/-- C14. `GetMessagesToSend` at connection time `now = c.time`: (1) an id is
included only if its send-queue entry had `timeLastSent + MessageResendRate ≤
now` and its measured bits fit what the ids chosen before it left of the 8192
bits; (2) afterwards the entry of every included id has `timeLastSent = now`
and is otherwise as before, every other entry is unchanged, and nothing but
the send queue's entries is touched; (3) an entry stamped at a time later than
`now - MessageResendRate` is not included, so that an id included now is not
included by the next call at any time `t < now + MessageResendRate`; (4) an
entry that was never sent (`timeLastSent = -1 s`) passes the time test at every
`now ≥ 0`, and is included when it is the oldest unacked one and its measured
bits fit the budget. -/
theorem C14_resend_rate (c : Connection) :
    (∀ pre id post, (GetMessagesToSend c).2 = pre ++ id :: post →
      ∃ e, c.messageSendQueue.Find id = some e ∧
        e.timeLastSent + MessageResendRate ≤ c.time ∧
        (pre.map (fun id1 =>
            ((c.messageSendQueue.Find id1).map (fun e1 => e1.measuredBits)).getD 0)).sum
          + e.measuredBits ≤ (MessagePacketBudget : Int) * 8) ∧
    (∀ id, (GetMessagesToSend c).1.messageSendQueue.Find id =
      (c.messageSendQueue.Find id).map
        (fun e => if id ∈ (GetMessagesToSend c).2 then { e with timeLastSent := c.time } else e)) ∧
    (GetMessagesToSend c).1 =
      { c with messageSendQueue :=
          { c.messageSendQueue with entries := (GetMessagesToSend c).1.messageSendQueue.entries } } ∧
    (∀ id e, c.messageSendQueue.Find id = some e → c.time < e.timeLastSent + MessageResendRate →
      id ∉ (GetMessagesToSend c).2) ∧
    (∀ id ∈ (GetMessagesToSend c).2, ∀ t, t < c.time + MessageResendRate →
      id ∉ (GetMessagesToSend { (GetMessagesToSend c).1 with time := t }).2) ∧
    (∀ (e : MessageSendQueueEntry) (now : Time), e.timeLastSent = -1000 → 0 ≤ now →
      e.timeLastSent + MessageResendRate ≤ now) ∧
    (∀ e, c.oldestUnackedMessageId < 65536 →
      c.messageSendQueue.Find c.oldestUnackedMessageId = some e → e.timeLastSent = -1000 →
      0 ≤ c.time → e.measuredBits ≤ (MessagePacketBudget : Int) * 8 →
      (GetMessagesToSend c).2.head? = some c.oldestUnackedMessageId) := by
  obtain ⟨ks, e1, e2, e3, e4, e5, e6, e7, e8⟩ := GetMessagesToSend_walk c
  obtain ⟨g1, g2, g3, g4⟩ := GetMessagesToSend_spec c
  -- an included id is the id of a chosen position
  have hfind : ∀ k ∈ ks, c.messageSendQueue.Find ((c.oldestUnackedMessageId + k) % 65536) =
      some (c.messageSendQueue.entries
        ((c.oldestUnackedMessageId + k) % 65536 % MessageSendQueueSize)) :=
    fun k hk => (SequenceBuffer.Find_eq_some c.messageSendQueue _ _).mpr
      ⟨e4 k hk k (le_refl _), rfl⟩
  have hincl : ∀ pre id post, (GetMessagesToSend c).2 = pre ++ id :: post →
      ∃ e, c.messageSendQueue.Find id = some e ∧
        e.timeLastSent + MessageResendRate ≤ c.time ∧
        (pre.map (fun id1 =>
            ((c.messageSendQueue.Find id1).map (fun e1 => e1.measuredBits)).getD 0)).sum
          + e.measuredBits ≤ (MessagePacketBudget : Int) * 8 := by
    intro pre id post hsplit
    rw [e1] at hsplit
    obtain ⟨ks1, ks2', hks, hpre, hrest⟩ := List.map_eq_append_iff.mp hsplit
    obtain ⟨k, ks2, hks2, hk, _⟩ := List.map_eq_cons_iff.mp hrest
    subst hks2
    have hkmem : k ∈ ks := by rw [hks]; simp
    refine ⟨_, by rw [← hk]; exact hfind k hkmem, e5 k hkmem, ?_⟩
    have h6 := e6 (ks1.length + 1)
    rw [hks, take_length_succ_append] at h6
    simp only [List.map_append, List.map_cons, List.map_nil, List.sum_append, List.sum_cons,
      List.sum_nil, add_zero] at h6
    have hmap : pre.map (fun id1 =>
          ((c.messageSendQueue.Find id1).map (fun e1 => e1.measuredBits)).getD 0)
        = ks1.map (fun k => (c.messageSendQueue.entries
          ((c.oldestUnackedMessageId + k) % 65536 % MessageSendQueueSize)).measuredBits) := by
      rw [← hpre, List.map_map]
      apply List.map_congr_left
      intro k1 hk1
      have hk1mem : k1 ∈ ks := by rw [hks]; simp [hk1]
      simp only [Function.comp, hfind k1 hk1mem, Option.map_some', Option.getD_some]
    rw [hmap]
    exact h6
  have hstamp : ∀ id, (GetMessagesToSend c).1.messageSendQueue.Find id =
      (c.messageSendQueue.Find id).map
        (fun e => if id ∈ (GetMessagesToSend c).2 then { e with timeLastSent := c.time } else e) := by
    intro id
    unfold SequenceBuffer.Find
    rw [g3, e7]
    by_cases hp : c.messageSendQueue.sequence_of_slot (id % MessageSendQueueSize) = some id
    · rw [if_pos hp, if_pos hp, Option.map_some']
      congr 1
      by_cases hid : id ∈ (GetMessagesToSend c).2
      · rw [if_pos hid]
        rw [e1] at hid
        obtain ⟨k, hk, hkid⟩ := List.mem_map.mp hid
        rw [if_pos (List.mem_map.mpr ⟨k, hk, by rw [hkid]⟩)]
      · rw [if_neg hid, if_neg]
        intro hmem
        obtain ⟨k, hk, hkid⟩ := List.mem_map.mp hmem
        have h4 := e4 k hk k (le_refl _)
        rw [hkid, hp] at h4
        simp only [Option.some.injEq] at h4
        apply hid
        rw [e1, h4]
        exact List.mem_map.mpr ⟨k, hk, rfl⟩
    · rw [if_neg hp, if_neg hp, Option.map_none']
  have hnot : ∀ (c : Connection) id e, c.messageSendQueue.Find id = some e →
      c.time < e.timeLastSent + MessageResendRate → id ∉ (GetMessagesToSend c).2 := by
    intro c id e hf hlt hmem
    obtain ⟨ks, e1, e2, e3, e4, e5, e6, e7, e8⟩ := GetMessagesToSend_walk c
    rw [e1] at hmem
    obtain ⟨k, hk, hkid⟩ := List.mem_map.mp hmem
    have h5 := e5 k hk
    have hf2 := (SequenceBuffer.Find_eq_some c.messageSendQueue _ _).mp hf
    rw [← hkid] at hf2
    rw [hf2.2] at h5
    exact absurd h5 (not_le.mpr hlt)
  refine ⟨hincl, hstamp, ?_, hnot c, ?_, ?_, ?_⟩
  · rw [g1]
    congr 1
    generalize (GetMessagesToSend c).1.messageSendQueue = q1 at g2 g3
    obtain ⟨s1, sl1, en1⟩ := q1
    simp only at g2 g3
    subst g2; subst g3
    rfl
  · intro id hid t ht
    obtain ⟨pre, post, hsplit⟩ := List.append_of_mem hid
    obtain ⟨e, hf, _, _⟩ := hincl pre id post hsplit
    have hf1 := hstamp id
    rw [hf, Option.map_some', if_pos hid] at hf1
    exact hnot { (GetMessagesToSend c).1 with time := t } id _ hf1 ht
  · intro e now he hnow
    rw [he]
    have hnow1 : (0 : Int) ≤ now := hnow
    show (-1000 : Int) + 100 ≤ now
    omega
  · intro e hlt hf he hnow hfit
    unfold GetMessagesToSend
    rw [hf]
    simp only [MessageSendQueueSize]
    unfold getMessagesToSendLoop
    have hb : ¬ ((MessagePacketBudget : Int) * 8 ≤ 8 * 8) := by simp [MessagePacketBudget]
    have hid0 : (c.oldestUnackedMessageId + 0) % 65536 = c.oldestUnackedMessageId := by omega
    have hnow1 : (0 : Int) ≤ c.time := hnow
    have hcond : e.timeLastSent + MessageResendRate ≤ c.time ∧
        (MessagePacketBudget : Int) * 8 - e.measuredBits ≥ 0 := by
      refine ⟨?_, by omega⟩
      rw [he]
      show (-1000 : Int) + 100 ≤ c.time
      omega
    have hlen : ¬ (([] : List Nat) ++ [c.oldestUnackedMessageId]).length = MaxMessagesPerPacket := by
      simp [MaxMessagesPerPacket]
    rw [if_neg hb]
    dsimp only
    rw [hid0, hf]
    dsimp only
    rw [if_pos hcond, if_neg hlen]
    obtain ⟨ks1, h1, _⟩ := getMessagesToSendLoop_walk c.time c.oldestUnackedMessageId 1023 (0 + 1)
      ((MessagePacketBudget : Int) * 8 - e.measuredBits)
      (c.messageSendQueue.setEntry (c.oldestUnackedMessageId % MessageSendQueueSize)
        { e with timeLastSent := c.time })
      ([] ++ [c.oldestUnackedMessageId]) (by simp [MessageSendQueueSize]) hcond.2
      (by simp [MaxMessagesPerPacket])
    simp only [MessageSendQueueSize, List.nil_append, zero_add] at h1 ⊢
    rw [h1]
    simp

theorem C14_resend_rate_witness :
    (GetMessagesToSend sentTwo.conn).2 = [0, 1] ∧
    (50 : Time) < sentTwo.conn.time + MessageResendRate ∧
    0 ∉ (GetMessagesToSend { (GetMessagesToSend sentTwo.conn).1 with time := 50 }).2 ∧
    (GetMessagesToSend { (GetMessagesToSend sentTwo.conn).1 with time := 100 }).2 = [0, 1] :=
  ⟨by decide, by decide,
    (C14_resend_rate sentTwo.conn).2.2.2.2.1 0 (by decide) 50 (by decide), by decide⟩

/-! ## What an ack removes -/

/-- The loop of `ProcessMessageAck`: the ids it removes from the send queue are
the listed ids that are present, each once; their slots are cleared, one
`Release` goes to the message of each, and nothing else changes. -/
theorem processMessageAckLoop_removes (offset : Nat) :
    ∀ (idxs : List Nat) (w : World),
      ∃ R : List Nat, R.Nodup ∧
        (∀ id, id ∈ R ↔
          (∃ i ∈ idxs, w.conn.sentPacketMessageIds (offset + i) = id) ∧
          w.conn.messageSendQueue.sequence_of_slot (id % MessageSendQueueSize) = some id) ∧
        (∀ j, (processMessageAckLoop offset idxs w).conn.messageSendQueue.sequence_of_slot j =
          if j ∈ R.map (fun id => id % MessageSendQueueSize) then none
          else w.conn.messageSendQueue.sequence_of_slot j) ∧
        (processMessageAckLoop offset idxs w).heap =
          R.foldl (fun h id =>
            h.Release (w.conn.messageSendQueue.entries (id % MessageSendQueueSize)).message) w.heap ∧
        (processMessageAckLoop offset idxs w).conn =
          { w.conn with
            messageSendQueue :=
              { w.conn.messageSendQueue with
                sequence_of_slot :=
                  (processMessageAckLoop offset idxs w).conn.messageSendQueue.sequence_of_slot } } ∧
        (processMessageAckLoop offset idxs w).packetAcked = w.packetAcked := by
  intro idxs
  induction idxs with
  | nil =>
    intro w
    exact ⟨[], List.nodup_nil, by simp, by simp [processMessageAckLoop], rfl, rfl, rfl⟩
  | cons i rest ih =>
    intro w
    unfold processMessageAckLoop
    dsimp only
    cases hf : w.conn.messageSendQueue.Find (w.conn.sentPacketMessageIds (offset + i)) with
    | none =>
      dsimp only
      obtain ⟨R, r1, r2, r3, r4, r5, r6⟩ := ih w
      refine ⟨R, r1, ?_, r3, r4, r5, r6⟩
      intro id
      rw [r2 id]
      constructor
      · rintro ⟨⟨i', hi', h⟩, hp⟩
        exact ⟨⟨i', List.mem_cons_of_mem _ hi', h⟩, hp⟩
      · rintro ⟨⟨i', hi', h⟩, hp⟩
        refine ⟨⟨i', ?_, h⟩, hp⟩
        rcases List.mem_cons.mp hi' with h0 | h0
        · subst h0
          rw [h] at hf
          rw [SequenceBuffer.Find_eq_none] at hf
          exact absurd hp hf
        · exact h0
    | some e =>
      dsimp only
      obtain ⟨hp, he⟩ := (SequenceBuffer.Find_eq_some _ _ _).mp hf
      generalize hid : w.conn.sentPacketMessageIds (offset + i) = id0 at hf hp he ⊢
      obtain ⟨R, r1, r2, r3, r4, r5, r6⟩ := ih
        { w with
          conn := { w.conn with messageSendQueue := w.conn.messageSendQueue.Remove id0 }
          heap := w.heap.Release e.message }
      simp only [SequenceBuffer.Remove] at r2 r3 r4 r5 r6 ⊢
      have hnot : id0 ∉ R := by
        intro hmem
        have := ((r2 id0).mp hmem).2
        rw [Function.update_same] at this
        exact absurd this (by simp)
      refine ⟨id0 :: R, List.nodup_cons.mpr ⟨hnot, r1⟩, ?_, ?_, ?_, ?_, r6⟩
      · intro id
        rw [List.mem_cons, r2 id]
        constructor
        · rintro (h | ⟨⟨i', hi', h⟩, hp'⟩)
          · subst h
            exact ⟨⟨i, List.mem_cons_self _ _, hid⟩, hp⟩
          · refine ⟨⟨i', List.mem_cons_of_mem _ hi', h⟩, ?_⟩
            by_cases hj : id % MessageSendQueueSize = id0 % MessageSendQueueSize
            · rw [hj, Function.update_same] at hp'
              exact absurd hp' (by simp)
            · rw [Function.update_noteq hj] at hp'
              exact hp'
        · rintro ⟨⟨i', hi', h⟩, hp'⟩
          by_cases hid0 : id = id0
          · exact Or.inl hid0
          · right
            have hj : id % MessageSendQueueSize ≠ id0 % MessageSendQueueSize := by
              intro hj
              rw [hj, hp] at hp'
              simp only [Option.some.injEq] at hp'
              exact hid0 hp'.symm
            refine ⟨⟨i', ?_, h⟩, by rw [Function.update_noteq hj]; exact hp'⟩
            rcases List.mem_cons.mp hi' with h0 | h0
            · subst h0
              rw [hid] at h
              exact absurd h.symm hid0
            · exact h0
      · intro j
        rw [r3 j]
        simp only [List.map_cons, List.mem_cons]
        by_cases hj : j = id0 % MessageSendQueueSize
        · subst hj
          rw [if_pos (Or.inl rfl), Function.update_same]
          split <;> rfl
        · rw [Function.update_noteq hj]
          by_cases hm : j ∈ R.map (fun id => id % MessageSendQueueSize)
          · rw [if_pos hm, if_pos (Or.inr hm)]
          · rw [if_neg hm, if_neg (by rintro (h | h); exact hj h; exact hm h)]
      · rw [r4, List.foldl_cons, he]
      · rw [r5]

/-- C15. When the message-sent-packets buffer holds an entry for `s` that is
not acked, processing ack(s) (`PacketAcked`, that is `ProcessMessageAck`)
removes from the send queue exactly the ids listed for that packet that are
present there (the list `R`, without repetition), calls `Release` once on the
message of each removed entry and on nothing else, and leaves every other
send-queue entry as it was: same presence, same message, send time and
measured bits. Of the rest of the connection only the oldest unacked id may
move. When the buffer holds no entry for `s`, `ProcessMessageAck` changes
nothing. -/
theorem C15_ack_removes_messages (w : World) (s : Nat) :
    (∀ e, w.conn.messageSentPackets.Find s = some e → e.acked = 0 →
      ∃ R : List Nat, R.Nodup ∧
        (∀ id, id ∈ R ↔
          (∃ i < e.numMessageIds, w.conn.sentPacketMessageIds (e.messageIds + i) = id) ∧
          (w.conn.messageSendQueue.Find id).isSome = true) ∧
        (∀ id, (PacketAcked w s).conn.messageSendQueue.Find id =
          if id ∈ R then none else w.conn.messageSendQueue.Find id) ∧
        (PacketAcked w s).conn.messageSendQueue.entries = w.conn.messageSendQueue.entries ∧
        (PacketAcked w s).heap =
          R.foldl (fun h id =>
            h.Release (w.conn.messageSendQueue.entries (id % MessageSendQueueSize)).message) w.heap ∧
        (PacketAcked w s).conn =
          { w.conn with
            messageSendQueue := (PacketAcked w s).conn.messageSendQueue
            oldestUnackedMessageId := (PacketAcked w s).conn.oldestUnackedMessageId }) ∧
    (w.conn.messageSentPackets.Find s = none → ProcessMessageAck w s = w) := by
  constructor
  · intro e hf hacked
    obtain ⟨R, r1, r2, r3, r4, r5, r6⟩ :=
      processMessageAckLoop_removes e.messageIds (List.range e.numMessageIds) w
    have hrun : PacketAcked w s =
        { conn := UpdateOldestUnackedMessageId
            (processMessageAckLoop e.messageIds (List.range e.numMessageIds) w).conn
          heap := (processMessageAckLoop e.messageIds (List.range e.numMessageIds) w).heap
          packetAcked :=
            s :: (processMessageAckLoop e.messageIds (List.range e.numMessageIds) w).packetAcked } := by
      unfold PacketAcked ProcessMessageAck
      rw [hf]
      simp only [hacked, ne_eq, not_true_eq_false, if_false]
    rw [hrun]
    refine ⟨R, r1, ?_, ?_, ?_, r4, ?_⟩
    · intro id
      rw [r2 id, SequenceBuffer.Find_isSome]
      simp only [List.mem_range]
    · intro id
      show (processMessageAckLoop e.messageIds (List.range e.numMessageIds) w).conn.messageSendQueue.Find id = _
      unfold SequenceBuffer.Find
      rw [r3]
      have hent : (processMessageAckLoop e.messageIds (List.range e.numMessageIds) w).conn.messageSendQueue.entries
          = w.conn.messageSendQueue.entries := by rw [r5]
      rw [hent]
      by_cases hid : id ∈ R
      · rw [if_pos hid, if_pos (List.mem_map.mpr ⟨id, hid, rfl⟩)]
        simp
      · rw [if_neg hid]
        by_cases hm : id % MessageSendQueueSize ∈ R.map (fun id => id % MessageSendQueueSize)
        · rw [if_pos hm]
          obtain ⟨r, hr, hrid⟩ := List.mem_map.mp hm
          have hpr := ((r2 r).mp hr).2
          rw [hrid] at hpr
          have hne : w.conn.messageSendQueue.sequence_of_slot (id % MessageSendQueueSize) ≠ some id := by
            rw [hpr]
            intro h
            simp only [Option.some.injEq] at h
            exact hid (h ▸ hr)
          rw [if_neg hne]
          simp
        · rw [if_neg hm]
    · show (processMessageAckLoop e.messageIds (List.range e.numMessageIds) w).conn.messageSendQueue.entries = _
      rw [r5]
    · show UpdateOldestUnackedMessageId _ = _
      unfold UpdateOldestUnackedMessageId
      rw [r5]
  · intro hf
    unfold ProcessMessageAck
    rw [hf]

theorem C15_ack_removes_messages_witness :
    writtenTwo.conn.messageSentPackets.Find 0 =
      some { timeSent := 0, messageIds := 0, numMessageIds := 2, blockId := 0, fragmentId := 0,
             acked := 0, blockMessage := 0 } ∧
    (writtenTwo.conn.messageSendQueue.Find 0).isSome = true ∧
    (writtenTwo.conn.messageSendQueue.Find 1).isSome = true ∧
    ((writtenTwo.heap 1).GetRefCount, (writtenTwo.heap 2).GetRefCount) = (2, 2) ∧
    (((PacketAcked writtenTwo 0).heap 1).GetRefCount, ((PacketAcked writtenTwo 0).heap 2).GetRefCount)
      = (1, 1) ∧
    ∃ R : List Nat, R.Nodup ∧
      (∀ id, (PacketAcked writtenTwo 0).conn.messageSendQueue.Find id =
        if id ∈ R then none else writtenTwo.conn.messageSendQueue.Find id) ∧
      (PacketAcked writtenTwo 0).heap =
        R.foldl (fun h id =>
          h.Release (writtenTwo.conn.messageSendQueue.entries (id % MessageSendQueueSize)).message)
          writtenTwo.heap := by
  obtain ⟨R, r1, _, r3, _, r5, _⟩ := (C15_ack_removes_messages writtenTwo 0).1
    { timeSent := 0, messageIds := 0, numMessageIds := 2, blockId := 0, fragmentId := 0,
      acked := 0, blockMessage := 0 } (by decide) rfl
  exact ⟨by decide, by decide, by decide, by decide, by decide, R, r1, r3, r5⟩

/-! ## What a written packet records -/

theorem InsertAckPacketEntry_at (c : Connection) :
    (InsertAckPacketEntry c c.sentPackets.sequence).sentPackets.sequence
      = (c.sentPackets.sequence + 1) % 65536 ∧
    (InsertAckPacketEntry c c.sentPackets.sequence).sentPackets.Find c.sentPackets.sequence
      = some { acked := 0 } ∧
    InsertAckPacketEntry c c.sentPackets.sequence =
      { c with sentPackets := (InsertAckPacketEntry c c.sentPackets.sequence).sentPackets } := by
  unfold InsertAckPacketEntry
  rw [SequenceBuffer.Insert_at_sequence c.sentPackets (by simp [SlidingWindowSize])]
  refine ⟨rfl, ?_, rfl⟩
  rw [SequenceBuffer.Find_eq_some]
  simp [SequenceBuffer.setEntry]

theorem writeMessageIds_outside (offset : Nat) :
    ∀ (ids : List Nat) (start : Nat) (a : Nat → Nat) (j : Nat),
      (∀ k, k < ids.length → j ≠ offset + (start + k)) →
      writeMessageIds offset start ids a j = a j := by
  intro ids
  induction ids with
  | nil => intro start a j _; rfl
  | cons id rest ih =>
    intro start a j h
    unfold writeMessageIds
    rw [ih (start + 1) _ j]
    · have h0 := h 0 (by simp)
      rw [Function.update_noteq (by simpa using h0)]
    · intro k hk
      have := h (k + 1) (by simpa using hk)
      omega

theorem writeMessageIds_get (offset : Nat) :
    ∀ (ids : List Nat) (start : Nat) (a : Nat → Nat) (i : Nat) (h : i < ids.length),
      writeMessageIds offset start ids a (offset + (start + i)) = ids.get ⟨i, h⟩ := by
  intro ids
  induction ids with
  | nil => intro start a i h; exact absurd h (by simp)
  | cons id rest ih =>
    intro start a i h
    unfold writeMessageIds
    cases i with
    | zero =>
      rw [writeMessageIds_outside offset rest (start + 1) _ _ (by intro k _; omega)]
      simp
    | succ i =>
      have := ih (start + 1) (Function.update a (offset + start) id) i (by simpa using h)
      rw [show offset + (start + (i + 1)) = offset + (start + 1 + i) by omega, this]
      rfl

theorem collectMessages_eq (q : SequenceBuffer MessageSendQueueEntry MessageSendQueueSize) :
    ∀ (ids : List Nat) (h h1 : Heap) (msgs : List Nat),
      collectMessages q ids h = some (h1, msgs) →
      msgs = ids.map (fun id => (q.entries (id % MessageSendQueueSize)).message) ∧
      h1 = msgs.foldl Heap.AddRef h := by
  intro ids
  induction ids with
  | nil =>
    intro h h1 msgs hc
    simp only [collectMessages, Option.some.injEq, Prod.mk.injEq] at hc
    rw [← hc.1, ← hc.2]
    exact ⟨rfl, rfl⟩
  | cons id rest ih =>
    intro h h1 msgs hc
    unfold collectMessages at hc
    cases hf : q.Find id with
    | none => simp [hf] at hc
    | some e =>
      simp only [hf] at hc
      cases hr : collectMessages q rest (h.AddRef e.message) with
      | none => simp [hr] at hc
      | some r =>
        obtain ⟨h2, msgs2⟩ := r
        simp only [hr, Option.some.injEq, Prod.mk.injEq] at hc
        obtain ⟨a, b⟩ := ih _ _ _ hr
        have he := ((SequenceBuffer.Find_eq_some _ _ _).mp hf).2
        rw [← hc.1, ← hc.2]
        refine ⟨?_, ?_⟩
        · rw [List.map_cons, he, a]
        · rw [List.foldl_cons, b]

/-- What one public call other than `Reset` does to the send counter: a call
that writes a packet stamps it with the counter and advances the counter by
one; every other call leaves the counter alone. -/
theorem step_sequence (w : World) (op : Op) (w1 : World) (out : Output)
    (h : step w op = some (w1, out)) (hop : op ≠ Op.reset) :
    (stamped [out] = [] ∧ w1.conn.sentPackets.sequence = w.conn.sentPackets.sequence) ∨
    (stamped [out] = [w.conn.sentPackets.sequence] ∧
      w1.conn.sentPackets.sequence = (w.conn.sentPackets.sequence + 1) % 65536) := by
  cases op with
  | reset => exact absurd rfl hop
  | sendMessage m =>
    simp only [step, Option.map_eq_some'] at h
    obtain ⟨w2, hs, heq⟩ := h
    simp only [Prod.mk.injEq] at heq
    rw [← heq.1, ← heq.2]
    left
    exact ⟨rfl, by rw [(SendMessage_sent w m w2 hs).1]⟩
  | advanceTime t =>
    simp only [step, Option.some.injEq, Prod.mk.injEq] at h
    rw [← h.1, ← h.2]
    left; exact ⟨rfl, rfl⟩
  | receiveMessage =>
    simp only [step, Option.some.injEq, Prod.mk.injEq] at h
    rw [← h.1, ← h.2]
    left
    refine ⟨rfl, ?_⟩
    unfold ReceiveMessage
    dsimp only
    split
    · rfl
    · split <;> rfl
  | readPacket p =>
    simp only [step, Option.map_eq_some'] at h
    obtain ⟨r, hs, heq⟩ := h
    simp only [Prod.mk.injEq] at heq
    rw [← heq.1, ← heq.2]
    left
    refine ⟨rfl, ?_⟩
    obtain ⟨w2, b⟩ := r
    show w2.conn.sentPackets.sequence = _
    unfold ReadPacket at hs
    split at hs
    · simp only [Option.some.injEq, Prod.mk.injEq] at hs
      rw [← hs.1]
    · unfold ProcessPacketMessages at hs
      cases hl : processPacketMessagesLoop w.conn.receiveMessageId
          ((w.conn.receiveMessageId + MessageReceiveQueueSize - 1) % 65536) p.messages w false with
      | none => simp [hl] at hs
      | some r =>
        obtain ⟨w3, e3⟩ := r
        obtain ⟨hfr, _⟩ := processPacketMessagesLoop_frame _ _ _ _ _ _ _ hl
        have hsent : w3.conn.sentPackets = w.conn.sentPackets := by rw [hfr]
        simp only [hl] at hs
        cases e3 with
        | true =>
          simp only [Bool.not_true, Option.some.injEq, Prod.mk.injEq] at hs
          rw [← hs.1, hsent]
        | false =>
          simp only [Bool.not_false] at hs
          cases hin : w3.conn.receivedPackets.Insert p.sequence with
          | none =>
            simp only [hin, Option.some.injEq, Prod.mk.injEq] at hs
            rw [← hs.1, hsent]
          | some r2 =>
            obtain ⟨rb, idx⟩ := r2
            simp only [hin, Option.some.injEq, Prod.mk.injEq] at hs
            rw [← hs.1]
            have hf := ProcessAcks_frame { w3 with conn := { w3.conn with receivedPackets := rb } }
              p.ack p.ack_bits
            rw [hf.2.2.2.2.2.2.2.2.2.1]
            show w3.conn.sentPackets.sequence = _
            rw [hsent]
  | writePacket created =>
    simp only [step, Option.map_eq_some'] at h
    obtain ⟨r, hs, heq⟩ := h
    simp only [Prod.mk.injEq] at heq
    rw [← heq.1, ← heq.2]
    obtain ⟨w2, pk⟩ := r
    show (stamped [Output.packet pk] = [] ∧ w2.conn.sentPackets.sequence = _) ∨
      (stamped [Output.packet pk] = _ ∧ w2.conn.sentPackets.sequence = _)
    unfold WritePacket at hs
    split at hs
    · simp only [Option.some.injEq, Prod.mk.injEq] at hs
      rw [← hs.1, ← hs.2]
      left; exact ⟨rfl, rfl⟩
    · split at hs
      · simp only [Option.some.injEq, Prod.mk.injEq] at hs
        rw [← hs.1, ← hs.2]
        left; exact ⟨rfl, rfl⟩
      · dsimp only at hs
        cases ha : AddMessagePacketEntry
            (GetMessagesToSend (InsertAckPacketEntry w.conn w.conn.sentPackets.GetSequence)).1
            (GetMessagesToSend (InsertAckPacketEntry w.conn w.conn.sentPackets.GetSequence)).2
            w.conn.sentPackets.GetSequence with
        | none => simp [ha] at hs
        | some c3 =>
          simp only [ha] at hs
          cases hc : collectMessages c3.messageSendQueue
              (GetMessagesToSend (InsertAckPacketEntry w.conn w.conn.sentPackets.GetSequence)).2
              w.heap with
          | none => simp [hc] at hs
          | some r =>
            obtain ⟨h1, msgs⟩ := r
            simp only [hc, Option.some.injEq, Prod.mk.injEq] at hs
            obtain ⟨hw, hout⟩ := hs
            rw [← hw, ← hout]
            right
            refine ⟨rfl, ?_⟩
            show c3.sentPackets.sequence = _
            rw [AddMessagePacketEntry_sent _ _ _ _ ha, (GetMessagesToSend_spec _).1]
            exact (InsertAckPacketEntry_at w.conn).1

theorem run_stamped :
    ∀ (ops : List Op) (w w1 : World) (outs : List Output),
      (∀ op ∈ ops, op ≠ Op.reset) → w.conn.sentPackets.sequence < 65536 →
      run w ops = some (w1, outs) →
      stamped outs = (List.range (stamped outs).length).map
        (fun k => (w.conn.sentPackets.sequence + k) % 65536) ∧
      w1.conn.sentPackets.sequence = (w.conn.sentPackets.sequence + (stamped outs).length) % 65536 := by
  intro ops
  induction ops with
  | nil =>
    intro w w1 outs _ hS h
    simp only [run, Option.some.injEq, Prod.mk.injEq] at h
    rw [← h.1, ← h.2]
    simp only [stamped, List.length_nil, List.range_zero, List.map_nil, add_zero, true_and]
    omega
  | cons op rest ih =>
    intro w w1 outs hops hS h
    simp only [run] at h
    cases hs : step w op with
    | none => simp [hs] at h
    | some r =>
      obtain ⟨w2, out⟩ := r
      simp only [hs] at h
      cases hr : run w2 rest with
      | none => simp [hr] at h
      | some r2 =>
        obtain ⟨w3, outs2⟩ := r2
        simp only [hr, Option.some.injEq, Prod.mk.injEq] at h
        rw [← h.1, ← h.2]
        have hrest : ∀ op ∈ rest, op ≠ Op.reset := fun o ho => hops o (List.mem_cons_of_mem _ ho)
        rw [stamped_cons]
        rcases step_sequence w op w2 out hs (hops op (List.mem_cons_self _ _)) with ⟨a, b⟩ | ⟨a, b⟩
        · obtain ⟨c, d⟩ := ih w2 w3 outs2 hrest (by rw [b]; exact hS) hr
          rw [a, List.nil_append, d, b]
          refine ⟨?_, rfl⟩
          rw [b] at c
          exact c
        · obtain ⟨c, d⟩ := ih w2 w3 outs2 hrest (by rw [b]; omega) hr
          rw [a, d, b]
          simp only [List.singleton_append, List.length_cons]
          refine ⟨?_, by omega⟩
          rw [List.range_succ_eq_map, List.map_cons, List.map_map]
          rw [b] at c
          congr 1
          · omega
          · rw [c]
            simp only [List.length_map, List.length_range]
            apply List.map_congr_left
            intro k _
            simp only [Function.comp]
            omega
theorem AddMessagePacketEntry_at (c : Connection) (ids : List Nat) (c3 : Connection)
    (h : AddMessagePacketEntry c ids c.messageSentPackets.sequence = some c3) :
    (∃ e, c3.messageSentPackets.Find c.messageSentPackets.sequence = some e ∧ e.acked = 0 ∧
      e.numMessageIds = ids.length % 65536 ∧
      ∀ i (hi : i < ids.length), c3.sentPacketMessageIds (e.messageIds + i) = ids.get ⟨i, hi⟩) ∧
    c3.messageSendQueue = c.messageSendQueue ∧ c3.sentPackets = c.sentPackets := by
  unfold AddMessagePacketEntry at h
  rw [SequenceBuffer.Insert_at_sequence c.messageSentPackets (by simp [MessageSentPacketsSize])] at h
  simp only [Option.some.injEq] at h
  rw [← h]
  refine ⟨⟨_, (SequenceBuffer.Find_eq_some _ _ _).mpr ⟨?_, rfl⟩, ?_, ?_, ?_⟩, rfl, rfl⟩
  · simp [SequenceBuffer.setEntry]
  · simp [SequenceBuffer.setEntry]
  · simp [SequenceBuffer.setEntry]
  · intro i hi
    simp only [SequenceBuffer.setEntry, Function.update_same]
    have := writeMessageIds_get
      (c.sentPackets.GetIndex c.messageSentPackets.sequence * MaxMessagesPerPacket) ids 0
      c.sentPacketMessageIds i hi
    rw [Nat.zero_add] at this
    exact this

theorem GetMessagesToSend_congr (c1 c : Connection)
    (hq : c1.messageSendQueue = c.messageSendQueue)
    (ho : c1.oldestUnackedMessageId = c.oldestUnackedMessageId) (ht : c1.time = c.time) :
    (GetMessagesToSend c1).2 = (GetMessagesToSend c).2 ∧
    (GetMessagesToSend c1).1.messageSendQueue = (GetMessagesToSend c).1.messageSendQueue := by
  unfold GetMessagesToSend
  rw [hq, ho, ht]
  cases c.messageSendQueue.Find c.oldestUnackedMessageId with
  | none => exact ⟨rfl, hq⟩
  | some e => exact ⟨rfl, rfl⟩

/-- C16. Along a run of public calls from a freshly constructed or reset
connection (no further `Reset`), the packets written carry the sequences 0, 1,
2, ... (mod 2^16) in the order they are written. In the state `w` reached, if
no error is set, `WritePacket` returns a packet stamped with the number of
packets written so far (mod 2^16); afterwards the sent-packets buffer holds
that sequence with `acked = 0` and has moved on by one, the message-sent-packets
entry for it is not acked and lists exactly the ids `GetMessagesToSend` chose,
in the same order and with the same count, `packet.messages[i]` is the message
of the send-queue entry of the i-th id, and the heap is the previous one with
one `AddRef` per message of the packet. -/
theorem C16_write_packet (w0 : World) (hfresh : Fresh w0.conn) (ops : List Op)
    (hops : ∀ op ∈ ops, op ≠ Op.reset) :
    ∃ w outs, run w0 ops = some (w, outs) ∧
      stamped outs = (List.range (stamped outs).length).map (fun k => k % 65536) ∧
      (w.conn.error = CONNECTION_ERROR_NONE →
        ∃ w1 packet, WritePacket w true = some (w1, some packet) ∧
          packet.sequence = (stamped outs).length % 65536 ∧
          w1.conn.sentPackets.GetSequence = (packet.sequence + 1) % 65536 ∧
          w1.conn.sentPackets.Find packet.sequence = some { acked := 0 } ∧
          (∃ e, w1.conn.messageSentPackets.Find packet.sequence = some e ∧ e.acked = 0 ∧
            e.numMessageIds = (GetMessagesToSend w.conn).2.length ∧
            ∀ i (hi : i < (GetMessagesToSend w.conn).2.length),
              w1.conn.sentPacketMessageIds (e.messageIds + i)
                = (GetMessagesToSend w.conn).2.get ⟨i, hi⟩) ∧
          packet.messages = (GetMessagesToSend w.conn).2.map
            (fun id => ((w.conn.messageSendQueue.Find id).map (fun e => e.message)).getD NULL) ∧
          (∀ id ∈ (GetMessagesToSend w.conn).2,
            (w.conn.messageSendQueue.Find id).isSome = true) ∧
          w1.heap = packet.messages.foldl Heap.AddRef w.heap) := by
  obtain ⟨w, outs, hrun, hinv⟩ := run_total ops w0 (fresh_inv hfresh)
  have hS0 : w0.conn.sentPackets.sequence = 0 := hfresh.2.2.2.2.1.1
  obtain ⟨hst, hSw⟩ := run_stamped ops w0 w outs hops (by rw [hS0]; omega) hrun
  rw [hS0] at hst hSw
  simp only [Nat.zero_add] at hst hSw
  refine ⟨w, outs, hrun, hst, ?_⟩
  intro herr
  obtain ⟨_, _, hsent⟩ := hinv
  obtain ⟨w1, out, hW, _⟩ := WritePacket_spec w true hsent
  have hW0 := hW
  unfold WritePacket at hW
  rw [if_neg (fun hne => hne herr)] at hW
  simp only [Bool.not_true, Bool.false_eq_true, if_false] at hW
  obtain ⟨i1, i2, i3⟩ := InsertAckPacketEntry_at w.conn
  unfold SequenceBuffer.GetSequence at hW
  generalize hc1 : InsertAckPacketEntry w.conn w.conn.sentPackets.sequence = c1 at hW i1 i2 i3
  have hc1q : c1.messageSendQueue = w.conn.messageSendQueue := by rw [i3]
  have hc1o : c1.oldestUnackedMessageId = w.conn.oldestUnackedMessageId := by rw [i3]
  have hc1t : c1.time = w.conn.time := by rw [i3]
  have hc1m : c1.messageSentPackets = w.conn.messageSentPackets := by rw [i3]
  obtain ⟨k1, k2⟩ := GetMessagesToSend_congr c1 w.conn hc1q hc1o hc1t
  obtain ⟨g1, g2, g3, g4⟩ := GetMessagesToSend_spec c1
  obtain ⟨ks, e1, _, _, _, _, _, e7, e8⟩ := GetMessagesToSend_walk w.conn
  rw [← k1] at e8
  rw [← k2] at e7
  generalize hr : GetMessagesToSend c1 = r at hW k1 k2 g1 g2 g3 g4 e7 e8
  have hrm : r.1.messageSentPackets = w.conn.messageSentPackets := by rw [g1]; exact hc1m
  have hseq : w.conn.sentPackets.sequence = r.1.messageSentPackets.sequence := by
    rw [hrm]; exact hsent
  rw [hseq] at hW
  cases ha : AddMessagePacketEntry r.1 r.2 r.1.messageSentPackets.sequence with
  | none => simp [ha] at hW
  | some c3 =>
    simp only [ha] at hW
    obtain ⟨⟨e, a1, a2, a3, a4⟩, a5, a6⟩ := AddMessagePacketEntry_at r.1 r.2 c3 ha
    cases hc : collectMessages c3.messageSendQueue r.2 w.heap with
    | none => simp [hc] at hW
    | some rc =>
      obtain ⟨h1, msgs⟩ := rc
      simp only [hc, Option.some.injEq, Prod.mk.injEq] at hW
      obtain ⟨hw1, hout⟩ := hW
      obtain ⟨m1, m2⟩ := collectMessages_eq _ _ _ _ _ hc
      have hpres : ∀ id ∈ r.2,
          w.conn.messageSendQueue.sequence_of_slot (id % MessageSendQueueSize) = some id := by
        intro id hid
        have := g4 id hid
        rw [hc1q] at this
        exact this
      refine ⟨w1, _, by rw [hW0, ← hout], ?_, ?_, ?_, ?_, ?_, ?_, ?_⟩
      · show r.1.messageSentPackets.sequence = _
        rw [← hseq, hSw]
      · show w1.conn.sentPackets.sequence = (r.1.messageSentPackets.sequence + 1) % 65536
        rw [← hw1, ← hseq]
        show c3.sentPackets.sequence = _
        rw [a6, g1]
        exact i1
      · show w1.conn.sentPackets.Find r.1.messageSentPackets.sequence = _
        rw [← hw1, ← hseq]
        show c3.sentPackets.Find _ = _
        rw [a6, g1]
        exact i2
      · refine ⟨e, ?_, a2, ?_, ?_⟩
        · rw [← hw1]; exact a1
        · rw [a3, ← k1]
          simp only [MaxMessagesPerPacket] at e8
          omega
        · intro i hi
          rw [← hw1]
          show c3.sentPacketMessageIds (e.messageIds + i) = _
          have hi' : i < r.2.length := by rw [k1]; exact hi
          rw [a4 i hi']
          exact List.get_of_eq k1 ⟨i, hi'⟩
      · show msgs = _
        rw [m1, ← k1]
        apply List.map_congr_left
        intro id hid
        have hf := (SequenceBuffer.Find_eq_some w.conn.messageSendQueue id _).mpr
          ⟨hpres id hid, rfl⟩
        rw [hf, Option.map_some', Option.getD_some, a5, e7]
        split <;> rfl
      · intro id hid
        rw [← k1] at hid
        rw [SequenceBuffer.Find_isSome]
        exact hpres id hid
      · rw [← hw1]
        exact m2

theorem C16_write_packet_witness :
    Fresh demoWorld.conn ∧
    ∃ w outs, run demoWorld [Op.sendMessage 1, Op.writePacket true, Op.sendMessage 2] = some (w, outs) ∧
      stamped outs = [0] ∧
      ∃ w1 packet, WritePacket w true = some (w1, some packet) ∧
        packet.sequence = 1 ∧
        w1.conn.sentPackets.Find packet.sequence = some { acked := 0 } ∧
        w1.heap = packet.messages.foldl Heap.AddRef w.heap := by
  obtain ⟨w, outs, h1, h2, h3⟩ := C16_write_packet demoWorld (Connection.new_fresh _ _)
    [Op.sendMessage 1, Op.writePacket true, Op.sendMessage 2]
    (by intro op hop h; subst h; simp at hop)
  have hc : (run demoWorld [Op.sendMessage 1, Op.writePacket true, Op.sendMessage 2]).map
      (fun r => (r.1.conn.error, stamped r.2)) = some (CONNECTION_ERROR_NONE, [0]) := by decide
  rw [h1] at hc
  simp only [Option.map_some', Option.some.injEq, Prod.mk.injEq] at hc
  obtain ⟨w1, packet, a, b, _, c, _, _, _, d⟩ := h3 hc.1
  rw [hc.2] at b
  exact ⟨Connection.new_fresh _ _, w, outs, h1, hc.2, w1, packet, a, b, c, d⟩

/-! ## Reference counts on the measure-failure path -/

/-- C12, the code at the failing input. A message whose measure pass fails is
sent on a fresh connection. Before the call the message has one reference and
the send queue is empty. After the call the send queue holds, under id 0, an
entry that points to the message, while the message's count is 0 and it has
been deleted: a message referenced by a send-queue entry with a count below 1.
`Reset` then finds that entry in slot 0 and calls `Release` on the message
again, although its count has already reached zero (`Release` asserts
`m_refCount > 0`): the count goes to -1. This is the defect recorded for C8.
In general, in every reachable state without error whose send slot is
available, sending a message whose measure pass fails leaves the entry in the
send queue and the message with one reference less. -/
theorem C12_released_message_stays_queued :
    (failWorld.conn.messageSendQueue.Find 0).isSome = false ∧
    (failWorld.heap 1).GetRefCount = 1 ∧
    (SendMessage failWorld 1).map
        (fun w => ((w.conn.messageSendQueue.Find 0).map (fun e => e.message),
          (w.heap 1).GetRefCount, (w.heap 1).deleted))
      = some (some 1, 0, true) ∧
    (SendMessage failWorld 1).map
        (fun w => ((w.conn.messageSendQueue.GetAtIndex 0).map (fun e => e.message),
          ((Reset w).heap 1).GetRefCount))
      = some (some 1, -1) ∧
    (∀ (bits_required : Int → Int → Int) (numTypes : Int) (w : World) (message : Nat),
      Reachable bits_required numTypes w → w.conn.error = CONNECTION_ERROR_NONE →
      CanSendMessage w.conn = true → (w.heap message).measure = none →
      ∃ w1, SendMessage w message = some w1 ∧
        w1.conn.messageSendQueue.Find w.conn.sendMessageId =
          some { message := message, timeLastSent := -1000, measuredBits := 0 } ∧
        (w1.heap message).GetRefCount = (w.heap message).GetRefCount - 1) := by
  refine ⟨by decide, by decide, by decide, by decide!, ?_⟩
  intro bits_required numTypes w message hreach herr havail hmeasure
  obtain ⟨⟨_, hsend, _⟩, _⟩ := reachable_inv hreach
  obtain ⟨_, _, _, hnone, _⟩ := hsend
  obtain ⟨hseq, _⟩ := hnone herr
  have hins := SequenceBuffer.Insert_at_sequence w.conn.messageSendQueue
    (by simp [MessageSendQueueSize])
  rw [hseq] at hins
  obtain ⟨_, a2, _, a4, _⟩ := Heap.AssignId_same w.heap message w.conn.sendMessageId
  unfold SendMessage
  simp only [havail, Bool.not_true, Bool.false_eq_true, if_false]
  rw [hins]
  dsimp only
  rw [a4, hmeasure]
  dsimp only
  refine ⟨_, rfl, ?_, ?_⟩
  · rw [SequenceBuffer.Find_eq_some]
    refine ⟨?_, ?_⟩
    · simp [SequenceBuffer.setEntry]
    · simp only [SequenceBuffer.setEntry, Function.update_same]
  · show ((w.heap.AssignId message w.conn.sendMessageId).Release message message).GetRefCount = _
    unfold Heap.Release
    rw [Function.update_same]
    unfold Message.Release Message.GetRefCount
    rw [← a2]
    split <;> rfl
/-! ## The secure client -/

open Secure Secure.ClientState Secure.ConnectionDeniedReason

/-- C18. For every client state, server address `A` and time `now`,
`Connect( A, now )` leaves the client in SENDING_CONNECTION_REQUEST with server
address `A`, `last_packet_send_time = now - 1 s` and
`last_packet_receive_time = now`. The `SendPackets( now )` that follows sends
one packet, a ConnectionRequest to `A`, and changes nothing but
`last_packet_send_time`, which becomes `now`; a further `SendPackets( t )` with
`t < now + ConnectionRequestSendRate` sends nothing and changes nothing. -/
theorem C18_connect_sends_request (c : Client) (A : Address) (now : Time) :
    (c.Connect A now).1.m_clientState = CLIENT_STATE_SENDING_CONNECTION_REQUEST ∧
    (c.Connect A now).1.m_serverAddress = A ∧
    (c.Connect A now).1.m_lastPacketSendTime = now - 1000 ∧
    (c.Connect A now).1.m_lastPacketReceiveTime = now ∧
    ((c.Connect A now).1.SendPackets now).2 = [(A, Packet.ConnectionRequest)] ∧
    ((c.Connect A now).1.SendPackets now).1
      = { (c.Connect A now).1 with m_lastPacketSendTime := now } ∧
    ∀ t, t < now + ConnectionRequestSendRate →
      ((c.Connect A now).1.SendPackets now).1.SendPackets t
        = (((c.Connect A now).1.SendPackets now).1, []) := by
  have harith : ∀ n : Int, ¬ (n - 1000 + 100 > n) := by intro n; omega
  have hdue : ¬ (now - 1000 + ConnectionRequestSendRate > now) := harith now
  have hsend : (c.Connect A now).1.SendPackets now =
      ({ (c.Connect A now).1 with m_lastPacketSendTime := now }, [(A, Packet.ConnectionRequest)]) := by
    simp only [Client.Connect, Client.SendPackets, Client.SendPacketToServer]
    rw [if_neg hdue]
  refine ⟨rfl, rfl, rfl, rfl, by rw [hsend], by rw [hsend], ?_⟩
  intro t ht
  rw [hsend]
  have hnot : now + ConnectionRequestSendRate > t := ht
  simp only [Client.Connect, Client.SendPackets]
  rw [if_pos hnot]

theorem C18_connect_sends_request_witness :
    (50 : Time) < 0 + ConnectionRequestSendRate ∧
    ((Client.new.Connect demoServerAddress 0).1.SendPackets 0).2
      = [(demoServerAddress, Packet.ConnectionRequest)] ∧
    ((Client.new.Connect demoServerAddress 0).1.SendPackets 0).1.SendPackets 50
      = (((Client.new.Connect demoServerAddress 0).1.SendPackets 0).1, []) :=
  ⟨by decide, (C18_connect_sends_request Client.new demoServerAddress 0).2.2.2.2.1,
    (C18_connect_sends_request Client.new demoServerAddress 0).2.2.2.2.2.2 50 (by decide)⟩

/-- C19, the code at the failing input. `ProcessConnectionChallenge` never
stores the salt of the challenge: whatever the client, the salt `c` and the
time, `m_challengeSalt` is after the call what it was before. On the client
that called `Connect( S, 0 )` and then received `ConnectionChallenge( 12345 )`
from `S`, the state becomes SENDING_CHALLENGE_RESPONSE, `m_challengeSalt` is
still 0, and the `SendPackets( 0.1 s )` that follows sends
`ConnectionResponse( challenge_salt = 0 )`. -/
theorem C19_challenge_salt_not_captured :
    (∀ (c : Client) (salt : Nat) (address : Address) (time : Time),
      (c.ProcessConnectionChallenge salt address time).m_challengeSalt = c.m_challengeSalt) ∧
    connectingClient.m_clientState = CLIENT_STATE_SENDING_CONNECTION_REQUEST ∧
    connectingClient.m_serverAddress = demoServerAddress ∧
    challengedClient.m_clientState = CLIENT_STATE_SENDING_CHALLENGE_RESPONSE ∧
    challengedClient.m_challengeSalt = 0 ∧
    (challengedClient.SendPackets 100).2 = [(demoServerAddress, Packet.ConnectionResponse 0)] := by
  refine ⟨?_, by decide, by decide, by decide, by decide, by decide⟩
  intro c salt address time
  unfold Client.ProcessConnectionChallenge
  split
  · rfl
  · split <;> rfl
theorem Client.receivePacket_failed (c : Client) (time : Time) (address : Address)
    (packet : Packet) (h : c.ConnectionFailed = true) :
    (c.receivePacket time address packet).1.m_clientState = c.m_clientState := by
  obtain ⟨st, sa, cs, chs, ts, tr⟩ := c
  simp only [Client.ConnectionFailed, decide_eq_true_eq] at h
  cases st <;> simp only [ClientState.value] at h <;> first | omega | skip
  all_goals
    cases packet <;>
      simp only [Client.receivePacket, Client.ProcessConnectionDenied,
        Client.ProcessConnectionChallenge, Client.ProcessConnectionKeepAlive,
        Client.ProcessConnectionDisconnect, ClientState.value] <;>
      (repeat' split) <;> first | rfl | simp_all

theorem Client.ReceivePackets_failed (time : Time) :
    ∀ (queue : List (Address × Packet)) (c : Client), c.ConnectionFailed = true →
      (Client.ReceivePackets time c queue).1.m_clientState = c.m_clientState := by
  intro queue
  induction queue with
  | nil => intro c _; rfl
  | cons p rest ih =>
    intro c h
    obtain ⟨address, packet⟩ := p
    have h1 := Client.receivePacket_failed c time address packet h
    have h2 : (c.receivePacket time address packet).1.ConnectionFailed = true := by
      unfold Client.ConnectionFailed at h ⊢
      rw [h1]; exact h
    simp only [Client.ReceivePackets]
    rw [ih _ h2, h1]

/-- C20. A packet received from the server address changes the client state
exactly as the transition table says: Challenge in SENDING_CONNECTION_REQUEST
leads to SENDING_CHALLENGE_RESPONSE, Denied(SERVER_FULL) and
Denied(ALREADY_CONNECTED) in SENDING_CONNECTION_REQUEST to the two denied
states, KeepAlive in SENDING_CHALLENGE_RESPONSE to CONNECTED, Disconnect in
CONNECTED to DISCONNECTED, and every other (state, packet) pair keeps the
state; a packet from any other address keeps the state. The states with
`ConnectionFailed()` true are the five terminal error states; in such a state
no queue of received packets (from whatever addresses), no `SendPackets` and no
`CheckForTimeOut` changes the state, while `Connect` leads to
SENDING_CONNECTION_REQUEST and `Disconnect` to DISCONNECTED. -/
theorem C20_client_transitions (c : Client) (time : Time) :
    (∀ packet, (c.receivePacket time c.m_serverAddress packet).1.m_clientState
      = specClientTransition c.m_clientState packet) ∧
    (∀ address packet, address ≠ c.m_serverAddress →
      (c.receivePacket time address packet).1.m_clientState = c.m_clientState) ∧
    (c.ConnectionFailed = true ↔
      c.m_clientState = CLIENT_STATE_CONNECTION_REQUEST_TIMED_OUT ∨
      c.m_clientState = CLIENT_STATE_CHALLENGE_RESPONSE_TIMED_OUT ∨
      c.m_clientState = CLIENT_STATE_KEEP_ALIVE_TIMED_OUT ∨
      c.m_clientState = CLIENT_STATE_CONNECTION_DENIED_FULL ∨
      c.m_clientState = CLIENT_STATE_CONNECTION_DENIED_ALREADY_CONNECTED) ∧
    (c.ConnectionFailed = true →
      (∀ queue, (Client.ReceivePackets time c queue).1.m_clientState = c.m_clientState) ∧
      (c.SendPackets time).1.m_clientState = c.m_clientState ∧
      (c.CheckForTimeOut time).1.m_clientState = c.m_clientState) ∧
    (∀ A, (c.Connect A time).1.m_clientState = CLIENT_STATE_SENDING_CONNECTION_REQUEST) ∧
    (c.Disconnect time).1.m_clientState = CLIENT_STATE_DISCONNECTED := by
  refine ⟨?_, ?_, ?_, ?_, fun _ => rfl, ?_⟩
  · intro packet
    obtain ⟨st, sa, cs, chs, ts, tr⟩ := c
    cases st <;> cases packet <;>
      simp only [Client.receivePacket, Client.ProcessConnectionDenied,
        Client.ProcessConnectionChallenge, Client.ProcessConnectionKeepAlive,
        Client.ProcessConnectionDisconnect, Client.Disconnect, Client.ResetConnectionData,
        Client.SendPacketToServer, ClientState.value, specClientTransition] <;>
      (try rename_i reason; cases reason) <;>
      simp [specClientTransition]
  · intro address packet hne
    obtain ⟨st, sa, cs, chs, ts, tr⟩ := c
    simp only at hne
    cases packet <;>
      simp only [Client.receivePacket, Client.ProcessConnectionDenied,
        Client.ProcessConnectionChallenge, Client.ProcessConnectionKeepAlive,
        Client.ProcessConnectionDisconnect] <;>
      (repeat' split) <;> rfl
  · obtain ⟨st, sa, cs, chs, ts, tr⟩ := c
    cases st <;> simp [Client.ConnectionFailed, ClientState.value]
  · intro h
    refine ⟨fun queue => Client.ReceivePackets_failed time queue c h, ?_, ?_⟩
    · obtain ⟨st, sa, cs, chs, ts, tr⟩ := c
      simp only [Client.ConnectionFailed, decide_eq_true_eq] at h
      cases st <;> simp only [ClientState.value] at h <;> first | omega | rfl
    · obtain ⟨st, sa, cs, chs, ts, tr⟩ := c
      simp only [Client.ConnectionFailed, decide_eq_true_eq] at h
      cases st <;> simp only [ClientState.value] at h <;> first | omega | rfl
  · unfold Client.Disconnect
    split <;> rfl

theorem C20_client_transitions_witness :
    deniedClient.m_clientState = CLIENT_STATE_CONNECTION_DENIED_FULL ∧
    deniedClient.ConnectionFailed = true ∧
    (Client.ReceivePackets 100 deniedClient
      [(demoServerAddress, Packet.ConnectionChallenge 5), (demoServerAddress, Packet.ConnectionKeepAlive),
       (demoServerAddress, Packet.ConnectionDisconnect)]).1.m_clientState
      = deniedClient.m_clientState ∧
    (deniedClient.SendPackets 100).1.m_clientState = deniedClient.m_clientState ∧
    (deniedClient.CheckForTimeOut 100).1.m_clientState = deniedClient.m_clientState :=
  ⟨by decide, by decide,
    ((C20_client_transitions deniedClient 100).2.2.2.1 (by decide)).1 _,
    ((C20_client_transitions deniedClient 100).2.2.2.1 (by decide)).2.1,
    ((C20_client_transitions deniedClient 100).2.2.2.1 (by decide)).2.2⟩
/-! ## The secure server answers no connection request -/

theorem sendPacketsLoop_idle (time : Time) :
    ∀ (l : List Nat) (s : Server) (sent : Sent), (∀ i, s.m_clientConnected i = false) →
      Server.sendPacketsLoop time l s sent = (s, sent) := by
  intro l
  induction l with
  | nil => intro s sent _; rfl
  | cons i rest ih =>
    intro s sent h
    unfold Server.sendPacketsLoop
    simp only [h i, Bool.not_false, if_true]
    exact ih s sent h

theorem checkForTimeOutLoop_idle (time : Time) :
    ∀ (l : List Nat) (s : Server) (sent : Sent), (∀ i, s.m_clientConnected i = false) →
      Server.checkForTimeOutLoop time l s sent = (s, sent) := by
  intro l
  induction l with
  | nil => intro s sent _; rfl
  | cons i rest ih =>
    intro s sent h
    unfold Server.checkForTimeOutLoop
    simp only [h i, Bool.not_false, if_true]
    exact ih s sent h

theorem FindExistingClientIndex_idle (s : Server) (address : Address)
    (h : ∀ i, s.m_clientConnected i = false) : s.FindExistingClientIndex address = none := by
  unfold Server.FindExistingClientIndex
  rw [List.find?_eq_none]
  intro i _
  simp [h i]

/-- A server without connected clients, and not full, takes no notice of what
it receives: whatever the queue of packets, its state is unchanged and it sends
nothing. -/
theorem ReceivePackets_idle (time : Time) :
    ∀ (queue : List (Address × Packet)) (s : Server), (∀ i, s.m_clientConnected i = false) →
      s.m_numConnectedClients ≠ (MaxClients : Int) →
      Server.ReceivePackets time s queue = (s, []) := by
  intro queue
  induction queue with
  | nil => intro s _ _; rfl
  | cons p rest ih =>
    intro s h hn
    obtain ⟨address, packet⟩ := p
    have h1 : s.receivePacket time address packet = (s, []) := by
      cases packet <;>
        simp only [Server.receivePacket, Server.ProcessConnectionRequest,
          Server.ProcessConnectionResponse, Server.ProcessConnectionKeepAlive,
          Server.ProcessConnectionDisconnect, FindExistingClientIndex_idle s address h, if_neg hn]
    simp only [Server.ReceivePackets, h1, ih s h hn, List.append_nil]

/-- The part of the system state that the handshake never leaves: no client
is connected to the server, nothing waits in the server's send queue, and the
client is sending connection requests or has timed out doing so. -/
theorem tick_idle (sys : System) (time : Time)
    (h1 : ∀ i, sys.server.m_clientConnected i = false)
    (h2 : sys.server.m_numConnectedClients = 0)
    (h3 : sys.serverSendQueue = [])
    (h4 : sys.client.m_clientState = CLIENT_STATE_SENDING_CONNECTION_REQUEST ∨
          sys.client.m_clientState = CLIENT_STATE_CONNECTION_REQUEST_TIMED_OUT) :
    (∀ i, (tick sys time).server.m_clientConnected i = false) ∧
    (tick sys time).server.m_numConnectedClients = 0 ∧
    (tick sys time).serverSendQueue = [] ∧
    ((tick sys time).client.m_clientState = CLIENT_STATE_SENDING_CONNECTION_REQUEST ∨
     (tick sys time).client.m_clientState = CLIENT_STATE_CONNECTION_REQUEST_TIMED_OUT) := by
  have hn : sys.server.m_numConnectedClients ≠ (MaxClients : Int) := by
    rw [h2]; simp [MaxClients]
  have hs1 : sys.server.SendPackets time = (sys.server, []) :=
    sendPacketsLoop_idle time _ _ _ h1
  have hs3 : sys.server.CheckForTimeOut time = (sys.server, []) :=
    checkForTimeOutLoop_idle time _ _ _ h1
  have hserver : (tick sys time).server = sys.server ∧ (tick sys time).serverSendQueue = [] := by
    simp only [tick, hs1, ReceivePackets_idle time _ sys.server h1 hn, hs3, List.append_nil,
      and_self]
  have hclient : (tick sys time).client
      = ((sys.client.SendPackets time).1.CheckForTimeOut time).1 := by
    simp only [tick, hs1, h3, List.append_nil, deliver, List.filter_nil, List.map_nil,
      Client.ReceivePackets]
  refine ⟨?_, ?_, hserver.2, ?_⟩
  · intro i; rw [hserver.1]; exact h1 i
  · rw [hserver.1]; exact h2
  · rw [hclient]
    generalize sys.client = c at h4
    obtain ⟨st, sa, cs, chs, ts, tr⟩ := c
    simp only at h4
    rcases h4 with h4 | h4
    · subst h4
      simp only [Client.SendPackets, Client.SendPacketToServer]
      split <;> simp only [Client.CheckForTimeOut] <;> split <;> simp
    · subst h4
      right; rfl

theorem ticks_idle :
    ∀ (times : List Time) (sys : System),
      (∀ i, sys.server.m_clientConnected i = false) →
      sys.server.m_numConnectedClients = 0 →
      sys.serverSendQueue = [] →
      (sys.client.m_clientState = CLIENT_STATE_SENDING_CONNECTION_REQUEST ∨
        sys.client.m_clientState = CLIENT_STATE_CONNECTION_REQUEST_TIMED_OUT) →
      (∀ i, (ticks sys times).server.m_clientConnected i = false) ∧
      (ticks sys times).server.m_numConnectedClients = 0 ∧
      ((ticks sys times).client.m_clientState = CLIENT_STATE_SENDING_CONNECTION_REQUEST ∨
       (ticks sys times).client.m_clientState = CLIENT_STATE_CONNECTION_REQUEST_TIMED_OUT) := by
  intro times
  induction times with
  | nil => intro sys h1 h2 _ h4; exact ⟨h1, h2, h4⟩
  | cons t rest ih =>
    intro sys h1 h2 h3 h4
    obtain ⟨a, b, c, d⟩ := tick_idle sys t h1 h2 h3 h4
    exact ih (tick sys t) a b c d

/-- C17, the code at the failing input. A new client calls `Connect( S, 0 )`
against a new server over a lossless network and three ticks run at 0, 0.1 and
0.2 s. The connection request reaches the server in the first tick, but after
each of the three ticks the client is still in SENDING_CONNECTION_REQUEST, the
server has no connected client (slot 0 is free) and has sent nothing. The
cause: `Server::ProcessConnectionRequest` does nothing unless the server is
full and `Server::ProcessConnectionResponse` does nothing at all. Whatever the
number and times of the ticks, the client never gets beyond
SENDING_CONNECTION_REQUEST (it ends in CONNECTION_REQUEST_TIMED_OUT, as after
the 52 ticks up to 5.1 s) and the server never has a connected client. -/
theorem C17_handshake_never_completes :
    demoSystem.client.m_clientState = CLIENT_STATE_SENDING_CONNECTION_REQUEST ∧
    deliver demoSystem.serverAddress demoSystem.clientAddress
        (demoSystem.clientSendQueue ++ (demoSystem.client.SendPackets 0).2)
      = [(demoClientAddress, Packet.ConnectionRequest)] ∧
    [[0], [0, 100], [0, 100, 200]].map (fun times => (ticks demoSystem times).client.m_clientState)
      = [CLIENT_STATE_SENDING_CONNECTION_REQUEST, CLIENT_STATE_SENDING_CONNECTION_REQUEST,
         CLIENT_STATE_SENDING_CONNECTION_REQUEST] ∧
    (ticks demoSystem [0, 100, 200]).server.m_numConnectedClients = 0 ∧
    (ticks demoSystem [0, 100, 200]).server.m_clientConnected 0 = false ∧
    (ticks demoSystem [0, 100, 200]).serverSendQueue = [] ∧
    (ticks demoSystem ((List.range 52).map (fun k => (100 : Time) * k))).client.m_clientState
      = CLIENT_STATE_CONNECTION_REQUEST_TIMED_OUT ∧
    (∀ (s : Server) (address : Address) (time : Time),
      s.m_numConnectedClients ≠ (MaxClients : Int) →
      s.ProcessConnectionRequest address time = (s, [])) ∧
    (∀ (s : Server) (salt : Nat) (address : Address) (time : Time),
      s.ProcessConnectionResponse salt address time = (s, [])) ∧
    (∀ times : List Time,
      ((ticks demoSystem times).client.m_clientState = CLIENT_STATE_SENDING_CONNECTION_REQUEST ∨
       (ticks demoSystem times).client.m_clientState = CLIENT_STATE_CONNECTION_REQUEST_TIMED_OUT) ∧
      (ticks demoSystem times).server.m_numConnectedClients = 0 ∧
      ∀ i, (ticks demoSystem times).server.m_clientConnected i = false) := by
  refine ⟨by decide, by decide, by decide, by decide, by decide, by decide, by decide!, ?_,
    fun _ _ _ _ => rfl, ?_⟩
  · intro s address time hn
    unfold Server.ProcessConnectionRequest
    rw [if_neg hn]
  · intro times
    obtain ⟨a, b, c⟩ := ticks_idle times demoSystem (fun _ => rfl) rfl rfl (Or.inl rfl)
    exact ⟨c, b, a⟩

/-! ## Time-outs and disconnects of the secure client -/

theorem timeout_iff (a b T : Int) : a + T < b ↔ b - a > T := by omega

/-- C21. `CheckForTimeOut( now )` on a client in SENDING_CONNECTION_REQUEST
returns the client in CONNECTION_REQUEST_TIMED_OUT, otherwise unchanged,
exactly when `now - last_packet_receive_time > ConnectionRequestTimeOut`
(5 s), and returns it unchanged when the bound is not exceeded; likewise for
SENDING_CHALLENGE_RESPONSE, CHALLENGE_RESPONSE_TIMED_OUT and
`ChallengeResponseTimeOut` (5 s). In neither case is a packet sent. -/
theorem C21_handshake_timeouts (c : Client) (now : Time) :
    (c.m_clientState = CLIENT_STATE_SENDING_CONNECTION_REQUEST →
      c.CheckForTimeOut now =
        if now - c.m_lastPacketReceiveTime > ConnectionRequestTimeOut then
          ({ c with m_clientState := CLIENT_STATE_CONNECTION_REQUEST_TIMED_OUT }, [])
        else (c, [])) ∧
    (c.m_clientState = CLIENT_STATE_SENDING_CHALLENGE_RESPONSE →
      c.CheckForTimeOut now =
        if now - c.m_lastPacketReceiveTime > ChallengeResponseTimeOut then
          ({ c with m_clientState := CLIENT_STATE_CHALLENGE_RESPONSE_TIMED_OUT }, [])
        else (c, [])) ∧
    ConnectionRequestTimeOut = 5000 ∧ ChallengeResponseTimeOut = 5000 := by
  refine ⟨?_, ?_, rfl, rfl⟩
  · intro h
    unfold Client.CheckForTimeOut
    rw [h]
    dsimp only
    by_cases hc : c.m_lastPacketReceiveTime + ConnectionRequestTimeOut < now
    · rw [if_pos hc, if_pos ((timeout_iff _ _ _).mp hc)]
    · rw [if_neg hc, if_neg (fun h1 => hc ((timeout_iff _ _ _).mpr h1))]
  · intro h
    unfold Client.CheckForTimeOut
    rw [h]
    dsimp only
    by_cases hc : c.m_lastPacketReceiveTime + ChallengeResponseTimeOut < now
    · rw [if_pos hc, if_pos ((timeout_iff _ _ _).mp hc)]
    · rw [if_neg hc, if_neg (fun h1 => hc ((timeout_iff _ _ _).mpr h1))]

theorem C21_handshake_timeouts_witness :
    connectingClient.m_clientState = CLIENT_STATE_SENDING_CONNECTION_REQUEST ∧
    connectingClient.m_lastPacketReceiveTime = 0 ∧
    (connectingClient.CheckForTimeOut 5000).1.m_clientState
      = CLIENT_STATE_SENDING_CONNECTION_REQUEST ∧
    (connectingClient.CheckForTimeOut 5001).1.m_clientState
      = CLIENT_STATE_CONNECTION_REQUEST_TIMED_OUT ∧
    connectingClient.CheckForTimeOut 5001 =
      if (5001 : Time) - connectingClient.m_lastPacketReceiveTime > ConnectionRequestTimeOut then
        ({ connectingClient with m_clientState := CLIENT_STATE_CONNECTION_REQUEST_TIMED_OUT }, [])
      else (connectingClient, []) :=
  ⟨by decide, by decide, by decide, by decide,
    (C21_handshake_timeouts connectingClient 5001).1 (by decide)⟩

/-- C22, the code at the failing input. A CONNECTED client whose last packet
from the server is older than `KeepAliveTimeOut`: `CheckForTimeOut` sets the
state to KEEP_ALIVE_TIMED_OUT and then calls `Disconnect`, which sends a
Disconnect packet only in the state CONNECTED and then resets the connection
data. So for every such client the call sends nothing and returns the reset
client: state DISCONNECTED, `ConnectionFailed()` false. On the demo client,
connected at time 0, `CheckForTimeOut( 10.001 s )` sends no packet and leaves
it DISCONNECTED. -/
theorem C22_keep_alive_timeout_resets :
    (∀ (c : Client) (now : Time), c.m_clientState = CLIENT_STATE_CONNECTED →
      c.m_lastPacketReceiveTime + KeepAliveTimeOut < now →
      c.CheckForTimeOut now = (c.ResetConnectionData, []) ∧
      (c.CheckForTimeOut now).1.m_clientState = CLIENT_STATE_DISCONNECTED ∧
      (c.CheckForTimeOut now).1.ConnectionFailed = false) ∧
    connectedClient.m_clientState = CLIENT_STATE_CONNECTED ∧
    connectedClient.m_serverAddress = demoServerAddress ∧
    connectedClient.m_lastPacketReceiveTime + KeepAliveTimeOut < 10001 ∧
    (connectedClient.CheckForTimeOut 10001).2 = [] ∧
    (connectedClient.CheckForTimeOut 10001).1.m_clientState = CLIENT_STATE_DISCONNECTED ∧
    (connectedClient.CheckForTimeOut 10001).1.ConnectionFailed = false := by
  refine ⟨?_, by decide, by decide, by decide, by decide, by decide, by decide⟩
  intro c now h hlt
  have hrun : c.CheckForTimeOut now = (c.ResetConnectionData, []) := by
    unfold Client.CheckForTimeOut
    rw [h]
    dsimp only
    rw [if_pos hlt]
    rfl
  rw [hrun]
  exact ⟨rfl, rfl, rfl⟩

theorem Client.receivePacket_other (c : Client) (time : Time) (address : Address)
    (packet : Packet) (h : address ≠ c.m_serverAddress) :
    c.receivePacket time address packet = (c, []) := by
  cases packet <;>
    simp only [Client.receivePacket, Client.ProcessConnectionDenied,
      Client.ProcessConnectionChallenge, Client.ProcessConnectionKeepAlive,
      Client.ProcessConnectionDisconnect, if_pos h, ite_self]

/-- C23. For every client, time and packet (of whatever kind), a packet that
comes from an address different from the stored server address leaves the
whole client (state, server address, salts, send and receive times) unchanged
and sends nothing; so does a whole queue of such packets handed to
`ReceivePackets`. -/
theorem C23_other_address_ignored (c : Client) (time : Time) :
    (∀ address packet, address ≠ c.m_serverAddress →
      c.receivePacket time address packet = (c, [])) ∧
    (∀ queue : List (Address × Packet), (∀ p ∈ queue, p.1 ≠ c.m_serverAddress) →
      Client.ReceivePackets time c queue = (c, [])) := by
  refine ⟨fun address packet h => Client.receivePacket_other c time address packet h, ?_⟩
  intro queue
  induction queue with
  | nil => intro _; rfl
  | cons p rest ih =>
    intro h
    obtain ⟨address, packet⟩ := p
    have h1 := Client.receivePacket_other c time address packet (h _ (List.mem_cons_self _ _))
    simp only [Client.ReceivePackets, h1, ih (fun q hq => h q (List.mem_cons_of_mem _ hq)),
      List.append_nil]

theorem C23_other_address_ignored_witness :
    demoClientAddress ≠ connectedClient.m_serverAddress ∧
    connectedClient.receivePacket 5 demoClientAddress Packet.ConnectionDisconnect
      = (connectedClient, []) ∧
    connectingClient.receivePacket 5 demoClientAddress (Packet.ConnectionChallenge 3)
      = (connectingClient, []) :=
  ⟨by decide, (C23_other_address_ignored connectedClient 5).1 _ _ (by decide),
    (C23_other_address_ignored connectingClient 5).1 _ _ (by decide)⟩

/-- C24. `Disconnect( now )` sends one packet, a Disconnect to the server
address, if the client was CONNECTED, and nothing otherwise; whatever the
client was, it is afterwards DISCONNECTED with the default server address,
both salts 0 and both times -1000 s. A second `Disconnect`, at any time, sends
nothing and returns the state the first one left. -/
theorem C24_client_disconnect (c : Client) (now : Time) :
    (c.Disconnect now).2 =
      (if c.m_clientState = CLIENT_STATE_CONNECTED then
        [(c.m_serverAddress, Packet.ConnectionDisconnect)] else []) ∧
    ((c.Disconnect now).2 ≠ [] ↔ c.m_clientState = CLIENT_STATE_CONNECTED) ∧
    (c.Disconnect now).1 =
      { m_clientState := CLIENT_STATE_DISCONNECTED
        m_serverAddress := Address.default
        m_clientSalt := 0
        m_challengeSalt := 0
        m_lastPacketSendTime := -1000000
        m_lastPacketReceiveTime := -1000000 } ∧
    (∀ later : Time, (c.Disconnect now).1.Disconnect later = ((c.Disconnect now).1, [])) := by
  by_cases h : c.m_clientState = CLIENT_STATE_CONNECTED
  · simp [Client.Disconnect, h, Client.SendPacketToServer, Client.ResetConnectionData]
  · simp [Client.Disconnect, h, Client.ResetConnectionData]

theorem C24_client_disconnect_witness :
    connectedClient.m_clientState = CLIENT_STATE_CONNECTED ∧
    (connectedClient.Disconnect 700).2 = [(demoServerAddress, Packet.ConnectionDisconnect)] ∧
    (connectedClient.Disconnect 700).1.Disconnect 800 = ((connectedClient.Disconnect 700).1, []) :=
  ⟨by decide, by decide, (C24_client_disconnect connectedClient 700).2.2.2 800⟩

/-! ## The secure server: full, and disconnecting a client -/

/-- C25. A secure-variant server whose `m_numConnectedClients` equals
`MaxClients` (32) answers a connection request from any address with exactly
one packet, ConnectionDenied with reason SERVER_FULL, sent to that address, and
its state (client slots, connected count, challenge table) is unchanged. -/
theorem C25_server_full (s : Server) (address : Address) (time : Time)
    (hfull : s.m_numConnectedClients = (MaxClients : Int)) :
    s.ProcessConnectionRequest address time =
      (s, [(address, Packet.ConnectionDenied CONNECTION_DENIED_SERVER_FULL)]) ∧
    s.receivePacket time address Packet.ConnectionRequest =
      (s, [(address, Packet.ConnectionDenied CONNECTION_DENIED_SERVER_FULL)]) ∧
    (MaxClients : Int) = 32 := by
  have h : s.ProcessConnectionRequest address time =
      (s, [(address, Packet.ConnectionDenied CONNECTION_DENIED_SERVER_FULL)]) := by
    unfold Server.ProcessConnectionRequest
    rw [if_pos hfull]
  exact ⟨h, h, rfl⟩

theorem C25_server_full_witness :
    fullServer.m_numConnectedClients = (MaxClients : Int) ∧
    fullServer.ProcessConnectionRequest demoClientAddress 100 =
      (fullServer, [(demoClientAddress, Packet.ConnectionDenied CONNECTION_DENIED_SERVER_FULL)]) :=
  ⟨by decide, (C25_server_full fullServer demoClientAddress 100 (by decide)).1⟩
theorem FindExistingClientIndex_some (s : Server) (address : Address) (j : Nat)
    (h : s.FindExistingClientIndex address = some j) :
    s.m_clientConnected j = true ∧ s.m_clientAddress j = address ∧ j < MaxClients := by
  unfold Server.FindExistingClientIndex at h
  have h1 := List.find?_some h
  have h2 := List.mem_of_find?_eq_some h
  simp only [Bool.and_eq_true, decide_eq_true_eq] at h1
  exact ⟨h1.1, h1.2, List.mem_range.mp h2⟩

theorem FindExistingClientIndex_none (s : Server) (address : Address)
    (h : ∀ j, j < MaxClients → s.m_clientConnected j = true → s.m_clientAddress j ≠ address) :
    s.FindExistingClientIndex address = none := by
  unfold Server.FindExistingClientIndex
  rw [List.find?_eq_none]
  intro j hj
  simp only [Bool.and_eq_true, decide_eq_true_eq, not_and]
  exact fun hc => h j (List.mem_range.mp hj) hc

/-- C28, the claim as stated fails. On a server with one connected client (slot
0, connected count 1) `DisconnectClient( 0, t )` leaves the count at 0; a second
`DisconnectClient( 0, t )` takes the count to -1 and sends another Disconnect
packet, to the default address the first call left in the slot. -/
theorem C28_counterexample :
    oneClientServer.m_numConnectedClients = 1 ∧
    oneClientServer.m_clientConnected 0 = true ∧
    (oneClientServer.DisconnectClient 0 50).1.m_numConnectedClients = 0 ∧
    ((oneClientServer.DisconnectClient 0 50).1.DisconnectClient 0 50).1.m_numConnectedClients = -1 ∧
    (oneClientServer.DisconnectClient 0 50).2 = [(demoClientAddress, Packet.ConnectionDisconnect)] ∧
    ((oneClientServer.DisconnectClient 0 50).1.DisconnectClient 0 50).2
      = [(Address.default, Packet.ConnectionDisconnect)] := by
  refine ⟨by decide, by decide, by decide, by decide, by decide, by decide⟩

/-- C28 (as amended). `DisconnectClient( i, now )` sends one Disconnect packet
to the address of slot `i`, resets the slot (not connected, client id 0,
default address, fresh client data) and decrements the connected count by one;
the other slots, the server salt and the challenge table are unchanged. A
second call leaves all slots as the first call left them, but decrements the
count once more and sends a Disconnect to the default address: the call is
idempotent on the slot contents only. The calls the server itself makes are
guarded: `FindExistingClientIndex` returns only connected slots, the time-out
sweep passes over a slot that is not connected, and a Disconnect packet from an
address that no connected slot holds changes nothing. Hence, when at most one
connected slot holds an address, processing a Disconnect packet from it twice
leaves the state the first processing left, and the second sends nothing. -/
theorem C28_disconnect_client (s : Server) (i : Nat) (now : Time) :
    (s.DisconnectClient i now).2 = [(s.m_clientAddress i, Packet.ConnectionDisconnect)] ∧
    (s.DisconnectClient i now).1 =
      { s with
        m_numConnectedClients := s.m_numConnectedClients - 1
        m_clientConnected := Function.update s.m_clientConnected i false
        m_clientId := Function.update s.m_clientId i 0
        m_clientAddress := Function.update s.m_clientAddress i Address.default
        m_clientData := Function.update s.m_clientData i ServerClientData.new } ∧
    (∀ later : Time,
      ((s.DisconnectClient i now).1.DisconnectClient i later).1 =
        { (s.DisconnectClient i now).1 with
          m_numConnectedClients := (s.DisconnectClient i now).1.m_numConnectedClients - 1 } ∧
      ((s.DisconnectClient i now).1.DisconnectClient i later).2
        = [(Address.default, Packet.ConnectionDisconnect)]) ∧
    (∀ address j, s.FindExistingClientIndex address = some j →
      s.m_clientConnected j = true ∧ s.m_clientAddress j = address ∧ j < MaxClients) ∧
    (s.m_clientConnected i = false → ∀ time sent,
      Server.checkForTimeOutLoop time [i] s sent = (s, sent)) ∧
    (∀ address time,
      (∀ j, j < MaxClients → s.m_clientConnected j = true → s.m_clientAddress j ≠ address) →
      s.ProcessConnectionDisconnect address time = (s, [])) ∧
    (∀ address time later,
      (∀ j k, j < MaxClients → k < MaxClients → s.m_clientConnected j = true →
        s.m_clientConnected k = true → s.m_clientAddress j = address →
        s.m_clientAddress k = address → j = k) →
      (s.ProcessConnectionDisconnect address time).1.ProcessConnectionDisconnect address later
        = ((s.ProcessConnectionDisconnect address time).1, [])) := by
  have hfirst : ∀ (s : Server) (i : Nat) (now : Time), (s.DisconnectClient i now).1 =
      { s with
        m_numConnectedClients := s.m_numConnectedClients - 1
        m_clientConnected := Function.update s.m_clientConnected i false
        m_clientId := Function.update s.m_clientId i 0
        m_clientAddress := Function.update s.m_clientAddress i Address.default
        m_clientData := Function.update s.m_clientData i ServerClientData.new } := by
    intro s i now
    simp only [Server.DisconnectClient, Server.SendPacketToConnectedClient,
      Server.ResetClientState, Function.update_idem]
  have hguard : ∀ (s : Server) address time,
      (∀ j, j < MaxClients → s.m_clientConnected j = true → s.m_clientAddress j ≠ address) →
      s.ProcessConnectionDisconnect address time = (s, []) := by
    intro s address time h
    unfold Server.ProcessConnectionDisconnect
    rw [FindExistingClientIndex_none s address h]
  refine ⟨rfl, hfirst s i now, ?_, FindExistingClientIndex_some s, ?_, hguard s, ?_⟩
  · intro later
    refine ⟨?_, ?_⟩
    · rw [hfirst (s.DisconnectClient i now).1 i later, hfirst s i now]
      simp only [Function.update_idem]
    · show [(((s.DisconnectClient i now).1).m_clientAddress i, Packet.ConnectionDisconnect)] = _
      rw [hfirst s i now]
      simp only [Function.update_same]
  · intro h time sent
    simp only [Server.checkForTimeOutLoop, h, Bool.not_false, if_true]
  · intro address time later huniq
    cases hf : s.FindExistingClientIndex address with
    | none =>
      have h1 : s.ProcessConnectionDisconnect address time = (s, []) := by
        unfold Server.ProcessConnectionDisconnect
        rw [hf]
      rw [h1]
      show s.ProcessConnectionDisconnect address later = (s, [])
      unfold Server.ProcessConnectionDisconnect
      rw [hf]
    | some i0 =>
      obtain ⟨c1, c2, c3⟩ := FindExistingClientIndex_some s address i0 hf
      have h1 : (s.ProcessConnectionDisconnect address time).1 = (s.DisconnectClient i0 time).1 := by
        unfold Server.ProcessConnectionDisconnect
        rw [hf]
      rw [h1]
      apply hguard
      intro j hj hcj haj
      rw [hfirst s i0 time] at hcj haj
      simp only at hcj haj
      by_cases hji : j = i0
      · subst hji
        rw [Function.update_same] at hcj
        exact absurd hcj (by simp)
      · rw [Function.update_noteq hji] at hcj haj
        exact hji (huniq j i0 hj c3 hcj c1 haj c2)

theorem C28_disconnect_client_witness :
    oneClientServer.m_clientConnected 0 = true ∧
    (oneClientServer.DisconnectClient 0 50).2 = [(demoClientAddress, Packet.ConnectionDisconnect)] ∧
    (oneClientServer.DisconnectClient 0 50).1.m_clientConnected 0 = false ∧
    (oneClientServer.ProcessConnectionDisconnect demoClientAddress 50).1.m_numConnectedClients = 0 ∧
    (oneClientServer.ProcessConnectionDisconnect demoClientAddress 50).1.ProcessConnectionDisconnect
        demoClientAddress 60
      = ((oneClientServer.ProcessConnectionDisconnect demoClientAddress 50).1, []) := by
  refine ⟨by decide, (C28_disconnect_client oneClientServer 0 50).1, by decide, by decide, ?_⟩
  refine (C28_disconnect_client oneClientServer 0 50).2.2.2.2.2.2 demoClientAddress 50 60 ?_
  intro j k hj hk hcj hck _ _
  have h0 : ∀ n, n < MaxClients → oneClientServer.m_clientConnected n = true → n = 0 := by decide
  rw [h0 j hj hcj, h0 k hk hck]

/-! ## The oldest unacked message id -/

/-- The walk of `UpdateOldestUnackedMessageId` from `O` towards the stop id
`S`, `d` ids away: it ends after `k ≤ d` increments, whatever fuel above `k`
the loop is given; where it ends, the id is `S` or is present in the send
queue; every id it passed is different from `S` and absent. -/
theorem updateOldestLoop_walk (q : SequenceBuffer MessageSendQueueEntry MessageSendQueueSize)
    (S : Nat) (hS : S < 65536) :
    ∀ (d O : Nat), O < 65536 → (S + 65536 - O) % 65536 = d →
      ∃ k, k ≤ d ∧
        (∀ fuel, k < fuel → updateOldestLoop q S fuel O = (O + k) % 65536) ∧
        ((O + k) % 65536 = S ∨ (q.Find ((O + k) % 65536)).isSome = true) ∧
        ∀ j, j < k → (O + j) % 65536 ≠ S ∧ q.Find ((O + j) % 65536) = none := by
  intro d
  induction d with
  | zero =>
    intro O hO hd
    have hOS : O = S := by omega
    refine ⟨0, le_refl _, ?_, Or.inl (by omega), fun j hj => absurd hj (Nat.not_lt_zero j)⟩
    intro fuel hfuel
    cases fuel with
    | zero => omega
    | succ n =>
      unfold updateOldestLoop
      rw [if_pos hOS]
      omega
  | succ d ih =>
    intro O hO hd
    have hOS : O ≠ S := by omega
    by_cases hp : (q.Find O).isSome = true
    · refine ⟨0, Nat.zero_le _, ?_, Or.inr (by rw [Nat.add_zero, Nat.mod_eq_of_lt hO]; exact hp),
        fun j hj => absurd hj (Nat.not_lt_zero j)⟩
      intro fuel hfuel
      cases fuel with
      | zero => omega
      | succ n =>
        unfold updateOldestLoop
        rw [if_neg hOS, if_pos hp]
        omega
    · obtain ⟨k, hk, hrun, hend, hskip⟩ := ih ((O + 1) % 65536) (by omega) (by omega)
      have hshift : ∀ j, ((O + 1) % 65536 + j) % 65536 = (O + (j + 1)) % 65536 := by
        intro j; omega
      refine ⟨k + 1, by omega, ?_, ?_, ?_⟩
      · intro fuel hfuel
        cases fuel with
        | zero => omega
        | succ n =>
          unfold updateOldestLoop
          rw [if_neg hOS, if_neg hp, hrun n (by omega), hshift]
      · rw [← hshift]; exact hend
      · intro j hj
        cases j with
        | zero =>
          rw [Nat.add_zero, Nat.mod_eq_of_lt hO]
          refine ⟨hOS, ?_⟩
          cases hf : q.Find O with
          | none => rfl
          | some e => rw [hf] at hp; exact absurd rfl hp
        | succ j =>
          rw [← hshift]
          exact hskip j (by omega)

/-- C30. In every state (the 16-bit fields holding 16-bit values) the loop of
`UpdateOldestUnackedMessageId` ends after `k ≤ 65535` increments: with any
fuel above `k` the model of the loop returns `oldest + k` (mod 2^16), and that
is the new `oldest_unacked_message_id`. The new value equals the send queue's
current sequence or names a present send-queue entry; every id passed on the
way differs from the current sequence and is absent from the send queue; and
nothing but `oldest_unacked_message_id` changes. -/
theorem C30_update_oldest_terminates (c : Connection)
    (hO : c.oldestUnackedMessageId < 65536) (hS : c.messageSendQueue.GetSequence < 65536) :
    ∃ k, k ≤ 65535 ∧
      (∀ fuel, k < fuel →
        updateOldestLoop c.messageSendQueue c.messageSendQueue.GetSequence fuel
          c.oldestUnackedMessageId = (c.oldestUnackedMessageId + k) % 65536) ∧
      UpdateOldestUnackedMessageId c =
        { c with oldestUnackedMessageId := (c.oldestUnackedMessageId + k) % 65536 } ∧
      ((c.oldestUnackedMessageId + k) % 65536 = c.messageSendQueue.GetSequence ∨
        (c.messageSendQueue.Find ((c.oldestUnackedMessageId + k) % 65536)).isSome = true) ∧
      ∀ j, j < k →
        (c.oldestUnackedMessageId + j) % 65536 ≠ c.messageSendQueue.GetSequence ∧
        c.messageSendQueue.Find ((c.oldestUnackedMessageId + j) % 65536) = none := by
  obtain ⟨k, hk, hrun, hend, hskip⟩ :=
    updateOldestLoop_walk c.messageSendQueue c.messageSendQueue.GetSequence hS _
      c.oldestUnackedMessageId hO rfl
  refine ⟨k, ?_, hrun, ?_, hend, hskip⟩
  · have : (c.messageSendQueue.GetSequence + 65536 - c.oldestUnackedMessageId) % 65536 < 65536 :=
      Nat.mod_lt _ (by decide)
    omega
  · unfold UpdateOldestUnackedMessageId
    rw [hrun 65536 (by
      have : (c.messageSendQueue.GetSequence + 65536 - c.oldestUnackedMessageId) % 65536 < 65536 :=
        Nat.mod_lt _ (by decide)
      omega)]

theorem C30_update_oldest_terminates_witness :
    (PacketAcked writtenTwo 0).conn.oldestUnackedMessageId = 2 ∧
    ({ writtenTwo.conn with
       messageSendQueue := writtenTwo.conn.messageSendQueue.Remove 0 }).oldestUnackedMessageId = 0 ∧
    (UpdateOldestUnackedMessageId
      { writtenTwo.conn with
        messageSendQueue := writtenTwo.conn.messageSendQueue.Remove 0 }).oldestUnackedMessageId = 1 ∧
    ∃ k, k ≤ 65535 ∧
      UpdateOldestUnackedMessageId
          { writtenTwo.conn with messageSendQueue := writtenTwo.conn.messageSendQueue.Remove 0 } =
        { writtenTwo.conn with
          messageSendQueue := writtenTwo.conn.messageSendQueue.Remove 0
          oldestUnackedMessageId := (0 + k) % 65536 } := by
  obtain ⟨k, hk, _, hrun, _⟩ := C30_update_oldest_terminates
    { writtenTwo.conn with messageSendQueue := writtenTwo.conn.messageSendQueue.Remove 0 }
    (by decide) (by decide)
  exact ⟨by decide, by decide, by decide!, k, hk, hrun⟩

/-! ## The challenge table -/

theorem ClientServer.FindOrInsertChallenge_num_entries (key : Address → Nat → Nat) (g : Nat)
    (s : ClientServer.Server) (address : Address) (salt : Nat) (time : Time) :
    (ClientServer.Server.FindOrInsertChallenge key g s address salt time).1.m_challengeHash.num_entries
      = s.m_challengeHash.num_entries := by
  unfold ClientServer.Server.FindOrInsertChallenge
  split
  · rfl
  · dsimp only
    split
    · rfl
    · split <;> rfl

theorem ClientServer.ProcessConnectionRequest_num_entries (key : Address → Nat → Nat) (g : Nat)
    (s : ClientServer.Server) (salt : Nat) (address : Address) (time : Time) :
    (s.ProcessConnectionRequest key g salt address time).m_challengeHash.num_entries
      = s.m_challengeHash.num_entries := by
  unfold ClientServer.Server.ProcessConnectionRequest
  split
  · rfl
  · split
    · rfl
    · have h := ClientServer.FindOrInsertChallenge_num_entries key g s address salt time
      split
      · rename_i s1 heq
        rw [heq] at h
        exact h
      · rename_i s1 index heq
        rw [heq] at h
        split
        · exact h
        · exact h

theorem ClientServer.requests_num_entries (key : Address → Nat → Nat) :
    ∀ (reqs : List ClientServer.Request) (s : ClientServer.Server),
      (ClientServer.requests key s reqs).m_challengeHash.num_entries
        = s.m_challengeHash.num_entries := by
  intro reqs
  induction reqs with
  | nil => intro s; rfl
  | cons r rest ih =>
    intro s
    unfold ClientServer.requests
    rw [ih, ClientServer.ProcessConnectionRequest_num_entries]

/-- C26, the code at the failing input. In the non-secure server the occupancy
test of `FindOrInsertChallenge` reads `num_entries`, but no statement ever
changes `num_entries`: after any sequence of connection requests on a new
server it is 0, whatever the hash key function, so the test never rejects a
request and a request whose slot is empty always creates an entry. With a hash
key that sends the 300 spoofed requests to 300 different slots, all 300 are
inserted: 300 occupied slots, above `ChallengeHashSize / 4 = 257`. The secure
variant of `FindOrInsertChallenge` has no occupancy test at all: there too a
request whose slot is empty always creates an entry. -/
theorem C26_occupancy_not_capped :
    (∀ (key : Address → Nat → Nat) (reqs : List ClientServer.Request),
      (ClientServer.requests key ClientServer.Server.new reqs).m_challengeHash.num_entries = 0) ∧
    (∀ (key : Address → Nat → Nat) (g : Nat) (s : ClientServer.Server) (address : Address)
        (salt : Nat) (time : Time),
      s.m_challengeHash.num_entries = 0 →
      s.m_challengeHash.exists_ (key address salt % ClientServer.ChallengeHashSize) = 0 →
      (ClientServer.Server.FindOrInsertChallenge key g s address salt time).2
        = some (key address salt % ClientServer.ChallengeHashSize) ∧
      (ClientServer.Server.FindOrInsertChallenge key g s address salt time).1.m_challengeHash.exists_
        (key address salt % ClientServer.ChallengeHashSize) = 1) ∧
    ClientServer.ChallengeHashSize / 4 = 257 ∧
    ClientServer.occupied
      (ClientServer.requests ClientServer.portKey ClientServer.Server.new
        ClientServer.spoofedRequests).m_challengeHash = 300 ∧
    (∀ (key : Address → Nat → Nat → Nat) (g : Nat) (s : Secure.Server) (address : Address)
        (clientId : Nat) (time : Time),
      s.m_challengeHash.exists_ (key address clientId s.m_serverSalt % Secure.ChallengeHashSize) = 0 →
      (s.FindOrInsertChallenge key g address clientId time).2
        = some (key address clientId s.m_serverSalt % Secure.ChallengeHashSize) ∧
      (s.FindOrInsertChallenge key g address clientId time).1.m_challengeHash.exists_
        (key address clientId s.m_serverSalt % Secure.ChallengeHashSize) = 1) := by
  have hocc : ClientServer.occupied
      (ClientServer.requests ClientServer.portKey ClientServer.Server.new
        ClientServer.spoofedRequests).m_challengeHash = 300 := by decide!
  refine ⟨?_, ?_, by decide, hocc, ?_⟩
  · intro key reqs
    rw [ClientServer.requests_num_entries]
    rfl
  · intro key g s address salt time hn he
    have hcap : ¬ (s.m_challengeHash.num_entries ≥ ((ClientServer.ChallengeHashSize / 4 : Nat) : Int)) := by
      rw [hn]; decide
    unfold ClientServer.Server.FindOrInsertChallenge
    rw [if_neg hcap]
    dsimp only
    rw [if_pos (Or.inl he)]
    exact ⟨rfl, by simp⟩
  · intro key g s address clientId time he
    unfold Secure.Server.FindOrInsertChallenge
    dsimp only
    rw [if_pos (Or.inl he)]
    exact ⟨rfl, by simp⟩

/-- C27. `FindOrInsertChallenge` on a slot that holds an unexpired entry
(`exists` set and `create_time + ChallengeTimeOut ≥ now`): if the entry's
client id or address differs from the request, the call returns no entry and
the server state, challenge table included, is unchanged; if both match, it
returns that entry and the state is unchanged. This holds for every state of
the secure server and, for the non-secure server, for every state that passes
the occupancy test (`num_entries < ChallengeHashSize / 4`, true in every state
reached from a new server). Hence, once a call has returned an entry, every
later call with the same address and client salt, made while the entry is
unexpired, returns the same entry in an unchanged state, whatever salt
`GenerateSalt()` would produce: the challenge salt stays the same. -/
theorem C27_no_eviction (key2 : Address → Nat → Nat) (key3 : Address → Nat → Nat → Nat) (g : Nat)
    (address : Address) (clientId : Nat) (time : Time) :
    (∀ s : Secure.Server,
      s.m_challengeHash.exists_ (key3 address clientId s.m_serverSalt % Secure.ChallengeHashSize) ≠ 0 →
      (s.m_challengeHash.entries
        (key3 address clientId s.m_serverSalt % Secure.ChallengeHashSize)).create_time
          + Secure.ChallengeTimeOut ≥ time →
      s.FindOrInsertChallenge key3 g address clientId time =
        (s, if (s.m_challengeHash.entries
                (key3 address clientId s.m_serverSalt % Secure.ChallengeHashSize)).client_id = clientId ∧
              (s.m_challengeHash.entries
                (key3 address clientId s.m_serverSalt % Secure.ChallengeHashSize)).address = address
            then some (key3 address clientId s.m_serverSalt % Secure.ChallengeHashSize)
            else none)) ∧
    (∀ s : ClientServer.Server,
      s.m_challengeHash.num_entries < ((ClientServer.ChallengeHashSize / 4 : Nat) : Int) →
      s.m_challengeHash.exists_ (key2 address clientId % ClientServer.ChallengeHashSize) ≠ 0 →
      (s.m_challengeHash.entries
        (key2 address clientId % ClientServer.ChallengeHashSize)).create_time
          + ClientServer.ChallengeTimeOut ≥ time →
      ClientServer.Server.FindOrInsertChallenge key2 g s address clientId time =
        (s, if (s.m_challengeHash.entries
                (key2 address clientId % ClientServer.ChallengeHashSize)).client_salt = clientId ∧
              (s.m_challengeHash.entries
                (key2 address clientId % ClientServer.ChallengeHashSize)).address = address
            then some (key2 address clientId % ClientServer.ChallengeHashSize)
            else none)) ∧
    (∀ reqs : List ClientServer.Request,
      (ClientServer.requests key2 ClientServer.Server.new reqs).m_challengeHash.num_entries
        < ((ClientServer.ChallengeHashSize / 4 : Nat) : Int)) ∧
    (∀ (s : ClientServer.Server) (index : Nat),
      s.m_challengeHash.num_entries < ((ClientServer.ChallengeHashSize / 4 : Nat) : Int) →
      (ClientServer.Server.FindOrInsertChallenge key2 g s address clientId time).2 = some index →
      ∀ (later : Time) (g1 : Nat),
        ((ClientServer.Server.FindOrInsertChallenge key2 g s address clientId time).1.m_challengeHash.entries
          index).create_time + ClientServer.ChallengeTimeOut ≥ later →
        ClientServer.Server.FindOrInsertChallenge key2 g1
            (ClientServer.Server.FindOrInsertChallenge key2 g s address clientId time).1
            address clientId later
          = ((ClientServer.Server.FindOrInsertChallenge key2 g s address clientId time).1,
             some index)) ∧
    (∀ (s : Secure.Server) (index : Nat),
      (s.FindOrInsertChallenge key3 g address clientId time).2 = some index →
      ∀ (later : Time) (g1 : Nat),
        ((s.FindOrInsertChallenge key3 g address clientId time).1.m_challengeHash.entries
          index).create_time + Secure.ChallengeTimeOut ≥ later →
        (s.FindOrInsertChallenge key3 g address clientId time).1.FindOrInsertChallenge key3 g1
            address clientId later
          = ((s.FindOrInsertChallenge key3 g address clientId time).1, some index)) := by
  have hsec : ∀ (g : Nat) (time : Time) (s : Secure.Server),
      s.m_challengeHash.exists_ (key3 address clientId s.m_serverSalt % Secure.ChallengeHashSize) ≠ 0 →
      (s.m_challengeHash.entries
        (key3 address clientId s.m_serverSalt % Secure.ChallengeHashSize)).create_time
          + Secure.ChallengeTimeOut ≥ time →
      s.FindOrInsertChallenge key3 g address clientId time =
        (s, if (s.m_challengeHash.entries
                (key3 address clientId s.m_serverSalt % Secure.ChallengeHashSize)).client_id = clientId ∧
              (s.m_challengeHash.entries
                (key3 address clientId s.m_serverSalt % Secure.ChallengeHashSize)).address = address
            then some (key3 address clientId s.m_serverSalt % Secure.ChallengeHashSize)
            else none) := by
    intro g time s he hc
    have h1 : ¬ (s.m_challengeHash.exists_
          (key3 address clientId s.m_serverSalt % Secure.ChallengeHashSize) = 0 ∨
        (s.m_challengeHash.exists_
            (key3 address clientId s.m_serverSalt % Secure.ChallengeHashSize) ≠ 0 ∧
          (s.m_challengeHash.entries
            (key3 address clientId s.m_serverSalt % Secure.ChallengeHashSize)).create_time
              + Secure.ChallengeTimeOut < time)) := by
      rintro (h | ⟨_, h⟩)
      · exact he h
      · exact absurd h (not_lt.mpr hc)
    unfold Secure.Server.FindOrInsertChallenge
    dsimp only
    rw [if_neg h1]
    by_cases hm : (s.m_challengeHash.entries
          (key3 address clientId s.m_serverSalt % Secure.ChallengeHashSize)).client_id = clientId ∧
        (s.m_challengeHash.entries
          (key3 address clientId s.m_serverSalt % Secure.ChallengeHashSize)).address = address
    · rw [if_pos ⟨he, hm⟩, if_pos hm]
    · rw [if_neg (fun h => hm h.2), if_neg hm]
  have hcs : ∀ (g : Nat) (time : Time) (s : ClientServer.Server),
      s.m_challengeHash.num_entries < ((ClientServer.ChallengeHashSize / 4 : Nat) : Int) →
      s.m_challengeHash.exists_ (key2 address clientId % ClientServer.ChallengeHashSize) ≠ 0 →
      (s.m_challengeHash.entries
        (key2 address clientId % ClientServer.ChallengeHashSize)).create_time
          + ClientServer.ChallengeTimeOut ≥ time →
      ClientServer.Server.FindOrInsertChallenge key2 g s address clientId time =
        (s, if (s.m_challengeHash.entries
                (key2 address clientId % ClientServer.ChallengeHashSize)).client_salt = clientId ∧
              (s.m_challengeHash.entries
                (key2 address clientId % ClientServer.ChallengeHashSize)).address = address
            then some (key2 address clientId % ClientServer.ChallengeHashSize)
            else none) := by
    intro g time s hn he hc
    have h1 : ¬ (s.m_challengeHash.exists_
          (key2 address clientId % ClientServer.ChallengeHashSize) = 0 ∨
        (s.m_challengeHash.exists_
            (key2 address clientId % ClientServer.ChallengeHashSize) ≠ 0 ∧
          (s.m_challengeHash.entries
            (key2 address clientId % ClientServer.ChallengeHashSize)).create_time
              + ClientServer.ChallengeTimeOut < time)) := by
      rintro (h | ⟨_, h⟩)
      · exact he h
      · exact absurd h (not_lt.mpr hc)
    unfold ClientServer.Server.FindOrInsertChallenge
    rw [if_neg (not_le.mpr hn)]
    dsimp only
    rw [if_neg h1]
    by_cases hm : (s.m_challengeHash.entries
          (key2 address clientId % ClientServer.ChallengeHashSize)).client_salt = clientId ∧
        (s.m_challengeHash.entries
          (key2 address clientId % ClientServer.ChallengeHashSize)).address = address
    · rw [if_pos ⟨he, hm⟩, if_pos hm]
    · rw [if_neg (fun h => hm h.2), if_neg hm]
  refine ⟨hsec g time, hcs g time, ?_, ?_, ?_⟩
  · intro reqs
    rw [ClientServer.requests_num_entries]
    decide
  · intro s index hn hret later g1 hlater
    -- what the first call left in the slot it returned
    have hfirst : index = key2 address clientId % ClientServer.ChallengeHashSize ∧
        (ClientServer.Server.FindOrInsertChallenge key2 g s address clientId time).1.m_challengeHash.exists_
          index ≠ 0 ∧
        ((ClientServer.Server.FindOrInsertChallenge key2 g s address clientId time).1.m_challengeHash.entries
          index).client_salt = clientId ∧
        ((ClientServer.Server.FindOrInsertChallenge key2 g s address clientId time).1.m_challengeHash.entries
          index).address = address := by
      unfold ClientServer.Server.FindOrInsertChallenge at hret ⊢
      rw [if_neg (not_le.mpr hn)] at hret ⊢
      dsimp only at hret ⊢
      split at hret
      · rename_i hc
        rw [if_pos hc]
        simp only [Option.some.injEq] at hret
        subst hret
        simp
      · rename_i hc
        rw [if_neg hc]
        split at hret
        · rename_i hm
          rw [if_pos hm]
          simp only [Option.some.injEq] at hret
          subst hret
          exact ⟨rfl, hm⟩
        · exact absurd hret (by simp)
    obtain ⟨hi, h1, h2, h3⟩ := hfirst
    have hn1 := ClientServer.FindOrInsertChallenge_num_entries key2 g s address clientId time
    have := hcs g1 later (ClientServer.Server.FindOrInsertChallenge key2 g s address clientId time).1
      (by rw [hn1]; exact hn) (by rw [← hi]; exact h1) (by rw [← hi]; exact hlater)
    rw [this, ← hi, if_pos ⟨h2, h3⟩]
  · intro s index hret later g1 hlater
    have hfirst : index = key3 address clientId s.m_serverSalt % Secure.ChallengeHashSize ∧
        (s.FindOrInsertChallenge key3 g address clientId time).1.m_serverSalt = s.m_serverSalt ∧
        (s.FindOrInsertChallenge key3 g address clientId time).1.m_challengeHash.exists_ index ≠ 0 ∧
        ((s.FindOrInsertChallenge key3 g address clientId time).1.m_challengeHash.entries
          index).client_id = clientId ∧
        ((s.FindOrInsertChallenge key3 g address clientId time).1.m_challengeHash.entries
          index).address = address := by
      unfold Secure.Server.FindOrInsertChallenge at hret ⊢
      dsimp only at hret ⊢
      split at hret
      · rename_i hc
        rw [if_pos hc]
        simp only [Option.some.injEq] at hret
        subst hret
        simp
      · rename_i hc
        rw [if_neg hc]
        split at hret
        · rename_i hm
          rw [if_pos hm]
          simp only [Option.some.injEq] at hret
          subst hret
          exact ⟨rfl, rfl, hm⟩
        · exact absurd hret (by simp)
    obtain ⟨hi, hsalt, h1, h2, h3⟩ := hfirst
    have := hsec g1 later (s.FindOrInsertChallenge key3 g address clientId time).1
      (by rw [hsalt, ← hi]; exact h1) (by rw [hsalt, ← hi]; exact hlater)
    rw [this, hsalt, ← hi, if_pos ⟨h2, h3⟩]

theorem C27_no_eviction_witness :
    challengingServer.m_challengeHash.exists_ (ClientServer.portKey demoClientAddress 5
      % ClientServer.ChallengeHashSize) ≠ 0 ∧
    (challengingServer.m_challengeHash.entries
      (ClientServer.portKey demoClientAddress 5 % ClientServer.ChallengeHashSize)).server_salt = 111 ∧
    ClientServer.Server.FindOrInsertChallenge ClientServer.portKey 222 challengingServer
        demoClientAddress 5 10000 =
      (challengingServer,
        if (challengingServer.m_challengeHash.entries
              (ClientServer.portKey demoClientAddress 5 % ClientServer.ChallengeHashSize)).client_salt = 5 ∧
            (challengingServer.m_challengeHash.entries
              (ClientServer.portKey demoClientAddress 5 % ClientServer.ChallengeHashSize)).address
              = demoClientAddress
        then some (ClientServer.portKey demoClientAddress 5 % ClientServer.ChallengeHashSize)
        else none) ∧
    (ClientServer.Server.FindOrInsertChallenge ClientServer.portKey 222 challengingServer
        demoClientAddress 5 10000).2
      = some (ClientServer.portKey demoClientAddress 5 % ClientServer.ChallengeHashSize) ∧
    (ClientServer.Server.FindOrInsertChallenge ClientServer.portKey 222 challengingServer
        demoServerAddress 315 10000).2 = none :=
  ⟨by decide, by decide,
    (C27_no_eviction ClientServer.portKey (fun _ _ _ => 0) 222 demoClientAddress 5 10000).2.1
      challengingServer (by decide) (by decide) (by decide),
    by decide, by decide⟩


/-! ## Connect tokens -/

theorem writeBits_succ (n v : Nat) :
    writeBits (n + 1) v = decide (v / 2 ^ n % 2 = 1) :: writeBits n v := by
  simp [writeBits, List.range_succ]

theorem writeBits_length (n v : Nat) : (writeBits n v).length = n := by
  simp [writeBits]

theorem bitsValue_writeBits (n v acc : Nat) :
    bitsValue (writeBits n v) acc = acc * 2 ^ n + v % 2 ^ n := by
  induction n generalizing acc with
  | zero => simp [writeBits, bitsValue, Nat.mod_one]
  | succ n ih =>
    rw [writeBits_succ, bitsValue, ih, Nat.mod_pow_succ]
    by_cases h : v / 2 ^ n % 2 = 1
    · simp only [h, decide_True, if_true]; ring
    · have h0 : v / 2 ^ n % 2 = 0 := by omega
      simp only [h0, Nat.zero_ne_one, decide_False, Bool.false_eq_true, if_false]; ring

/-- Reading `n` bits back from what `writeBits` wrote gives the value, when it
fits on `n` bits. -/
theorem readBits_writeBits (n v : Nat) (rest : List Bool) (h : v < 2 ^ n) :
    readBits n (writeBits n v ++ rest) = some (v, rest) := by
  have hl := writeBits_length n v
  unfold readBits
  rw [if_neg (by simp [hl]), List.take_left' hl, List.drop_left' hl, bitsValue_writeBits]
  simp [Nat.mod_eq_of_lt h]

theorem readInt_writeInt (bits_required : Nat → Nat → Nat) (v min max : Nat) (rest : List Bool)
    (h1 : min ≤ v) (h2 : v ≤ max) (h : v - min < 2 ^ bits_required min max) :
    readInt bits_required min max (writeInt bits_required v min max ++ rest) = some (v, rest) := by
  unfold readInt writeInt
  rw [readBits_writeBits _ _ _ h]
  simp only
  rw [if_neg (by omega)]
  simp only [Option.some.injEq, Prod.mk.injEq, and_true]
  omega

theorem readBytes_writeBytes (l : List Nat) (rest : List Bool) (h : ∀ b ∈ l, b < 256) :
    readBytes l.length (writeBytes l ++ rest) = some (l, rest) := by
  induction l with
  | nil => simp [readBytes, writeBytes]
  | cons b l ih =>
    have hb : b < 2 ^ 8 := by have := h b (List.mem_cons_self _ _); omega
    have hw : writeBytes (b :: l) ++ rest = writeBits 8 b ++ (writeBytes l ++ rest) := by
      simp [writeBytes]
    rw [hw]
    simp only [List.length_cons, readBytes]
    rw [readBits_writeBits 8 b _ hb]
    simp only
    rw [ih (fun x hx => h x (List.mem_cons_of_mem _ hx))]

theorem readString_writeString (bits_required : Nat → Nat → Nat) (size : Nat) (l : List Nat)
    (rest : List Bool) (h1 : l.length ≤ size - 1) (h2 : l.length < 2 ^ bits_required 0 (size - 1))
    (h : ∀ b ∈ l, b < 256) :
    readString bits_required size (writeString bits_required size l ++ rest) = some (l, rest) := by
  unfold readString writeString
  rw [List.append_assoc, readInt_writeInt _ _ _ _ _ (Nat.zero_le _) h1 (by simpa using h2)]
  simp only
  exact readBytes_writeBytes l rest h

/-- What a read takes from a stream it takes from every longer stream. -/
theorem readBits_append (n : Nat) (s p : List Bool) (v : Nat) (r : List Bool)
    (h : readBits n s = some (v, r)) : readBits n (s ++ p) = some (v, r ++ p) := by
  unfold readBits at h ⊢
  split at h
  · simp at h
  · rename_i hl
    have hl1 : n ≤ s.length := by omega
    simp only [Option.some.injEq, Prod.mk.injEq] at h
    rw [if_neg (by simp only [List.length_append]; omega), List.take_append_of_le_length hl1,
      List.drop_append_of_le_length hl1, h.1, h.2]

theorem readInt_append (bits_required : Nat → Nat → Nat) (min max : Nat) (s p : List Bool)
    (v : Nat) (r : List Bool) (h : readInt bits_required min max s = some (v, r)) :
    readInt bits_required min max (s ++ p) = some (v, r ++ p) := by
  unfold readInt at h ⊢
  split at h
  · simp at h
  · rename_i v1 r1 h1
    rw [readBits_append _ _ p _ _ h1]
    simp only
    split at h
    · simp at h
    · rename_i h2
      simp only [Option.some.injEq, Prod.mk.injEq] at h
      rw [if_neg h2, h.1, h.2]

theorem readInt_le (bits_required : Nat → Nat → Nat) (min max : Nat) (s : List Bool)
    (v : Nat) (r : List Bool) (h : readInt bits_required min max s = some (v, r)) : v ≤ max := by
  unfold readInt at h
  split at h
  · simp at h
  · split at h
    · simp at h
    · simp only [Option.some.injEq, Prod.mk.injEq] at h
      omega

theorem readBytes_append (n : Nat) (s p : List Bool) (l : List Nat) (r : List Bool)
    (h : readBytes n s = some (l, r)) : readBytes n (s ++ p) = some (l, r ++ p) := by
  induction n generalizing s l r with
  | zero => simp only [readBytes, Option.some.injEq, Prod.mk.injEq] at h ⊢; simp [h.1, h.2]
  | succ n ih =>
    simp only [readBytes] at h ⊢
    split at h
    · simp at h
    · rename_i b r1 h1
      rw [readBits_append _ _ p _ _ h1]
      simp only
      split at h
      · simp at h
      · rename_i l1 r2 h2
        rw [ih _ _ _ h2]
        simp only [Option.some.injEq, Prod.mk.injEq] at h ⊢
        simp [h.1, h.2]

theorem readString_append (bits_required : Nat → Nat → Nat) (size : Nat) (s p : List Bool)
    (l : List Nat) (r : List Bool) (h : readString bits_required size s = some (l, r)) :
    readString bits_required size (s ++ p) = some (l, r ++ p) := by
  unfold readString at h ⊢
  split at h
  · simp at h
  · rename_i n r1 h1
    rw [readInt_append _ _ _ _ p _ _ h1]
    exact readBytes_append _ _ p _ _ h

theorem Token.readAddresses_append (bits_required : Nat → Nat → Nat)
    (parseAddress : List Nat → Address) (n i : Nat) (a : Nat → Address) (s p : List Bool)
    (a1 : Nat → Address) (r : List Bool)
    (h : Token.readAddresses bits_required parseAddress n i a s = some (a1, r)) :
    Token.readAddresses bits_required parseAddress n i a (s ++ p) = some (a1, r ++ p) := by
  induction n generalizing i a s with
  | zero =>
    simp only [Token.readAddresses, Option.some.injEq, Prod.mk.injEq] at h ⊢
    simp [h.1, h.2]
  | succ n ih =>
    simp only [Token.readAddresses] at h ⊢
    split at h
    · simp at h
    · rename_i buffer r1 h1
      rw [readString_append _ _ _ p _ _ h1]
      simp only
      split at h
      · simp at h
      · rename_i h2
        rw [if_neg h2]
        exact ih _ _ _ h

/-- A token read from a stream is read from every longer stream. -/
theorem Token.SerializeRead_append (bits_required : Nat → Nat → Nat)
    (parseAddress : List Nat → Address) (t0 t : Token) (s p : List Bool)
    (h : Token.SerializeRead bits_required parseAddress t0 s = some t) :
    Token.SerializeRead bits_required parseAddress t0 (s ++ p) = some t := by
  unfold Token.SerializeRead at h ⊢
  split at h
  · simp at h
  rename_i v1 s1 h1
  rw [readBits_append _ _ p _ _ h1]
  simp only
  split at h
  · simp at h
  rename_i v2 s2 h2
  rw [readBits_append _ _ p _ _ h2]
  simp only
  split at h
  · simp at h
  rename_i v3 s3 h3
  rw [readBits_append _ _ p _ _ h3]
  simp only
  split at h
  · simp at h
  rename_i v4 s4 h4
  rw [readInt_append _ _ _ _ p _ _ h4]
  simp only
  split at h
  · simp at h
  rename_i v5 s5 h5
  rw [Token.readAddresses_append _ _ _ _ _ _ p _ _ h5]
  simp only
  split at h
  · simp at h
  rename_i v6 s6 h6
  rw [readBytes_append _ _ p _ _ h6]
  simp only
  split at h
  · simp at h
  rename_i v7 s7 h7
  rw [readBytes_append _ _ p _ _ h7]
  simpa using h

/-- The count of a token that `Token::Serialize` read is between 0 and
`MaxServersPerToken - 1`. -/
theorem Token.SerializeRead_count (bits_required : Nat → Nat → Nat)
    (parseAddress : List Nat → Address) (t0 t : Token) (s : List Bool)
    (h : Token.SerializeRead bits_required parseAddress t0 s = some t) :
    0 ≤ t.num_server_addresses ∧ t.num_server_addresses ≤ 7 := by
  unfold Token.SerializeRead at h
  split at h
  · simp at h
  split at h
  · simp at h
  split at h
  · simp at h
  split at h
  · simp at h
  rename_i v4 s4 h4
  have hle := readInt_le _ _ _ _ _ _ h4
  split at h
  · simp at h
  split at h
  · simp at h
  split at h
  · simp at h
  simp only [Option.some.injEq] at h
  subst h
  simp only [MaxServersPerToken] at hle
  constructor
  · exact Int.natCast_nonneg _
  · simp only; omega
theorem writeBytes_length (l : List Nat) : (writeBytes l).length = 8 * l.length := by
  induction l with
  | nil => simp [writeBytes]
  | cons b l ih =>
    have hw : writeBytes (b :: l) = writeBits 8 b ++ writeBytes l := by simp [writeBytes]
    rw [hw, List.length_append, writeBits_length, ih, List.length_cons]; ring

theorem flatten_range_length_le (f : Nat → List Bool) (B n : Nat)
    (h : ∀ i, i < n → (f i).length ≤ B) : ((List.range n).map f).flatten.length ≤ n * B := by
  induction n with
  | zero => simp
  | succ n ih =>
    have h1 := ih (fun i hi => h i (by omega))
    have h2 := h n (by omega)
    simp only [List.range_succ, List.map_append, List.flatten_append, List.length_append,
      List.map_cons, List.map_nil, List.flatten_cons, List.flatten_nil, List.append_nil]
    have : (n + 1) * B = n * B + B := by ring
    omega

theorem readBytes_written (n : Nat) (l : List Nat) (rest : List Bool) (hl : l.length = n)
    (h : ∀ b ∈ l, b < 256) : readBytes n (writeBytes l ++ rest) = some (l, rest) := by
  subst hl; exact readBytes_writeBytes l rest h

/-- The address loop reads back the addresses that the write loop wrote, when
parsing inverts printing on them and they are valid. -/
theorem Token.readAddresses_written (bits_required : Nat → Nat → Nat)
    (ToString : Address → List Nat) (parseAddress : List Nat → Address) (sa : Nat → Address)
    (rest : List Bool) (hbr : 63 < 2 ^ bits_required 0 63) (n i : Nat) (a : Nat → Address)
    (h : ∀ j, i ≤ j → j < i + n →
      parseAddress (ToString (sa j)) = sa j ∧ (sa j).IsValid = true ∧
      (ToString (sa j)).length ≤ 63 ∧ ∀ b ∈ ToString (sa j), b < 256) :
    ∃ a1, Token.readAddresses bits_required parseAddress n i a
        (((List.range' i n).map (fun j => writeString bits_required 64 (ToString (sa j)))).flatten
          ++ rest) = some (a1, rest) ∧
      (∀ j, i ≤ j → j < i + n → a1 j = sa j) ∧ ∀ j, j < i → a1 j = a j := by
  induction n generalizing i a with
  | zero =>
    exact ⟨a, by simp [Token.readAddresses], by intro j h1 h2; omega, fun _ _ => rfl⟩
  | succ n ih =>
    obtain ⟨hp, hv, hl, hb⟩ := h i (le_refl _) (by omega)
    obtain ⟨a1, h1, h2, h3⟩ := ih (i + 1) (Function.update a i (sa i))
      (fun j hj1 hj2 => h j (by omega) (by omega))
    refine ⟨a1, ?_, ?_, ?_⟩
    · have hw : ((List.range' i (n + 1)).map
          (fun j => writeString bits_required 64 (ToString (sa j)))).flatten ++ rest
          = writeString bits_required 64 (ToString (sa i)) ++
            (((List.range' (i + 1) n).map
              (fun j => writeString bits_required 64 (ToString (sa j)))).flatten ++ rest) := by
        simp [List.range'_succ]
      rw [hw]
      simp only [Token.readAddresses]
      rw [readString_writeString bits_required 64 _ _ (by simpa using hl) (by simp only [Nat.add_one_sub_one]; omega) hb]
      simp only [hp, hv]
      simpa using h1
    · intro j hj1 hj2
      by_cases hji : j = i
      · subst hji; rw [h3 j (by omega)]; simp
      · exact h2 j (by omega) (by omega)
    · intro j hj
      rw [h3 j (by omega)]
      exact Function.update_noteq (by omega) _ _

theorem getD_map_range (k : Nat → Nat) (n i : Nat) (h : i < n) :
    ((List.range n).map k).getD i 0 = k i := by
  simp [List.getD, List.getElem?_range h]

/-- Reading back what `Token::Serialize` wrote for a token with at most
`MaxServersPerToken - 1` addresses gives the token again. -/
theorem Token.SerializeRead_SerializeWrite (bits_required : Nat → Nat → Nat)
    (ToString : Address → List Nat) (parseAddress : List Nat → Address)
    (token t0 : Token) (rest : List Bool) (n : Nat)
    (hn : token.num_server_addresses = (n : Int)) (hn7 : n ≤ 7)
    (h7 : 7 < 2 ^ bits_required 0 7) (h63 : 63 < 2 ^ bits_required 0 63)
    (hp : token.protocol_id < 2 ^ 32) (hc : token.client_id < 2 ^ 64)
    (he : token.expiry_timestamp < 2 ^ 64)
    (haddr : ∀ i, i < n →
      parseAddress (ToString (token.server_address i)) = token.server_address i ∧
      (token.server_address i).IsValid = true ∧
      (ToString (token.server_address i)).length ≤ 63 ∧
      ∀ b ∈ ToString (token.server_address i), b < 256)
    (hk1 : ∀ i, i < KeyBytes → token.client_to_server_key i < 256)
    (hk2 : ∀ i, i < KeyBytes → token.server_to_client_key i < 256) :
    ∃ t, Token.SerializeRead bits_required parseAddress t0
        (token.SerializeWrite bits_required ToString ++ rest) = some t ∧
      t.protocol_id = token.protocol_id ∧ t.client_id = token.client_id ∧
      t.expiry_timestamp = token.expiry_timestamp ∧
      t.num_server_addresses = token.num_server_addresses ∧
      (∀ i, i < n → t.server_address i = token.server_address i) ∧
      (∀ i, i < KeyBytes → t.client_to_server_key i = token.client_to_server_key i) ∧
      (∀ i, i < KeyBytes → t.server_to_client_key i = token.server_to_client_key i) := by
  have hnat : token.num_server_addresses.toNat = n := by rw [hn]; simp
  obtain ⟨a1, h1, h2, _⟩ := Token.readAddresses_written bits_required ToString parseAddress
    token.server_address
    (writeBytes ((List.range KeyBytes).map token.client_to_server_key) ++
      (writeBytes ((List.range KeyBytes).map token.server_to_client_key) ++ rest))
    h63 n 0 t0.server_address
    (fun j _ hj => haddr j (by omega))
  unfold Token.SerializeRead Token.SerializeWrite
  simp only [List.append_assoc, hnat]
  rw [readBits_writeBits _ _ _ hp]
  simp only
  rw [readBits_writeBits _ _ _ hc]
  simp only
  rw [readBits_writeBits _ _ _ he]
  simp only
  rw [readInt_writeInt _ _ _ _ _ (Nat.zero_le _) (by simp only [MaxServersPerToken]; omega)
    (by simp only [MaxServersPerToken, Nat.add_one_sub_one, Nat.sub_zero]; omega)]
  simp only
  rw [List.range_eq_range', h1]
  simp only
  rw [readBytes_written _ _ _ (by simp)
    (by intro b hb; simp only [List.mem_map, List.mem_range] at hb
        obtain ⟨i, hi, rfl⟩ := hb; exact hk1 i hi)]
  simp only
  rw [readBytes_written _ _ _ (by simp)
    (by intro b hb; simp only [List.mem_map, List.mem_range] at hb
        obtain ⟨i, hi, rfl⟩ := hb; exact hk2 i hi)]
  refine ⟨_, rfl, rfl, rfl, rfl, hn.symm, ?_, ?_, ?_⟩
  · intro i hi; exact h2 i (Nat.zero_le _) (by omega)
  · intro i hi; exact getD_map_range _ _ _ hi
  · intro i hi; exact getD_map_range _ _ _ hi

/-- What `Token::Serialize` writes for at most 7 addresses fits the
`TokenBytes` of the message buffer. -/
theorem Token.SerializeWrite_length (bits_required : Nat → Nat → Nat)
    (ToString : Address → List Nat) (token : Token) (n : Nat)
    (hn : token.num_server_addresses = (n : Int)) (hn7 : n ≤ 7)
    (hb7 : bits_required 0 7 ≤ 32) (hb63 : bits_required 0 63 ≤ 32)
    (haddr : ∀ i, i < n → (ToString (token.server_address i)).length ≤ 63) :
    (token.SerializeWrite bits_required ToString).length ≤ TokenBytes * 8 := by
  have hnat : token.num_server_addresses.toNat = n := by rw [hn]; simp
  have h1 := flatten_range_length_le
    (fun i => writeString bits_required 64 (ToString (token.server_address i))) (32 + 8 * 63) n
    (by
      intro i hi
      have := haddr i hi
      simp only [writeString, writeInt, List.length_append, writeBits_length, writeBytes_length,
        Nat.add_one_sub_one]
      omega)
  simp only [Token.SerializeWrite, hnat, List.length_append, writeBits_length, writeInt,
    writeBytes_length, List.length_map, List.length_range, KeyBytes, TokenBytes,
    MaxServersPerToken, Nat.add_one_sub_one]
  have h3 : n * (32 + 8 * 63) ≤ 7 * (32 + 8 * 63) := Nat.mul_le_mul_right _ hn7
  omega

/-- Round trip of a token with at most `MaxServersPerToken - 1` server
addresses through `EncryptToken` and `DecryptToken`, for an AEAD whose decrypt
inverts its encrypt and an address constructor that inverts the printing. -/
theorem Token.round_trip (bits_required : Nat → Nat → Nat)
    (ToString : Address → List Nat) (parseAddress : List Nat → Address)
    (Encrypt_AEAD Decrypt_AEAD : List Bool → List Nat → Nat → List Nat → Option (List Bool))
    (token t0 : Token) (additional : List Nat) (nonce : Nat) (key : List Nat) (n : Nat)
    (hn : token.num_server_addresses = (n : Int)) (hn7 : n ≤ 7)
    (h7 : 7 < 2 ^ bits_required 0 7) (h63 : 63 < 2 ^ bits_required 0 63)
    (hb7 : bits_required 0 7 ≤ 32) (hb63 : bits_required 0 63 ≤ 32)
    (hp : token.protocol_id < 2 ^ 32) (hc : token.client_id < 2 ^ 64)
    (he : token.expiry_timestamp < 2 ^ 64)
    (haddr : ∀ i, i < n →
      parseAddress (ToString (token.server_address i)) = token.server_address i ∧
      (token.server_address i).IsValid = true ∧
      (ToString (token.server_address i)).length ≤ 63 ∧
      ∀ b ∈ ToString (token.server_address i), b < 256)
    (hk1 : ∀ i, i < KeyBytes → token.client_to_server_key i < 256)
    (hk2 : ∀ i, i < KeyBytes → token.server_to_client_key i < 256)
    (henc : ∀ m, ∃ c, Encrypt_AEAD m additional nonce key = some c)
    (hdec : ∀ m c, Encrypt_AEAD m additional nonce key = some c →
      Decrypt_AEAD c additional nonce key = some m) :
    ∃ c t, EncryptToken bits_required ToString Encrypt_AEAD token additional nonce key = some c ∧
      DecryptToken bits_required parseAddress Decrypt_AEAD c t0 additional nonce key = some t ∧
      t.protocol_id = token.protocol_id ∧ t.client_id = token.client_id ∧
      t.expiry_timestamp = token.expiry_timestamp ∧
      t.num_server_addresses = token.num_server_addresses ∧
      (∀ i, i < n → t.server_address i = token.server_address i) ∧
      (∀ i, i < KeyBytes → t.client_to_server_key i = token.client_to_server_key i) ∧
      (∀ i, i < KeyBytes → t.server_to_client_key i = token.server_to_client_key i) := by
  have hlen := Token.SerializeWrite_length bits_required ToString token n hn hn7 hb7 hb63
    (fun i hi => (haddr i hi).2.2.1)
  obtain ⟨c, hc1⟩ := henc (token.SerializeWrite bits_required ToString ++
    List.replicate (TokenBytes * 8 - (token.SerializeWrite bits_required ToString).length) false)
  obtain ⟨t, ht, hrest⟩ := Token.SerializeRead_SerializeWrite bits_required ToString parseAddress
    token t0
    (List.replicate (TokenBytes * 8 - (token.SerializeWrite bits_required ToString).length) false)
    n hn hn7 h7 h63 hp hc he haddr hk1 hk2
  refine ⟨c, t, ?_, ?_, hrest⟩
  · simp only [EncryptToken]
    rw [if_neg (by omega)]
    exact hc1
  · simp only [DecryptToken, hdec _ _ hc1]
    exact ht
/-- C29 (code defect): `Token::Serialize` carries the number of server
addresses with `serialize_int( .., 0, MaxServersPerToken - 1 )`, so a token
with 8 server addresses does not survive `EncryptToken` and `DecryptToken`.
(1) Whatever the bit widths, the address constructor, the AEAD and the
encrypted message, a token that `DecryptToken` returns has between 0 and 7
server addresses, never 8. (2) For the token `demoToken 8` (8 valid addresses
that the constructor reads back from their printed form, key bytes below 256)
under an AEAD that leaves the message as it is, `EncryptToken` succeeds and
`DecryptToken` on its output succeeds, but the token it returns has 0 server
addresses and its first client-to-server key byte is 8, where the original has
8 addresses and key byte 1. (3) The same demo parameters do round-trip the
token with 7 addresses, field by field. -/
theorem C29_token_with_eight_addresses :
    (∀ (bits_required : Nat → Nat → Nat) (parseAddress : List Nat → Address)
        (Decrypt_AEAD : List Bool → List Nat → Nat → List Nat → Option (List Bool))
        (encryptedMessage : List Bool) (t0 : Token) (additional : List Nat) (nonce : Nat)
        (key : List Nat) (t : Token),
        DecryptToken bits_required parseAddress Decrypt_AEAD encryptedMessage t0 additional
          nonce key = some t →
        0 ≤ t.num_server_addresses ∧ t.num_server_addresses ≤ 7) ∧
    (∃ c t, EncryptToken leastBits demoToString demoSeal (demoToken 8) [] 0 [] = some c ∧
        DecryptToken leastBits demoParseAddress demoSeal c Token.new [] 0 [] = some t ∧
        t.num_server_addresses = 0 ∧ (demoToken 8).num_server_addresses = 8 ∧
        t.client_to_server_key 0 = 8 ∧ (demoToken 8).client_to_server_key 0 = 1) ∧
    (∀ i, i < 8 → ((demoToken 8).server_address i).IsValid = true ∧
        demoParseAddress (demoToString ((demoToken 8).server_address i))
          = (demoToken 8).server_address i) ∧
    (∃ c t, EncryptToken leastBits demoToString demoSeal (demoToken 7) [] 0 [] = some c ∧
        DecryptToken leastBits demoParseAddress demoSeal c Token.new [] 0 [] = some t ∧
        t.protocol_id = (demoToken 7).protocol_id ∧ t.client_id = (demoToken 7).client_id ∧
        t.expiry_timestamp = (demoToken 7).expiry_timestamp ∧
        t.num_server_addresses = (demoToken 7).num_server_addresses ∧
        (∀ i, i < 7 → t.server_address i = (demoToken 7).server_address i) ∧
        (∀ i, i < KeyBytes → t.client_to_server_key i = (demoToken 7).client_to_server_key i) ∧
        (∀ i, i < KeyBytes → t.server_to_client_key i = (demoToken 7).server_to_client_key i)) := by
  refine ⟨?_, ?_, ?_, ?_⟩
  · intro bits_required parseAddress Decrypt_AEAD encryptedMessage t0 additional nonce key t h
    unfold DecryptToken at h
    split at h
    · simp at h
    · exact Token.SerializeRead_count _ _ _ _ _ h
  · have hlen : ¬ ((demoToken 8).SerializeWrite leastBits demoToString).length > TokenBytes * 8 := by
      decide!
    have hev : (Token.SerializeRead leastBits demoParseAddress Token.new
        ((demoToken 8).SerializeWrite leastBits demoToString)).map
        (fun t => (t.num_server_addresses, t.client_to_server_key 0)) = some (0, 8) := by
      decide!
    cases hr : Token.SerializeRead leastBits demoParseAddress Token.new
        ((demoToken 8).SerializeWrite leastBits demoToString) with
    | none => rw [hr] at hev; simp at hev
    | some t =>
      rw [hr] at hev
      simp only [Option.map_some', Option.some.injEq, Prod.mk.injEq] at hev
      refine ⟨(demoToken 8).SerializeWrite leastBits demoToString ++
        List.replicate
          (TokenBytes * 8 - ((demoToken 8).SerializeWrite leastBits demoToString).length) false,
        t, ?_, ?_, hev.1, rfl, hev.2, rfl⟩
      · simp only [EncryptToken]
        rw [if_neg hlen]
        rfl
      · simp only [DecryptToken, demoSeal]
        exact Token.SerializeRead_append _ _ _ _ _ _ hr
  · intro i hi
    refine ⟨rfl, ?_⟩
    simp [demoToken, demoToString, demoParseAddress]
  · exact Token.round_trip leastBits demoToString demoParseAddress demoSeal demoSeal
      (demoToken 7) Token.new [] 0 [] 7 rfl (le_refl _) (by decide) (by decide) (by decide)
      (by decide) (by decide) (by decide) (by decide)
      (fun i _ => ⟨by simp [demoToken, demoToString, demoParseAddress], rfl, by simp [demoToString],
        by
          intro b hb
          simp only [demoToken, demoToString, List.mem_cons, List.mem_singleton,
            List.not_mem_nil, or_false] at hb
          omega⟩)
      (fun _ _ => by simp [demoToken]) (fun _ _ => by simp [demoToken])
      (fun m => ⟨m, rfl⟩) (fun m c h => by simp only [demoSeal, Option.some.injEq] at h ⊢; exact h.symm)


/-! ## Token equality -/

/-- C40, the code at the failing input. `Token::operator ==` compares the
protocol id, the client id, the expiry timestamp, the number of server
addresses and the first so many server addresses, and then returns true: for
all tokens it returns true exactly when these five agree, whatever the two
keys are. So a token and the same token with any other pair of keys compare
equal. On `demoToken 1` and `rekeyedToken`, which differ in every byte of both
keys, `==` returns true and `!=` returns false. -/
theorem C40_token_equality_ignores_keys :
    (∀ t other : Token, t.eq other = true ↔
      (t.protocol_id = other.protocol_id ∧ t.client_id = other.client_id ∧
        t.expiry_timestamp = other.expiry_timestamp ∧
        t.num_server_addresses = other.num_server_addresses ∧
        ∀ i, i < t.num_server_addresses.toNat → t.server_address i = other.server_address i)) ∧
    (∀ (t : Token) (k1 k2 : Nat → Nat),
      t.eq { t with client_to_server_key := k1, server_to_client_key := k2 } = true) ∧
    (demoToken 1).eq rekeyedToken = true ∧ (demoToken 1).ne rekeyedToken = false ∧
    (∀ i, (demoToken 1).client_to_server_key i = 1 ∧ rekeyedToken.client_to_server_key i = 9 ∧
      (demoToken 1).server_to_client_key i = 2 ∧ rekeyedToken.server_to_client_key i = 8) := by
  have h1 : ∀ t other : Token, t.eq other = true ↔
      (t.protocol_id = other.protocol_id ∧ t.client_id = other.client_id ∧
        t.expiry_timestamp = other.expiry_timestamp ∧
        t.num_server_addresses = other.num_server_addresses ∧
        ∀ i, i < t.num_server_addresses.toNat → t.server_address i = other.server_address i) := by
    intro t other
    unfold Token.eq
    by_cases hp : t.protocol_id = other.protocol_id
    · by_cases hc : t.client_id = other.client_id
      · by_cases he : t.expiry_timestamp = other.expiry_timestamp
        · by_cases hn : t.num_server_addresses = other.num_server_addresses
          · simp [hp, hc, he, hn, List.all_eq_true]
          · simp [hp, hc, he, hn]
        · simp [hp, hc, he]
      · simp [hp, hc]
    · simp [hp]
  have h2 : ∀ (t : Token) (k1 k2 : Nat → Nat),
      t.eq { t with client_to_server_key := k1, server_to_client_key := k2 } = true := by
    intro t k1 k2
    exact (h1 _ _).mpr ⟨rfl, rfl, rfl, rfl, fun _ _ => rfl⟩
  refine ⟨h1, h2, h2 _ _ _, ?_, fun i => ⟨rfl, rfl, rfl, rfl⟩⟩
  have h3 : (demoToken 1).eq rekeyedToken = true := h2 _ _ _
  simp [Token.ne, h3]

/-! ## The keep-alive loop of the secure server -/

theorem sendPacketsLoop_frame (time : Time) (l : List Nat) :
    ∀ (s : Server) (sent : Sent),
      (Server.sendPacketsLoop time l s sent).1.m_serverSalt = s.m_serverSalt ∧
      (Server.sendPacketsLoop time l s sent).1.m_numConnectedClients = s.m_numConnectedClients ∧
      (Server.sendPacketsLoop time l s sent).1.m_clientConnected = s.m_clientConnected ∧
      (Server.sendPacketsLoop time l s sent).1.m_clientId = s.m_clientId ∧
      (Server.sendPacketsLoop time l s sent).1.m_clientAddress = s.m_clientAddress ∧
      (Server.sendPacketsLoop time l s sent).1.m_challengeHash = s.m_challengeHash ∧
      (∀ k, k ∉ l → (Server.sendPacketsLoop time l s sent).1.m_clientData k = s.m_clientData k) ∧
      (∀ k, ((Server.sendPacketsLoop time l s sent).1.m_clientData k).lastPacketReceiveTime
        = (s.m_clientData k).lastPacketReceiveTime) := by
  induction l with
  | nil => intro s sent; simp [Server.sendPacketsLoop]
  | cons i rest ih =>
    intro s sent
    simp only [Server.sendPacketsLoop]
    split
    · obtain ⟨h1, h2, h3, h4, h5, h6, h7, h8⟩ := ih s sent
      exact ⟨h1, h2, h3, h4, h5, h6, fun k hk => h7 k (fun h => hk (List.mem_cons_of_mem _ h)), h8⟩
    · split
      · simp
      · obtain ⟨h1, h2, h3, h4, h5, h6, h7, h8⟩ :=
          ih (s.SendPacketToConnectedClient i Packet.ConnectionKeepAlive time).1
            (sent ++ (s.SendPacketToConnectedClient i Packet.ConnectionKeepAlive time).2)
        refine ⟨h1, h2, h3, h4, h5, h6, ?_, ?_⟩
        · intro k hk
          rw [h7 k (fun h => hk (List.mem_cons_of_mem _ h))]
          have hki : k ≠ i := fun h => hk (h ▸ List.mem_cons_self _ _)
          simp [Server.SendPacketToConnectedClient, Function.update_noteq hki]
        · intro k
          rw [h8 k]
          by_cases hki : k = i
          · subst hki; simp [Server.SendPacketToConnectedClient]
          · simp [Server.SendPacketToConnectedClient, Function.update_noteq hki]

/-- The `return` of `Server::SendPackets`: the loop ends at a connected client
that is not yet due, whatever indices are still to visit. -/
theorem sendPacketsLoop_return (time : Time) (i : Nat) (l2 : List Nat) (l1 : List Nat) :
    ∀ (s : Server) (sent : Sent), i ∉ l1 → s.m_clientConnected i = true →
      (s.m_clientData i).lastPacketSendTime + ConnectionKeepAliveSendRate > time →
      Server.sendPacketsLoop time (l1 ++ i :: l2) s sent = Server.sendPacketsLoop time l1 s sent := by
  induction l1 with
  | nil =>
    intro s sent _ hc hd
    simp only [List.nil_append, Server.sendPacketsLoop, hc, Bool.not_true, Bool.false_eq_true, if_false,
      if_pos hd]
  | cons j rest ih =>
    intro s sent hi hc hd
    have hji : i ≠ j := fun h => hi (h ▸ List.mem_cons_self _ _)
    have hrest : i ∉ rest := fun h => hi (List.mem_cons_of_mem _ h)
    simp only [List.cons_append, Server.sendPacketsLoop]
    split
    · exact ih s sent hrest hc hd
    · split
      · rfl
      · apply ih _ _ hrest
        · simpa [Server.SendPacketToConnectedClient] using hc
        · simpa [Server.SendPacketToConnectedClient, Function.update_noteq hji] using hd

theorem range_split (n i : Nat) (h : i < n) :
    List.range n = List.range i ++ i :: (List.range (n - i - 1)).map (fun k => i + 1 + k) := by
  have h1 : n = i + ((n - i - 1) + 1) := by omega
  conv_lhs => rw [h1, List.range_add, List.range_succ_eq_map]
  simp only [List.map_cons, List.map_map, Nat.add_zero, List.cons.injEq, true_and,
    List.append_cancel_left_eq]
  apply List.map_congr_left
  intro k _
  simp only [Function.comp]
  omega

/-- C39, the code at the failing input. `Server::SendPackets` leaves the loop
with `return` at the first connected client that is not yet due, so for every
server in which slot `i` is connected and not due the call does what the loop
over the slots below `i` does: every slot from `i` on keeps its client data
(no `lastPacketSendTime` is set and nothing is sent for it), whether or not its
client is due. On `staggeredServer` at 1 s, slot 1 holds a connected client
whose `lastPacketSendTime + ConnectionKeepAliveSendRate <= now`, but slot 0 is
not due: nothing is sent and nothing changes. With the same two clients in the
other slots the due client gets its keep-alive. -/
theorem C39_send_packets_returns_early :
    (∀ (s : Server) (time : Time) (i : Nat), i < MaxClients → s.m_clientConnected i = true →
      (s.m_clientData i).lastPacketSendTime + ConnectionKeepAliveSendRate > time →
      s.SendPackets time = Server.sendPacketsLoop time (List.range i) s [] ∧
      ∀ k, i ≤ k → (s.SendPackets time).1.m_clientData k = s.m_clientData k) ∧
    staggeredServer.m_clientConnected 1 = true ∧
    (staggeredServer.m_clientData 1).lastPacketSendTime + ConnectionKeepAliveSendRate ≤ 1000 ∧
    staggeredServer.m_clientConnected 0 = true ∧
    (staggeredServer.m_clientData 0).lastPacketSendTime + ConnectionKeepAliveSendRate > 1000 ∧
    (staggeredServer.SendPackets 1000).2 = [] ∧
    ((staggeredServer.SendPackets 1000).1.m_clientData 1).lastPacketSendTime = 0 ∧
    (staggeredServerSwapped.SendPackets 1000).2
      = [({ valid := true, host := 2, port := 1 }, Packet.ConnectionKeepAlive)] ∧
    ((staggeredServerSwapped.SendPackets 1000).1.m_clientData 0).lastPacketSendTime = 1000 := by
  refine ⟨?_, by decide, by decide, by decide, by decide, by decide, by decide, by decide,
    by decide⟩
  intro s time i hi hc hd
  have h1 : s.SendPackets time = Server.sendPacketsLoop time (List.range i) s [] := by
    unfold Server.SendPackets
    rw [range_split MaxClients i hi]
    exact sendPacketsLoop_return time i _ (List.range i) s [] (by simp) hc hd
  refine ⟨h1, fun k hk => ?_⟩
  rw [h1]
  exact (sendPacketsLoop_frame time (List.range i) s []).2.2.2.2.2.2.1 k (by simp; omega)
/-! ## Connecting a client -/

theorem find_range_some (p : Nat → Bool) (n i : Nat)
    (h : (List.range n).find? p = some i) :
    i < n ∧ p i = true ∧ ∀ j, j < i → p j = false := by
  induction n with
  | zero => simp at h
  | succ n ih =>
    rw [List.range_succ, List.find?_append] at h
    cases hf : (List.range n).find? p with
    | some j =>
      rw [hf] at h
      simp only [Option.or, Option.some.injEq] at h
      subst h
      obtain ⟨h1, h2, h3⟩ := ih hf
      exact ⟨by omega, h2, h3⟩
    | none =>
      rw [hf] at h
      simp only [Option.or, List.find?_cons, List.find?_nil] at h
      rw [List.find?_eq_none] at hf
      split at h
      · rename_i hp
        simp only [Option.some.injEq] at h
        subst h
        refine ⟨by omega, hp, fun j hj => ?_⟩
        have := hf j (List.mem_range.mpr hj)
        simpa using this
      · simp at h

theorem find_range_le (p : Nat → Bool) (n i : Nat) (hi : i < n) (hp : p i = true) :
    ∃ j, (List.range n).find? p = some j ∧ j ≤ i := by
  cases hf : (List.range n).find? p with
  | none =>
    rw [List.find?_eq_none] at hf
    have := hf i (List.mem_range.mpr hi)
    simp [hp] at this
  | some j =>
    refine ⟨j, rfl, ?_⟩
    obtain ⟨_, _, h3⟩ := find_range_some p n j hf
    by_contra hlt
    have := h3 i (by omega)
    simp [hp] at this

/-- C34, the code at the failing input. `Server::ConnectClient` and
`Server::AddClient` assert `m_numConnectedClients < MaxClients - 1`: with 31
connected clients the assertion is false for every slot, free or not, in both
servers, so the 32nd client cannot be connected without violating it, and a
call that meets the assertions leaves at most 31 connected clients. On the
servers with the slots 0 to 30 connected the count is 31, below `MaxClients`,
slot 31 is free (it is the slot `FindFreeClientIndex` returns), and the
assertions fail for it. Up to 30 connected clients the assertions do hold for
every free slot. -/
theorem C34_last_slot_fails_assertion :
    (∀ (s : Server) (i : Nat), s.m_numConnectedClients = 31 → s.ConnectClientAsserts i = false) ∧
    (∀ (s : ClientServer.Server) (i : Nat), s.m_numConnectedClients = 31 →
      s.AddClientAsserts i = false) ∧
    (∀ (s : Server) (i : Nat) (address : Address) (clientId : Nat) (time : Time),
      s.ConnectClientAsserts i = true →
      (s.ConnectClient i address clientId time).1.m_numConnectedClients ≤ 31) ∧
    (∀ (s : ClientServer.Server) (i : Nat) (address : Address) (clientSalt serverSalt : Nat),
      s.AddClientAsserts i = true →
      (s.AddClient i address clientSalt serverSalt).m_numConnectedClients ≤ 31) ∧
    (almostFullServer.m_numConnectedClients = 31 ∧
      almostFullServer.m_numConnectedClients < (MaxClients : Int) ∧
      almostFullServer.m_clientConnected 31 = false ∧
      almostFullServer.FindFreeClientIndex = some 31 ∧
      almostFullServer.ConnectClientAsserts 31 = false) ∧
    (almostFullPlainServer.m_numConnectedClients = 31 ∧
      almostFullPlainServer.m_numConnectedClients < (ClientServer.MaxClients : Int) ∧
      almostFullPlainServer.m_clientConnected 31 = false ∧
      almostFullPlainServer.AddClientAsserts 31 = false) ∧
    (∀ (s : Server) (i : Nat), 0 ≤ s.m_numConnectedClients → s.m_numConnectedClients < 31 →
      s.m_clientConnected i = false → s.ConnectClientAsserts i = true) ∧
    (∀ (s : ClientServer.Server) (i : Nat), 0 ≤ s.m_numConnectedClients →
      s.m_numConnectedClients < 31 → s.m_clientConnected i = false →
      s.AddClientAsserts i = true) := by
  refine ⟨?_, ?_, ?_, ?_, ⟨by decide, by decide, by decide, by decide, by decide⟩,
    ⟨by decide, by decide, by decide, by decide⟩, ?_, ?_⟩
  · intro s i h
    simp [Server.ConnectClientAsserts, h, MaxClients]
  · intro s i h
    simp [ClientServer.Server.AddClientAsserts, h, ClientServer.MaxClients]
  · intro s i address clientId time h
    simp only [Server.ConnectClientAsserts, MaxClients, Bool.and_eq_true, decide_eq_true_eq] at h
    simp only [Server.ConnectClient, Server.SendPacketToConnectedClient]
    have := h.1.2
    push_cast at this
    omega
  · intro s i address clientSalt serverSalt h
    simp only [ClientServer.Server.AddClientAsserts, ClientServer.MaxClients, Bool.and_eq_true,
      decide_eq_true_eq] at h
    simp only [ClientServer.Server.AddClient]
    have := h.1.2
    push_cast at this
    omega
  · intro s i h0 h1 hc
    simp only [Server.ConnectClientAsserts, MaxClients, Bool.and_eq_true, decide_eq_true_eq, hc,
      Bool.not_false, and_true]
    push_cast
    omega
  · intro s i h0 h1 hc
    simp only [ClientServer.Server.AddClientAsserts, ClientServer.MaxClients, Bool.and_eq_true,
      decide_eq_true_eq, hc, Bool.not_false, and_true]
    push_cast
    omega

/-- C35, the code at the failing input. `Server::AddClient` of the non-secure
server takes the address but does not store it: `m_clientAddress` is what it
was, so after `AddClient( i, A, .. )` on a server none of whose slots holds
`A`, `IsConnected( A )` is false. On a new server, after
`AddClient( 0, demoClientAddress, 5, 111 )` slot 0 is connected and holds the
two salts, its address is still the default address, and
`IsConnected( demoClientAddress )` returns false. The rest of the claim holds:
`AddClient` marks the slot, records the salts and adds one to the count; in the
secure server `ConnectClient` marks the slot, records the address and the
client id, adds one to the count, and `FindExistingClientIndex( A )` then
returns a connected slot holding `A` (slot `i` itself unless a lower connected
slot holds `A` too); and the slot `FindFreeClientIndex` returns is the lowest
free one. -/
theorem C35_add_client_drops_address :
    (∀ (s : ClientServer.Server) (i : Nat) (address : Address) (clientSalt serverSalt : Nat),
      (s.AddClient i address clientSalt serverSalt).m_clientAddress = s.m_clientAddress ∧
      (s.AddClient i address clientSalt serverSalt).m_clientConnected i = true ∧
      (s.AddClient i address clientSalt serverSalt).m_clientSalt i = clientSalt ∧
      (s.AddClient i address clientSalt serverSalt).m_serverSalt i = serverSalt ∧
      (s.AddClient i address clientSalt serverSalt).m_numConnectedClients
        = s.m_numConnectedClients + 1 ∧
      ((∀ j, j < ClientServer.MaxClients → s.m_clientAddress j ≠ address) →
        (s.AddClient i address clientSalt serverSalt).IsConnected address = false)) ∧
    (plainServerWithClient.m_clientConnected 0 = true ∧
      plainServerWithClient.m_clientSalt 0 = 5 ∧ plainServerWithClient.m_serverSalt 0 = 111 ∧
      plainServerWithClient.m_clientAddress 0 = Address.default ∧
      plainServerWithClient.IsConnected demoClientAddress = false) ∧
    (∀ (s : Server) (i : Nat) (address : Address) (clientId : Nat) (time : Time),
      (s.ConnectClient i address clientId time).1.m_clientConnected i = true ∧
      (s.ConnectClient i address clientId time).1.m_clientAddress i = address ∧
      (s.ConnectClient i address clientId time).1.m_clientId i = clientId ∧
      (s.ConnectClient i address clientId time).1.m_numConnectedClients
        = s.m_numConnectedClients + 1 ∧
      (i < MaxClients →
        ∃ j, (s.ConnectClient i address clientId time).1.FindExistingClientIndex address = some j ∧
          j ≤ i ∧ (s.ConnectClient i address clientId time).1.m_clientConnected j = true ∧
          (s.ConnectClient i address clientId time).1.m_clientAddress j = address) ∧
      (i < MaxClients →
        (∀ j, j < i → ¬ (s.m_clientConnected j = true ∧ s.m_clientAddress j = address)) →
        (s.ConnectClient i address clientId time).1.FindExistingClientIndex address = some i)) ∧
    (∀ (s : Server) (i : Nat), s.FindFreeClientIndex = some i →
      i < MaxClients ∧ s.m_clientConnected i = false ∧ ∀ j, j < i → s.m_clientConnected j = true) := by
  refine ⟨?_, ⟨by decide, by decide, by decide, by decide, by decide⟩, ?_, ?_⟩
  · intro s i address clientSalt serverSalt
    refine ⟨rfl, by simp [ClientServer.Server.AddClient],
      by simp [ClientServer.Server.AddClient], by simp [ClientServer.Server.AddClient], rfl, ?_⟩
    intro h
    simp only [ClientServer.Server.IsConnected, ClientServer.Server.AddClient, List.any_eq_false,
      List.mem_range, Bool.and_eq_true, decide_eq_true_eq, not_and]
    intro j hj _
    exact h j hj
  · intro s i address clientId time
    have hc : (s.ConnectClient i address clientId time).1.m_clientConnected i = true := by
      simp [Server.ConnectClient, Server.SendPacketToConnectedClient]
    have ha : (s.ConnectClient i address clientId time).1.m_clientAddress i = address := by
      simp [Server.ConnectClient, Server.SendPacketToConnectedClient]
    refine ⟨hc, ha, by simp [Server.ConnectClient, Server.SendPacketToConnectedClient], rfl, ?_, ?_⟩
    · intro hi
      obtain ⟨j, hj, hle⟩ := find_range_le
        (fun k => (s.ConnectClient i address clientId time).1.m_clientConnected k &&
          decide ((s.ConnectClient i address clientId time).1.m_clientAddress k = address))
        MaxClients i hi (by simp [hc, ha])
      have h3 := FindExistingClientIndex_some _ _ _ hj
      exact ⟨j, hj, hle, h3.1, h3.2.1⟩
    · intro hi hlow
      obtain ⟨j, hj, hle⟩ := find_range_le
        (fun k => (s.ConnectClient i address clientId time).1.m_clientConnected k &&
          decide ((s.ConnectClient i address clientId time).1.m_clientAddress k = address))
        MaxClients i hi (by simp [hc, ha])
      have h3 := FindExistingClientIndex_some _ _ _ hj
      by_cases hji : j = i
      · subst hji; exact hj
      · exfalso
        have hlt : j < i := by omega
        apply hlow j hlt
        have h4 := h3.1
        have h5 := h3.2.1
        simp only [Server.ConnectClient, Server.SendPacketToConnectedClient,
          Function.update_noteq hji] at h4 h5
        exact ⟨h4, h5⟩
  · intro s i h
    obtain ⟨h1, h2, h3⟩ := find_range_some _ _ _ h
    refine ⟨h1, by simpa using h2, fun j hj => ?_⟩
    have := h3 j hj
    simpa using this
/-! ## The connected count of the secure server -/

theorem countP_range_update (p : Nat → Bool) (b : Bool) (i n : Nat) :
    (List.range n).countP (Function.update p i b) + (if i < n ∧ p i = true then 1 else 0)
      = (List.range n).countP p + (if i < n ∧ b = true then 1 else 0) := by
  induction n with
  | zero => simp
  | succ n ih =>
    simp only [List.range_succ, List.countP_append, List.countP_cons, List.countP_nil, Nat.zero_add]
    by_cases hin : i = n
    · subst hin
      have h1 : ¬ (i < i) := by omega
      simp only [h1, false_and, if_false, Nat.add_zero] at ih
      simp only [Function.update_same, Nat.lt_succ_self, true_and, ih]
      by_cases hp : p i = true <;> by_cases hb : b = true <;> simp [hp, hb]
    · have h2 : Function.update p i b n = p n := Function.update_noteq (Ne.symm hin) _ _
      rw [h2]
      by_cases hlt : i < n
      · have h3 : i < n + 1 := by omega
        simp only [hlt, h3, true_and] at ih ⊢
        omega
      · have h3 : ¬ i < n + 1 := by omega
        simp only [hlt, h3, false_and, if_false, Nat.add_zero] at ih ⊢
        omega

theorem ConnectClient_countOk (s : Server) (i : Nat) (address : Address) (clientId : Nat)
    (time : Time) (h : CountOk s) (hi : i < MaxClients) (hc : s.m_clientConnected i = false) :
    CountOk (s.ConnectClient i address clientId time).1 := by
  have h1 := countP_range_update s.m_clientConnected true i MaxClients
  simp only [hi, hc, Bool.false_eq_true, and_false, if_false, Nat.add_zero, and_self,
    if_true] at h1
  unfold CountOk at h ⊢
  simp only [Server.connectedCount, Server.ConnectClient, Server.SendPacketToConnectedClient] at h ⊢
  rw [h1, h]
  push_cast
  rfl

theorem DisconnectClient_countOk (s : Server) (i : Nat) (time : Time) (h : CountOk s)
    (hi : i < MaxClients) (hc : s.m_clientConnected i = true) :
    CountOk (s.DisconnectClient i time).1 := by
  have h1 := countP_range_update s.m_clientConnected false i MaxClients
  simp only [hi, hc, and_self, if_true, Bool.false_eq_true, and_false, if_false,
    Nat.add_zero] at h1
  unfold CountOk at h ⊢
  simp only [Server.connectedCount, Server.DisconnectClient, Server.SendPacketToConnectedClient,
    Server.ResetClientState] at h ⊢
  rw [h, ← h1]
  push_cast
  omega

theorem receivePacket_countOk (s : Server) (time : Time) (address : Address) (packet : Packet)
    (h : CountOk s) : CountOk (s.receivePacket time address packet).1 := by
  cases packet with
  | ConnectionRequest =>
    simp only [Server.receivePacket, Server.ProcessConnectionRequest]
    split <;> exact h
  | ConnectionDenied reason => exact h
  | ConnectionChallenge salt => exact h
  | ConnectionResponse salt => exact h
  | ConnectionKeepAlive =>
    simp only [Server.receivePacket, Server.ProcessConnectionKeepAlive]
    split
    · exact h
    · exact h
  | ConnectionDisconnect =>
    simp only [Server.receivePacket, Server.ProcessConnectionDisconnect]
    split
    · exact h
    · rename_i j hj
      obtain ⟨h1, _, h3⟩ := FindExistingClientIndex_some _ _ _ hj
      exact DisconnectClient_countOk s j time h h3 h1

theorem ReceivePackets_countOk (time : Time) (queue : List (Address × Packet)) :
    ∀ s : Server, CountOk s → CountOk (Server.ReceivePackets time s queue).1 := by
  induction queue with
  | nil => intro s h; exact h
  | cons p rest ih =>
    intro s h
    obtain ⟨address, packet⟩ := p
    simp only [Server.ReceivePackets]
    exact ih _ (receivePacket_countOk s time address packet h)

theorem checkForTimeOutLoop_countOk (time : Time) (l : List Nat) :
    ∀ (s : Server) (sent : Sent), (∀ i ∈ l, i < MaxClients) → CountOk s →
      CountOk (Server.checkForTimeOutLoop time l s sent).1 := by
  induction l with
  | nil => intro s sent _ h; exact h
  | cons i rest ih =>
    intro s sent hl h
    have hrest : ∀ k ∈ rest, k < MaxClients := fun k hk => hl k (List.mem_cons_of_mem _ hk)
    simp only [Server.checkForTimeOutLoop]
    split
    · exact ih s sent hrest h
    · rename_i hc
      split
      · exact ih _ _ hrest
          (DisconnectClient_countOk s i time h (hl i (List.mem_cons_self _ _)) (by simpa using hc))
      · exact ih s sent hrest h

theorem Server.reachable_countOk {s : Server} (h : Server.Reachable s) : CountOk s := by
  induction h with
  | init serverSalt =>
    unfold CountOk
    simp [Server.connectedCount, Server.new]
  | connect i address clientId time _ hi hc ih => exact ConnectClient_countOk _ i _ _ _ ih hi hc
  | disconnect i time _ hi hc ih => exact DisconnectClient_countOk _ i _ ih hi hc
  | receive time queue _ ih => exact ReceivePackets_countOk time queue _ ih
  | timeOut time _ ih =>
    exact checkForTimeOutLoop_countOk time _ _ _ (fun i hi => List.mem_range.mp hi) ih
  | send time _ ih =>
    unfold CountOk at ih ⊢
    obtain ⟨_, h2, h3, _⟩ := sendPacketsLoop_frame time (List.range MaxClients) _ []
    simp only [Server.SendPackets, Server.connectedCount] at ih ⊢
    rw [h2, h3]
    exact ih

/-- What the loop of `Server::CheckForTimeOut` does to each slot: a slot of
the list that is connected and timed out is reset, every other slot is left as
it is. -/
theorem checkForTimeOutLoop_slots (time : Time) (l : List Nat) :
    ∀ (s : Server) (sent : Sent), l.Nodup →
      (∀ i, i ∈ l → s.m_clientConnected i = true →
        (s.m_clientData i).lastPacketReceiveTime + KeepAliveTimeOut < time →
        (Server.checkForTimeOutLoop time l s sent).1.m_clientConnected i = false ∧
        (Server.checkForTimeOutLoop time l s sent).1.m_clientId i = 0 ∧
        (Server.checkForTimeOutLoop time l s sent).1.m_clientAddress i = Address.default ∧
        (Server.checkForTimeOutLoop time l s sent).1.m_clientData i = ServerClientData.new) ∧
      (∀ i, ¬ (i ∈ l ∧ s.m_clientConnected i = true ∧
          (s.m_clientData i).lastPacketReceiveTime + KeepAliveTimeOut < time) →
        (Server.checkForTimeOutLoop time l s sent).1.m_clientConnected i = s.m_clientConnected i ∧
        (Server.checkForTimeOutLoop time l s sent).1.m_clientId i = s.m_clientId i ∧
        (Server.checkForTimeOutLoop time l s sent).1.m_clientAddress i = s.m_clientAddress i ∧
        (Server.checkForTimeOutLoop time l s sent).1.m_clientData i = s.m_clientData i) := by
  induction l with
  | nil =>
    intro s sent _
    exact ⟨fun i hi => absurd hi (List.not_mem_nil _), fun i _ => ⟨rfl, rfl, rfl, rfl⟩⟩
  | cons j rest ih =>
    intro s sent hnd
    have hj : j ∉ rest := (List.nodup_cons.mp hnd).1
    have hrest : rest.Nodup := (List.nodup_cons.mp hnd).2
    simp only [Server.checkForTimeOutLoop]
    split
    · rename_i hc
      have hc1 : s.m_clientConnected j = false := by simpa using hc
      obtain ⟨h1, h2⟩ := ih s sent hrest
      constructor
      · intro i hi hci hti
        rcases List.mem_cons.mp hi with rfl | hi1
        · rw [hc1] at hci; exact absurd hci (by simp)
        · exact h1 i hi1 hci hti
      · intro i hni
        apply h2 i
        intro ⟨h3, h4, h5⟩
        exact hni ⟨List.mem_cons_of_mem _ h3, h4, h5⟩
    · rename_i hc
      have hc1 : s.m_clientConnected j = true := by simpa using hc
      split
      · rename_i ht
        obtain ⟨h1, h2⟩ := ih (s.DisconnectClient j time).1 (sent ++ (s.DisconnectClient j time).2)
          hrest
        have hother : ∀ i, i ≠ j →
            (s.DisconnectClient j time).1.m_clientConnected i = s.m_clientConnected i ∧
            (s.DisconnectClient j time).1.m_clientId i = s.m_clientId i ∧
            (s.DisconnectClient j time).1.m_clientAddress i = s.m_clientAddress i ∧
            (s.DisconnectClient j time).1.m_clientData i = s.m_clientData i := by
          intro i hij
          simp [Server.DisconnectClient, Server.SendPacketToConnectedClient,
            Server.ResetClientState, Function.update_noteq hij]
        have hself : (s.DisconnectClient j time).1.m_clientConnected j = false ∧
            (s.DisconnectClient j time).1.m_clientId j = 0 ∧
            (s.DisconnectClient j time).1.m_clientAddress j = Address.default ∧
            (s.DisconnectClient j time).1.m_clientData j = ServerClientData.new := by
          simp [Server.DisconnectClient, Server.SendPacketToConnectedClient,
            Server.ResetClientState]
        constructor
        · intro i hi hci hti
          by_cases hij : i = j
          · subst hij
            obtain ⟨g1, g2, g3, g4⟩ := h2 i (fun h => hj h.1)
            rw [g1, g2, g3, g4]
            exact hself
          · have hi1 : i ∈ rest := by
              rcases List.mem_cons.mp hi with h | h
              · exact absurd h hij
              · exact h
            obtain ⟨o1, _, _, o4⟩ := hother i hij
            exact h1 i hi1 (by rw [o1]; exact hci) (by rw [o4]; exact hti)
        · intro i hni
          have hij : i ≠ j := by
            intro h
            subst h
            exact hni ⟨List.mem_cons_self _ _, hc1, ht⟩
          obtain ⟨o1, o2, o3, o4⟩ := hother i hij
          obtain ⟨g1, g2, g3, g4⟩ := h2 i (by
            intro ⟨h3, h4, h5⟩
            exact hni ⟨List.mem_cons_of_mem _ h3, by rw [← o1]; exact h4, by rw [← o4]; exact h5⟩)
          exact ⟨g1.trans o1, g2.trans o2, g3.trans o3, g4.trans o4⟩
      · rename_i ht
        obtain ⟨h1, h2⟩ := ih s sent hrest
        constructor
        · intro i hi hci hti
          rcases List.mem_cons.mp hi with rfl | hi1
          · exact absurd hti ht
          · exact h1 i hi1 hci hti
        · intro i hni
          apply h2 i
          intro ⟨h3, h4, h5⟩
          exact hni ⟨List.mem_cons_of_mem _ h3, h4, h5⟩

/-- C38. In every state the secure server reaches from its construction
through `ConnectClient` on a free slot, `DisconnectClient` on a connected slot,
`ReceivePackets`, `CheckForTimeOut` and `SendPackets`, `m_numConnectedClients`
is the number of slots with `m_clientConnected` true and lies between 0 and
`MaxClients`. After `CheckForTimeOut( now )` no connected slot has
`lastPacketReceiveTime + KeepAliveTimeOut < now`; a slot that was connected and
timed out is reset (not connected, client id 0, default address, fresh client
data), and every other slot is as it was. -/
theorem C38_connected_count (s : Server) (h : Server.Reachable s) :
    s.m_numConnectedClients = (s.connectedCount : Int) ∧
    0 ≤ s.m_numConnectedClients ∧ s.m_numConnectedClients ≤ (MaxClients : Int) ∧
    ∀ now : Time,
      (∀ i, i < MaxClients → (s.CheckForTimeOut now).1.m_clientConnected i = true →
        ¬ (((s.CheckForTimeOut now).1.m_clientData i).lastPacketReceiveTime + KeepAliveTimeOut
            < now)) ∧
      (∀ i, i < MaxClients → s.m_clientConnected i = true →
        (s.m_clientData i).lastPacketReceiveTime + KeepAliveTimeOut < now →
        (s.CheckForTimeOut now).1.m_clientConnected i = false ∧
        (s.CheckForTimeOut now).1.m_clientId i = 0 ∧
        (s.CheckForTimeOut now).1.m_clientAddress i = Address.default ∧
        (s.CheckForTimeOut now).1.m_clientData i = ServerClientData.new) ∧
      (∀ i, ¬ (i < MaxClients ∧ s.m_clientConnected i = true ∧
          (s.m_clientData i).lastPacketReceiveTime + KeepAliveTimeOut < now) →
        (s.CheckForTimeOut now).1.m_clientConnected i = s.m_clientConnected i ∧
        (s.CheckForTimeOut now).1.m_clientId i = s.m_clientId i ∧
        (s.CheckForTimeOut now).1.m_clientAddress i = s.m_clientAddress i ∧
        (s.CheckForTimeOut now).1.m_clientData i = s.m_clientData i) := by
  have hc := Server.reachable_countOk h
  unfold CountOk at hc
  have hle : s.connectedCount ≤ MaxClients := by
    have := List.countP_le_length s.m_clientConnected (l := List.range MaxClients)
    simpa [Server.connectedCount] using this
  refine ⟨hc, by rw [hc]; exact Int.natCast_nonneg _, by rw [hc]; exact_mod_cast hle, ?_⟩
  intro now
  obtain ⟨h1, h2⟩ := checkForTimeOutLoop_slots now (List.range MaxClients) s []
    (List.nodup_range _)
  have h3 : ∀ i, ¬ (i < MaxClients ∧ s.m_clientConnected i = true ∧
      (s.m_clientData i).lastPacketReceiveTime + KeepAliveTimeOut < now) →
      (s.CheckForTimeOut now).1.m_clientConnected i = s.m_clientConnected i ∧
      (s.CheckForTimeOut now).1.m_clientId i = s.m_clientId i ∧
      (s.CheckForTimeOut now).1.m_clientAddress i = s.m_clientAddress i ∧
      (s.CheckForTimeOut now).1.m_clientData i = s.m_clientData i := by
    intro i hni
    exact h2 i (fun ⟨g1, g2, g3⟩ => hni ⟨List.mem_range.mp g1, g2, g3⟩)
  refine ⟨?_, fun i hi hci hti => h1 i (List.mem_range.mpr hi) hci hti, h3⟩
  intro i hi hconn hto
  by_cases hold : s.m_clientConnected i = true ∧
      (s.m_clientData i).lastPacketReceiveTime + KeepAliveTimeOut < now
  · have := (h1 i (List.mem_range.mpr hi) hold.1 hold.2).1
    unfold Server.CheckForTimeOut at hconn
    rw [this] at hconn
    exact absurd hconn (by simp)
  · obtain ⟨g1, _, _, g4⟩ := h3 i (fun g => hold ⟨g.2.1, g.2.2⟩)
    rw [g1] at hconn
    rw [g4] at hto
    exact hold ⟨hconn, hto⟩

theorem C38_connected_count_witness :
    Server.Reachable staggeredServer ∧
    staggeredServer.m_numConnectedClients = (staggeredServer.connectedCount : Int) ∧
    0 ≤ staggeredServer.m_numConnectedClients ∧
    staggeredServer.m_numConnectedClients ≤ (MaxClients : Int) ∧
    staggeredServer.connectedCount = 2 ∧
    (staggeredServer.CheckForTimeOut 10400).1.m_clientConnected 1 = false ∧
    (staggeredServer.CheckForTimeOut 10400).1.m_clientConnected 0 = true :=
  have hr : Server.Reachable staggeredServer :=
    Server.Reachable.connect 0 _ 10 500
      (Server.Reachable.connect 1 _ 11 0 (Server.Reachable.init 7) (by decide) (by decide))
      (by decide) (by decide)
  ⟨hr, (C38_connected_count staggeredServer hr).1, (C38_connected_count staggeredServer hr).2.1,
    (C38_connected_count staggeredServer hr).2.2.1, by decide, by decide, by decide⟩
/-! ## The receive window as an invariant -/

/-- C31. Whatever `ReadPacket` and `ReceiveMessage` calls are made on a fresh
(constructed or reset) connection, none faults, and in the state reached every
id stored in the receive queue lies in the window of `MessageReceiveQueueSize`
ids that starts at `receive_message_id` (modulo 2^16), sits in its own slot,
and the entry stored under it holds a message with exactly that id. In such a
state the receive queue's `Insert` returns an entry for every id that passes
the two window tests of `ProcessPacketMessages`, so `ProcessPacketMessages`
and `ReadPacket` return for every packet. The window part and the absence of
faults hold as well in every state reached through any public calls. -/
theorem C31_receive_queue_invariant (w0 : World) (hfresh : Fresh w0.conn)
    (ops : List ReceiveOp) :
    (∃ w ids, receiveRun w0 ops = some (w, ids) ∧
      (∀ i q, w.conn.messageReceiveQueue.sequence_of_slot i = some q →
        (q + 65536 - w.conn.receiveMessageId) % 65536 < MessageReceiveQueueSize ∧
        i = q % MessageReceiveQueueSize ∧
        (w.heap (w.conn.messageReceiveQueue.entries i).message).GetId = q) ∧
      (∀ id e, w.conn.messageReceiveQueue.Find id = some e →
        (id + 65536 - w.conn.receiveMessageId) % 65536 < MessageReceiveQueueSize ∧
        (w.heap e.message).GetId = id) ∧
      (∀ id, id < 65536 → sequence_less_than id w.conn.receiveMessageId = false →
        sequence_greater_than id
          ((w.conn.receiveMessageId + MessageReceiveQueueSize - 1) % 65536) = false →
        ∃ q, w.conn.messageReceiveQueue.Insert id = some (q, id % MessageReceiveQueueSize)) ∧
      (∀ packet, ∃ w1 b, ProcessPacketMessages w packet = some (w1, b)) ∧
      (∀ packet, ∃ w1 b, ReadPacket w packet = some (w1, b))) ∧
    (∀ (bits_required : Int → Int → Int) (numTypes : Int) (w : World),
      Reachable bits_required numTypes w →
      (∀ i q, w.conn.messageReceiveQueue.sequence_of_slot i = some q →
        (q + 65536 - w.conn.receiveMessageId) % 65536 < MessageReceiveQueueSize ∧
        i = q % MessageReceiveQueueSize) ∧
      (∀ packet, ∃ w1 b, ProcessPacketMessages w packet = some (w1, b))) := by
  have hwin : ∀ w : World, ReceiveQueueInv w.conn →
      (∀ i q, w.conn.messageReceiveQueue.sequence_of_slot i = some q →
        (q + 65536 - w.conn.receiveMessageId) % 65536 < MessageReceiveQueueSize ∧
        i = q % MessageReceiveQueueSize) := by
    intro w hinv i q hq
    obtain ⟨_, _, h3, h4⟩ := hinv
    obtain ⟨_, g2, g3⟩ := h4 i q hq
    exact ⟨lt_of_lt_of_le g3 h3, g2⟩
  have hppm : ∀ w : World, ReceiveQueueInv w.conn →
      ∀ packet, ∃ w1 b, ProcessPacketMessages w packet = some (w1, b) := by
    intro w hinv packet
    obtain ⟨w1, e1, h1, _⟩ := processPacketMessagesLoop_spec w.conn.receiveMessageId
      packet.messages w false rfl hinv
    exact ⟨w1, !e1, by simp [ProcessPacketMessages, h1]⟩
  constructor
  · obtain ⟨w, ids, hrun, _, _, hinv, hids⟩ := receiveRun_spec ops w0
      hfresh.receiveQueueInv (Fresh.receiveQueueIdsOk hfresh)
    refine ⟨w, ids, hrun, ?_, ?_, ?_, hppm w hinv, ?_⟩
    · intro i q hq
      obtain ⟨g1, g2⟩ := hwin w hinv i q hq
      exact ⟨g1, g2, hids i q hq⟩
    · intro id e he
      obtain ⟨hs, he1⟩ := (SequenceBuffer.Find_eq_some _ _ _).mp he
      obtain ⟨g1, _⟩ := hwin w hinv _ _ hs
      refine ⟨g1, ?_⟩
      rw [← he1]
      exact hids _ _ hs
    · intro id hid h1 h2
      have hx := (recv_window_iff w.conn.receiveMessageId id hinv.1 hid).mp ⟨h1, h2⟩
      obtain ⟨q, hq, _⟩ := recv_insert w.conn hinv id hid hx
      exact ⟨q, hq⟩
    · intro packet
      obtain ⟨w1, b, h1, _⟩ := ReadPacket_recv w packet hinv
      exact ⟨w1, b, h1⟩
  · intro bits_required numTypes w hr
    have hinv := (reachable_inv hr).1.1
    exact ⟨hwin w hinv, hppm w hinv⟩

theorem C31_receive_queue_invariant_witness :
    Fresh demoWorld.conn ∧
    (receiveRun demoWorld
      [ReceiveOp.readPacket ⟨0, 0, 0, [2, 5]⟩, ReceiveOp.receiveMessage,
       ReceiveOp.readPacket ⟨1, 0, 0, [1, 4]⟩]).map
        (fun r => (r.1.conn.receiveMessageId,
          (List.range 6).map (fun i => r.1.conn.messageReceiveQueue.sequence_of_slot i)))
      = some (0, [some 0, some 1, none, some 3, some 4, none]) ∧
    ∃ w ids, receiveRun demoWorld
      [ReceiveOp.readPacket ⟨0, 0, 0, [2, 5]⟩, ReceiveOp.receiveMessage,
       ReceiveOp.readPacket ⟨1, 0, 0, [1, 4]⟩] = some (w, ids) ∧
      (∀ i q, w.conn.messageReceiveQueue.sequence_of_slot i = some q →
        (q + 65536 - w.conn.receiveMessageId) % 65536 < MessageReceiveQueueSize ∧
        i = q % MessageReceiveQueueSize ∧
        (w.heap (w.conn.messageReceiveQueue.entries i).message).GetId = q) ∧
      (∀ packet, ∃ w1 b, ReadPacket w packet = some (w1, b)) :=
  ⟨Connection.new_fresh _ _, by decide,
    let ⟨w, ids, h1, h2, _, _, _, h6⟩ :=
      (C31_receive_queue_invariant demoWorld (Connection.new_fresh _ _) _).1
    ⟨w, ids, h1, h2, h6⟩⟩

/-! ## The acked flag of a message-sent-packet entry -/

theorem ReadPacket_sentPackets (w : World) (packet : ConnectionPacket) (w1 : World) (b : Bool)
    (h : ReadPacket w packet = some (w1, b)) :
    w1.conn.messageSentPackets = w.conn.messageSentPackets := by
  unfold ReadPacket at h
  split at h
  · simp only [Option.some.injEq, Prod.mk.injEq] at h
    rw [← h.1]
  · unfold ProcessPacketMessages at h
    cases hl : processPacketMessagesLoop w.conn.receiveMessageId
        ((w.conn.receiveMessageId + MessageReceiveQueueSize - 1) % 65536) packet.messages w
        false with
    | none => simp [hl] at h
    | some r =>
      obtain ⟨w2, e2⟩ := r
      have hf := (processPacketMessagesLoop_frame _ _ _ _ _ _ _ hl).1
      have hsp : w2.conn.messageSentPackets = w.conn.messageSentPackets := by rw [hf]
      simp only [hl] at h
      cases e2 with
      | true =>
        simp only [Bool.not_true, Option.some.injEq, Prod.mk.injEq] at h
        rw [← h.1]; exact hsp
      | false =>
        simp only [Bool.not_false] at h
        split at h
        · simp only [Option.some.injEq, Prod.mk.injEq] at h
          rw [← h.1]; exact hsp
        · simp only [Option.some.injEq, Prod.mk.injEq] at h
          rw [← h.1]
          exact Eq.trans (ProcessAcks_frame _ _ _).2.2.2.2.2.2.1 hsp

/-- C32, the code at the failing input. `ProcessMessageAck` reads the `acked`
field of the message-sent-packet entry and never writes it; the flag that
`ProcessAcks` sets belongs to the other buffer (`m_sentPackets`). So
`ProcessMessageAck`, `PacketAcked`, `ProcessAcks` and `ReadPacket` leave the
whole message-sent-packets buffer as it was, the `acked` fields included. On
the connection that has sent two messages in packet 0, the entry of packet 0 is
present with `acked = 0`; after `PacketAcked( 0 )`, and after a `ReadPacket`
that acks packet 0, the two messages are gone from the send queue, the
sent-packets entry is acked, and the message-sent-packet entry still has
`acked = 0`. -/
theorem C32_entry_is_never_marked_acked :
    (∀ (w : World) (ack : Nat),
      (ProcessMessageAck w ack).conn.messageSentPackets = w.conn.messageSentPackets) ∧
    (∀ (w : World) (s : Nat),
      (PacketAcked w s).conn.messageSentPackets = w.conn.messageSentPackets) ∧
    (∀ (w : World) (ack ack_bits : Nat),
      (ProcessAcks w ack ack_bits).conn.messageSentPackets = w.conn.messageSentPackets) ∧
    (∀ (w : World) (packet : ConnectionPacket) (w1 : World) (b : Bool),
      ReadPacket w packet = some (w1, b) →
      w1.conn.messageSentPackets = w.conn.messageSentPackets) ∧
    (writtenTwo.conn.messageSentPackets.Find 0).map (fun e => (e.acked, e.numMessageIds))
      = some (0, 2) ∧
    ((PacketAcked writtenTwo 0).conn.messageSentPackets.Find 0).map (fun e => e.acked) = some 0 ∧
    ((PacketAcked writtenTwo 0).conn.messageSendQueue.Find 0).isSome = false ∧
    ((PacketAcked writtenTwo 0).conn.messageSendQueue.Find 1).isSome = false ∧
    (ReadPacket writtenTwo { sequence := 0, ack := 0, ack_bits := 1, messages := [] }).map
      (fun r => (r.2, (r.1.conn.messageSentPackets.Find 0).map (fun e => e.acked),
        (r.1.conn.sentPackets.Find 0).map (fun e => e.acked), r.1.packetAcked,
        (r.1.conn.messageSendQueue.Find 0).isSome, (r.1.conn.messageSendQueue.Find 1).isSome))
      = some (true, some 0, some 1, [0], false, false) := by
  refine ⟨fun w ack => (ProcessMessageAck_frame w ack).2.2.2.2.2.2.1,
    fun w s => (PacketAcked_frame w s).2.2.2.2.2.2.1,
    fun w ack bits => (ProcessAcks_frame w ack bits).2.2.2.2.2.2.1,
    ReadPacket_sentPackets, by decide, by decide, by decide, by decide, by decide⟩

/-! ## Challenges of the non-secure server -/

/-- C33, the code at the failing input. `ProcessConnectionRequest` of the
non-secure server sends nothing: where the challenge is due the source prints
a line, holds the comment "todo: send connection challenge packet" and sets
`last_packet_send_time`; the function returns nothing and the server has no
network interface, so its whole effect is the server state computed here. That
state follows the rate limit of the claim. For a request that reaches an entry
(server not full, address not connected, `FindOrInsertChallenge` returns an
entry), the entry's `last_packet_send_time` becomes `now` when
`last_packet_send_time + ChallengeSendRate < now`, and otherwise the state is
the one `FindOrInsertChallenge` left. A request whose slot is empty or expired
leaves a fresh entry with `create_time = now` and, the time stamp being due at
once, `last_packet_send_time = now`. A repeat request for an unexpired entry
with the same address and client salt at a time
`now <= last_packet_send_time + ChallengeSendRate` changes nothing. On a new
server the request of the demo client at time 0 leaves exactly such an entry
(server salt 111, both times 0). -/
theorem C33_challenge_is_not_sent :
    (∀ (key : Address → Nat → Nat) (g : Nat) (s s1 : ClientServer.Server) (salt index : Nat)
        (address : Address) (now : Time),
      s.m_numConnectedClients ≠ (ClientServer.MaxClients : Int) →
      s.IsConnected address = false →
      ClientServer.Server.FindOrInsertChallenge key g s address salt now = (s1, some index) →
      s.ProcessConnectionRequest key g salt address now =
        if (s1.m_challengeHash.entries index).last_packet_send_time
            + ClientServer.ChallengeSendRate < now then
          { s1 with
            m_challengeHash :=
              { s1.m_challengeHash with
                entries := Function.update s1.m_challengeHash.entries index
                  { s1.m_challengeHash.entries index with last_packet_send_time := now } } }
        else s1) ∧
    (∀ (key : Address → Nat → Nat) (g : Nat) (s : ClientServer.Server) (salt : Nat)
        (address : Address) (now : Time),
      s.m_numConnectedClients ≠ (ClientServer.MaxClients : Int) →
      s.IsConnected address = false →
      s.m_challengeHash.num_entries < ((ClientServer.ChallengeHashSize / 4 : Nat) : Int) →
      (s.m_challengeHash.exists_ (key address salt % ClientServer.ChallengeHashSize) = 0 ∨
        (s.m_challengeHash.entries (key address salt % ClientServer.ChallengeHashSize)).create_time
          + ClientServer.ChallengeTimeOut < now) →
      (s.ProcessConnectionRequest key g salt address now).m_challengeHash.exists_
          (key address salt % ClientServer.ChallengeHashSize) = 1 ∧
      (s.ProcessConnectionRequest key g salt address now).m_challengeHash.entries
          (key address salt % ClientServer.ChallengeHashSize)
        = { client_salt := salt, server_salt := g, create_time := now,
            last_packet_send_time := now, address := address }) ∧
    (∀ (key : Address → Nat → Nat) (g : Nat) (s : ClientServer.Server) (salt : Nat)
        (address : Address) (now : Time),
      s.m_challengeHash.exists_ (key address salt % ClientServer.ChallengeHashSize) ≠ 0 →
      (s.m_challengeHash.entries (key address salt % ClientServer.ChallengeHashSize)).create_time
          + ClientServer.ChallengeTimeOut ≥ now →
      (s.m_challengeHash.entries (key address salt % ClientServer.ChallengeHashSize)).client_salt
        = salt →
      (s.m_challengeHash.entries (key address salt % ClientServer.ChallengeHashSize)).address
        = address →
      now ≤ (s.m_challengeHash.entries
          (key address salt % ClientServer.ChallengeHashSize)).last_packet_send_time
            + ClientServer.ChallengeSendRate →
      s.ProcessConnectionRequest key g salt address now = s) ∧
    (challengingServer.m_challengeHash.exists_ 827 = 1 ∧
      challengingServer.m_challengeHash.entries 827
        = { client_salt := 5, server_salt := 111, create_time := 0, last_packet_send_time := 0,
            address := demoClientAddress } ∧
      ClientServer.portKey demoClientAddress 5 % ClientServer.ChallengeHashSize = 827) := by
  refine ⟨?_, ?_, ?_, ⟨by decide, by decide, by decide⟩⟩
  · intro key g s s1 salt index address now hfull hconn hfind
    unfold ClientServer.Server.ProcessConnectionRequest
    rw [if_neg hfull, hconn]
    simp only [Bool.false_eq_true, if_false, hfind]
  · intro key g s salt address now hfull hconn hnum hslot
    have hcond : s.m_challengeHash.exists_ (key address salt % ClientServer.ChallengeHashSize) = 0 ∨
        (s.m_challengeHash.exists_ (key address salt % ClientServer.ChallengeHashSize) ≠ 0 ∧
          (s.m_challengeHash.entries
            (key address salt % ClientServer.ChallengeHashSize)).create_time
              + ClientServer.ChallengeTimeOut < now) := by
      by_cases h0 : s.m_challengeHash.exists_ (key address salt % ClientServer.ChallengeHashSize) = 0
      · exact Or.inl h0
      · rcases hslot with h | h
        · exact absurd h h0
        · exact Or.inr ⟨h0, h⟩
    have hdue : now - ClientServer.ChallengeSendRate * 2 + ClientServer.ChallengeSendRate < now := by
      have : ∀ n : Int, n - 100 * 2 + 100 < n := by intro n; omega
      exact this now
    unfold ClientServer.Server.ProcessConnectionRequest
    rw [if_neg hfull, hconn]
    simp only [Bool.false_eq_true, if_false, ClientServer.Server.FindOrInsertChallenge,
      if_neg (not_le.mpr hnum), if_pos hcond, Function.update_same, if_pos hdue]
    exact ⟨trivial, trivial⟩
  · intro key g s salt address now hex hexp hsalt haddr hrate
    have hcond : ¬ (s.m_challengeHash.exists_
        (key address salt % ClientServer.ChallengeHashSize) = 0 ∨
        (s.m_challengeHash.exists_
          (key address salt % ClientServer.ChallengeHashSize) ≠ 0 ∧
        (s.m_challengeHash.entries
          (key address salt % ClientServer.ChallengeHashSize)).create_time
            + ClientServer.ChallengeTimeOut < now)) := by
      intro h
      rcases h with h | h
      · exact hex h
      · exact absurd h.2 (not_lt.mpr hexp)
    have hfind : ClientServer.Server.FindOrInsertChallenge key g s address salt now = (s, none) ∨
        ClientServer.Server.FindOrInsertChallenge key g s address salt now
          = (s, some (key address salt % ClientServer.ChallengeHashSize)) := by
      unfold ClientServer.Server.FindOrInsertChallenge
      split
      · exact Or.inl rfl
      · right
        simp only [if_neg hcond, if_pos (And.intro hex (And.intro hsalt haddr))]
    unfold ClientServer.Server.ProcessConnectionRequest
    split
    · rfl
    · split
      · rfl
      · rcases hfind with h | h
        · simp only [h]
        · simp only [h, if_neg (not_lt.mpr hrate)]

/-! ## The slices of the message id array -/

/-- What `Insert` returns when it returns an entry: the slot of the sequence
is claimed for it, every other slot keeps what it stored or is cleared, and the
entry memory is untouched. -/
theorem SequenceBuffer.Insert_slots {T : Type} {size : Nat} (b b1 : SequenceBuffer T size)
    (seq index : Nat) (h : b.Insert seq = some (b1, index)) :
    index = seq % size ∧ b1.entries = b.entries ∧
    b1.sequence_of_slot (seq % size) = some seq ∧
    ∀ i, i ≠ seq % size →
      b1.sequence_of_slot i = b.sequence_of_slot i ∨ b1.sequence_of_slot i = none := by
  unfold SequenceBuffer.Insert at h
  split at h
  · simp at h
  · simp only [Option.some.injEq, Prod.mk.injEq] at h
    obtain ⟨h1, h2⟩ := h
    subst h1
    refine ⟨h2.symm, ?_, ?_, ?_⟩
    · dsimp only
      split <;> rfl
    · simp
    · intro i hi
      simp only [Function.update_noteq hi]
      split
      · dsimp only
        cases hq : b.sequence_of_slot i with
        | none => left; rfl
        | some q =>
          dsimp only
          split
          · left; rfl
          · right; rfl
      · left; rfl

/-- C37. The slice of `m_sentPacketMessageIds` that `AddMessagePacketEntry`
uses for a packet of sequence `s` starts at `GetIndex( s ) * MaxMessagesPerPacket`
with `GetIndex( s ) = s mod 256` in both sent-packet buffers; with at most
`MaxMessagesPerPacket` ids it ends inside the array of
`MaxMessagesPerPacket * MessageSendQueueSize` entries. Two different sequences
that the message-sent-packets buffer holds at the same time have different
indices, so their slices of 64 entries share no position. When
`AddMessagePacketEntry` returns, the entry of `s` points to that slice and
lists the ids handed over, nothing outside the slice has been written, and
every other sequence the buffer then holds was held before with the same entry
and finds its slice of 64 entries as it was. With both buffers at the same
current sequence (as `WritePacket` calls it) the function does return. -/
theorem C37_message_id_slices (c : Connection) (messageIds : List Nat) (sequence : Nat)
    (hlen : messageIds.length ≤ MaxMessagesPerPacket) :
    c.sentPackets.GetIndex sequence * MaxMessagesPerPacket + messageIds.length
      ≤ MaxMessagesPerPacket * MessageSendQueueSize ∧
    c.sentPackets.GetIndex sequence = c.messageSentPackets.GetIndex sequence ∧
    (∀ s t, s ≠ t → (c.messageSentPackets.Find s).isSome = true →
      (c.messageSentPackets.Find t).isSome = true →
      c.messageSentPackets.GetIndex s ≠ c.messageSentPackets.GetIndex t ∧
      ∀ i j, i < MaxMessagesPerPacket → j < MaxMessagesPerPacket →
        c.sentPackets.GetIndex s * MaxMessagesPerPacket + i
          ≠ c.sentPackets.GetIndex t * MaxMessagesPerPacket + j) ∧
    (∀ c1, AddMessagePacketEntry c messageIds sequence = some c1 →
      (∃ e, c1.messageSentPackets.Find sequence = some e ∧
        e.messageIds = c.sentPackets.GetIndex sequence * MaxMessagesPerPacket ∧
        e.numMessageIds = messageIds.length ∧
        ∀ i (hi : i < messageIds.length),
          c1.sentPacketMessageIds (e.messageIds + i) = messageIds.get ⟨i, hi⟩) ∧
      (∀ k, ¬ (c.sentPackets.GetIndex sequence * MaxMessagesPerPacket ≤ k ∧
          k < c.sentPackets.GetIndex sequence * MaxMessagesPerPacket + messageIds.length) →
        c1.sentPacketMessageIds k = c.sentPacketMessageIds k) ∧
      (∀ t e1, t ≠ sequence → c1.messageSentPackets.Find t = some e1 →
        c.messageSentPackets.Find t = some e1 ∧
        ∀ j, j < MaxMessagesPerPacket →
          c1.sentPacketMessageIds (c.sentPackets.GetIndex t * MaxMessagesPerPacket + j)
            = c.sentPacketMessageIds (c.sentPackets.GetIndex t * MaxMessagesPerPacket + j))) ∧
    (c.sentPackets.sequence = c.messageSentPackets.sequence →
      sequence = c.sentPackets.sequence →
      ∃ c1, AddMessagePacketEntry c messageIds sequence = some c1) := by
  simp only [MaxMessagesPerPacket] at hlen
  have hidx : ∀ s, c.sentPackets.GetIndex s = s % 256 := fun s => rfl
  have hidx2 : ∀ s, c.messageSentPackets.GetIndex s = s % 256 := fun s => rfl
  refine ⟨?_, rfl, ?_, ?_, ?_⟩
  · rw [hidx]
    simp only [MaxMessagesPerPacket, MessageSendQueueSize]
    have := Nat.mod_lt sequence (by decide : 0 < 256)
    omega
  · intro s t hst hs ht
    rw [Option.isSome_iff_exists] at hs ht
    obtain ⟨es, hes⟩ := hs
    obtain ⟨et, het⟩ := ht
    have h1 := ((SequenceBuffer.Find_eq_some _ _ _).mp hes).1
    have h2 := ((SequenceBuffer.Find_eq_some _ _ _).mp het).1
    have hne : s % MessageSentPacketsSize ≠ t % MessageSentPacketsSize := by
      intro heq
      rw [heq, h2] at h1
      exact hst (Option.some.inj h1).symm
    simp only [MessageSentPacketsSize] at hne
    refine ⟨by rw [hidx2, hidx2]; exact hne, ?_⟩
    intro i j hi hj
    rw [hidx, hidx]
    simp only [MaxMessagesPerPacket] at hi hj ⊢
    omega
  · intro c1 h
    unfold AddMessagePacketEntry at h
    cases hins : c.messageSentPackets.Insert sequence with
    | none => simp [hins] at h
    | some r =>
      obtain ⟨b, index⟩ := r
      obtain ⟨g1, g2, g3, g4⟩ := SequenceBuffer.Insert_slots _ _ _ _ hins
      simp only [hins, Option.some.injEq] at h
      subst h
      subst g1
      simp only [MessageSentPacketsSize] at g3 g4
      refine ⟨⟨_, (SequenceBuffer.Find_eq_some _ _ _).mpr ⟨?_, rfl⟩, ?_, ?_, ?_⟩, ?_, ?_⟩
      · simpa [SequenceBuffer.setEntry, MessageSentPacketsSize] using g3
      · simp [SequenceBuffer.setEntry]
      · simp only [SequenceBuffer.setEntry, Function.update_same]
        omega
      · intro i hi
        simp only [SequenceBuffer.setEntry, Function.update_same]
        have := writeMessageIds_get
          (c.sentPackets.GetIndex sequence * MaxMessagesPerPacket) messageIds 0
          c.sentPacketMessageIds i hi
        rw [Nat.zero_add] at this
        exact this
      · intro k hk
        apply writeMessageIds_outside
        intro j hj hkj
        apply hk
        omega
      · intro t e1 ht hfind
        obtain ⟨f1, f2⟩ := (SequenceBuffer.Find_eq_some _ _ _).mp hfind
        simp only [SequenceBuffer.setEntry, MessageSentPacketsSize] at f1 f2
        have hne : t % 256 ≠ sequence % 256 := by
          intro heq
          rw [heq, g3] at f1
          exact ht (Option.some.inj f1).symm
        rw [Function.update_noteq hne, g2] at f2
        have hold : c.messageSentPackets.sequence_of_slot (t % 256) = some t := by
          rcases g4 (t % 256) hne with h | h
          · rw [← h]; exact f1
          · rw [h] at f1; exact absurd f1 (by simp)
        refine ⟨(SequenceBuffer.Find_eq_some _ _ _).mpr ⟨hold, f2⟩, ?_⟩
        intro j hj
        apply writeMessageIds_outside
        intro k hk
        rw [hidx, hidx]
        simp only [MaxMessagesPerPacket] at hj ⊢
        omega
  · intro hseq hs
    subst hs
    unfold AddMessagePacketEntry
    rw [hseq, SequenceBuffer.Insert_at_sequence c.messageSentPackets
      (by simp [MessageSentPacketsSize])]
    exact ⟨_, rfl⟩

theorem C37_message_id_slices_witness :
    [0, 1].length ≤ MaxMessagesPerPacket ∧
    sentTwo.conn.sentPackets.GetIndex 257 * MaxMessagesPerPacket + [0, 1].length
      ≤ MaxMessagesPerPacket * MessageSendQueueSize ∧
    sentTwo.conn.sentPackets.GetIndex 257 * MaxMessagesPerPacket = 64 ∧
    ∃ c1, AddMessagePacketEntry sentTwo.conn [0, 1] 0 = some c1 :=
  ⟨by decide, (C37_message_id_slices sentTwo.conn [0, 1] 257 (by decide)).1, by decide,
    (C37_message_id_slices sentTwo.conn [0, 1] 0 (by decide)).2.2.2.2 (by decide) (by decide)⟩

/-! ## Counting over the first `n` numbers -/

theorem countP_range_succ (p : Nat → Bool) (n : Nat) :
    (List.range (n + 1)).countP p = (List.range n).countP p + (if p n = true then 1 else 0) := by
  simp [List.range_succ, List.countP_append, List.countP_cons]

theorem countP_range_ge (p : Nat → Bool) (n : Nat) :
    ∀ m, n ≤ m → (∀ j, j < n → p j = true) → n ≤ (List.range m).countP p := by
  intro m
  induction m with
  | zero => intro h _; omega
  | succ m ih =>
    intro h hp
    rw [countP_range_succ]
    by_cases hn : n ≤ m
    · have := ih hn hp
      omega
    · have hnm : n = m + 1 := by omega
      have h1 : m ≤ (List.range m).countP p := by
        have h2 : ∀ l : List Nat, (∀ x ∈ l, p x = true) → l.countP p = l.length := by
          intro l hl
          exact List.countP_eq_length.mpr hl
        rw [h2 (List.range m) (fun x hx => hp x (by have := List.mem_range.mp hx; omega))]
        simp
      have h3 : p m = true := hp m (by omega)
      simp only [h3, if_true]
      omega

theorem countP_range_le (p : Nat → Bool) (n : Nat) : (List.range n).countP p ≤ n := by
  have := List.countP_le_length p (l := List.range n)
  simpa using this

theorem countP_range_mono (p q : Nat → Bool) (n : Nat) (h : ∀ j, j < n → p j = true → q j = true) :
    (List.range n).countP p ≤ (List.range n).countP q :=
  List.countP_mono_left (fun x hx => h x (List.mem_range.mp hx))

theorem countP_range_congr (p q : Nat → Bool) (n : Nat) (h : ∀ j, j < n → p j = q j) :
    (List.range n).countP p = (List.range n).countP q :=
  List.countP_congr (fun x hx => by rw [h x (List.mem_range.mp hx)])

/-- One more index counted: the count grows. -/
theorem countP_range_gain (p q : Nat → Bool) (b : Nat) :
    ∀ n, b < n → (∀ j, j < n → p j = true → q j = true) → p b = false → q b = true →
      (List.range n).countP p + 1 ≤ (List.range n).countP q := by
  intro n
  induction n with
  | zero => intro h; omega
  | succ n ih =>
    intro hb hpq hpb hqb
    rw [countP_range_succ, countP_range_succ]
    by_cases hbn : b = n
    · subst hbn
      have := countP_range_mono p q b (fun j hj => hpq j (by omega))
      simp only [hpb, hqb, Bool.false_eq_true, if_false, if_true]
      omega
    · have := ih (by omega) (fun j hj => hpq j (by omega)) hpb hqb
      by_cases hpn : p n = true
      · have := hpq n (by omega) hpn
        simp only [hpn, this, if_true]
        omega
      · simp only [hpn, Bool.false_eq_true, if_false]
        split <;> omega

theorem countP_range_or (p q : Nat → Bool) (n : Nat) :
    (List.range n).countP (fun j => p j || q j)
      ≤ (List.range n).countP p + (List.range n).countP q := by
  induction n with
  | zero => simp
  | succ n ih =>
    rw [countP_range_succ, countP_range_succ, countP_range_succ]
    by_cases hp : p n = true <;> by_cases hq : q n = true <;> simp [hp, hq] <;> omega

theorem countP_range_eq_le_one (f : Nat → Nat) (x : Nat) (n : Nat)
    (hinj : ∀ i j, i < n → j < n → f i = f j → i = j) :
    (List.range n).countP (fun j => decide (f j = x)) ≤ 1 := by
  induction n with
  | zero => simp
  | succ n ih =>
    rw [countP_range_succ]
    have h1 := ih (fun i j hi hj => hinj i j (by omega) (by omega))
    by_cases hx : f n = x
    · have h0 : (List.range n).countP (fun j => decide (f j = x)) = 0 := by
        rw [List.countP_eq_zero]
        intro j hj
        have hjn := List.mem_range.mp hj
        simp only [decide_eq_true_eq]
        intro hfj
        have := hinj j n (by omega) (by omega) (by rw [hfj, hx])
        omega
      simp [h0, hx]
    · simp [hx]
      exact h1

/-- The indices an injective function sends into a list are at most as many as
the list is long. -/
theorem countP_range_mem_le (f : Nat → Nat) (n : Nat)
    (hinj : ∀ i j, i < n → j < n → f i = f j → i = j) :
    ∀ R : List Nat, (List.range n).countP (fun j => decide (f j ∈ R)) ≤ R.length := by
  intro R
  induction R with
  | nil => simp
  | cons x R ih =>
    have h1 : (List.range n).countP (fun j => decide (f j ∈ x :: R))
        ≤ (List.range n).countP (fun j => decide (f j = x) || decide (f j ∈ R)) := by
      apply countP_range_mono
      intro j _ hj
      simpa using hj
    have h2 := countP_range_or (fun j => decide (f j = x)) (fun j => decide (f j ∈ R)) n
    have h3 := countP_range_eq_le_one f x n hinj
    simp only [List.length_cons]
    omega

/-- The count grows by at most the length of `R` when only indices sent into
`R` are newly counted. -/
theorem countP_range_new (f : Nat → Nat) (p q : Nat → Bool) (n : Nat) (R : List Nat)
    (hinj : ∀ i j, i < n → j < n → f i = f j → i = j)
    (h : ∀ j, j < n → q j = true → p j = true ∨ f j ∈ R) :
    (List.range n).countP q ≤ (List.range n).countP p + R.length := by
  have h1 : (List.range n).countP q
      ≤ (List.range n).countP (fun j => p j || decide (f j ∈ R)) := by
    apply countP_range_mono
    intro j hj hq
    rcases h j hj hq with hp | hr
    · simp [hp]
    · simp [hr]
  have h2 := countP_range_or p (fun j => decide (f j ∈ R)) n
  have h3 := countP_range_mem_le f n hinj R
  omega

/-- Shifting the indices by one past an index that is not counted. -/
theorem countP_range_shift (p q : Nat → Bool) (n : Nat) (h0 : q 0 = false)
    (h : ∀ j, j < n → q (j + 1) = p j) :
    (List.range (n + 1)).countP q = (List.range n).countP p := by
  induction n with
  | zero => simp [h0]
  | succ n ih =>
    rw [countP_range_succ (n := n + 1), ih (fun j hj => h j (by omega)), h n (by omega),
      countP_range_succ]

theorem nodup_length_le_of_range (R : List Nat) (f : Nat → Nat) (n : Nat) (hR : R.Nodup)
    (h : ∀ x ∈ R, ∃ i, i < n ∧ f i = x) : R.length ≤ n := by
  have hsub : R ⊆ (List.range n).map f := by
    intro x hx
    obtain ⟨i, hi, hfi⟩ := h x hx
    exact List.mem_map.mpr ⟨i, List.mem_range.mpr hi, hfi⟩
  have := (List.Nodup.subperm hR hsub).length_le
  simpa using this
/-! ## Sent packets and the send queue -/

/-- Fewer than 2^16 messages have been sent since a live packet was written:
at most `MessageSendQueueSize` plus 64 for each of the up to 255 later
packets. -/
theorem AckInv.since_le {c : Connection} {sid : Nat → Nat} {car : Nat → List Nat}
    (h : AckInv c sid car) (k s : Nat) (hk : c.sentPackets.sequence_of_slot k = some s) :
    SentSince c.sendMessageId (sid k) ≤ 17344 := by
  have hcount := h.count k s hk
  have hage := (h.live k s hk).2.2.1
  have hsid := (h.entry k s hk).2.2.2.1
  have hM := h.sendq.1
  have hA : ackedCount c.sentPackets c.sentPackets.sequence (SentAge c.sentPackets.sequence s)
      ≤ 255 := by
    have := countP_range_le
      (fun k => decide ((c.sentPackets.entries
        ((c.sentPackets.sequence + 65536 - 1 - k) % 65536 % SlidingWindowSize)).acked ≠ 0))
      (SentAge c.sentPackets.sequence s)
    simp only [SlidingWindowSize] at hage
    unfold ackedCount
    omega
  by_contra hgt
  have hge := countP_range_ge
    (fun j => (c.messageSendQueue.Find ((sid k + j) % 65536)).isNone)
    (SentSince c.sendMessageId (sid k) - 1024) (SentSince c.sendMessageId (sid k)) (by omega)
    (by
      intro j hj
      cases hf : c.messageSendQueue.Find ((sid k + j) % 65536) with
      | none => simp [hf]
      | some e =>
        exfalso
        have h1 := ((SequenceBuffer.Find_eq_some _ _ _).mp hf).1
        obtain ⟨_, _, h3, _⟩ := h.sendq.2 _ _ h1
        simp only [SentSince, MessageSendQueueSize] at hj h3 hgt
        omega)
  unfold absentCount at hcount
  omega

theorem AckInv.congr {c c1 : Connection} {sid : Nat → Nat} {car : Nat → List Nat}
    (h : AckInv c sid car) (h1 : c1.sentPackets = c.sentPackets)
    (h2 : c1.messageSentPackets = c.messageSentPackets)
    (h3 : c1.messageSendQueue = c.messageSendQueue)
    (h4 : c1.sentPacketMessageIds = c.sentPacketMessageIds)
    (h5 : c1.sendMessageId = c.sendMessageId)
    (h6 : c1.error = CONNECTION_ERROR_NONE → c.error = CONNECTION_ERROR_NONE) :
    AckInv c1 sid car := by
  obtain ⟨a1, a2, a3, a4, a5, a6, a7, a8⟩ := h
  refine ⟨?_, ?_, ?_, ?_, ?_, ?_, ?_, ?_⟩
  · rw [h1]; exact a1
  · rw [h1, h2]; exact a2
  · rw [h1]; exact a3
  · rw [h3, h5]
    exact ⟨a4.1, fun j x hx =>
      ⟨(a4.2 j x hx).1, (a4.2 j x hx).2.1, (a4.2 j x hx).2.2.1,
        fun he => (a4.2 j x hx).2.2.2 (h6 he)⟩⟩
  · rw [h1, h2, h4]; exact a5
  · rw [h1, h5]; exact a6
  · rw [h1, h3, h5]; exact a7
  · rw [h1, h3, h4]; exact a8

/-- A connection whose sent-packet buffers and send queue are empty. -/
theorem AckInv.of_empty (c : Connection) (sid : Nat → Nat) (car : Nat → List Nat)
    (h1 : c.sentPackets.sequence = 0) (h2 : ∀ k, c.sentPackets.sequence_of_slot k = none)
    (h3 : c.messageSentPackets.sequence = 0)
    (h4 : ∀ k, c.messageSentPackets.sequence_of_slot k = none)
    (h5 : ∀ k, c.messageSendQueue.sequence_of_slot k = none) (h6 : c.sendMessageId = 0) :
    AckInv c sid car := by
  refine ⟨by rw [h1]; decide, ⟨by rw [h1, h3], fun k => by rw [h2, h4]⟩, ?_, ⟨by rw [h6]; decide, ?_⟩,
    ?_, ?_, ?_, ?_⟩
  · intro k s hk; rw [h2] at hk; exact absurd hk (by simp)
  · intro j x hx; rw [h5] at hx; exact absurd hx (by simp)
  · intro k s hk; rw [h2] at hk; exact absurd hk (by simp)
  · intro k s k1 s1 hk; rw [h2] at hk; exact absurd hk (by simp)
  · intro k s hk; rw [h2] at hk; exact absurd hk (by simp)
  · intro k s hk; rw [h2] at hk; exact absurd hk (by simp)

theorem Fresh.ackInv {c : Connection} (h : Fresh c) (sid : Nat → Nat) (car : Nat → List Nat) :
    AckInv c sid car := by
  obtain ⟨_, hM, _, _, ⟨hs1, hs2⟩, _, ⟨_, hq2⟩, ⟨hm1, hm2⟩, _⟩ := h
  exact AckInv.of_empty c sid car hs1 hs2 hm1 hm2 hq2 hM

/-- Inserting at the send cursor, whose slot is free, leaves every other id as
it was found. -/
theorem Find_after_send (q q1 : SequenceBuffer MessageSendQueueEntry MessageSendQueueSize)
    (M : Nat) (e : MessageSendQueueEntry)
    (hfree : q.sequence_of_slot (M % MessageSendQueueSize) = none)
    (hs : q1.sequence_of_slot
      = Function.update q.sequence_of_slot (M % MessageSendQueueSize) (some M))
    (he : q1.entries = Function.update q.entries (M % MessageSendQueueSize) e) :
    q1.Find M = some e ∧ ∀ x, x ≠ M → q1.Find x = q.Find x := by
  constructor
  · rw [SequenceBuffer.Find_eq_some, hs, he]
    simp
  · intro x hx
    unfold SequenceBuffer.Find
    rw [hs, he]
    by_cases hslot : x % MessageSendQueueSize = M % MessageSendQueueSize
    · rw [hslot, Function.update_same, hfree]
      have : (some M : Option Nat) ≠ some x := fun h => hx (Option.some.inj h).symm
      simp [this]
    · rw [Function.update_noteq hslot, Function.update_noteq hslot]

/-- What `Insert` clears: only slots whose stored sequence is outside the new
window. -/
theorem SequenceBuffer.Insert_cleared {T : Type} {size : Nat} (b b1 : SequenceBuffer T size)
    (seq index : Nat) (h : b.Insert seq = some (b1, index)) :
    ∀ i, i ≠ seq % size →
      b1.sequence_of_slot i = b.sequence_of_slot i ∨
      (b1.sequence_of_slot i = none ∧ ∃ q, b.sequence_of_slot i = some q ∧
        SequenceBuffer.inWindow size ((seq + 1) % 65536) q = false ∧
        (seq = b.sequence ∨ sequence_greater_than seq b.sequence = true)) := by
  unfold SequenceBuffer.Insert at h
  split at h
  · simp at h
  · simp only [Option.some.injEq, Prod.mk.injEq] at h
    obtain ⟨h1, _⟩ := h
    subst h1
    intro i hi
    simp only [Function.update_noteq hi]
    split
    · rename_i hadv
      dsimp only
      cases hq : b.sequence_of_slot i with
      | none => left; rfl
      | some q =>
        dsimp only
        split
        · left; rfl
        · rename_i hw
          right
          exact ⟨rfl, q, rfl, by simpa using hw, hadv⟩
    · left; rfl
/-- What `SendMessage` does to the send queue in a state that satisfies the
invariants: either only the error changes (to an error), or the message is
stored under the send cursor, whose slot was free, and the cursor moves on by
one unless the measure pass failed. -/
theorem SendMessage_queue (w : World) (message : Nat) (w1 : World)
    (hinv : SendQueueInv w.conn) (sid : Nat → Nat) (car : Nat → List Nat)
    (hA : AckInv w.conn sid car) (hs : SendMessage w message = some w1) :
    w1.conn.sentPackets = w.conn.sentPackets ∧
    w1.conn.messageSentPackets = w.conn.messageSentPackets ∧
    w1.conn.sentPacketMessageIds = w.conn.sentPacketMessageIds ∧
    ((w1.conn.messageSendQueue = w.conn.messageSendQueue ∧
        w1.conn.sendMessageId = w.conn.sendMessageId ∧
        w1.conn.error ≠ CONNECTION_ERROR_NONE) ∨
      (w.conn.error = CONNECTION_ERROR_NONE ∧
        w.conn.messageSendQueue.sequence_of_slot (w.conn.sendMessageId % MessageSendQueueSize)
          = none ∧
        w1.conn.messageSendQueue.sequence_of_slot =
          Function.update w.conn.messageSendQueue.sequence_of_slot
            (w.conn.sendMessageId % MessageSendQueueSize) (some w.conn.sendMessageId) ∧
        (∃ e, w1.conn.messageSendQueue.entries =
          Function.update w.conn.messageSendQueue.entries
            (w.conn.sendMessageId % MessageSendQueueSize) e ∧ e.message = message) ∧
        ((w1.conn.sendMessageId = w.conn.sendMessageId ∧
            w1.conn.error ≠ CONNECTION_ERROR_NONE) ∨
          (w1.conn.sendMessageId = (w.conn.sendMessageId + 1) % 65536 ∧
            w1.conn.error = CONNECTION_ERROR_NONE)))) := by
  obtain ⟨hS, hO, hd, hnone, hsome⟩ := hinv
  unfold SendMessage at hs
  by_cases hcan : CanSendMessage w.conn = true
  · have hslot : w.conn.messageSendQueue.sequence_of_slot
        (w.conn.sendMessageId % MessageSendQueueSize) = none := by
      simpa [CanSendMessage, SequenceBuffer.IsAvailable] using hcan
    have herr : w.conn.error = CONNECTION_ERROR_NONE := by
      by_contra h
      exact hsome h hslot
    obtain ⟨hseq, _⟩ := hnone herr
    have hins := SequenceBuffer.Insert_at_sequence w.conn.messageSendQueue
      (by simp [MessageSendQueueSize])
    rw [hseq] at hins
    simp only [hcan, Bool.not_true, Bool.false_eq_true, if_false] at hs
    cases hi2 : w.conn.messageSendQueue.Insert w.conn.sendMessageId with
    | none => rw [hi2] at hins; exact absurd hins (by simp)
    | some r =>
      obtain ⟨b1, index⟩ := r
      obtain ⟨g1, g2, g3, _⟩ := SequenceBuffer.Insert_slots _ _ _ _ hi2
      have g4 := SequenceBuffer.Insert_cleared _ _ _ _ hi2
      subst g1
      have hsos : b1.sequence_of_slot =
          Function.update w.conn.messageSendQueue.sequence_of_slot
            (w.conn.sendMessageId % MessageSendQueueSize) (some w.conn.sendMessageId) := by
        funext i
        by_cases hi : i = w.conn.sendMessageId % MessageSendQueueSize
        · subst hi
          rw [Function.update_same, g3]
        · rw [Function.update_noteq hi]
          rcases g4 i hi with h | ⟨_, q, hq, hw, _⟩
          · exact h
          · exfalso
            obtain ⟨b1, b2, b3, b4⟩ := hA.sendq.2 i q hq
            have b5 := b4 herr
            simp only [SequenceBuffer.inWindow, MessageSendQueueSize, decide_eq_false_iff_not]
              at b2 b3 hi hw
            omega
      rw [hi2] at hs
      dsimp only at hs
      cases hm : (w.heap.AssignId message w.conn.sendMessageId message).measure with
      | none =>
        simp only [hm, Option.some.injEq] at hs
        subst hs
        refine ⟨rfl, rfl, rfl, Or.inr ⟨herr, hslot, hsos,
          ⟨{ message := message, measuredBits := 0, timeLastSent := -1000 }, ?_, rfl⟩,
          Or.inl ⟨rfl, by simp⟩⟩⟩
        simp only [SequenceBuffer.setEntry, g2]
      | some bitsProcessed =>
        simp only [hm, Option.some.injEq] at hs
        subst hs
        refine ⟨rfl, rfl, rfl, Or.inr ⟨herr, hslot, hsos,
          ⟨{ message := message
             measuredBits := (bitsProcessed : Int) + w.conn.messageOverheadBits
             timeLastSent := -1000 }, ?_, rfl⟩,
          Or.inr ⟨rfl, herr⟩⟩⟩
        simp [SequenceBuffer.setEntry, g2]
  · simp only [hcan, Bool.not_false, if_true, Option.some.injEq] at hs
    subst hs
    exact ⟨rfl, rfl, rfl, Or.inl ⟨rfl, rfl, by simp⟩⟩

/-- `SendMessage` keeps the invariant, with the same history. -/
theorem SendMessage_ackInv (w : World) (message : Nat) (w1 : World)
    (hinv : SendQueueInv w.conn) (sid : Nat → Nat) (car : Nat → List Nat)
    (hA : AckInv w.conn sid car) (hs : SendMessage w message = some w1) :
    AckInv w1.conn sid car := by
  obtain ⟨h1, h2, h3, hcase⟩ := SendMessage_queue w message w1 hinv sid car hA hs
  rcases hcase with ⟨g1, g2, g3⟩ | ⟨herr, hfree, hsos, ⟨e, hent, _⟩, hcur⟩
  · exact hA.congr h1 h2 g1 h3 g2 (fun he => absurd he g3)
  · obtain ⟨hfM, hfx⟩ := Find_after_send w.conn.messageSendQueue w1.conn.messageSendQueue
      w.conn.sendMessageId e hfree hsos hent
    have hM := hA.sendq.1
    -- ids listed by a live packet differ from the send cursor
    have hlisted : ∀ k s, w.conn.sentPackets.sequence_of_slot k = some s →
        ∀ i, i < (w.conn.messageSentPackets.entries k).numMessageIds →
        w.conn.sentPacketMessageIds (k * MaxMessagesPerPacket + i) ≠ w.conn.sendMessageId := by
      intro k s hk i hi heq
      have hb := hA.since_le k s hk
      obtain ⟨_, _, _, hsid, hl⟩ := hA.entry k s hk
      obtain ⟨l1, l2, l3⟩ := hl i hi
      rw [heq] at l1 l2 l3
      simp only [SentSince, MessageSendQueueSize] at hb l3
      omega
    have hsince : ∀ k s, w.conn.sentPackets.sequence_of_slot k = some s →
        ∀ j, j < SentSince w.conn.sendMessageId (sid k) →
        (sid k + j) % 65536 ≠ w.conn.sendMessageId := by
      intro k s hk j hj heq
      have hsid := (hA.entry k s hk).2.2.2.1
      simp only [SentSince] at hj
      omega
    have hfront : (∀ k s, w.conn.sentPackets.sequence_of_slot k = some s →
        ∀ n, n ≤ SentSince w.conn.sendMessageId (sid k) →
        absentCount w1.conn.messageSendQueue (sid k) n
          = absentCount w.conn.messageSendQueue (sid k) n) := by
      intro k s hk n hn
      unfold absentCount
      apply countP_range_congr
      intro j hj
      rw [hfx _ (hsince k s hk j (by omega))]
    have hcar : ∀ k s, w1.conn.sentPackets.sequence_of_slot k = some s →
        ∀ i q, i < (car k).length →
          w1.conn.messageSendQueue.Find
            (w1.conn.sentPacketMessageIds (k * MaxMessagesPerPacket + i)) = some q →
          (car k)[i]? = some q.message := by
      intro k s hk i q hi hq
      rw [h1] at hk
      rw [h3] at hq
      have hnum := (hA.entry k s hk).2.2.1
      rw [hfx _ (hlisted k s hk i (by rw [hnum]; exact hi))] at hq
      exact hA.carried k s hk i q hi hq
    rcases hcur with ⟨hcM, hcE⟩ | ⟨hcM, hcE⟩
    · -- the measure pass failed: the cursor stays
      refine ⟨by rw [h1]; exact hA.seq, by rw [h1, h2]; exact hA.lock, by rw [h1]; exact hA.live,
        ⟨by rw [hcM]; exact hM, ?_⟩, by rw [h1, h2, h3]; exact hA.entry,
        by rw [h1, hcM]; exact hA.order, ?_, hcar⟩
      · intro j x hx
        rw [hsos] at hx
        rw [hcM]
        by_cases hj : j = w.conn.sendMessageId % MessageSendQueueSize
        · subst hj
          rw [Function.update_same] at hx
          have hxM : x = w.conn.sendMessageId := (Option.some.inj hx).symm
          subst hxM
          refine ⟨hM, rfl, ?_, fun he => absurd he hcE⟩
          simp only [MessageSendQueueSize]
          omega
        · rw [Function.update_noteq hj] at hx
          obtain ⟨b1, b2, b3, b4⟩ := hA.sendq.2 j x hx
          exact ⟨b1, b2, b3, fun he => absurd he hcE⟩
      · intro k s hk
        rw [h1] at hk ⊢
        rw [hcM, hfront k s hk _ (le_refl _)]
        exact hA.count k s hk
    · -- the message is queued: the cursor moves on
      have hstep : ∀ k s, w.conn.sentPackets.sequence_of_slot k = some s →
          SentSince ((w.conn.sendMessageId + 1) % 65536) (sid k)
            = SentSince w.conn.sendMessageId (sid k) + 1 := by
        intro k s hk
        have hb := hA.since_le k s hk
        have hsid := (hA.entry k s hk).2.2.2.1
        simp only [SentSince] at hb ⊢
        omega
      refine ⟨by rw [h1]; exact hA.seq, by rw [h1, h2]; exact hA.lock, by rw [h1]; exact hA.live,
        ⟨by rw [hcM]; omega, ?_⟩, by rw [h1, h2, h3]; exact hA.entry, ?_, ?_, hcar⟩
      · intro j x hx
        rw [hsos] at hx
        rw [hcM]
        by_cases hj : j = w.conn.sendMessageId % MessageSendQueueSize
        · subst hj
          rw [Function.update_same] at hx
          have hxM : x = w.conn.sendMessageId := (Option.some.inj hx).symm
          subst hxM
          refine ⟨hM, rfl, ?_, fun _ => ?_⟩
          · simp only [MessageSendQueueSize]; omega
          · omega
        · rw [Function.update_noteq hj] at hx
          obtain ⟨b1, b2, b3, b4⟩ := hA.sendq.2 j x hx
          have b5 := b4 herr
          simp only [MessageSendQueueSize] at b2 b3 hj ⊢
          refine ⟨b1, b2, ?_, fun _ => ?_⟩
          · omega
          · omega
      · intro k s k1 s1 hk hk1 hage
        rw [h1] at hk hk1 hage
        rw [hcM, hstep k s hk, hstep k1 s1 hk1]
        have := hA.order k s k1 s1 hk hk1 hage
        omega
      · intro k s hk
        rw [h1] at hk ⊢
        rw [hcM, hstep k s hk]
        have hlast : (sid k + SentSince w.conn.sendMessageId (sid k)) % 65536
            = w.conn.sendMessageId := by
          have hsid := (hA.entry k s hk).2.2.2.1
          simp only [SentSince]
          omega
        have : absentCount w1.conn.messageSendQueue (sid k)
            (SentSince w.conn.sendMessageId (sid k) + 1)
            = absentCount w1.conn.messageSendQueue (sid k)
                (SentSince w.conn.sendMessageId (sid k)) := by
          unfold absentCount
          rw [countP_range_succ, hlast, hfM]
          simp
        rw [this, hfront k s hk _ (le_refl _)]
        exact hA.count k s hk
/-- `Insert` at the current sequence: the buffer moves on by one, the slot of
the sequence is claimed, and another slot keeps its stored sequence exactly
when that is inside the new window. -/
theorem SequenceBuffer.Insert_next {T : Type} {size : Nat} (b : SequenceBuffer T size)
    (hsize : size ≤ 32768) :
    ∃ b1, b.Insert b.sequence = some (b1, b.sequence % size) ∧
      b1.sequence = (b.sequence + 1) % 65536 ∧ b1.entries = b.entries ∧
      b1.sequence_of_slot (b.sequence % size) = some b.sequence ∧
      (∀ i, i ≠ b.sequence % size → b.sequence_of_slot i = none →
        b1.sequence_of_slot i = none) ∧
      (∀ i q, i ≠ b.sequence % size → b.sequence_of_slot i = some q →
        b1.sequence_of_slot i =
          if SequenceBuffer.inWindow size ((b.sequence + 1) % 65536) q = true then some q
          else none) := by
  refine ⟨_, SequenceBuffer.Insert_at_sequence b hsize, rfl, rfl, by simp, ?_, ?_⟩
  · intro i hi hn
    simp only [Function.update_noteq hi, hn]
  · intro i q hi hq
    simp only [Function.update_noteq hi, hq]

/-- What a `WritePacket` that returns a packet has done. -/
theorem WritePacket_written (w w1 : World) (packet : ConnectionPacket)
    (hlock : w.conn.messageSentPackets.sequence = w.conn.sentPackets.sequence)
    (h : WritePacket w true = some (w1, some packet)) :
    w.conn.error = CONNECTION_ERROR_NONE ∧ packet.sequence = w.conn.sentPackets.sequence ∧
    ∃ bs bm e,
      w.conn.sentPackets.Insert w.conn.sentPackets.sequence
        = some (bs, w.conn.sentPackets.sequence % SlidingWindowSize) ∧
      w.conn.messageSentPackets.Insert w.conn.messageSentPackets.sequence
        = some (bm, w.conn.messageSentPackets.sequence % MessageSentPacketsSize) ∧
      w1.conn.sentPackets
        = bs.setEntry (w.conn.sentPackets.sequence % SlidingWindowSize) { acked := 0 } ∧
      w1.conn.messageSentPackets
        = bm.setEntry (w.conn.sentPackets.sequence % MessageSentPacketsSize) e ∧
      e.messageIds = w.conn.sentPackets.sequence % SlidingWindowSize * MaxMessagesPerPacket ∧
      e.numMessageIds = (GetMessagesToSend w.conn).2.length ∧
      w1.conn.sentPacketMessageIds =
        writeMessageIds (w.conn.sentPackets.sequence % SlidingWindowSize * MaxMessagesPerPacket) 0
          (GetMessagesToSend w.conn).2 w.conn.sentPacketMessageIds ∧
      w1.conn.messageSendQueue = (GetMessagesToSend w.conn).1.messageSendQueue ∧
      w1.conn.sendMessageId = w.conn.sendMessageId ∧ w1.conn.error = w.conn.error ∧
      packet.messages = (GetMessagesToSend w.conn).2.map
        (fun id => (w1.conn.messageSendQueue.entries (id % MessageSendQueueSize)).message) := by
  unfold WritePacket at h
  by_cases herr : w.conn.error = CONNECTION_ERROR_NONE
  · have hne : ¬ (w.conn.error ≠ CONNECTION_ERROR_NONE) := fun hh => hh herr
    simp only [if_neg hne, Bool.not_true, Bool.false_eq_true, if_false] at h
    obtain ⟨bs, hbs, _⟩ := SequenceBuffer.Insert_next w.conn.sentPackets
      (by simp [SlidingWindowSize])
    obtain ⟨bm, hbm, _⟩ := SequenceBuffer.Insert_next w.conn.messageSentPackets
      (by simp [MessageSentPacketsSize])
    have hc1 : InsertAckPacketEntry w.conn w.conn.sentPackets.GetSequence =
        { w.conn with
          sentPackets :=
            bs.setEntry (w.conn.sentPackets.sequence % SlidingWindowSize) { acked := 0 } } := by
      unfold InsertAckPacketEntry SequenceBuffer.GetSequence
      rw [hbs]
    rw [hc1] at h
    obtain ⟨hg1, hg2⟩ := GetMessagesToSend_congr
      { w.conn with
        sentPackets :=
          bs.setEntry (w.conn.sentPackets.sequence % SlidingWindowSize) { acked := 0 } }
      w.conn rfl rfl rfl
    have hgs := (GetMessagesToSend_spec
      { w.conn with
        sentPackets :=
          bs.setEntry (w.conn.sentPackets.sequence % SlidingWindowSize) { acked := 0 } }).1
    have hlen := (GetMessagesToSend_walk w.conn).choose_spec.2.2.2.2.2.2.2
    generalize hr : GetMessagesToSend
      { w.conn with
        sentPackets :=
          bs.setEntry (w.conn.sentPackets.sequence % SlidingWindowSize) { acked := 0 } } = r
      at h hg1 hg2 hgs
    unfold AddMessagePacketEntry at h
    rw [hgs] at h
    simp only [SequenceBuffer.GetSequence] at h
    have hbm2 := hbm
    rw [hlock] at hbm2
    rw [hbm2] at h
    simp only at h
    cases hcol : collectMessages r.1.messageSendQueue r.2 w.heap with
    | none =>
      rw [hgs] at hcol
      simp only [hcol] at h
      exact absurd h (by simp)
    | some res =>
      obtain ⟨h1, msgs⟩ := res
      obtain ⟨hm, _⟩ := collectMessages_eq _ _ _ _ _ hcol
      rw [hgs] at hcol
      simp only [hcol, Option.some.injEq, Prod.mk.injEq] at h
      obtain ⟨hw1, hp⟩ := h
      subst hw1
      subst hp
      refine ⟨herr, rfl, bs, bm, _, hbs, hbm, rfl, rfl, ?_, ?_, ?_, ?_, rfl, rfl, ?_⟩
      · simp [SequenceBuffer.GetIndex]
      · simp only [MaxMessagesPerPacket] at hlen
        rw [hg1]
        dsimp only
        omega
      · rw [hg1]
        simp [SequenceBuffer.GetIndex]
      · exact hg2
      · rw [hm, hg1]
  · simp only [if_pos herr, Option.some.injEq, Prod.mk.injEq] at h
    exact absurd h.2 (by simp)
/-! Arithmetic of ages and slots. -/

theorem SentAge_new (S : Nat) : SentAge ((S + 1) % 65536) S = 0 := by
  simp only [SentAge]; omega

theorem SentAge_old (S s : Nat) (hs : s < 65536) (h : SentAge S s ≤ 254) :
    SentAge ((S + 1) % 65536) s = SentAge S s + 1 := by
  simp only [SentAge] at h ⊢; omega

theorem SentAge_le_254 (S s : Nat) (h : SentAge S s < SlidingWindowSize)
    (hne : s % SlidingWindowSize ≠ S % SlidingWindowSize) : SentAge S s ≤ 254 := by
  simp only [SentAge, SlidingWindowSize] at h hne ⊢; omega

theorem SentAge_eq (S s t : Nat) (hS : S < 65536) (hs : s < 65536) (ht : t < 65536)
    (h : SentAge S s = SentAge S t) : s = t := by
  simp only [SentAge] at h; omega

theorem seq_of_age_zero (S : Nat) (hS : S < 65536) :
    ((S + 1) % 65536 + 65536 - 1 - 0) % 65536 = S := by omega

theorem seq_of_age_succ (S a : Nat) (hS : S < 65536) (ha : a < 256) :
    ((S + 1) % 65536 + 65536 - 1 - (a + 1)) % 65536 = (S + 65536 - 1 - a) % 65536 := by omega

theorem seq_of_age_slot (S a : Nat) (hS : S < 65536) (ha : a ≤ 254) :
    (S + 65536 - 1 - a) % 65536 % SlidingWindowSize ≠ S % SlidingWindowSize := by
  simp only [SlidingWindowSize]; omega

theorem seq_of_age_lt (S a : Nat) : (S + 65536 - 1 - a) % 65536 < 65536 := by omega

theorem SentAge_seq_of_age (S a : Nat) (hS : S < 65536) (ha : a < 65536) :
    SentAge S ((S + 65536 - 1 - a) % 65536) = a := by
  simp only [SentAge]; omega

theorem inWindow_iff_age (size S q : Nat) (hq : q < 65536) :
    SequenceBuffer.inWindow size S q = true ↔ SentAge S q < size := by
  simp only [SequenceBuffer.inWindow, SentAge, decide_eq_true_eq, Nat.mod_eq_of_lt hq]

theorem SentSince_self (M : Nat) : SentSince M M = 0 := by
  simp only [SentSince]; omega

theorem SentSince_succ (M sid : Nat) (hM : M < 65536) (hs : sid < 65536)
    (h : SentSince M sid ≤ 17344) : SentSince ((M + 1) % 65536) sid = SentSince M sid + 1 := by
  simp only [SentSince] at h ⊢; omega

theorem slice_ne (k K i j : Nat) (hk : k ≠ K) (hi : i < 64) (hj : j < 64) :
    k * 64 + i ≠ K * 64 + j := by omega
/-- `GetMessagesToSend` changes send times only: what is found under an id
afterwards is found before, with the same message. -/
theorem GetMessagesToSend_find (c : Connection) :
    (GetMessagesToSend c).1.messageSendQueue.sequence_of_slot
      = c.messageSendQueue.sequence_of_slot ∧
    (∀ x, ((GetMessagesToSend c).1.messageSendQueue.Find x).isNone
      = (c.messageSendQueue.Find x).isNone) ∧
    (∀ x q1, (GetMessagesToSend c).1.messageSendQueue.Find x = some q1 →
      ∃ q, c.messageSendQueue.Find x = some q ∧ q.message = q1.message) := by
  have hs := (GetMessagesToSend_spec c).2.2.1
  obtain ⟨ks, _, _, _, _, _, _, hent, _⟩ := GetMessagesToSend_walk c
  have hmsg : ∀ idx, ((GetMessagesToSend c).1.messageSendQueue.entries idx).message
      = (c.messageSendQueue.entries idx).message := by
    intro idx
    rw [hent idx]
    split <;> rfl
  refine ⟨hs, ?_, ?_⟩
  · intro x
    unfold SequenceBuffer.Find
    rw [hs]
    split <;> rfl
  · intro x q1 hq1
    obtain ⟨h1, h2⟩ := (SequenceBuffer.Find_eq_some _ _ _).mp hq1
    rw [hs] at h1
    exact ⟨_, (SequenceBuffer.Find_eq_some _ _ _).mpr ⟨h1, rfl⟩, by rw [← h2, hmsg]⟩

/-- The state after a `WritePacket` that returns a packet, slot by slot. -/
theorem WritePacket_effect (w w1 : World) (packet : ConnectionPacket)
    (sid : Nat → Nat) (car : Nat → List Nat) (hA : AckInv w.conn sid car)
    (h : WritePacket w true = some (w1, some packet)) :
    w.conn.error = CONNECTION_ERROR_NONE ∧
    packet.sequence = w.conn.sentPackets.sequence ∧
    w1.conn.sentPackets.sequence = (w.conn.sentPackets.sequence + 1) % 65536 ∧
    w1.conn.messageSentPackets.sequence = (w.conn.sentPackets.sequence + 1) % 65536 ∧
    w1.conn.sentPackets.sequence_of_slot (w.conn.sentPackets.sequence % SlidingWindowSize)
      = some w.conn.sentPackets.sequence ∧
    (∀ k s, w1.conn.sentPackets.sequence_of_slot k = some s →
      (k = w.conn.sentPackets.sequence % SlidingWindowSize ∧ s = w.conn.sentPackets.sequence) ∨
      (k ≠ w.conn.sentPackets.sequence % SlidingWindowSize ∧
        w.conn.sentPackets.sequence_of_slot k = some s)) ∧
    (∀ k s, k ≠ w.conn.sentPackets.sequence % SlidingWindowSize →
      w.conn.sentPackets.sequence_of_slot k = some s →
      w1.conn.sentPackets.sequence_of_slot k = some s ∧
      SentAge w.conn.sentPackets.sequence s ≤ 254) ∧
    (∀ k, w1.conn.messageSentPackets.sequence_of_slot k
      = w1.conn.sentPackets.sequence_of_slot k) ∧
    w1.conn.sentPackets.entries =
      Function.update w.conn.sentPackets.entries
        (w.conn.sentPackets.sequence % SlidingWindowSize) { acked := 0 } ∧
    ((w1.conn.messageSentPackets.entries
        (w.conn.sentPackets.sequence % SlidingWindowSize)).messageIds
        = w.conn.sentPackets.sequence % SlidingWindowSize * MaxMessagesPerPacket ∧
      (w1.conn.messageSentPackets.entries
        (w.conn.sentPackets.sequence % SlidingWindowSize)).numMessageIds
        = (GetMessagesToSend w.conn).2.length ∧
      ∀ k, k ≠ w.conn.sentPackets.sequence % SlidingWindowSize →
        w1.conn.messageSentPackets.entries k = w.conn.messageSentPackets.entries k) ∧
    (∀ k, k ≠ w.conn.sentPackets.sequence % SlidingWindowSize → ∀ i, i < 64 →
      w1.conn.sentPacketMessageIds (k * MaxMessagesPerPacket + i)
        = w.conn.sentPacketMessageIds (k * MaxMessagesPerPacket + i)) ∧
    (∀ i (hi : i < (GetMessagesToSend w.conn).2.length),
      w1.conn.sentPacketMessageIds
        (w.conn.sentPackets.sequence % SlidingWindowSize * MaxMessagesPerPacket + i)
        = (GetMessagesToSend w.conn).2[i]) ∧
    ((GetMessagesToSend w.conn).2.length ≤ 64 ∧
      ∀ id ∈ (GetMessagesToSend w.conn).2,
        w.conn.messageSendQueue.sequence_of_slot (id % MessageSendQueueSize) = some id) ∧
    (w1.conn.messageSendQueue.sequence_of_slot = w.conn.messageSendQueue.sequence_of_slot ∧
      (∀ x, (w1.conn.messageSendQueue.Find x).isNone = (w.conn.messageSendQueue.Find x).isNone) ∧
      (∀ x q1, w1.conn.messageSendQueue.Find x = some q1 →
        ∃ q, w.conn.messageSendQueue.Find x = some q ∧ q.message = q1.message)) ∧
    (w1.conn.sendMessageId = w.conn.sendMessageId ∧ w1.conn.error = w.conn.error) ∧
    packet.messages = (GetMessagesToSend w.conn).2.map
      (fun id => (w1.conn.messageSendQueue.entries (id % MessageSendQueueSize)).message) := by
  obtain ⟨herr, hps, bs, bm, e, hbs, hbm, hsp, hmsp, he1, he2, hids, hsq, hM, hE, hmsgs⟩ :=
    WritePacket_written w w1 packet hA.lock.1 h
  obtain ⟨bs1, hbs1, s1, s2, s3, s4, s5⟩ := SequenceBuffer.Insert_next w.conn.sentPackets
    (by simp [SlidingWindowSize])
  rw [hbs] at hbs1
  obtain rfl : bs = bs1 := (Prod.mk.inj (Option.some.inj hbs1)).1
  obtain ⟨bm1, hbm1, m1, m2, m3, m4, m5⟩ := SequenceBuffer.Insert_next w.conn.messageSentPackets
    (by simp [MessageSentPacketsSize])
  rw [hbm] at hbm1
  obtain rfl : bm = bm1 := (Prod.mk.inj (Option.some.inj hbm1)).1
  obtain ⟨hl1, hl2⟩ := hA.lock
  rw [hl1] at m1 m3 m4 m5
  obtain ⟨hgs, hgn, hgf⟩ := GetMessagesToSend_find w.conn
  replace hmsp : w1.conn.messageSentPackets
      = bm.setEntry (w.conn.sentPackets.sequence % SlidingWindowSize) e := hmsp
  replace m3 : bm.sequence_of_slot (w.conn.sentPackets.sequence % SlidingWindowSize)
      = some w.conn.sentPackets.sequence := m3
  replace m4 : ∀ i, i ≠ w.conn.sentPackets.sequence % SlidingWindowSize →
      w.conn.messageSentPackets.sequence_of_slot i = none → bm.sequence_of_slot i = none := m4
  replace m5 : ∀ i q, i ≠ w.conn.sentPackets.sequence % SlidingWindowSize →
      w.conn.messageSentPackets.sequence_of_slot i = some q →
      bm.sequence_of_slot i =
        if SequenceBuffer.inWindow SlidingWindowSize ((w.conn.sentPackets.sequence + 1) % 65536) q
          = true then some q else none := m5
  have hlive := hA.live
  clear hbs1 hbm1 hbs hbm h hA
  have hsos1 : w1.conn.sentPackets.sequence_of_slot = bs.sequence_of_slot := by
    rw [hsp]; rfl
  have hmsos1 : w1.conn.messageSentPackets.sequence_of_slot = bm.sequence_of_slot := by
    rw [hmsp]; rfl
  have hK : w1.conn.sentPackets.sequence_of_slot
      (w.conn.sentPackets.sequence % SlidingWindowSize) = some w.conn.sentPackets.sequence := by
    rw [hsos1]; exact s3
  have hold : ∀ k s, k ≠ w.conn.sentPackets.sequence % SlidingWindowSize →
      w.conn.sentPackets.sequence_of_slot k = some s →
      w1.conn.sentPackets.sequence_of_slot k = some s ∧
      SentAge w.conn.sentPackets.sequence s ≤ 254 := by
    intro k s hk hs
    obtain ⟨l1, l2, l3, _⟩ := hlive k s hs
    have hage : SentAge w.conn.sentPackets.sequence s ≤ 254 :=
      SentAge_le_254 _ _ l3 (by rw [l2] at hk; exact hk)
    refine ⟨?_, hage⟩
    rw [hsos1, s5 k s hk hs]
    have : SequenceBuffer.inWindow SlidingWindowSize ((w.conn.sentPackets.sequence + 1) % 65536) s
        = true := by
      rw [inWindow_iff_age _ _ _ l1, SentAge_old _ _ l1 hage]
      simp only [SlidingWindowSize]
      omega
    simp [this]
  refine ⟨herr, hps, by rw [hsp]; exact s1, by rw [hmsp]; exact m1, hK, ?_, hold, ?_, ?_,
    ⟨?_, ?_, ?_⟩, ?_, ?_, ⟨?_, (GetMessagesToSend_spec w.conn).2.2.2⟩,
    ⟨by rw [hsq]; exact hgs, fun x => by rw [hsq]; exact hgn x,
      fun x q1 hq => hgf x q1 (by rw [← hsq]; exact hq)⟩, ⟨hM, hE⟩, hmsgs⟩
  · intro k s hs
    by_cases hk : k = w.conn.sentPackets.sequence % SlidingWindowSize
    · left
      subst hk
      rw [hK] at hs
      exact ⟨rfl, (Option.some.inj hs).symm⟩
    · right
      refine ⟨hk, ?_⟩
      rw [hsos1] at hs
      cases ho : w.conn.sentPackets.sequence_of_slot k with
      | none => rw [s4 k hk ho] at hs; exact absurd hs (by simp)
      | some q =>
        rw [s5 k q hk ho] at hs
        split at hs
        · exact hs
        · exact absurd hs (by simp)
  · intro k
    rw [hmsos1, hsos1]
    by_cases hk : k = w.conn.sentPackets.sequence % SlidingWindowSize
    · subst hk
      rw [s3]
      exact m3
    · cases ho : w.conn.sentPackets.sequence_of_slot k with
      | none => rw [s4 k hk ho, m4 k hk (by rw [hl2]; exact ho)]
      | some q =>
        rw [s5 k q hk ho, m5 k q hk (by rw [hl2]; exact ho)]
  · rw [hsp]; simp only [SequenceBuffer.setEntry, s2]
  · rw [hmsp]
    show (Function.update bm.entries _ e _).messageIds = _
    rw [Function.update_same]; exact he1
  · rw [hmsp]
    show (Function.update bm.entries _ e _).numMessageIds = _
    rw [Function.update_same]; exact he2
  · intro k hk
    rw [hmsp]
    show Function.update bm.entries _ e k = _
    rw [Function.update_noteq hk, m2]
  · intro k hk i hi
    rw [hids]
    apply writeMessageIds_outside
    intro j hj
    have hlen := (GetMessagesToSend_walk w.conn).choose_spec.2.2.2.2.2.2.2
    simp only [MaxMessagesPerPacket] at hlen ⊢
    exact slice_ne _ _ _ _ hk hi (by omega)
  · intro i hi
    rw [hids]
    have := writeMessageIds_get
      (w.conn.sentPackets.sequence % SlidingWindowSize * MaxMessagesPerPacket)
      (GetMessagesToSend w.conn).2 0 w.conn.sentPacketMessageIds i hi
    rw [Nat.zero_add] at this
    rw [this]
    rfl
  · have := (GetMessagesToSend_walk w.conn).choose_spec.2.2.2.2.2.2.2
    simpa [MaxMessagesPerPacket] using this
/-- `WritePacket` keeps the invariant; the history gains, for the slot of
the packet written, the send cursor and the messages of the packet. -/
theorem WritePacket_ackInv (w w1 : World) (packet : ConnectionPacket)
    (sid : Nat → Nat) (car : Nat → List Nat) (hA : AckInv w.conn sid car)
    (h : WritePacket w true = some (w1, some packet)) :
    AckInv w1.conn
      (Function.update sid (w.conn.sentPackets.sequence % SlidingWindowSize) w.conn.sendMessageId)
      (Function.update car (w.conn.sentPackets.sequence % SlidingWindowSize) packet.messages) := by
  obtain ⟨herr, _, hseq1, hmseq1, hK, hnew, hold, hmlock, hent1, ⟨hme1, hme2, hme3⟩, hidsOld,
    hidsNew, ⟨hlen, hpresent⟩, ⟨hsosq, hnone, hfind⟩, ⟨hM, hE⟩, hmsgs⟩ :=
    WritePacket_effect w w1 packet sid car hA h
  obtain ⟨hMlt, hsendq⟩ := hA.sendq
  have hS := hA.seq
  have hage1 : ∀ k s, k ≠ w.conn.sentPackets.sequence % SlidingWindowSize →
      w.conn.sentPackets.sequence_of_slot k = some s →
      SentAge ((w.conn.sentPackets.sequence + 1) % 65536) s
        = SentAge w.conn.sentPackets.sequence s + 1 := by
    intro k s hk ho
    exact SentAge_old _ _ (hA.live k s ho).1 (hold k s hk ho).2
  clear h
  refine ⟨?_, ⟨?_, hmlock⟩, ?_, ⟨?_, ?_⟩, ?_, ?_, ?_, ?_⟩
  · rw [hseq1]; exact Nat.mod_lt _ (by decide)
  · rw [hmseq1, hseq1]
  · -- live
    intro k s hs
    rw [hseq1]
    rcases hnew k s hs with ⟨rfl, rfl⟩ | ⟨hk, ho⟩
    · refine ⟨hS, rfl, ?_, ?_⟩
      · rw [SentAge_new]; decide
      · intro a ha
        rw [SentAge_new] at ha
        exact absurd ha (Nat.not_lt_zero _)
    · obtain ⟨l1, l2, l3, l4⟩ := hA.live k s ho
      have g1 := (hold k s hk ho).2
      refine ⟨l1, l2, ?_, ?_⟩
      · rw [hage1 k s hk ho]; simp only [SlidingWindowSize]; omega
      · intro a ha
        rw [hage1 k s hk ho] at ha
        cases a with
        | zero =>
          rw [seq_of_age_zero _ hS]
          exact hK
        | succ a =>
          rw [seq_of_age_succ w.conn.sentPackets.sequence a hS (by omega)]
          have hprev := l4 a (by omega)
          exact (hold _ _ (seq_of_age_slot w.conn.sentPackets.sequence a hS (by omega)) hprev).1
  · rw [hM]; exact hMlt
  · -- sendq
    intro j x hx
    rw [hsosq] at hx
    rw [hM, hE]
    exact hsendq j x hx
  · -- entry
    intro k s hs
    rcases hnew k s hs with ⟨rfl, rfl⟩ | ⟨hk, ho⟩
    · rw [hme1, hme2, Function.update_same, Function.update_same, hmsgs, List.length_map]
      refine ⟨rfl, by simp only [MaxMessagesPerPacket]; exact hlen, rfl, hMlt, ?_⟩
      intro i hi
      rw [hidsNew i hi]
      obtain ⟨b1, b2, b3, b4⟩ := hsendq _ _ (hpresent _ (List.getElem_mem _))
      have b5 := b4 herr
      refine ⟨b1, ?_, b3⟩
      clear hsendq hpresent hidsNew hidsOld hme3 hold hnew hmlock hage1 hs hK
      omega
    · obtain ⟨e1, e2, e3, e4, e5⟩ := hA.entry k s ho
      rw [hme3 k hk, Function.update_noteq hk, Function.update_noteq hk]
      refine ⟨e1, e2, e3, e4, ?_⟩
      intro i hi
      rw [hidsOld k hk i (by simp only [MaxMessagesPerPacket] at e2; omega)]
      exact e5 i hi
  · -- order
    intro k s k1 s1 hs hs1 hage
    rw [hseq1] at hage
    rw [hM]
    rcases hnew k s hs with ⟨rfl, rfl⟩ | ⟨hk, ho⟩
    · rw [Function.update_same, SentSince_self]
      exact Nat.zero_le _
    · rcases hnew k1 s1 hs1 with ⟨rfl, rfl⟩ | ⟨hk1, ho1⟩
      · exfalso
        rw [hage1 k s hk ho, SentAge_new] at hage
        omega
      · rw [Function.update_noteq hk, Function.update_noteq hk1]
        rw [hage1 k s hk ho, hage1 k1 s1 hk1 ho1] at hage
        exact hA.order k s k1 s1 ho ho1 (by omega)
  · -- count
    intro k s hs
    rw [hseq1, hM]
    rcases hnew k s hs with ⟨rfl, rfl⟩ | ⟨hk, ho⟩
    · rw [Function.update_same, SentSince_self]
      simp [absentCount]
    · have habs : absentCount w1.conn.messageSendQueue (sid k)
          (SentSince w.conn.sendMessageId (sid k))
          = absentCount w.conn.messageSendQueue (sid k)
              (SentSince w.conn.sendMessageId (sid k)) := by
        unfold absentCount
        apply countP_range_congr
        intro j _
        exact hnone _
      rw [Function.update_noteq hk, habs, hage1 k s hk ho]
      have g1 := (hold k s hk ho).2
      have hshift : ackedCount w1.conn.sentPackets ((w.conn.sentPackets.sequence + 1) % 65536)
          (SentAge w.conn.sentPackets.sequence s + 1)
          = ackedCount w.conn.sentPackets w.conn.sentPackets.sequence
              (SentAge w.conn.sentPackets.sequence s) := by
        unfold ackedCount
        apply countP_range_shift
        · rw [seq_of_age_zero _ hS, hent1, Function.update_same]
          simp
        · intro j hj
          rw [seq_of_age_succ w.conn.sentPackets.sequence j hS (by omega), hent1,
            Function.update_noteq (seq_of_age_slot w.conn.sentPackets.sequence j hS (by omega))]
      rw [hshift]
      exact hA.count k s ho
  · -- carried
    intro k s hs i q hi hq
    rcases hnew k s hs with ⟨rfl, rfl⟩ | ⟨hk, ho⟩
    · rw [Function.update_same] at hi ⊢
      have hi2 : i < (GetMessagesToSend w.conn).2.length := by
        rw [hmsgs, List.length_map] at hi; exact hi
      rw [hidsNew i hi2] at hq
      obtain ⟨_, hq2⟩ := (SequenceBuffer.Find_eq_some _ _ _).mp hq
      rw [← hq2, hmsgs, List.getElem?_map, List.getElem?_eq_getElem hi2]
      rfl
    · rw [Function.update_noteq hk] at hi ⊢
      have hnum := (hA.entry k s ho).2.2.1
      have hle := (hA.entry k s ho).2.1
      simp only [MaxMessagesPerPacket] at hle
      rw [hidsOld k hk i (by omega)] at hq
      obtain ⟨q0, hq0, hqm⟩ := hfind _ _ hq
      rw [← hqm]
      exact hA.carried k s ho i q0 hi hq0

/-! ## Acks and the send queue -/

/-- The ids `ProcessMessageAck` removes from the send queue: each is listed by
the entry of the acked packet and was present; their messages are the ones
released. -/
theorem ProcessMessageAck_removes (w : World) (ack : Nat) :
    ∃ R : List Nat, R.Nodup ∧
      (∀ id, id ∈ R → ∃ e, w.conn.messageSentPackets.Find ack = some e ∧
          (∃ i, i < e.numMessageIds ∧ w.conn.sentPacketMessageIds (e.messageIds + i) = id) ∧
          w.conn.messageSendQueue.sequence_of_slot (id % MessageSendQueueSize) = some id) ∧
      (∀ j, (ProcessMessageAck w ack).conn.messageSendQueue.sequence_of_slot j =
          if j ∈ R.map (fun id => id % MessageSendQueueSize) then none
          else w.conn.messageSendQueue.sequence_of_slot j) ∧
      (ProcessMessageAck w ack).heap =
        R.foldl (fun h id =>
          h.Release (w.conn.messageSendQueue.entries (id % MessageSendQueueSize)).message)
          w.heap := by
  unfold ProcessMessageAck
  cases hf : w.conn.messageSentPackets.Find ack with
  | none => exact ⟨[], List.nodup_nil, by simp, by simp, rfl⟩
  | some e =>
    dsimp only
    by_cases ha : e.acked ≠ 0
    · rw [if_pos ha]; exact ⟨[], List.nodup_nil, by simp, by simp, rfl⟩
    · rw [if_neg ha]
      obtain ⟨R, hR, hmem, hs, hheap, _, _⟩ :=
        processMessageAckLoop_removes e.messageIds (List.range e.numMessageIds) w
      refine ⟨R, hR, ?_, ?_, ?_⟩
      · intro id hid
        obtain ⟨⟨i, hi, hid2⟩, hp⟩ := (hmem id).mp hid
        exact ⟨e, rfl, ⟨i, List.mem_range.mp hi, hid2⟩, hp⟩
      · intro j; exact hs j
      · exact hheap

theorem sendId_inj (sid n : Nat) (hn : n ≤ 65536) :
    ∀ i j, i < n → j < n → (sid + i) % 65536 = (sid + j) % 65536 → i = j := by
  intro i j hi hj h; omega

/-- An id listed by a packet written no later than another one is not among
the ids sent since that other one was written. -/
theorem listed_not_since (M sidk sidt id j : Nat) (hM : M < 65536) (hk : sidk < 65536)
    (ht : sidt < 65536) (hid : id = (sidk + j) % 65536) (hj : j < SentSince M sidk)
    (hle : SentSince M sidk ≤ SentSince M sidt) (ht2 : SentSince M sidt ≤ 17344)
    (h1 : 1 ≤ (sidt + 65536 - id) % 65536)
    (h2 : (sidt + 65536 - id) % 65536 ≤ MessageSendQueueSize) : False := by
  simp only [SentSince, MessageSendQueueSize] at *; omega

theorem seq_of_SentAge (S t : Nat) (hS : S < 65536) (ht : t < 65536) :
    (S + 65536 - 1 - SentAge S t) % 65536 = t := by
  simp only [SentAge]; omega

/-- Acking the packet `t`: its sent-packets entry gets the flag, and ids that
its message entry lists leave the send queue. -/
theorem AckInv.acked {c c1 : Connection} {sid : Nat → Nat} {car : Nat → List Nat}
    (h : AckInv c sid car) (t : Nat) (pd : SentPacketData)
    (hf : c.sentPackets.Find t = some pd) (hpd : pd.acked = 0)
    (R : List Nat) (hR : R.Nodup)
    (hRm : ∀ id, id ∈ R → ∃ e, c.messageSentPackets.Find t = some e ∧
          (∃ i, i < e.numMessageIds ∧ c.sentPacketMessageIds (e.messageIds + i) = id) ∧
          c.messageSendQueue.sequence_of_slot (id % MessageSendQueueSize) = some id)
    (h1a : c1.sentPackets.sequence = c.sentPackets.sequence)
    (h1b : c1.sentPackets.sequence_of_slot = c.sentPackets.sequence_of_slot)
    (h1c : c1.sentPackets.entries
      = Function.update c.sentPackets.entries (t % SlidingWindowSize) { acked := 1 })
    (h2 : c1.messageSentPackets = c.messageSentPackets)
    (h3s : ∀ j, c1.messageSendQueue.sequence_of_slot j =
          if j ∈ R.map (fun id => id % MessageSendQueueSize) then none
          else c.messageSendQueue.sequence_of_slot j)
    (h3e : c1.messageSendQueue.entries = c.messageSendQueue.entries)
    (h4 : c1.sentPacketMessageIds = c.sentPacketMessageIds)
    (h5 : c1.sendMessageId = c.sendMessageId)
    (h6 : c1.error = c.error) : AckInv c1 sid car := by
  have hsub : ∀ j x, c1.messageSendQueue.sequence_of_slot j = some x →
      c.messageSendQueue.sequence_of_slot j = some x := by
    intro j x hx
    rw [h3s] at hx
    split at hx
    · exact absurd hx (by simp)
    · exact hx
  have hFind1 : ∀ x q, c1.messageSendQueue.Find x = some q →
      c.messageSendQueue.Find x = some q := by
    intro x q hq
    rw [SequenceBuffer.Find_eq_some] at hq ⊢
    rw [h3e] at hq
    exact ⟨hsub _ _ hq.1, hq.2⟩
  have hFind2 : ∀ x, (c1.messageSendQueue.Find x).isNone = true →
      (c.messageSendQueue.Find x).isNone = true ∨ x ∈ R := by
    intro x hx
    by_cases hxR : x ∈ R
    · right; exact hxR
    · left
      cases hcf : c.messageSendQueue.Find x with
      | none => rfl
      | some q =>
        exfalso
        have hsx := ((SequenceBuffer.Find_eq_some _ _ _).mp hcf).1
        have hn : c1.messageSendQueue.Find x = none := by
          simpa [Option.isNone_iff_eq_none] using hx
        rw [SequenceBuffer.Find_eq_none, h3s] at hn
        by_cases hm : x % MessageSendQueueSize ∈ R.map (fun id => id % MessageSendQueueSize)
        · obtain ⟨r, hr, hrx⟩ := List.mem_map.mp hm
          obtain ⟨_, _, _, hrs⟩ := hRm r hr
          rw [hrx, hsx] at hrs
          have hxr : x = r := Option.some.inj hrs
          exact hxR (by rw [hxr]; exact hr)
        · rw [if_neg hm] at hn; exact hn hsx
  have hts := (SequenceBuffer.Find_eq_some _ _ _).mp hf
  obtain ⟨ht, _, htage, _⟩ := h.live _ t hts.1
  have hent := h.entry _ t hts.1
  have hmf : c.messageSentPackets.Find t
      = some (c.messageSentPackets.entries (t % SlidingWindowSize)) := by
    rw [SequenceBuffer.Find_eq_some]
    exact ⟨by rw [h.lock.2]; exact hts.1, rfl⟩
  have hRlen : R.length ≤ 64 := by
    have h0 := nodup_length_le_of_range R
      (fun i => c.sentPacketMessageIds
        ((c.messageSentPackets.entries (t % SlidingWindowSize)).messageIds + i))
      (c.messageSentPackets.entries (t % SlidingWindowSize)).numMessageIds hR (by
        intro x hx
        obtain ⟨e, he, hi, _⟩ := hRm x hx
        rw [hmf] at he
        have he2 := Option.some.inj he
        subst he2
        exact hi)
    have h1 := hent.2.1
    simp only [MaxMessagesPerPacket] at h1
    omega
  have hS := h.seq
  have hseqt := seq_of_SentAge c.sentPackets.sequence t hS ht
  have hmono : ∀ a, ackedCount c.sentPackets c.sentPackets.sequence a
      ≤ ackedCount c1.sentPackets c.sentPackets.sequence a := by
    intro a
    unfold ackedCount
    apply countP_range_mono
    intro j _ hp
    dsimp only at hp ⊢
    rw [h1c]
    by_cases hslot : (c.sentPackets.sequence + 65536 - 1 - j) % 65536 % SlidingWindowSize
        = t % SlidingWindowSize
    · rw [hslot, Function.update_same]; decide
    · rw [Function.update_noteq hslot]; exact hp
  refine ⟨?_, ?_, ?_, ⟨?_, ?_⟩, ?_, ?_, ?_, ?_⟩
  · rw [h1a]; exact h.seq
  · rw [h1a, h1b, h2]; exact h.lock
  · rw [h1a, h1b]; exact h.live
  · rw [h5]; exact h.sendq.1
  · intro j x hx
    rw [h5, h6]
    exact h.sendq.2 j x (hsub j x hx)
  · rw [h1b, h2, h4]; exact h.entry
  · rw [h1a, h1b, h5]; exact h.order
  · intro k s hk
    rw [h1b] at hk
    rw [h1a, h5]
    have hc := h.count k s hk
    have hsk := (h.entry k s hk).2.2.2.1
    have hsince := h.since_le k s hk
    by_cases hb : SentAge c.sentPackets.sequence t < SentAge c.sentPackets.sequence s
    · have hgain : ackedCount c.sentPackets c.sentPackets.sequence
            (SentAge c.sentPackets.sequence s) + 1
          ≤ ackedCount c1.sentPackets c.sentPackets.sequence
            (SentAge c.sentPackets.sequence s) := by
        unfold ackedCount
        refine countP_range_gain _ _ (SentAge c.sentPackets.sequence t) _ hb ?_ ?_ ?_
        · intro j _ hp
          dsimp only at hp ⊢
          rw [h1c]
          by_cases hslot : (c.sentPackets.sequence + 65536 - 1 - j) % 65536 % SlidingWindowSize
              = t % SlidingWindowSize
          · rw [hslot, Function.update_same]; decide
          · rw [Function.update_noteq hslot]; exact hp
        · dsimp only
          rw [hseqt, hts.2, hpd]; decide
        · dsimp only
          rw [hseqt, h1c, Function.update_same]; decide
      have hnew : absentCount c1.messageSendQueue (sid k) (SentSince c.sendMessageId (sid k))
          ≤ absentCount c.messageSendQueue (sid k) (SentSince c.sendMessageId (sid k))
            + R.length := by
        unfold absentCount
        refine countP_range_new (fun j => (sid k + j) % 65536) _ _ _ R
          (sendId_inj _ _ (by omega)) ?_
        intro j _ hq
        exact hFind2 _ hq
      omega
    · have hsame : absentCount c1.messageSendQueue (sid k) (SentSince c.sendMessageId (sid k))
          ≤ absentCount c.messageSendQueue (sid k) (SentSince c.sendMessageId (sid k)) := by
        unfold absentCount
        apply countP_range_mono
        intro j hj hq
        dsimp only at hq ⊢
        rcases hFind2 _ hq with h0 | hR0
        · exact h0
        · exfalso
          obtain ⟨e, he, ⟨i, hi, hid⟩, _⟩ := hRm _ hR0
          rw [hmf] at he
          have he2 := Option.some.inj he
          subst he2
          obtain ⟨e1, _, _, e4, e5⟩ := hent
          rw [e1] at hid
          obtain ⟨_, g2, g3⟩ := e5 i hi
          rw [hid] at g2 g3
          have hord := h.order k s _ t hk hts.1 (by omega)
          have hst := h.since_le _ t hts.1
          exact listed_not_since c.sendMessageId (sid k) (sid (t % SlidingWindowSize)) _ j
            h.sendq.1 hsk e4 rfl hj hord hst g2 g3
      have hm := hmono (SentAge c.sentPackets.sequence s)
      omega
  · intro k s hk i q hi hq
    rw [h1b] at hk
    rw [h4] at hq
    exact h.carried k s hk i q hi (hFind1 _ _ hq)

/-- The loop body of `ProcessAcks` keeps the invariant. -/
theorem processAcksStep_ackInv (ack i bits : Nat) (w : World) (sid : Nat → Nat)
    (car : Nat → List Nat) (hA : AckInv w.conn sid car) :
    AckInv (processAcksStep ack i bits w).conn sid car := by
  unfold processAcksStep
  by_cases hb : bits % 2 = 1
  · rw [if_pos hb]
    dsimp only
    cases hf : w.conn.sentPackets.Find ((ack + 65536 - i) % 65536) with
    | none => exact hA
    | some pd =>
      dsimp only
      by_cases ha : pd.acked = 0
      · rw [if_pos ha]
        obtain ⟨R, hR, hRm, hs, _⟩ := ProcessMessageAck_removes w ((ack + 65536 - i) % 65536)
        obtain ⟨_, f2, _, _, f5, _, f7, _, f9, _, _, _, f13, _, _⟩ :=
          PacketAcked_frame w ((ack + 65536 - i) % 65536)
        have hsp : (PacketAcked w ((ack + 65536 - i) % 65536)).conn.sentPackets
            = w.conn.sentPackets := (ProcessMessageAck_sent w _).1
        refine AckInv.acked hA _ pd hf ha R hR hRm ?_ ?_ ?_ f7 hs f13 f9 f5 f2
        · show (PacketAcked w _).conn.sentPackets.sequence = _
          rw [hsp]
        · show (PacketAcked w _).conn.sentPackets.sequence_of_slot = _
          rw [hsp]
        · show Function.update (PacketAcked w _).conn.sentPackets.entries _ _ = _
          rw [hsp]
      · rw [if_neg ha]; exact hA
  · rw [if_neg hb]; exact hA

theorem processAcksLoop_ackInv (ack : Nat) (sid : Nat → Nat) (car : Nat → List Nat) :
    ∀ (n i bits : Nat) (w : World), AckInv w.conn sid car →
      AckInv (processAcksLoop ack n i bits w).conn sid car := by
  intro n
  induction n with
  | zero => intro i bits w h; exact h
  | succ n ih =>
    intro i bits w h
    unfold processAcksLoop
    exact ih _ _ _ (processAcksStep_ackInv ack i bits w sid car h)

/-- `ReadPacket` keeps the invariant, with the same history. -/
theorem ReadPacket_ackInv (w : World) (packet : ConnectionPacket) (w1 : World) (b : Bool)
    (sid : Nat → Nat) (car : Nat → List Nat) (hA : AckInv w.conn sid car)
    (h : ReadPacket w packet = some (w1, b)) : AckInv w1.conn sid car := by
  unfold ReadPacket at h
  split at h
  · simp only [Option.some.injEq, Prod.mk.injEq] at h
    rw [← h.1]; exact hA
  · unfold ProcessPacketMessages at h
    cases hl : processPacketMessagesLoop w.conn.receiveMessageId
        ((w.conn.receiveMessageId + MessageReceiveQueueSize - 1) % 65536) packet.messages w
        false with
    | none => simp [hl] at h
    | some r =>
      obtain ⟨w2, e2⟩ := r
      have hf := (processPacketMessagesLoop_frame _ _ _ _ _ _ _ hl).1
      have hA2 : AckInv w2.conn sid car :=
        AckInv.congr hA (by rw [hf]) (by rw [hf]) (by rw [hf]) (by rw [hf]) (by rw [hf])
          (by rw [hf]; exact id)
      simp only [hl] at h
      cases e2 with
      | true =>
        simp only [Bool.not_true, Option.some.injEq, Prod.mk.injEq] at h
        rw [← h.1]; exact hA2
      | false =>
        simp only [Bool.not_false] at h
        split at h
        · simp only [Option.some.injEq, Prod.mk.injEq] at h
          rw [← h.1]; exact hA2
        · simp only [Option.some.injEq, Prod.mk.injEq] at h
          rw [← h.1]
          exact processAcksLoop_ackInv _ sid car 32 0 _ _
            (AckInv.congr hA2 rfl rfl rfl rfl rfl id)

/-! ## The invariant along a run -/

theorem WritePacket_none (w : World) (packetCreated : Bool) (w1 : World)
    (h : WritePacket w packetCreated = some (w1, none)) : w1 = w := by
  unfold WritePacket at h
  split at h
  · simp only [Option.some.injEq, Prod.mk.injEq] at h; exact h.1.symm
  · split at h
    · simp only [Option.some.injEq, Prod.mk.injEq] at h; exact h.1.symm
    · dsimp only at h
      split at h
      · exact absurd h (by simp)
      · split at h
        · exact absurd h (by simp)
        · simp at h

theorem WritePacket_some (w : World) (packetCreated : Bool) (w1 : World)
    (packet : ConnectionPacket) (h : WritePacket w packetCreated = some (w1, some packet)) :
    packetCreated = true := by
  unfold WritePacket at h
  split at h
  · simp at h
  · split at h
    · simp at h
    · rename_i hpc
      simpa using hpc

theorem ReceiveMessage_sendSide (w : World) :
    (ReceiveMessage w).1.conn.sentPackets = w.conn.sentPackets ∧
    (ReceiveMessage w).1.conn.messageSentPackets = w.conn.messageSentPackets ∧
    (ReceiveMessage w).1.conn.messageSendQueue = w.conn.messageSendQueue ∧
    (ReceiveMessage w).1.conn.sentPacketMessageIds = w.conn.sentPacketMessageIds ∧
    (ReceiveMessage w).1.conn.sendMessageId = w.conn.sendMessageId ∧
    (ReceiveMessage w).1.conn.error = w.conn.error := by
  unfold ReceiveMessage
  dsimp only
  split
  · exact ⟨rfl, rfl, rfl, rfl, rfl, rfl⟩
  · split <;> exact ⟨rfl, rfl, rfl, rfl, rfl, rfl⟩

/-- One public call keeps the invariant. A live entry of the message-sent-packets
buffer whose sequence the call did not stamp was live before the call, with
the same recorded messages. -/
theorem step_ackInv (w : World) (op : Op) (w1 : World) (out : Output) (hinv : Inv w)
    (sid : Nat → Nat) (car : Nat → List Nat) (hA : AckInv w.conn sid car)
    (h : step w op = some (w1, out)) :
    ∃ sid1 car1, AckInv w1.conn sid1 car1 ∧
      ∀ s, s ∉ stamped [out] →
        w1.conn.messageSentPackets.sequence_of_slot (s % SlidingWindowSize) = some s →
        w.conn.messageSentPackets.sequence_of_slot (s % SlidingWindowSize) = some s ∧
        car1 (s % SlidingWindowSize) = car (s % SlidingWindowSize) := by
  cases op with
  | sendMessage message =>
    simp only [step] at h
    cases hs : SendMessage w message with
    | none => simp [hs] at h
    | some w2 =>
      simp only [hs, Option.map_some', Option.some.injEq, Prod.mk.injEq] at h
      obtain ⟨rfl, _⟩ := h
      have hq := (SendMessage_queue w message w2 hinv.2.1 sid car hA hs).2.1
      exact ⟨sid, car, SendMessage_ackInv w message w2 hinv.2.1 sid car hA hs,
        fun s _ hs1 => ⟨by rw [← hq]; exact hs1, rfl⟩⟩
  | writePacket pc =>
    simp only [step] at h
    cases hw : WritePacket w pc with
    | none => simp [hw] at h
    | some r =>
      obtain ⟨w2, o⟩ := r
      simp only [hw, Option.map_some', Option.some.injEq, Prod.mk.injEq] at h
      obtain ⟨rfl, rfl⟩ := h
      cases o with
      | none =>
        have hw2 := WritePacket_none w pc w2 hw
        subst hw2
        exact ⟨sid, car, hA, fun s _ hs1 => ⟨hs1, rfl⟩⟩
      | some packet =>
        have hpc := WritePacket_some w pc w2 packet hw
        subst hpc
        have hE := WritePacket_effect w w2 packet sid car hA hw
        refine ⟨_, _, WritePacket_ackInv w w2 packet sid car hA hw, ?_⟩
        intro s hs hs1
        have hne : s ≠ w.conn.sentPackets.sequence := by
          intro he
          apply hs
          rw [he, ← hE.2.1]
          simp [stamped]
        rw [hE.2.2.2.2.2.2.2.1] at hs1
        rcases hE.2.2.2.2.2.1 _ _ hs1 with ⟨_, hs2⟩ | ⟨hk, ho⟩
        · exact absurd hs2 hne
        · exact ⟨by rw [hA.lock.2]; exact ho, Function.update_noteq hk _ _⟩
  | readPacket packet =>
    simp only [step] at h
    cases hr : ReadPacket w packet with
    | none => simp [hr] at h
    | some r =>
      obtain ⟨w2, b⟩ := r
      simp only [hr, Option.map_some', Option.some.injEq, Prod.mk.injEq] at h
      obtain ⟨rfl, _⟩ := h
      have hq := ReadPacket_sentPackets w packet w2 b hr
      exact ⟨sid, car, ReadPacket_ackInv w packet w2 b sid car hA hr,
        fun s _ hs1 => ⟨by rw [← hq]; exact hs1, rfl⟩⟩
  | receiveMessage =>
    simp only [step, Option.some.injEq, Prod.mk.injEq] at h
    obtain ⟨rfl, _⟩ := h
    obtain ⟨r1, r2, r3, r4, r5, r6⟩ := ReceiveMessage_sendSide w
    exact ⟨sid, car, hA.congr r1 r2 r3 r4 r5 (fun he => by rw [← r6]; exact he),
      fun s _ hs1 => ⟨by rw [← r2]; exact hs1, rfl⟩⟩
  | advanceTime time =>
    simp only [step, Option.some.injEq, Prod.mk.injEq] at h
    obtain ⟨rfl, _⟩ := h
    exact ⟨sid, car, hA.congr rfl rfl rfl rfl rfl id, fun s _ hs1 => ⟨hs1, rfl⟩⟩
  | reset =>
    simp only [step, Option.some.injEq, Prod.mk.injEq] at h
    obtain ⟨rfl, _⟩ := h
    refine ⟨sid, car, Fresh.ackInv (Reset_fresh w) sid car, ?_⟩
    intro s _ hs1
    have hn : (Reset w).conn.messageSentPackets.sequence_of_slot (s % SlidingWindowSize)
        = none := rfl
    rw [hn] at hs1
    exact absurd hs1 (by simp)

theorem run_ackInv :
    ∀ (ops : List Op) (w w2 : World) (outs : List Output), Inv w →
      ∀ (sid : Nat → Nat) (car : Nat → List Nat), AckInv w.conn sid car →
      run w ops = some (w2, outs) →
      ∃ sid2 car2, AckInv w2.conn sid2 car2 ∧
        ∀ s, s ∉ stamped outs →
          w2.conn.messageSentPackets.sequence_of_slot (s % SlidingWindowSize) = some s →
          w.conn.messageSentPackets.sequence_of_slot (s % SlidingWindowSize) = some s ∧
          car2 (s % SlidingWindowSize) = car (s % SlidingWindowSize) := by
  intro ops
  induction ops with
  | nil =>
    intro w w2 outs _ sid car hA hr
    simp only [run, Option.some.injEq, Prod.mk.injEq] at hr
    obtain ⟨rfl, _⟩ := hr
    exact ⟨sid, car, hA, fun s _ hs1 => ⟨hs1, rfl⟩⟩
  | cons op rest ih =>
    intro w w2 outs hinv sid car hA hr
    simp only [run] at hr
    cases hs : step w op with
    | none => simp [hs] at hr
    | some r =>
      obtain ⟨w1, out⟩ := r
      simp only [hs] at hr
      cases hr2 : run w1 rest with
      | none => simp [hr2] at hr
      | some r2 =>
        obtain ⟨w3, outs2⟩ := r2
        simp only [hr2, Option.some.injEq, Prod.mk.injEq] at hr
        obtain ⟨rfl, rfl⟩ := hr
        obtain ⟨w1a, outa, hsa, hinv1, _⟩ := step_inv w hinv op
        rw [hs] at hsa
        obtain ⟨rfl, rfl⟩ := Prod.mk.inj (Option.some.inj hsa)
        obtain ⟨sid1, car1, hA1, htrack1⟩ := step_ackInv w op w1 out hinv sid car hA hs
        obtain ⟨sid2, car2, hA2, htrack2⟩ := ih w1 w3 outs2 hinv1 sid1 car1 hA1 hr2
        refine ⟨sid2, car2, hA2, ?_⟩
        intro s hs0 hs3
        rw [stamped_cons, List.mem_append, not_or] at hs0
        obtain ⟨g1, g2⟩ := htrack2 s hs0.2 hs3
        obtain ⟨g3, g4⟩ := htrack1 s hs0.1 g1
        exact ⟨g3, by rw [g2, g4]⟩

/-- Every state a connection reaches satisfies the invariant for some history
of send cursors and carried messages. -/
theorem reachable_ackInv {bits_required : Int → Int → Int} {numTypes : Int} {w : World}
    (h : Reachable bits_required numTypes w) :
    ∃ sid car, AckInv w.conn sid car := by
  induction h with
  | init heap =>
    exact ⟨fun _ => 0, fun _ => [], Fresh.ackInv (Connection.new_fresh _ _) _ _⟩
  | step op hr hs ih =>
    obtain ⟨sid, car, hA⟩ := ih
    obtain ⟨sid1, car1, hA1, _⟩ := step_ackInv _ op _ _ (reachable_inv hr).1 sid car hA hs
    exact ⟨sid1, car1, hA1⟩

theorem foldl_Release_other (f : Nat → Nat) (p : Nat) :
    ∀ (R : List Nat) (h0 : Heap), (∀ id, id ∈ R → f id ≠ p) →
      (R.foldl (fun h id => h.Release (f id)) h0) p = h0 p := by
  intro R
  induction R with
  | nil => intro h0 _; rfl
  | cons x R ih =>
    intro h0 hne
    rw [List.foldl_cons, ih _ (fun id hid => hne id (List.mem_cons_of_mem _ hid))]
    unfold Heap.Release
    exact Function.update_noteq (fun he => hne x (List.mem_cons_self _ _) he.symm) _ _

/-- C36. Take any state a connection reaches, write a packet there, and let
any public calls follow that do not stamp another packet with the same
sequence number. If the message-sent-packets buffer still holds the entry of
that packet, then the entry lists as many ids as the packet carried messages,
and whenever the send queue holds an entry under the `i`-th listed id, that
entry holds the `i`-th message placed in the packet: the 16-bit id has not
been reused for a later message. Hence `ProcessMessageAck` for that packet
leaves in place every send-queue entry whose message the packet did not carry
and does not touch the heap object of any message the packet did not carry. -/
theorem C36_ack_touches_only_carried_messages (bits_required : Int → Int → Int)
    (numTypes : Int) (w : World) (hreach : Reachable bits_required numTypes w)
    (w1 : World) (packet : ConnectionPacket)
    (hw : WritePacket w true = some (w1, some packet))
    (ops : List Op) (w2 : World) (outs : List Output)
    (hrun : run w1 ops = some (w2, outs)) (hs : packet.sequence ∉ stamped outs)
    (e : MessageSentPacketEntry)
    (he : w2.conn.messageSentPackets.Find packet.sequence = some e) :
    e.numMessageIds = packet.messages.length ∧
    (∀ i q, i < e.numMessageIds →
      w2.conn.messageSendQueue.Find (w2.conn.sentPacketMessageIds (e.messageIds + i)) = some q →
      packet.messages[i]? = some q.message) ∧
    (∀ x q, w2.conn.messageSendQueue.Find x = some q → q.message ∉ packet.messages →
      (ProcessMessageAck w2 packet.sequence).conn.messageSendQueue.Find x = some q) ∧
    (∀ p, p ∉ packet.messages → (ProcessMessageAck w2 packet.sequence).heap p = w2.heap p) := by
  obtain ⟨sid, car, hA⟩ := reachable_ackInv hreach
  have hinv := (reachable_inv hreach).1
  have hstep : step w (Op.writePacket true) = some (w1, Output.packet (some packet)) := by
    simp [step, hw]
  obtain ⟨w1a, outa, hsa, hinv1, _⟩ := step_inv w hinv (Op.writePacket true)
  rw [hstep] at hsa
  obtain ⟨rfl, _⟩ := Prod.mk.inj (Option.some.inj hsa)
  have hA1 := WritePacket_ackInv w w1 packet sid car hA hw
  have hseq : packet.sequence = w.conn.sentPackets.sequence :=
    (WritePacket_effect w w1 packet sid car hA hw).2.1
  obtain ⟨sid2, car2, hA2, htrack⟩ := run_ackInv ops w1 w2 outs hinv1 _ _ hA1 hrun
  obtain ⟨hsos, hent⟩ := (SequenceBuffer.Find_eq_some _ _ _).mp he
  have hsos2 : w2.conn.messageSentPackets.sequence_of_slot
      (packet.sequence % SlidingWindowSize) = some packet.sequence := hsos
  have hent2 : w2.conn.messageSentPackets.entries (packet.sequence % SlidingWindowSize) = e :=
    hent
  obtain ⟨_, hcar⟩ := htrack _ hs hsos2
  have hcar2 : car2 (packet.sequence % SlidingWindowSize) = packet.messages := by
    rw [hcar, hseq, Function.update_same]
  have hlive : w2.conn.sentPackets.sequence_of_slot (packet.sequence % SlidingWindowSize)
      = some packet.sequence := by
    rw [← hA2.lock.2]; exact hsos2
  obtain ⟨e1, _, e3, _, _⟩ := hA2.entry _ _ hlive
  have hcarried := hA2.carried _ _ hlive
  rw [hcar2] at e3 hcarried
  rw [hent2] at e1 e3
  have part2 : ∀ i q, i < e.numMessageIds →
      w2.conn.messageSendQueue.Find (w2.conn.sentPacketMessageIds (e.messageIds + i)) = some q →
      packet.messages[i]? = some q.message := by
    intro i q hi hq
    rw [e1] at hq
    exact hcarried i q (by rw [← e3]; exact hi) hq
  obtain ⟨R, _, hRm, hsos1, hheap⟩ := ProcessMessageAck_removes w2 packet.sequence
  have hentries := (ProcessMessageAck_frame w2 packet.sequence).2.2.2.2.2.2.2.2.2.2.2.2.1
  have hlisted : ∀ id, id ∈ R → ∀ q, w2.conn.messageSendQueue.Find id = some q →
      q.message ∈ packet.messages := by
    intro id hid q hq
    obtain ⟨e0, he0, ⟨i, hi, hid2⟩, _⟩ := hRm id hid
    rw [he] at he0
    have he1 := Option.some.inj he0
    subst he1
    have h2 := part2 i q hi (by rw [hid2]; exact hq)
    exact List.getElem?_mem h2
  refine ⟨e3, part2, ?_, ?_⟩
  · intro x q hq hnot
    rw [SequenceBuffer.Find_eq_some] at hq ⊢
    refine ⟨?_, by rw [hentries]; exact hq.2⟩
    rw [hsos1, if_neg]
    · exact hq.1
    · intro hm
      obtain ⟨r, hr, hrx⟩ := List.mem_map.mp hm
      obtain ⟨_, _, _, hrs⟩ := hRm r hr
      rw [hrx, hq.1] at hrs
      have hxr : x = r := Option.some.inj hrs
      subst hxr
      exact hnot (hlisted x hr q ((SequenceBuffer.Find_eq_some _ _ _).mpr hq))
  · intro p hp
    rw [hheap]
    refine foldl_Release_other
      (fun id => (w2.conn.messageSendQueue.entries (id % MessageSendQueueSize)).message) p R
      w2.heap ?_
    intro id hid heq
    obtain ⟨_, _, _, hpres⟩ := hRm id hid
    apply hp
    rw [← heq]
    exact hlisted id hid _ ((SequenceBuffer.Find_eq_some _ _ _).mpr ⟨hpres, rfl⟩)

theorem C36_ack_touches_only_carried_messages_witness :
    WritePacket sentTwo true = some (writtenTwo, some ⟨0, 65535, 0, [1, 2]⟩) ∧
    run writtenTwo [Op.sendMessage 3, Op.writePacket true]
      = some (writtenAgain, [Output.done, Output.packet (some ⟨1, 65535, 0, [3]⟩)]) ∧
    writtenAgain.conn.messageSentPackets.Find 0 =
      some { timeSent := 0, messageIds := 0, numMessageIds := 2, blockId := 0, fragmentId := 0,
             acked := 0, blockMessage := 0 } ∧
    (List.range 2).map (fun i =>
        (writtenAgain.conn.messageSendQueue.Find (writtenAgain.conn.sentPacketMessageIds i)).map
          (fun q => q.message)) = [some 1, some 2] ∧
    (∀ x q, writtenAgain.conn.messageSendQueue.Find x = some q → q.message ∉ [1, 2] →
      (ProcessMessageAck writtenAgain 0).conn.messageSendQueue.Find x = some q) ∧
    (∀ p, p ∉ [1, 2] → (ProcessMessageAck writtenAgain 0).heap p = writtenAgain.heap p) ∧
    (List.range 4).map (fun p =>
        ((writtenAgain.heap p).GetRefCount, ((ProcessMessageAck writtenAgain 0).heap p).GetRefCount))
      = [(1, 1), (2, 1), (2, 1), (2, 2)] ∧
    (List.range 4).map (fun x =>
        ((ProcessMessageAck writtenAgain 0).conn.messageSendQueue.Find x).map (fun q => q.message))
      = [none, none, some 3, none] :=
  have h := C36_ack_touches_only_carried_messages (fun _ _ => 1) 2 sentTwo
    (reachable_afterOps (Reachable.init demoHeap) _) writtenTwo ⟨0, 65535, 0, [1, 2]⟩ rfl
    [Op.sendMessage 3, Op.writePacket true] writtenAgain
    [Output.done, Output.packet (some ⟨1, 65535, 0, [3]⟩)] rfl (by decide)
    { timeSent := 0, messageIds := 0, numMessageIds := 2, blockId := 0, fragmentId := 0,
      acked := 0, blockMessage := 0 } (by decide!)
  ⟨rfl, rfl, by decide!, by decide!, h.2.2.1, h.2.2.2, by decide!, by decide!⟩

end Protocol2
